import Mathlib

/-!
# Residual and Jacobian assembly of the compressible TPFA solver

A shallow embedding of `src/cfs_tpfa_residual.c` and proofs about it, followed by the
sub-step timer of `AdaptiveSimulatorTimer.cpp` and the constant-compressibility phase of
`SinglePvtConstCompr.hpp`, each in a section of its own.

* the embedding comes in two readings of the type `double`.  In the main one `double`
  values are rationals (exact arithmetic, no rounding, no overflow): it carries the
  statements about what the formulas of the code compute.  In the second one (`double`,
  `dbl_add`, ..., and the functions of the namespace `Dbl`) every operation is the
  IEEE 754 binary64 operation: it carries the evaluations that show where rounding or
  overflow makes the compiled program depart from the exact reading, and the statements
  about the timer (the choice of the step, its bound, its order in the estimate) that
  hold with rounding as well.
* a `double *` is a map from offsets to values, pointer arithmetic is `offset`, and a
  store through a displaced pointer is `writeBack`.  The regions that the C code carves
  out of one allocation (`F`, `compflux_f`, ..., and `lu`, `t1`, ..., `linsolve_buffer`)
  are separate maps.
* `int` cell indices that may be negative (`face_cells`) are integers.
* a `for` loop is `forLoop` (a body that can fail an assertion: `forLoopM`).
* a failed `assert` or a `NULL` result is `none`; memory allocation succeeds.
* a local variable read before it is assigned holds an indeterminate value,
  which is a parameter of the function (`nconn0` of `count_internal_conn`).
* the BLAS/LAPACK routines behind `matvec`, `matmat`, `factorise_fluid_matrix`
  and `solve_linear_systems` are taken in exact arithmetic: products are sums,
  the factorisation fails exactly on a singular matrix, and the solve returns
  the solution of the linear system.
* declarations and helpers of the repository that the source file uses and that
  are not part of it are introduced by `Modelled from the spec:`.
-/

namespace CfsTpfa

/-! ## Loops and pointers -/

/-- The loop `for (i = lo; i < lo + n; i++) body(i)` acting on a state. -/
def forLoop {σ : Type} (body : Nat → σ → σ) (lo : Nat) : Nat → σ → σ
  | 0, s => s
  | n + 1, s => body (lo + n) (forLoop body lo n s)

/-- The loop `for (i = lo; i < lo + n; i++) body(i)` whose body may abort. -/
def forLoopM {σ : Type} (body : Nat → σ → Option σ) (lo : Nat) : Nat → σ → Option σ
  | 0, s => some s
  | n + 1, s => (forLoopM body lo n s).bind (body (lo + n))

/-- Pointer displacement `a + off`. -/
def offset (a : Nat → ℚ) (off : Nat) : Nat → ℚ := fun k => a (off + k)

/-- The array `a` after the region addressed through `a + off` has become `v`. -/
def writeBack (a : Nat → ℚ) (off : Nat) (v : Nat → ℚ) : Nat → ℚ :=
  fun k => if off ≤ k then v (k - off) else a k

/-- The call `memcpy(dst, src, n * sizeof *dst)`. -/
def memcpy (dst src : Nat → ℚ) (n : Nat) : Nat → ℚ :=
  fun k => if k < n then src k else dst k

/-- Modelled from the spec: `vector_zero(n, v)` of the sparse-system helpers
(`sparse_sys.h`, absent from the sources) sets `v[0 .. n)` to zero. -/
def vector_zero (n : Nat) (v : Nat → ℚ) : Nat → ℚ :=
  fun k => if k < n then 0 else v k

/-! ## Data model -/

/-- Modelled from the spec: the grid declaration `grid_t` (`grid.h`, absent from
the sources): cells, faces, the two neighbours of every face (a negative index
marks the outside) and the contiguous face list of every cell. -/
structure grid_t where
  number_of_cells : Nat
  number_of_faces : Nat
  face_cells : Nat → Int
  cell_facepos : Nat → Nat
  cell_faces : Nat → Nat

/-- Modelled from the spec: the sparse matrix `struct CSRMatrix` (`sparse_sys.h`,
absent from the sources): `m` rows, `nnz` stored entries, row pointers `ia`,
column indices `ja`, values `sa`. -/
structure CSRMatrix where
  m : Nat
  nnz : Nat
  ia : Nat → Nat
  ja : Nat → Nat
  sa : Nat → ℚ

/-- Modelled from the spec: the bundle `struct compr_quantities_gen`
(`compr_quant_general.h`, absent from the sources), of which the assembly reads
the phase count, the per-cell matrices `Ac`, `dAc`, the per-face matrices `Af`
and the per-face phase mobilities. -/
structure compr_quantities_gen where
  nphases : Nat
  Ac : Nat → ℚ
  dAc : Nat → ℚ
  Af : Nat → ℚ
  phasemobf : Nat → ℚ

/-- The scratch record `struct densrat_util`.  The field `lu` holds the matrix whose
factors the C code keeps there together with the pivots `ipiv`. -/
structure densrat_util where
  residual : ℚ
  lu : Nat → ℚ
  t1 : Nat → ℚ
  t2 : Nat → ℚ
  mat_row : Nat → ℚ
  coeff : Nat → ℚ
  linsolve_buffer : Nat → ℚ

/-- The record `struct cfs_tpfa_res_impl`; `ratio` is the `densrat_util` workspace. -/
structure cfs_tpfa_res_impl where
  is_incomp : Bool
  compflux_f : Nat → ℚ
  compflux_deriv_f : Nat → ℚ
  flux_work : Nat → ℚ
  scratch_f : Nat → ℚ
  ratio : densrat_util

/-- Modelled from the spec: the handle `struct cfs_tpfa_res_data`
(`cfs_tpfa_residual.h`, absent from the sources): Jacobian, residual vector and
the private workspace. -/
structure cfs_tpfa_res_data where
  J : CSRMatrix
  F : Nat → ℚ
  pimpl : cfs_tpfa_res_impl

/-! ## Dense kernels -/

/-- The `np × np` matrix stored column-major at `A`. -/
def denseMat (n : Nat) (A : Nat → ℚ) : Matrix (Fin n) (Fin n) ℚ :=
  Matrix.of fun i j => A (i.val + j.val * n)

/-- The first `n` entries of `b` as a vector. -/
def denseVec (n : Nat) (b : Nat → ℚ) : Fin n → ℚ := fun i => b i.val

/-- The wrapper `matvec`: BLAS `dgemv` with `alpha = 1`, `beta = 0` on a
column-major `nrow × ncol` matrix, `y <- A x`. -/
def matvec (nrow ncol : Nat) (A x y : Nat → ℚ) : Nat → ℚ :=
  fun i => if i < nrow then ∑ j ∈ Finset.range ncol, A (i + j * nrow) * x j else y i

/-- The wrapper `matmat`: BLAS `dgemm` with `alpha = 1`, `beta = 0`,
`C <- A B` for column-major `A` (`np × np`), `B` and `C` (`np × ncol`). -/
def matmat (np ncol : Nat) (A B C : Nat → ℚ) : Nat → ℚ :=
  fun k => if k < np * ncol then
      ∑ l ∈ Finset.range np, A (k % np + l * np) * B (l + (k / np) * np)
    else C k

/-- The exact solution of `A x = b` for a non-singular `A` (Cramer's rule): what
LAPACK `dgetrf`/`dgetrs` deliver in exact arithmetic. -/
def denseSolve {n : Nat} (A : Matrix (Fin n) (Fin n) ℚ) (b : Fin n → ℚ) : Fin n → ℚ :=
  fun i => (A.det)⁻¹ * (A.adjugate.mulVec b) i

/-- The function `factorise_fluid_matrix`: copy `A` into the workspace and factor it;
`assert (info == 0)` fails on a singular matrix. -/
def factorise_fluid_matrix (np : Nat) (A : Nat → ℚ) (w : densrat_util) : Option densrat_util :=
  if (denseMat np A).det = 0 then none
  else some { w with lu := memcpy w.lu A (np * np) }

/-- Entry `p` of the exact solution of `A x = b`, for the column-major `np × np` matrix at
`A` and the vector `b[0 .. np)` (zero for `p ≥ np`). -/
def solve_entry (np : Nat) (A b : Nat → ℚ) (p : Nat) : ℚ :=
  if h : p < np then denseSolve (denseMat np A) (denseVec np b) ⟨p, h⟩ else 0

/-- The function `solve_linear_systems`: replace each of the `nrhs` columns of `b` by
the solution of the factored system. -/
def solve_linear_systems (np nrhs : Nat) (w : densrat_util) (b : Nat → ℚ) : Nat → ℚ :=
  fun k => if k < np * nrhs then solve_entry np w.lu (offset b ((k / np) * np)) (k % np)
    else b k

/-! ## Face fluxes -/

/-- The function `compute_darcyflux_and_deriv`. -/
def compute_darcyflux_and_deriv (np : Nat) (trans dp : ℚ) (pmobf gcapf : Nat → ℚ)
    (dflux dflux_deriv : Nat → ℚ) : (Nat → ℚ) × (Nat → ℚ) :=
  forLoop (fun p s =>
      let a := trans * pmobf p
      (Function.update s.1 p (a * (dp + gcapf p)),
       Function.update (Function.update s.2 (0 * np + p) a) (1 * np + p) (-a)))
    0 np (dflux, dflux_deriv)

/-- One pass of the face loop of `compute_compflux_and_deriv`, for face `f`.  The two
outputs of `compute_darcyflux_and_deriv` are the disjoint regions `flux_work[0 .. np)` and
`flux_work[np .. 3 np)`. -/
def compflux_step (G : grid_t) (np : Nat) (cpress trans pmobf gcapf Af : Nat → ℚ)
    (f : Nat) (pimpl : cfs_tpfa_res_impl) : cfs_tpfa_res_impl :=
  let np2 := np * np
  let c1 := G.face_cells (2 * f + 0)
  let c2 := G.face_cells (2 * f + 1)
  if 0 ≤ c1 ∧ 0 ≤ c2 then
    let dp := cpress c1.toNat - cpress c2.toNat
    let w := compute_darcyflux_and_deriv np (trans f) dp
      (offset pmobf (f * np)) (offset gcapf (f * np))
      pimpl.flux_work (offset pimpl.flux_work np)
    let flux_work := writeBack w.1 np w.2
    { pimpl with
      flux_work := flux_work
      compflux_f := writeBack pimpl.compflux_f (f * np)
        (matvec np np (offset Af (f * np2)) flux_work
          (offset pimpl.compflux_f (f * np)))
      compflux_deriv_f := writeBack pimpl.compflux_deriv_f (f * (2 * np))
        (matmat np 2 (offset Af (f * np2)) (offset flux_work np)
          (offset pimpl.compflux_deriv_f (f * (2 * np)))) }
  else pimpl

/-- The function `compute_compflux_and_deriv`. -/
def compute_compflux_and_deriv (G : grid_t) (np : Nat)
    (cpress trans pmobf gcapf Af : Nat → ℚ) (pimpl : cfs_tpfa_res_impl) :
    cfs_tpfa_res_impl :=
  forLoop (compflux_step G np cpress trans pmobf gcapf Af) 0 G.number_of_faces pimpl

/-! ## Cell contributions -/

/-- The function `count_internal_conn`.  The counter `nconn` is declared without an
initial value and only ever incremented; `nconn0` is the indeterminate value it
holds when the loop starts. -/
def count_internal_conn (G : grid_t) (c : Nat) (nconn0 : Int) : Int :=
  forLoop (fun i nconn =>
      let f := G.cell_faces i
      let c1 := G.face_cells (2 * f + 0)
      let c2 := G.face_cells (2 * f + 1)
      nconn + (if 0 ≤ c1 ∧ 0 ≤ c2 then 1 else 0))
    (G.cell_facepos c) (G.cell_facepos (c + 1) - G.cell_facepos c) nconn0

/-- Loop-carried locals of `init_cell_contrib`: the two workspace arrays it fills, the
coefficient cursor `conn` and the write cursors `cflx`, `dcflx` (as displacements from
`linsolve_buffer`). -/
structure init_locals where
  buffer : Nat → ℚ
  coeff : Nat → ℚ
  conn : Nat
  cflx : Int
  dcflx : Int

/-- One pass of the connection loop of `init_cell_contrib`. -/
def init_cell_contrib_step (G : grid_t) (np : Nat) (dt : ℚ)
    (compflux_f compflux_deriv_f : Nat → ℚ) (i : Nat) (s : init_locals) : init_locals :=
  let f := G.cell_faces i
  let c1 := G.face_cells (2 * f + 0)
  let c2 := G.face_cells (2 * f + 1)
  if 0 ≤ c1 ∧ 0 ≤ c2 then
    let b1 := writeBack s.buffer s.cflx.toNat
      (memcpy (offset s.buffer s.cflx.toNat) (offset compflux_f (f * np + 0)) np)
    let b2 := writeBack b1 s.dcflx.toNat
      (memcpy (offset b1 s.dcflx.toNat) (offset compflux_deriv_f (f * (2 * np) + 0)) (2 * np))
    { buffer := b2
      coeff := Function.update s.coeff s.conn dt
      conn := s.conn + 1
      cflx := s.cflx + 1 * np
      dcflx := s.dcflx + 2 * np }
  else s

/-- The function `init_cell_contrib`: load `[z, Af v, Af dv]` into `linsolve_buffer` and
`[-pvol, dt, .., dt]` into `coeff`; the two closing assertions abort the call when the
cursors disagree with `nconn`. -/
def init_cell_contrib (G : grid_t) (c np : Nat) (pvol dt : ℚ) (z : Nat → ℚ)
    (pimpl : cfs_tpfa_res_impl) (nconn0 : Int) : Option (Int × cfs_tpfa_res_impl) :=
  let nconn := count_internal_conn G c nconn0
  let s0 : init_locals :=
    { buffer := memcpy pimpl.ratio.linsolve_buffer z np
      coeff := Function.update pimpl.ratio.coeff 0 (-pvol)
      conn := 1
      cflx := 1 * np
      dcflx := 1 * np + nconn * np }
  let s := forLoop (init_cell_contrib_step G np dt pimpl.compflux_f pimpl.compflux_deriv_f)
    (G.cell_facepos c) (G.cell_facepos (c + 1) - G.cell_facepos c) s0
  if (s.conn : Int) = nconn + 1 ∧ s.cflx = (nconn + 1) * np then
    some (nconn, { pimpl with
      ratio := { pimpl.ratio with linsolve_buffer := s.buffer, coeff := s.coeff } })
  else none

/-- The two sums `dF1`, `dF2` over `p < np` of `dv1[p]` and `dv2[p]`. -/
def sum_pair (np : Nat) (dv1 dv2 : Nat → ℚ) : ℚ × ℚ :=
  forLoop (fun p d => (d.1 + dv1 p, d.2 + dv2 p)) 0 np (0, 0)

/-- The increments `(s * dt * dF1, s * dt * dF2)` that one interior connection of cell `c`
with first neighbour `c1` adds to `mat_row[0]` and `mat_row[off]`, computed from the solved
derivative block at `dv`. -/
def connection_contrib (np : Nat) (dt : ℚ) (c : Nat) (c1 : Int) (dv : Nat → ℚ) : ℚ × ℚ :=
  let s : ℚ := if c1 = (c : Int) then 1 else -1
  let dv1 := if c1 = (c : Int) then offset dv 0 else offset dv np
  let dv2 := if c1 = (c : Int) then offset dv np else offset dv 0
  let dF := sum_pair np dv1 dv2
  (s * dt * dF.1, s * dt * dF.2)

/-- One pass of the Jacobian-row loop of `compute_cell_contrib` on `(mat_row, off)`;
`dv` is not advanced by the loop. -/
def jac_row_step (G : grid_t) (c np : Nat) (dt : ℚ) (dv : Nat → ℚ) (i : Nat)
    (s : (Nat → ℚ) × Nat) : (Nat → ℚ) × Nat :=
  let f := G.cell_faces i
  let c1 := G.face_cells (2 * f + 0)
  let c2 := G.face_cells (2 * f + 1)
  if 0 ≤ c1 ∧ 0 ≤ c2 then
    let d := connection_contrib np dt c c1 dv
    let m1 := Function.update s.1 0 (s.1 0 + d.1)
    (Function.update m1 s.2 (m1 s.2 + d.2), s.2 + 1)
  else (s.1, s.2 + 1)

/-- The function `compute_cell_contrib`. -/
def compute_cell_contrib (G : grid_t) (c np : Nat) (pvol dt : ℚ) (z Ac dAc : Nat → ℚ)
    (pimpl : cfs_tpfa_res_impl) (nconn0 : Int) : Option cfs_tpfa_res_impl :=
  (init_cell_contrib G c np pvol dt z pimpl nconn0).bind fun r =>
  let nconn := r.1.toNat
  let nrhs := 1 + (1 + 2) * nconn
  (factorise_fluid_matrix np Ac r.2.ratio).bind fun w =>
  let buf := solve_linear_systems np nrhs w w.linsolve_buffer
  let t1 := matvec np (nconn + 1) buf w.coeff w.t1
  let residual := forLoop (fun p r => r + t1 p) 0 np pvol
  let mat_row0 := vector_zero (1 + nconn) w.mat_row
  let t2 := solve_linear_systems np 1 w (matvec np np dAc t1 w.t2)
  let dF := sum_pair np t1 t2
  let is_incomp := r.2.is_incomp && !(decide (|dF.2| > 0))
  let mat_row1 := Function.update mat_row0 0 (dF.1 - dF.2)
  let dv := offset buf ((1 + nconn) * np)
  let s := forLoop (jac_row_step G c np dt dv)
    (G.cell_facepos c) (G.cell_facepos (c + 1) - G.cell_facepos c) (mat_row1, 1)
  some { r.2 with
    is_incomp := is_incomp
    ratio := { w with
      residual := residual, t1 := t1, t2 := t2, mat_row := s.1, linsolve_buffer := buf } }

/-! ## Sparse matrix -/

/-- Modelled from the spec: `csrmatrix_elm_index(i, j, A)` of the sparse-system helpers
(absent from the sources) looks column `j` up in the sorted row `i` and returns its
position in `ja`/`sa`; it asserts that the entry exists.  Of several equal column
indices the first is returned. -/
def csrmatrix_elm_index (i j : Nat) (A : CSRMatrix) : Option Nat :=
  (List.range' (A.ia i) (A.ia (i + 1) - A.ia i)).find? (fun k => decide (A.ja k = j))

/-- Modelled from the spec: `csrmatrix_zero(A)` of the sparse-system helpers (absent from
the sources) zeroes the `nnz` stored values. -/
def csrmatrix_zero (A : CSRMatrix) : CSRMatrix :=
  { A with sa := vector_zero A.nnz A.sa }

/-- The neighbour of cell `c` across face `f` as `assemble_cell_contrib` computes it:
`c2 = (c1 == c) ? c2 : c1`. -/
def other_cell (G : grid_t) (c f : Nat) : Int :=
  if G.face_cells (2 * f + 0) = (c : Int) then G.face_cells (2 * f + 1)
  else G.face_cells (2 * f + 0)

/-- One pass of the connection loop of `assemble_cell_contrib` on `(sa, off)`. -/
def assemble_step (G : grid_t) (c : Nat) (J : CSRMatrix) (mat_row : Nat → ℚ) (i : Nat)
    (s : (Nat → ℚ) × Nat) : Option ((Nat → ℚ) × Nat) :=
  let f := G.cell_faces i
  let c2 := other_cell G c f
  if 0 ≤ c2 then
    (csrmatrix_elm_index c c2.toNat J).map fun j2 =>
      (Function.update s.1 j2 (s.1 j2 + mat_row s.2), s.2 + 1)
  else some (s.1, s.2 + 1)

/-- The function `assemble_cell_contrib`. -/
def assemble_cell_contrib (G : grid_t) (c : Nat) (h : cfs_tpfa_res_data) :
    Option cfs_tpfa_res_data :=
  (csrmatrix_elm_index c c h.J).bind fun j1 =>
  let sa := Function.update h.J.sa j1 (h.J.sa j1 + h.pimpl.ratio.mat_row 0)
  (forLoopM (assemble_step G c h.J h.pimpl.ratio.mat_row)
    (G.cell_facepos c) (G.cell_facepos (c + 1) - G.cell_facepos c) (sa, 1)).map fun s =>
  { h with
    J := { h.J with sa := s.1 }
    F := Function.update h.F c h.pimpl.ratio.residual }

/-- Boundary condition kinds of `flow_bc.h`. -/
inductive flowbc_type where
  | UNSET
  | PRESSURE
  | FLUX
  deriving DecidableEq, Repr

/-- Modelled from the spec: the boundary-condition table `flowbc_t` (`flow_bc.h`, absent
from the sources): a kind and a value per face. -/
structure flowbc_t where
  type : Nat → flowbc_type
  bcval : Nat → ℚ

/-- One pass of the cell loop of `cfs_tpfa_res_assemble`: `compute_cell_contrib` followed
by `assemble_cell_contrib` for cell `c`; `nconn0 c` is the indeterminate start value of the
connection counter in this call. -/
def cell_pass (G : grid_t) (dt : ℚ) (zc : Nat → ℚ) (cq : compr_quantities_gen)
    (porevol : Nat → ℚ) (nconn0 : Nat → Int) (c : Nat) (h : cfs_tpfa_res_data) :
    Option cfs_tpfa_res_data :=
  let np2 := cq.nphases * cq.nphases
  (compute_cell_contrib G c cq.nphases (porevol c) dt (offset zc (c * cq.nphases))
    (offset cq.Ac (c * np2)) (offset cq.dAc (c * np2)) h.pimpl (nconn0 c)).bind
    fun pimpl => assemble_cell_contrib G c { h with pimpl := pimpl }

/-- The statements of `cfs_tpfa_res_assemble` up to and including the loop over the
cells. -/
def assemble_cells (G : grid_t) (dt : ℚ) (zc : Nat → ℚ) (cq : compr_quantities_gen)
    (trans gravcap_f cpress porevol : Nat → ℚ) (h : cfs_tpfa_res_data)
    (nconn0 : Nat → Int) : Option cfs_tpfa_res_data :=
  let J := csrmatrix_zero h.J
  let F := vector_zero h.J.m h.F
  let pimpl := compute_compflux_and_deriv G cq.nphases cpress trans cq.phasemobf gravcap_f
    cq.Af { h.pimpl with is_incomp := true }
  forLoopM (cell_pass G dt zc cq porevol nconn0) 0 G.number_of_cells
    { J := J, F := F, pimpl := pimpl }

/-- The function `cfs_tpfa_res_assemble`; `bc` and `src` are accepted and not read. -/
def cfs_tpfa_res_assemble (G : grid_t) (dt : ℚ) (_bc : flowbc_t) (_src : Nat → ℚ)
    (zc : Nat → ℚ) (cq : compr_quantities_gen) (trans gravcap_f cpress porevol : Nat → ℚ)
    (h : cfs_tpfa_res_data) (nconn0 : Nat → Int) : Option cfs_tpfa_res_data :=
  (assemble_cells G dt zc cq trans gravcap_f cpress porevol h nconn0).map fun h =>
    if h.pimpl.is_incomp then
      { h with J := { h.J with sa := Function.update h.J.sa 0 (h.J.sa 0 * 2) } }
    else h

/-- The function `maxconn`: the largest number of faces in the face list of a cell.  The
difference `cell_facepos[c + 1] - cell_facepos[c]` is the number of passes that the loops
over the face list of `c` make (none when the difference is not positive). -/
def maxconn (G : grid_t) : Nat :=
  forLoop (fun c m =>
      let n := G.cell_facepos (c + 1) - G.cell_facepos c
      if n > m then n else m)
    0 G.number_of_cells 0

/-! ## Sparsity pattern -/

/-- Modelled from the spec: `csrmatrix_new_count_nnz(m)` of the sparse-system helpers
(absent from the sources) allocates a matrix of `m` rows whose row pointers are zero,
ready for the counting pass.  Allocation is taken to succeed. -/
def csrmatrix_new_count_nnz (m : Nat) : CSRMatrix :=
  { m := m, nnz := 0, ia := fun _ => 0, ja := fun _ => 0, sa := fun _ => 0 }

/-- The sum of the row counts `ia[1] + .. + ia[i]`: where row `i` starts. -/
def row_start (ia : Nat → Nat) : Nat → Nat
  | 0 => 0
  | i + 1 => row_start ia i + ia (i + 1)

/-- Modelled from the spec: `csrmatrix_new_elms_pushback(A)` of the sparse-system helpers
(absent from the sources) ends the counting pass: on entry `ia[i + 1]` is the number of
entries of row `i`, on exit `ia[0] = 0` and `ia[i + 1]` is the first free slot of row `i`,
`ja` and `sa` have room for the `nnz` entries, and `nnz` is returned. -/
def csrmatrix_new_elms_pushback (A : CSRMatrix) : Nat × CSRMatrix :=
  let nnz := row_start A.ia A.m
  (nnz, { A with
    nnz := nnz
    ia := fun i => if i = 0 then 0 else if i ≤ A.m then row_start A.ia (i - 1) else A.ia i })

/-- The column indices stored in row `i`, in storage order. -/
def csr_row (ia ja : Nat → Nat) (i : Nat) : List Nat :=
  (List.range' (ia i) (ia (i + 1) - ia i)).map ja

/-- Row `i` of `ja` replaced by its ascending rearrangement. -/
def sort_row (ia : Nat → Nat) (i : Nat) (ja : Nat → Nat) : Nat → Nat :=
  fun k => if ia i ≤ k ∧ k < ia (i + 1) then
      ((csr_row ia ja i).insertionSort (fun a b => a ≤ b)).getD (k - ia i) 0
    else ja k

/-- Modelled from the spec: `csrmatrix_sortrows(A)` of the sparse-system helpers (absent
from the sources) sorts the column indices of every row in ascending order. -/
def csrmatrix_sortrows (A : CSRMatrix) : CSRMatrix :=
  { A with ja := forLoop (sort_row A.ia) 0 A.m A.ja }

/-- The statement `A->ia[c + 1] += 1` of the counting pass. -/
def count_entry (c : Nat) (ia : Nat → Nat) : Nat → Nat :=
  Function.update ia (c + 1) (ia (c + 1) + 1)

/-- The statement `A->ja[A->ia[c + 1]++] = v` of the filling pass, on `(ia, ja)`. -/
def push_entry (c v : Nat) (s : (Nat → Nat) × (Nat → Nat)) : (Nat → Nat) × (Nat → Nat) :=
  (Function.update s.1 (c + 1) (s.1 (c + 1) + 1), Function.update s.2 (s.1 (c + 1)) v)

/-- The counting pass of `construct_matrix` on the row pointers: the loops
`Self connections` and `Other connections`. -/
def count_pass (G : grid_t) (ia : Nat → Nat) : Nat → Nat :=
  let ia1 := forLoop (fun i ia => Function.update ia (i + 1) 1) 0 G.number_of_cells ia
  forLoop (fun f ia =>
      let c1 := G.face_cells (2 * f + 0)
      let c2 := G.face_cells (2 * f + 1)
      if 0 ≤ c1 ∧ 0 ≤ c2 then count_entry c2.toNat (count_entry c1.toNat ia) else ia)
    0 G.number_of_faces ia1

/-- The filling pass of `construct_matrix` on `(ia, ja)`: the loops
`Fill self connections` and `Fill other connections`. -/
def fill_pass (G : grid_t) (s : (Nat → Nat) × (Nat → Nat)) : (Nat → Nat) × (Nat → Nat) :=
  let s1 := forLoop (fun i s => push_entry i i s) 0 G.number_of_cells s
  forLoop (fun f s =>
      let c1 := G.face_cells (2 * f + 0)
      let c2 := G.face_cells (2 * f + 1)
      if 0 ≤ c1 ∧ 0 ≤ c2 then push_entry c2.toNat c1.toNat (push_entry c1.toNat c2.toNat s)
      else s)
    0 G.number_of_faces s1

/-- The function `construct_matrix`: count, allocate, fill (with the assertion that the
fill ends at `nnz`), sort the rows; `NULL` when there is nothing to store. -/
def construct_matrix (G : grid_t) : Option CSRMatrix :=
  let nnu := G.number_of_cells
  let A := csrmatrix_new_count_nnz nnu
  let r := csrmatrix_new_elms_pushback { A with ia := count_pass G A.ia }
  let nnz := r.1
  if nnz = 0 then none
  else
    let s := fill_pass G (r.2.ia, r.2.ja)
    if s.1 nnu = nnz then some (csrmatrix_sortrows { r.2 with ia := s.1, ja := s.2 })
    else none

/-! ## Face reconstruction utilities -/

/-- The sums `t` and `g` over the phases of face `f` in `compute_flux`: total mobility and
mobility-weighted gravity term. -/
def flux_sums (np : Nat) (pmobf gravcap_f : Nat → ℚ) (f : Nat) : ℚ × ℚ :=
  forLoop (fun p (s : ℚ × ℚ) =>
      (s.1 + pmobf (f * np + p), s.2 + pmobf (f * np + p) * gravcap_f (f * np + p)))
    0 np (0, 0)

/-- One pass of the face loop of `compute_flux`, for face `f`.  The quotient `-g / t` is
the rational one (zero for `t = 0`). -/
def compute_flux_step (G : grid_t) (bc : flowbc_t) (np : Nat)
    (trans pmobf gravcap_f cpress : Nat → ℚ) (f : Nat) (fflux : Nat → ℚ) : Nat → ℚ :=
  let c1 := G.face_cells (2 * f + 0)
  let c2 := G.face_cells (2 * f + 1)
  if (c1 < 0 ∨ c2 < 0) ∧ bc.type f = flowbc_type.FLUX then
    Function.update fflux f (bc.bcval f)
  else
    let tg := flux_sums np pmobf gravcap_f f
    let t := tg.1
    let g := tg.2
    let dp :=
      if 0 ≤ c1 ∧ 0 ≤ c2 then cpress c1.toNat - cpress c2.toNat
      else if bc.type f = flowbc_type.PRESSURE then
        (if c1 < 0 then bc.bcval f - cpress c2.toNat else cpress c1.toNat - bc.bcval f)
      else -g / t
    Function.update fflux f (trans f * (t * dp + g))

/-- The function `compute_flux`. -/
def compute_flux (G : grid_t) (bc : flowbc_t) (np : Nat)
    (trans pmobf gravcap_f cpress fflux : Nat → ℚ) : Nat → ℚ :=
  forLoop (compute_flux_step G bc np trans pmobf gravcap_f cpress) 0 G.number_of_faces fflux

/-- The function `cfs_tpfa_res_flux`. -/
def cfs_tpfa_res_flux (G : grid_t) (bc : flowbc_t) (np : Nat)
    (trans pmobf gravcap_f cpress fflux : Nat → ℚ) : Nat → ℚ :=
  compute_flux G bc np trans pmobf gravcap_f cpress fflux

/-- The arrays `compute_fpress` works on, with the position `i` in `cell_faces` that its
cell loop carries from one cell to the next. -/
structure fpress_locals where
  i : Nat
  scratch_f : Nat → ℚ
  fpress : Nat → ℚ

/-- One pass of the inner loop of `compute_fpress`: position `j` of `cell_faces`, in the
face list of cell `c`. -/
def fpress_visit (G : grid_t) (htrans cpress : Nat → ℚ) (c j : Nat) (s : fpress_locals) :
    fpress_locals :=
  let f := G.cell_faces j
  { s with
    scratch_f := Function.update s.scratch_f f (s.scratch_f f + htrans j)
    fpress := Function.update s.fpress f (s.fpress f + htrans j * cpress c) }

/-- One pass of the cell loop of `compute_fpress`: the inner loop runs from the carried
position `i` while `i < cell_facepos[c + 1]`. -/
def fpress_cell (G : grid_t) (htrans cpress : Nat → ℚ) (c : Nat) (s : fpress_locals) :
    fpress_locals :=
  let s' := forLoop (fpress_visit G htrans cpress c) s.i (G.cell_facepos (c + 1) - s.i) s
  { s' with i := s.i + (G.cell_facepos (c + 1) - s.i) }

/-- One pass of the closing face loop of `compute_fpress`: divide by the accumulated
weight, then let a `PRESSURE` condition on a boundary face override. -/
def fpress_finish (G : grid_t) (bc : flowbc_t) (f : Nat) (s : fpress_locals) : fpress_locals :=
  let c1 := G.face_cells (2 * f + 0)
  let c2 := G.face_cells (2 * f + 1)
  let fp := Function.update s.fpress f (s.fpress f / s.scratch_f f)
  if (c1 < 0 ∨ c2 < 0) ∧ bc.type f = flowbc_type.PRESSURE then
    { s with fpress := Function.update fp f (bc.bcval f) }
  else { s with fpress := fp }

/-- The function `compute_fpress`; the parameters `np`, `pmobf`, `gravcap_f` and `fflux`
are accepted and not read.  The result holds the final `fpress` and `scratch_f`. -/
def compute_fpress (G : grid_t) (bc : flowbc_t) (_np : Nat)
    (htrans _pmobf _gravcap_f cpress _fflux fpress scratch_f : Nat → ℚ) : fpress_locals :=
  let s0 := forLoop (fun f (s : fpress_locals) =>
      { s with fpress := Function.update s.fpress f 0
               scratch_f := Function.update s.scratch_f f 0 })
    0 G.number_of_faces { i := 0, scratch_f := scratch_f, fpress := fpress }
  let s1 := forLoop (fpress_cell G htrans cpress) 0 G.number_of_cells s0
  forLoop (fpress_finish G bc) 0 G.number_of_faces s1

/-- The function `cfs_tpfa_res_fpress`: `compute_fpress` with the scratch array of the
handle; returns the face pressures. -/
def cfs_tpfa_res_fpress (G : grid_t) (bc : flowbc_t) (np : Nat)
    (htrans pmobf gravcap_f : Nat → ℚ) (h : cfs_tpfa_res_data)
    (cpress fflux fpress : Nat → ℚ) : Nat → ℚ :=
  (compute_fpress G bc np htrans pmobf gravcap_f cpress fflux fpress h.pimpl.scratch_f).fpress

/-! ## The adaptive sub-step timer (`AdaptiveSimulatorTimer.cpp`) -/

/-- Modelled from the spec: the data members of `class AdaptiveSimulatorTimer`
(`AdaptiveSimulatorTimer.hpp`, absent from the sources), as the constructor initialises
them; the start date (a calendar time) is left out. -/
structure AdaptiveSimulatorTimer where
  start_time_ : ℚ
  total_time_ : ℚ
  report_step_ : Int
  max_time_step_ : ℚ
  current_time_ : ℚ
  dt_ : ℚ
  current_step_ : Int
  steps_ : List ℚ

/-- The library function `std::min(a, b)`: `b` when `b < a`, else `a`. -/
def std_min (a b : ℚ) : ℚ := if b < a then b else a

/-- The member function `AdaptiveSimulatorTimer::provideTimeStepEstimate`; the literals
`1.05`, `1.5` and `0.5` are the rationals `105/100`, `3/2` and `1/2`. -/
def AdaptiveSimulatorTimer.provideTimeStepEstimate (t : AdaptiveSimulatorTimer) (dt_estimate : ℚ) :
    AdaptiveSimulatorTimer :=
  let remaining := t.total_time_ - t.current_time_
  let t1 := { t with dt_ := std_min dt_estimate t.max_time_step_ }
  if remaining > 0 then
    if 105 / 100 * t1.dt_ > remaining then
      let t2 := { t1 with dt_ := remaining }
      if t2.dt_ > t2.max_time_step_ then { t2 with dt_ := 1 / 2 * remaining } else t2
    else if 3 / 2 * t1.dt_ > remaining then { t1 with dt_ := 1 / 2 * remaining }
    else t1
  else t1

/-- The member function `AdaptiveSimulatorTimer::operator++`. -/
def AdaptiveSimulatorTimer.increment (t : AdaptiveSimulatorTimer) : AdaptiveSimulatorTimer :=
  { t with
    current_step_ := t.current_step_ + 1
    current_time_ := t.current_time_ + t.dt_
    steps_ := t.steps_ ++ [t.dt_] }

/-- The member function `AdaptiveSimulatorTimer::currentStepLength`. -/
def AdaptiveSimulatorTimer.currentStepLength (t : AdaptiveSimulatorTimer) : ℚ := t.dt_

/-- The member function `AdaptiveSimulatorTimer::totalTime`. -/
def AdaptiveSimulatorTimer.totalTime (t : AdaptiveSimulatorTimer) : ℚ := t.total_time_

/-- The member function `AdaptiveSimulatorTimer::simulationTimeElapsed`. -/
def AdaptiveSimulatorTimer.simulationTimeElapsed (t : AdaptiveSimulatorTimer) : ℚ := t.current_time_

/-- The member function `AdaptiveSimulatorTimer::done`. -/
def AdaptiveSimulatorTimer.done (t : AdaptiveSimulatorTimer) : Bool := decide (t.current_time_ ≥ t.total_time_)

/-! ## The constant-compressibility phase (`SinglePvtConstCompr.hpp`)

The class is embedded over an arbitrary field `K` of scalars with decidable equality:
the rationals for exact evaluation, the reals for statements about derivatives.  An
output array is a map from positions to values; the methods return the arrays they
have written. -/

/-- The data members of `class SinglePvtConstCompr`. -/
structure SinglePvtConstCompr (K : Type) where
  ref_press_ : K
  ref_B_ : K
  comp_ : K
  viscosity_ : K
  visc_comp_ : K

/-- The ways in which the constructor from a table does not return an object: the
exception thrown by `OPM_THROW`, and an access past the end of a `std::vector`
(undefined behaviour, no exception). -/
inductive pvt_failure where
  | runtime_error
  | out_of_range
  deriving DecidableEq

/-- The access `v[i]` to a `std::vector`. -/
def vector_at {α : Type} (v : List α) (i : Nat) : Except pvt_failure α :=
  match v.get? i with
  | some x => Except.ok x
  | none => Except.error pvt_failure.out_of_range

/-- The constructor `SinglePvtConstCompr(const table_t& pvtw)`. -/
def SinglePvtConstCompr.construct {K : Type} (pvtw : List (List K)) :
    Except pvt_failure (SinglePvtConstCompr K) :=
  let region_number := 0
  if pvtw.length ≠ 1 then Except.error pvt_failure.runtime_error
  else do
    let region ← vector_at pvtw region_number
    let ref_press ← vector_at region 0
    let ref_B ← vector_at region 1
    let comp ← vector_at region 2
    let viscosity ← vector_at region 3
    let visc_comp ← vector_at region 4
    pure { ref_press_ := ref_press, ref_B_ := ref_B, comp_ := comp,
           viscosity_ := viscosity, visc_comp_ := visc_comp }

/-- The constructor `SinglePvtConstCompr(double visc)`. -/
def SinglePvtConstCompr.construct_visc {K : Type} [Field K] (visc : K) : SinglePvtConstCompr K :=
  { ref_press_ := 0, ref_B_ := 1, comp_ := 0, viscosity_ := visc, visc_comp_ := 0 }

/-- The library function `std::fill(out, out + n, v)`. -/
def std_fill {K : Type} (n : Nat) (v : K) (out : Nat → K) : Nat → K :=
  fun k => if k < n then v else out k

/-- Modelled from the spec: the phase-state indicator `PhasePresence`
(`BlackoilPhases.hpp`, absent from the sources), a set of phase bits. -/
structure PhasePresence where
  present_ : Nat

/-- The overload `mu(n, p, z, output_mu)`. -/
def SinglePvtConstCompr.mu {K : Type} [Field K] [DecidableEq K] (s : SinglePvtConstCompr K)
    (n : Nat) (p _z output_mu : Nat → K) : Nat → K :=
  if s.visc_comp_ ≠ 0 then
    forLoop (fun i (out : Nat → K) =>
        let x := -s.visc_comp_ * (p i - s.ref_press_)
        Function.update out i (s.viscosity_ / (1 + x + 1 / 2 * x * x)))
      0 n output_mu
  else std_fill n s.viscosity_ output_mu

/-- The overload `mu(n, p, r, output_mu, output_dmudp, output_dmudr)`; the result is
`(output_mu, output_dmudp, output_dmudr)`. -/
def SinglePvtConstCompr.mu_r {K : Type} [Field K] [DecidableEq K] (s : SinglePvtConstCompr K)
    (n : Nat) (p _r output_mu output_dmudp output_dmudr : Nat → K) :
    (Nat → K) × (Nat → K) × (Nat → K) :=
  let md :=
    if s.visc_comp_ ≠ 0 then
      forLoop (fun i (o : (Nat → K) × (Nat → K)) =>
          let x := -s.visc_comp_ * (p i - s.ref_press_)
          let d := 1 + x + 1 / 2 * x * x
          (Function.update o.1 i (s.viscosity_ / d),
           Function.update o.2 i (s.viscosity_ / (d * d) * (1 + x) * s.visc_comp_)))
        0 n (output_mu, output_dmudp)
    else (std_fill n s.viscosity_ output_mu, std_fill n 0 output_dmudp)
  (md.1, md.2, std_fill n 0 output_dmudr)

/-- The overload `mu(n, p, r, cond, output_mu, output_dmudp, output_dmudr)`; the result is
`(output_mu, output_dmudp, output_dmudr)`. -/
def SinglePvtConstCompr.mu_cond {K : Type} [Field K] [DecidableEq K]
    (s : SinglePvtConstCompr K) (n : Nat) (p _r : Nat → K) (_cond : Nat → PhasePresence)
    (output_mu output_dmudp output_dmudr : Nat → K) : (Nat → K) × (Nat → K) × (Nat → K) :=
  let md :=
    if s.visc_comp_ ≠ 0 then
      forLoop (fun i (o : (Nat → K) × (Nat → K)) =>
          let x := -s.visc_comp_ * (p i - s.ref_press_)
          let d := 1 + x + 1 / 2 * x * x
          (Function.update o.1 i (s.viscosity_ / d),
           Function.update o.2 i (s.viscosity_ / (d * d) * (1 + x) * s.visc_comp_)))
        0 n (output_mu, output_dmudp)
    else (std_fill n s.viscosity_ output_mu, std_fill n 0 output_dmudp)
  (md.1, md.2, std_fill n 0 output_dmudr)

/-- The method `B(n, p, z, output_B)`. -/
def SinglePvtConstCompr.B {K : Type} [Field K] [DecidableEq K] (s : SinglePvtConstCompr K)
    (n : Nat) (p _z output_B : Nat → K) : Nat → K :=
  if s.comp_ ≠ 0 then
    forLoop (fun i (out : Nat → K) =>
        let x := s.comp_ * (p i - s.ref_press_)
        Function.update out i (s.ref_B_ / (1 + x + 1 / 2 * x * x)))
      0 n output_B
  else std_fill n s.ref_B_ output_B

/-- The method `dBdp(n, p, z, output_B, output_dBdp)`; the result is
`(output_B, output_dBdp)`. -/
def SinglePvtConstCompr.dBdp {K : Type} [Field K] [DecidableEq K] (s : SinglePvtConstCompr K)
    (n : Nat) (p _z output_B output_dBdp : Nat → K) : (Nat → K) × (Nat → K) :=
  if s.comp_ ≠ 0 then
    forLoop (fun i (o : (Nat → K) × (Nat → K)) =>
        let x := s.comp_ * (p i - s.ref_press_)
        let d := 1 + x + 1 / 2 * x * x
        (Function.update o.1 i (s.ref_B_ / d),
         Function.update o.2 i (-s.ref_B_ / (d * d) * (1 + x) * s.comp_)))
      0 n (output_B, output_dBdp)
  else (std_fill n s.ref_B_ output_B, std_fill n 0 output_dBdp)

/-- The overload `b(n, p, r, output_b, output_dbdp, output_dbdr)`; the result is
`(output_b, output_dbdp, output_dbdr)`. -/
def SinglePvtConstCompr.b {K : Type} [Field K] [DecidableEq K] (s : SinglePvtConstCompr K)
    (n : Nat) (p _r output_b output_dbdp output_dbdr : Nat → K) :
    (Nat → K) × (Nat → K) × (Nat → K) :=
  let bd :=
    if s.comp_ ≠ 0 then
      forLoop (fun i (o : (Nat → K) × (Nat → K)) =>
          let x := s.comp_ * (p i - s.ref_press_)
          let d := 1 + x + 1 / 2 * x * x
          (Function.update o.1 i (d / s.ref_B_),
           Function.update o.2 i ((1 + x) * s.comp_ / s.ref_B_)))
        0 n (output_b, output_dbdp)
    else (std_fill n (1 / s.ref_B_) output_b, std_fill n 0 output_dbdp)
  (bd.1, bd.2, std_fill n 0 output_dbdr)

/-- The overload `b(n, p, r, cond, output_b, output_dbdp, output_dbdr)`; the result is
`(output_b, output_dbdp, output_dbdr)`. -/
def SinglePvtConstCompr.b_cond {K : Type} [Field K] [DecidableEq K]
    (s : SinglePvtConstCompr K) (n : Nat) (p _r : Nat → K) (_cond : Nat → PhasePresence)
    (output_b output_dbdp output_dbdr : Nat → K) : (Nat → K) × (Nat → K) × (Nat → K) :=
  let bd :=
    if s.comp_ ≠ 0 then
      forLoop (fun i (o : (Nat → K) × (Nat → K)) =>
          let x := s.comp_ * (p i - s.ref_press_)
          let d := 1 + x + 1 / 2 * x * x
          (Function.update o.1 i (d / s.ref_B_),
           Function.update o.2 i ((1 + x) * s.comp_ / s.ref_B_)))
        0 n (output_b, output_dbdp)
    else (std_fill n (1 / s.ref_B_) output_b, std_fill n 0 output_dbdp)
  (bd.1, bd.2, std_fill n 0 output_dbdr)

/-- The method `rsSat(n, p, output_rsSat, output_drsSatdp)`; the result is
`(output_rsSat, output_drsSatdp)`. -/
def SinglePvtConstCompr.rsSat {K : Type} [Field K] (_s : SinglePvtConstCompr K)
    (n : Nat) (_p output_rsSat output_drsSatdp : Nat → K) : (Nat → K) × (Nat → K) :=
  (std_fill n 0 output_rsSat, std_fill n 0 output_drsSatdp)

/-- The method `rvSat(n, p, output_rvSat, output_drvSatdp)`; the result is
`(output_rvSat, output_drvSatdp)`. -/
def SinglePvtConstCompr.rvSat {K : Type} [Field K] (_s : SinglePvtConstCompr K)
    (n : Nat) (_p output_rvSat output_drvSatdp : Nat → K) : (Nat → K) × (Nat → K) :=
  (std_fill n 0 output_rvSat, std_fill n 0 output_drvSatdp)

/-- The method `R(n, p, z, output_R)`. -/
def SinglePvtConstCompr.R {K : Type} [Field K] (_s : SinglePvtConstCompr K)
    (n : Nat) (_p _z output_R : Nat → K) : Nat → K :=
  std_fill n 0 output_R

/-- The method `dRdp(n, p, z, output_R, output_dRdp)`; the result is
`(output_R, output_dRdp)`. -/
def SinglePvtConstCompr.dRdp {K : Type} [Field K] (_s : SinglePvtConstCompr K)
    (n : Nat) (_p _z output_R output_dRdp : Nat → K) : (Nat → K) × (Nat → K) :=
  (std_fill n 0 output_R, std_fill n 0 output_dRdp)

/-! ## Well-formed inputs and reference quantities -/

/-- Face `f` has two valid neighbours. -/
def interior (G : grid_t) (f : Nat) : Prop :=
  0 ≤ G.face_cells (2 * f + 0) ∧ 0 ≤ G.face_cells (2 * f + 1)

instance (G : grid_t) (f : Nat) : Decidable (interior G f) := by
  unfold interior; infer_instance

/-- The face list of cell `c`. -/
def cell_face_list (G : grid_t) (c : Nat) : List Nat :=
  (List.range' (G.cell_facepos c) (G.cell_facepos (c + 1) - G.cell_facepos c)).map G.cell_faces

/-- The interior faces of the face list of cell `c`, in list order. -/
def interior_faces (G : grid_t) (c : Nat) : List Nat :=
  (cell_face_list G c).filter (fun f => decide (interior G f))

/-- The interior faces among the entries `lo .. lo + m - 1` of `cell_faces`. -/
def interior_among (G : grid_t) (lo m : Nat) : List Nat :=
  ((List.range' lo m).map G.cell_faces).filter (fun f => decide (interior G f))

/-- The two neighbour entries of every face are cells of the grid (or negative). -/
def faces_ok (G : grid_t) : Prop :=
  ∀ f, f < G.number_of_faces →
    G.face_cells (2 * f + 0) < G.number_of_cells ∧ G.face_cells (2 * f + 1) < G.number_of_cells

/-- Face lists name faces of the grid, and a face listed by a cell has that cell as a
neighbour. -/
def face_lists_ok (G : grid_t) : Prop :=
  ∀ c, c < G.number_of_cells → ∀ f ∈ cell_face_list G c,
    f < G.number_of_faces ∧
      (G.face_cells (2 * f + 0) = (c : Int) ∨ G.face_cells (2 * f + 1) = (c : Int))

/-- The grid invariant of the data model: face-to-cell and cell-to-face lists are
consistent. -/
def grid_ok (G : grid_t) : Prop := faces_ok G ∧ face_lists_ok G

instance (G : grid_t) : Decidable (faces_ok G) := by
  unfold faces_ok; infer_instance

instance (G : grid_t) : Decidable (face_lists_ok G) := by
  unfold face_lists_ok; infer_instance

instance (G : grid_t) : Decidable (grid_ok G) := by
  unfold grid_ok; infer_instance

/-- The `(row, column)` entries that the faces `0 .. n-1` contribute, in the order of the
filling pass. -/
def face_entries (G : grid_t) (n : Nat) : List (Nat × Nat) :=
  (List.range n).flatMap fun f =>
    if interior G f then
      [((G.face_cells (2 * f + 0)).toNat, (G.face_cells (2 * f + 1)).toNat),
       ((G.face_cells (2 * f + 1)).toNat, (G.face_cells (2 * f + 0)).toNat)]
    else []

/-- The `(row, column)` entries of the diagonal for the rows `0 .. n-1`. -/
def self_entries (n : Nat) : List (Nat × Nat) := (List.range n).map fun i => (i, i)

/-- The columns of the entries of `P` that belong to row `r`, in order. -/
def row_of (P : List (Nat × Nat)) (r : Nat) : List Nat :=
  (P.filter (fun e => decide (e.1 = r))).map (fun e => e.2)

/-- Every look-up that the assembly performs in the pattern `J` finds its entry. -/
def lookups_ok (G : grid_t) (J : CSRMatrix) : Prop :=
  ∀ c, c < G.number_of_cells →
    (csrmatrix_elm_index c c J).isSome = true ∧
    ∀ f ∈ cell_face_list G c, 0 ≤ other_cell G c f →
      (csrmatrix_elm_index c (other_cell G c f).toNat J).isSome = true

instance (G : grid_t) (J : CSRMatrix) : Decidable (lookups_ok G J) := by
  unfold lookups_ok; infer_instance

/-- The column indices that the fill order of `construct_matrix` gives row `c`: the
diagonal, then for every interior face its other side (both sides for a face on `c`
twice). -/
def expected_row (G : grid_t) (c : Nat) : List Nat :=
  c :: (List.range G.number_of_faces).flatMap fun f =>
    if interior G f then
      (if (G.face_cells (2 * f + 0)).toNat = c then [(G.face_cells (2 * f + 1)).toNat] else []) ++
      (if (G.face_cells (2 * f + 1)).toNat = c then [(G.face_cells (2 * f + 0)).toNat] else [])
    else []

/-- The number of interior faces of the grid. -/
def num_interior_faces (G : grid_t) : Nat :=
  ((List.range G.number_of_faces).filter (fun f => decide (interior G f))).length

/-- Reference value of `t1[p]` for cell `c`, in the words of the specification:
`-pvol * (Ac \ z)[p] + dt * sum over the interior faces f of the cell of (Ac \ flux_f)[p]`,
`flux_f` being the block of `f` in the component-flux array `cf`. -/
def spec_t1 (G : grid_t) (c np : Nat) (pvol dt : ℚ) (z Ac cf : Nat → ℚ) (p : Nat) : ℚ :=
  -pvol * solve_entry np Ac z p
    + dt * ((interior_faces G c).map fun f => solve_entry np Ac (offset cf (f * np)) p).sum

/-- Reference value of the cell residual, in the words of the specification: the pore
volume plus the sum of `t1` over the components. -/
def spec_residual (G : grid_t) (c np : Nat) (pvol dt : ℚ) (z Ac cf : Nat → ℚ) : ℚ :=
  pvol + ∑ p ∈ Finset.range np, spec_t1 G c np pvol dt z Ac cf p

/-- Reference value of `dF2`, in the words of the specification: the sum over the
components of `Ac \ (dAc * t1)`. -/
def spec_dF2 (G : grid_t) (c np : Nat) (pvol dt : ℚ) (z Ac dAc cf : Nat → ℚ) : ℚ :=
  ∑ p ∈ Finset.range np,
    solve_entry np Ac
      (fun i => ∑ j ∈ Finset.range np, dAc (i + j * np) * spec_t1 G c np pvol dt z Ac cf j) p

/-- Reference value of the off-diagonal Jacobian entry that row `c` receives for the
interior face `f`, in the words of the specification: `s * dt * sum_p (Ac \ D)[p]`, where
`D` is the column, in the block of `f` in the derivative array `dcf`, taken with respect
to the pressure of the other neighbour of `f` (the second column if `c` is the first
neighbour, the first column otherwise) and `s = +1` if `c` is the first neighbour of `f`,
`-1` otherwise. -/
def spec_offdiag (G : grid_t) (c np : Nat) (dt : ℚ) (Ac dcf : Nat → ℚ) (f : Nat) : ℚ :=
  if G.face_cells (2 * f + 0) = (c : Int) then
    1 * dt * ∑ p ∈ Finset.range np, solve_entry np Ac (offset dcf (f * (2 * np) + np)) p
  else
    -1 * dt * ∑ p ∈ Finset.range np, solve_entry np Ac (offset dcf (f * (2 * np))) p

/-- Reference value of the diagonal Jacobian entry of row `c`, in the words of the
specification: `dF1 - dF2 + dt * sum over the interior faces f of c of
s_f * sum_p (Ac \ D_f)[p]`, where `dF1 = sum_p t1[p]`, `dF2 = sum_p (Ac \ (dAc * t1))[p]`,
`D_f` is the column, in the block of `f` in the derivative array `dcf`, taken with respect
to the pressure of `c` itself (the first column if `c` is the first neighbour of `f`, the
second otherwise) and `s_f = +1` if `c` is the first neighbour of `f`, `-1` otherwise. -/
def spec_diag (G : grid_t) (c np : Nat) (pvol dt : ℚ) (z Ac dAc cf dcf : Nat → ℚ) : ℚ :=
  (∑ p ∈ Finset.range np, spec_t1 G c np pvol dt z Ac cf p)
    - spec_dF2 G c np pvol dt z Ac dAc cf
    + dt * ((interior_faces G c).map fun f =>
        if G.face_cells (2 * f + 0) = (c : Int) then
          1 * ∑ p ∈ Finset.range np, solve_entry np Ac (offset dcf (f * (2 * np))) p
        else
          -1 * ∑ p ∈ Finset.range np, solve_entry np Ac (offset dcf (f * (2 * np) + np)) p).sum

/-- The pressure drop `cpress[c1] - cpress[c2]` over face `f`. -/
def face_dp (G : grid_t) (cpress : Nat → ℚ) (f : Nat) : ℚ :=
  cpress (G.face_cells (2 * f + 0)).toNat - cpress (G.face_cells (2 * f + 1)).toNat

/-! ## Sample inputs -/

/-- Two cells joined by face 0; face 1 is a boundary face of cell 0 (listed before face 0),
face 2 a boundary face of cell 1. -/
def grid2 : grid_t :=
  { number_of_cells := 2
    number_of_faces := 3
    face_cells := fun k => [0, 1, -1, 0, 1, -1].getD k (-1)
    cell_facepos := fun c => [0, 2, 4].getD c 4
    cell_faces := fun i => [1, 0, 0, 2].getD i 0 }

/-- A workspace whose arrays are all zero. -/
def blank_ratio : densrat_util :=
  { residual := 0, lu := fun _ => 0, t1 := fun _ => 0, t2 := fun _ => 0,
    mat_row := fun _ => 0, coeff := fun _ => 0, linsolve_buffer := fun _ => 0 }

/-- A private record whose arrays are all zero. -/
def blank_impl : cfs_tpfa_res_impl :=
  { is_incomp := false, compflux_f := fun _ => 0, compflux_deriv_f := fun _ => 0,
    flux_work := fun _ => 0, scratch_f := fun _ => 0, ratio := blank_ratio }

/-- One cell with two boundary faces and no interior connection. -/
def grid1 : grid_t :=
  { number_of_cells := 1
    number_of_faces := 2
    face_cells := fun k => [-1, 0, 0, -1].getD k (-1)
    cell_facepos := fun c => [0, 2].getD c 2
    cell_faces := fun i => [0, 1].getD i 0 }

/-- Single-phase fluid data with unit matrices `Ac`, `Af`, unit mobility and `dAc = 0`. -/
def cq1 : compr_quantities_gen :=
  { nphases := 1, Ac := fun _ => 1, dAc := fun _ => 0, Af := fun _ => 1, phasemobf := fun _ => 1 }

/-- A handle for `grid2` whose workspace is zero except for `mat_row[2] = stale`. -/
def handle2 (stale : ℚ) : cfs_tpfa_res_data :=
  { J := { m := 2, nnz := 4, ia := fun i => [0, 2, 4].getD i 4,
           ja := fun k => [0, 1, 0, 1].getD k 0, sa := fun _ => 0 }
    F := fun _ => 0
    pimpl := { blank_impl with
      ratio := { blank_ratio with mat_row := fun k => if k = 2 then stale else 0 } } }

/-- A handle for `grid1` with a zero workspace. -/
def handle1 : cfs_tpfa_res_data :=
  { J := { m := 1, nnz := 1, ia := fun i => [0, 1].getD i 1,
           ja := fun _ => 0, sa := fun _ => 0 }
    F := fun _ => 0
    pimpl := blank_impl }

/-- A boundary-condition table without conditions. -/
def bc0 : flowbc_t := { type := fun _ => flowbc_type.UNSET, bcval := fun _ => 0 }

/-- Cell pressures `2` in cell 0 and `1` elsewhere. -/
def press2 : Nat → ℚ := fun c => if c = 0 then 2 else 1

/-- A timer at time `0` of a horizon of `10`, with maximum step `4`. -/
def timer10 : AdaptiveSimulatorTimer :=
  { start_time_ := 0, total_time_ := 10, report_step_ := 0, max_time_step_ := 4,
    current_time_ := 0, dt_ := 0, current_step_ := 0, steps_ := [] }

/-- A timer at time `7` of a horizon of `10`, with maximum step `4`. -/
def timer10_late : AdaptiveSimulatorTimer :=
  { start_time_ := 0, total_time_ := 10, report_step_ := 0, max_time_step_ := 4,
    current_time_ := 7, dt_ := 0, current_step_ := 0, steps_ := [] }

/-- A boundary-condition table for `grid2`: `PRESSURE` with value `9` on face 1, `FLUX`
with value `7` on face 2, nothing on face 0. -/
def bc2 : flowbc_t :=
  { type := fun f => if f = 1 then flowbc_type.PRESSURE
                     else if f = 2 then flowbc_type.FLUX else flowbc_type.UNSET
    bcval := fun f => if f = 1 then 9 else if f = 2 then 7 else 0 }

/-- Half-transmissibilities for `grid2`: `3` at position 2 and `1` elsewhere. -/
def htrans2 : Nat → ℚ := fun i => if i = 2 then 3 else 1

/-- Single-phase fluid data of the two-cell scenario: accumulation matrices `Ac1`, `Ac2`
and their pressure derivatives `dAc1`, `dAc2` in cells 0 and 1, face matrix `Af` and phase
mobility `m` on every face. -/
def cq2 (Ac1 Ac2 dAc1 dAc2 Af m : ℚ) : compr_quantities_gen :=
  { nphases := 1
    Ac := fun c => if c = 0 then Ac1 else Ac2
    dAc := fun c => if c = 0 then dAc1 else dAc2
    Af := fun _ => Af
    phasemobf := fun _ => m }

/-- A per-cell array with the value `a` in cell 0 and `b` elsewhere. -/
def two_cells (a b : ℚ) : Nat → ℚ := fun c => if c = 0 then a else b

/-- Two cells whose face lists hold nothing but the interior face `(0, 1)` shared by
them. -/
def grid2_shared : grid_t :=
  { number_of_cells := 2
    number_of_faces := 1
    face_cells := fun k => [0, 1].getD k (-1)
    cell_facepos := fun c => [0, 1, 2].getD c 2
    cell_faces := fun _ => 0 }

/-- A water phase with reference pressure `1`, reference factor `2`, compressibility
`1/2`, viscosity `3` and viscosibility `1/4`, over the scalars `K`. -/
def pvt_water (K : Type) [Field K] : SinglePvtConstCompr K :=
  { ref_press_ := 1, ref_B_ := 2, comp_ := 1 / 2, viscosity_ := 3, visc_comp_ := 1 / 4 }

/-- Three cells in a row: face 0 joins cells 0 and 1, face 1 joins cells 1 and 2; there
are no boundary faces. -/
def grid3 : grid_t :=
  { number_of_cells := 3
    number_of_faces := 2
    face_cells := fun k => [0, 1, 1, 2].getD k (-1)
    cell_facepos := fun c => [0, 1, 3, 4].getD c 4
    cell_faces := fun i => [0, 0, 1, 1].getD i 0 }

/-- A handle for `grid3` with the pattern of `grid3` and a zero workspace. -/
def handle3 : cfs_tpfa_res_data :=
  { J := { m := 3, nnz := 7, ia := fun i => [0, 2, 5, 7].getD i 7,
           ja := fun k => [0, 1, 0, 1, 2, 1, 2].getD k 0, sa := fun _ => 0 }
    F := fun _ => 0
    pimpl := blank_impl }

/-- Single-phase fluid data with the same accumulation matrix `Ac`, derivative `dAc`, face
matrix `Af` and phase mobility `m` everywhere. -/
def cq3 (Ac dAc Af m : ℚ) : compr_quantities_gen :=
  { nphases := 1, Ac := fun _ => Ac, dAc := fun _ => dAc, Af := fun _ => Af,
    phasemobf := fun _ => m }

/-- A per-face array with the value `a` on face 0 and `b` elsewhere. -/
def two_faces (a b : ℚ) : Nat → ℚ := fun f => if f = 0 then a else b

/-- A per-cell array with the values `a`, `b` in cells 0, 1 and `c` elsewhere. -/
def three_cells (a b c : ℚ) : Nat → ℚ := fun k => if k = 0 then a else if k = 1 then b else c

/-! ## The workspace before the assertions of `init_cell_contrib` -/

/-- The locals of `init_cell_contrib` when its connection loop has ended and the two
closing assertions have not yet been tested: what the call has written to
`linsolve_buffer` and `coeff` by then, also when an assertion then aborts it. -/
def init_cell_contrib_loop (G : grid_t) (c np : Nat) (pvol dt : ℚ) (z : Nat → ℚ)
    (pimpl : cfs_tpfa_res_impl) (nconn0 : Int) : init_locals :=
  let nconn := count_internal_conn G c nconn0
  let s0 : init_locals :=
    { buffer := memcpy pimpl.ratio.linsolve_buffer z np
      coeff := Function.update pimpl.ratio.coeff 0 (-pvol)
      conn := 1
      cflx := 1 * np
      dcflx := 1 * np + nconn * np }
  forLoop (init_cell_contrib_step G np dt pimpl.compflux_f pimpl.compflux_deriv_f)
    (G.cell_facepos c) (G.cell_facepos (c + 1) - G.cell_facepos c) s0

/-- The number of `double`s that `allocate_densrat(max_conn, np)` reserves for
`linsolve_buffer`, the last region of its allocation: `n_buffer_col * np` with
`n_buffer_col = 1 + 1 * max_conn + 2 * max_conn`. -/
def linsolve_buffer_size (max_conn np : Nat) : Nat :=
  (1 + 1 * max_conn + 2 * max_conn) * np

/-- A private record for `grid2` whose arrays are zero except for the derivative block of
face 0, `compflux_deriv_f[0] = 11` and `compflux_deriv_f[1] = 13`. -/
def impl_marked : cfs_tpfa_res_impl :=
  { blank_impl with compflux_deriv_f := fun k => if k = 0 then 11 else if k = 1 then 13 else 0 }

/-! ## Double-precision arithmetic (IEEE 754 binary64)

The sections above read a `double` as an exact number.  This section gives the arithmetic
the compiled program performs: the binary64 format with the default rounding (to nearest,
ties to even), gradual underflow and overflow to an infinity.  Every finite binary64 value
is an integer multiple of `2 ^ (-1074)`, the smallest positive one, so a finite value is
kept as that integer: `double.fin k` is the number `k * 2 ^ (-1074)`.  A finite value has a
magnitude below `2 ^ 1024`, that is `k` below `2 ^ 2098`.  Each operation rounds its exact
result once to binary64 (no extended precision, no fused multiply-add).  The sign of a
zero is not kept (a division by zero yields the infinity with the sign of the
numerator). -/

/-- A value of the C type `double`: finite (in units of `2 ^ (-1074)`), an infinity with
its sign (`neg = true` for the negative one), or not-a-number. -/
inductive double where
  | fin (k : Int)
  | inf (neg : Bool)
  | nan
  deriving DecidableEq

/-- The finite value in units of `2 ^ (-1074)`; `0` for an infinity or NaN. -/
def double.units : double → Int
  | double.fin k => k
  | _ => 0

/-- The position of the leading binary digit of `n < 2 ^ 4096`, that is `⌊log₂ n⌋`
(`0` for `n = 0`), by binary search over the twelve binary digits of the position. -/
def ilog2 (n : Nat) : Nat :=
  ([2048, 1024, 512, 256, 128, 64, 32, 16, 8, 4, 2, 1].foldl
    (fun (s : Nat × Nat) k => if s.1 ≥ 2 ^ k then (s.1 / 2 ^ k, s.2 + k) else s) (n, 0)).2

/-- The non-negative number `N / D`, in units of `2 ^ (-1074)`, rounded to 53 significant
binary digits, to nearest with ties to even.  Below `2 ^ 53` units the spacing of the
format is one unit (subnormal values and the first binade); from there on the spacing is
`2 ^ e` with `e` the position of the leading digit minus 52. -/
def dbl_round_mag (N D : Nat) : Nat :=
  let t := N / D
  let e := ilog2 t - 52
  let D2 := D * 2 ^ e
  let q := N / D2
  let r := N % D2
  let m := if 2 * r > D2 ∨ (2 * r = D2 ∧ q % 2 = 1) then q + 1 else q
  m * 2 ^ e

/-- The number of magnitude `N / D` units and sign `neg`, rounded to a `double`: a rounded
magnitude of `2 ^ 1024` (`2 ^ 2098` units) or more overflows to the infinity. -/
def dbl_round (neg : Bool) (N D : Nat) : double :=
  let v := dbl_round_mag N D
  if v ≥ 2 ^ 2098 then double.inf neg
  else double.fin (if neg then -(v : Int) else (v : Int))

/-- The `double` that a decimal literal with the value `n / d` denotes (`dbl_of 105 100`
is the literal `1.05`): the nearest `double`. -/
def dbl_of (n d : Nat) : double := dbl_round false (n * 2 ^ 1074) d

/-- The power `2 ^ e` of two, for `-1074 ≤ e < 1024`: a `double` without rounding. -/
def dbl_two_pow (e : Int) : double := double.fin ((2 ^ (e + 1074).toNat : Nat) : Int)

/-- Unary minus. -/
def dbl_neg : double → double
  | double.fin k => double.fin (-k)
  | double.inf n => double.inf (!n)
  | double.nan => double.nan

/-- The sum `a + b`: the exact sum, rounded. -/
def dbl_add : double → double → double
  | double.fin a, double.fin b => dbl_round (decide (a + b < 0)) (a + b).natAbs 1
  | double.fin _, double.inf n => double.inf n
  | double.inf n, double.fin _ => double.inf n
  | double.inf n, double.inf m => if n = m then double.inf n else double.nan
  | _, _ => double.nan

/-- The difference `a - b`: the exact difference, rounded. -/
def dbl_sub (a b : double) : double := dbl_add a (dbl_neg b)

/-- The product `a * b`: the exact product, rounded. -/
def dbl_mul : double → double → double
  | double.fin a, double.fin b =>
      dbl_round (decide (a < 0) != decide (b < 0)) (a.natAbs * b.natAbs) (2 ^ 1074)
  | double.fin a, double.inf n =>
      if a = 0 then double.nan else double.inf (decide (a < 0) != n)
  | double.inf n, double.fin b =>
      if b = 0 then double.nan else double.inf (n != decide (b < 0))
  | double.inf n, double.inf m => double.inf (n != m)
  | _, _ => double.nan

/-- The quotient `a / b`: the exact quotient, rounded; a finite value divided by an
infinity is zero. -/
def dbl_div : double → double → double
  | double.fin a, double.fin b =>
      if b = 0 then (if a = 0 then double.nan else double.inf (decide (a < 0)))
      else dbl_round (decide (a < 0) != decide (b < 0)) (a.natAbs * 2 ^ 1074) b.natAbs
  | double.fin _, double.inf _ => double.fin 0
  | double.inf n, double.fin b => double.inf (n != decide (b < 0))
  | _, _ => double.nan

/-- The comparison `a < b`; false when an operand is NaN. -/
def dbl_lt : double → double → Bool
  | double.fin a, double.fin b => decide (a < b)
  | double.fin _, double.inf n => !n
  | double.inf n, double.fin _ => n
  | double.inf n, double.inf m => n && !m
  | _, _ => false

/-- The comparison `a <= b`; false when an operand is NaN. -/
def dbl_le : double → double → Bool
  | double.fin a, double.fin b => decide (a ≤ b)
  | double.fin _, double.inf n => !n
  | double.inf n, double.fin _ => n
  | double.inf n, double.inf m => n || !m
  | _, _ => false

/-- The conversion of a `double` to a truth value in `if (x)`: true unless `x` is zero. -/
def dbl_nonzero : double → Bool
  | double.fin k => decide (k ≠ 0)
  | _ => true

/-- A `double` that takes part in the order of the format: not NaN, and of a magnitude
below `2 ^ 1024` when finite, as every finite value of the format is. -/
def double.ordered (x : double) : Prop := x ≠ double.nan ∧ x.units.natAbs < 2 ^ 2098

instance (x : double) : Decidable x.ordered :=
  inferInstanceAs (Decidable (x ≠ double.nan ∧ x.units.natAbs < 2 ^ 2098))

/-- The position of a `double` in the order of the format, as an integer: the units of a
finite value, `2 ^ 2098` and `-2 ^ 2098` for the infinities (`0` for NaN, which has no
position). -/
def double.rank : double → Int
  | double.fin k => k
  | double.inf false => ((2 ^ 2098 : Nat) : Int)
  | double.inf true => -((2 ^ 2098 : Nat) : Int)
  | double.nan => 0

/-! ## The source's floating-point statements in double precision

The functions of the sections above whose results depend on rounding, embedded a second
time with every operation of the source replaced by the binary64 operation, in the order
in which the C and C++ expressions are evaluated. -/

namespace Dbl

/-- Modelled from the spec: the boundary-condition table `flowbc_t` (`flow_bc.h`, absent
from the sources) with `double` values: a kind and a value per face. -/
structure flowbc_t where
  type : Nat → flowbc_type
  bcval : Nat → double

/-- The function `compute_darcyflux_and_deriv`, in double precision. -/
def compute_darcyflux_and_deriv (np : Nat) (trans dp : double) (pmobf gcapf : Nat → double)
    (dflux dflux_deriv : Nat → double) : (Nat → double) × (Nat → double) :=
  forLoop (fun p s =>
      let a := dbl_mul trans (pmobf p)
      (Function.update s.1 p (dbl_mul a (dbl_add dp (gcapf p))),
       Function.update (Function.update s.2 (0 * np + p) a) (1 * np + p) (dbl_neg a)))
    0 np (dflux, dflux_deriv)

/-- The sums `t` and `g` over the phases of face `f` in `compute_flux`, accumulated from
`0.0` in the order of the loop. -/
def flux_sums (np : Nat) (pmobf gravcap_f : Nat → double) (f : Nat) : double × double :=
  forLoop (fun p (s : double × double) =>
      (dbl_add s.1 (pmobf (f * np + p)),
       dbl_add s.2 (dbl_mul (pmobf (f * np + p)) (gravcap_f (f * np + p)))))
    0 np (double.fin 0, double.fin 0)

/-- One pass of the face loop of `compute_flux`, for face `f`, in double precision. -/
def compute_flux_step (G : grid_t) (bc : flowbc_t) (np : Nat)
    (trans pmobf gravcap_f cpress : Nat → double) (f : Nat) (fflux : Nat → double) :
    Nat → double :=
  let c1 := G.face_cells (2 * f + 0)
  let c2 := G.face_cells (2 * f + 1)
  if (c1 < 0 ∨ c2 < 0) ∧ bc.type f = flowbc_type.FLUX then
    Function.update fflux f (bc.bcval f)
  else
    let tg := flux_sums np pmobf gravcap_f f
    let t := tg.1
    let g := tg.2
    let dp :=
      if 0 ≤ c1 ∧ 0 ≤ c2 then dbl_sub (cpress c1.toNat) (cpress c2.toNat)
      else if bc.type f = flowbc_type.PRESSURE then
        (if c1 < 0 then dbl_sub (bc.bcval f) (cpress c2.toNat)
         else dbl_sub (cpress c1.toNat) (bc.bcval f))
      else dbl_div (dbl_neg g) t
    Function.update fflux f (dbl_mul (trans f) (dbl_add (dbl_mul t dp) g))

/-- The function `compute_flux`, in double precision. -/
def compute_flux (G : grid_t) (bc : flowbc_t) (np : Nat)
    (trans pmobf gravcap_f cpress fflux : Nat → double) : Nat → double :=
  forLoop (compute_flux_step G bc np trans pmobf gravcap_f cpress) 0 G.number_of_faces fflux

/-- The function `cfs_tpfa_res_flux`, in double precision. -/
def cfs_tpfa_res_flux (G : grid_t) (bc : flowbc_t) (np : Nat)
    (trans pmobf gravcap_f cpress fflux : Nat → double) : Nat → double :=
  compute_flux G bc np trans pmobf gravcap_f cpress fflux

/-- The arrays `compute_fpress` works on, with the position `i` in `cell_faces` that its
cell loop carries from one cell to the next. -/
structure fpress_locals where
  i : Nat
  scratch_f : Nat → double
  fpress : Nat → double

/-- One pass of the inner loop of `compute_fpress`: position `j` of `cell_faces`, in the
face list of cell `c`. -/
def fpress_visit (G : grid_t) (htrans cpress : Nat → double) (c j : Nat) (s : fpress_locals) :
    fpress_locals :=
  let f := G.cell_faces j
  { s with
    scratch_f := Function.update s.scratch_f f (dbl_add (s.scratch_f f) (htrans j))
    fpress := Function.update s.fpress f
      (dbl_add (s.fpress f) (dbl_mul (htrans j) (cpress c))) }

/-- One pass of the cell loop of `compute_fpress`. -/
def fpress_cell (G : grid_t) (htrans cpress : Nat → double) (c : Nat) (s : fpress_locals) :
    fpress_locals :=
  let s' := forLoop (fpress_visit G htrans cpress c) s.i (G.cell_facepos (c + 1) - s.i) s
  { s' with i := s.i + (G.cell_facepos (c + 1) - s.i) }

/-- One pass of the closing face loop of `compute_fpress`: divide by the accumulated
weight, then let a `PRESSURE` condition on a boundary face override. -/
def fpress_finish (G : grid_t) (bc : flowbc_t) (f : Nat) (s : fpress_locals) : fpress_locals :=
  let c1 := G.face_cells (2 * f + 0)
  let c2 := G.face_cells (2 * f + 1)
  let fp := Function.update s.fpress f (dbl_div (s.fpress f) (s.scratch_f f))
  if (c1 < 0 ∨ c2 < 0) ∧ bc.type f = flowbc_type.PRESSURE then
    { s with fpress := Function.update fp f (bc.bcval f) }
  else { s with fpress := fp }

/-- The function `compute_fpress`, in double precision. -/
def compute_fpress (G : grid_t) (bc : flowbc_t) (_np : Nat)
    (htrans _pmobf _gravcap_f cpress _fflux fpress scratch_f : Nat → double) : fpress_locals :=
  let s0 := forLoop (fun f (s : fpress_locals) =>
      { s with fpress := Function.update s.fpress f (double.fin 0)
               scratch_f := Function.update s.scratch_f f (double.fin 0) })
    0 G.number_of_faces { i := 0, scratch_f := scratch_f, fpress := fpress }
  let s1 := forLoop (fpress_cell G htrans cpress) 0 G.number_of_cells s0
  forLoop (fpress_finish G bc) 0 G.number_of_faces s1

/-- The function `cfs_tpfa_res_fpress`, in double precision; the handle `h` enters through
the one member the function reads, the array `h->pimpl->scratch_f`.  Returns the face
pressures. -/
def cfs_tpfa_res_fpress (G : grid_t) (bc : flowbc_t) (np : Nat)
    (htrans pmobf gravcap_f scratch_f cpress fflux fpress : Nat → double) : Nat → double :=
  (compute_fpress G bc np htrans pmobf gravcap_f cpress fflux fpress scratch_f).fpress

/-- Modelled from the spec: the data members of `class AdaptiveSimulatorTimer`
(`AdaptiveSimulatorTimer.hpp`, absent from the sources) with `double` times; the start
date is left out. -/
structure AdaptiveSimulatorTimer where
  start_time_ : double
  total_time_ : double
  report_step_ : Int
  max_time_step_ : double
  current_time_ : double
  dt_ : double
  current_step_ : Int
  steps_ : List double

/-- The library function `std::min(a, b)`: `b` when `b < a`, else `a`. -/
def std_min (a b : double) : double := if dbl_lt b a then b else a

/-- The member function `AdaptiveSimulatorTimer::provideTimeStepEstimate`, in double
precision: the literals `1.05`, `1.5` and `0.5` are the nearest `double` values and each
product and the difference `total_time_ - current_time_` is rounded. -/
def AdaptiveSimulatorTimer.provideTimeStepEstimate (t : AdaptiveSimulatorTimer)
    (dt_estimate : double) : AdaptiveSimulatorTimer :=
  let remaining := dbl_sub t.total_time_ t.current_time_
  let t1 := { t with dt_ := std_min dt_estimate t.max_time_step_ }
  if dbl_lt (double.fin 0) remaining then
    if dbl_lt remaining (dbl_mul (dbl_of 105 100) t1.dt_) then
      let t2 := { t1 with dt_ := remaining }
      if dbl_lt t2.max_time_step_ t2.dt_ then
        { t2 with dt_ := dbl_mul (dbl_of 5 10) remaining }
      else t2
    else if dbl_lt remaining (dbl_mul (dbl_of 15 10) t1.dt_) then
      { t1 with dt_ := dbl_mul (dbl_of 5 10) remaining }
    else t1
  else t1

/-- The member function `AdaptiveSimulatorTimer::operator++`, in double precision. -/
def AdaptiveSimulatorTimer.increment (t : AdaptiveSimulatorTimer) : AdaptiveSimulatorTimer :=
  { t with
    current_step_ := t.current_step_ + 1
    current_time_ := dbl_add t.current_time_ t.dt_
    steps_ := t.steps_ ++ [t.dt_] }

/-- The member function `AdaptiveSimulatorTimer::totalTime`. -/
def AdaptiveSimulatorTimer.totalTime (t : AdaptiveSimulatorTimer) : double := t.total_time_

/-- The member function `AdaptiveSimulatorTimer::simulationTimeElapsed`. -/
def AdaptiveSimulatorTimer.simulationTimeElapsed (t : AdaptiveSimulatorTimer) : double :=
  t.current_time_

/-- The member function `AdaptiveSimulatorTimer::done`. -/
def AdaptiveSimulatorTimer.done (t : AdaptiveSimulatorTimer) : Bool :=
  dbl_le t.total_time_ t.current_time_

/-- The member function `SinglePvtConstCompr::mu(n, p, z, output_mu)`, in double
precision; `1.0 + x + 0.5*x*x` is `(1.0 + x) + ((0.5*x)*x)`. -/
def SinglePvtConstCompr.mu (s : SinglePvtConstCompr double) (n : Nat)
    (p _z output_mu : Nat → double) : Nat → double :=
  if dbl_nonzero s.visc_comp_ then
    forLoop (fun i out =>
        let x := dbl_mul (dbl_neg s.visc_comp_) (dbl_sub (p i) s.ref_press_)
        Function.update out i
          (dbl_div s.viscosity_
            (dbl_add (dbl_add (dbl_of 1 1) x) (dbl_mul (dbl_mul (dbl_of 5 10) x) x))))
      0 n output_mu
  else std_fill n s.viscosity_ output_mu

/-- The member function `SinglePvtConstCompr::B(n, p, z, output_B)`, in double
precision. -/
def SinglePvtConstCompr.B (s : SinglePvtConstCompr double) (n : Nat)
    (p _z output_B : Nat → double) : Nat → double :=
  if dbl_nonzero s.comp_ then
    forLoop (fun i out =>
        let x := dbl_mul s.comp_ (dbl_sub (p i) s.ref_press_)
        Function.update out i
          (dbl_div s.ref_B_
            (dbl_add (dbl_add (dbl_of 1 1) x) (dbl_mul (dbl_mul (dbl_of 5 10) x) x))))
      0 n output_B
  else std_fill n s.ref_B_ output_B

/-- A boundary-condition table without conditions. -/
def bc0 : flowbc_t := { type := fun _ => flowbc_type.UNSET, bcval := fun _ => double.fin 0 }

/-- A timer with the horizon `total`, the elapsed time `current` and the maximum step
`max_step`, before any step. -/
def timer (total current max_step : double) : AdaptiveSimulatorTimer :=
  { start_time_ := double.fin 0, total_time_ := total, report_step_ := 0,
    max_time_step_ := max_step, current_time_ := current, dt_ := double.fin 0,
    current_step_ := 0, steps_ := [] }

/-- Two phases on every face: mobilities `0.25`, `1.5`. -/
def pmob_two : Nat → double := fun k => if k % 2 = 0 then dbl_of 25 100 else dbl_of 15 10

/-- Two phases on every face: gravity terms `1.25`, `1.0`. -/
def gcap_two : Nat → double := fun k => if k % 2 = 0 then dbl_of 125 100 else dbl_of 1 1

end Dbl

/-! ## Loops -/

@[simp] theorem forLoop_zero {σ : Type} (body : Nat → σ → σ) (lo : Nat) (s : σ) :
    forLoop body lo 0 s = s := rfl

theorem forLoop_succ {σ : Type} (body : Nat → σ → σ) (lo n : Nat) (s : σ) :
    forLoop body lo (n + 1) s = body (lo + n) (forLoop body lo n s) := rfl

/-- Closed form of the state of the phase loop of `compute_darcyflux_and_deriv` after `n`
passes. -/
theorem darcy_loop (np : Nat) (trans dp : ℚ) (pmobf gcapf dflux dd : Nat → ℚ) (n : Nat)
    (hn : n ≤ np) :
    forLoop (fun p (s : (Nat → ℚ) × (Nat → ℚ)) =>
      let a := trans * pmobf p
      (Function.update s.1 p (a * (dp + gcapf p)),
       Function.update (Function.update s.2 (0 * np + p) a) (1 * np + p) (-a)))
      0 n (dflux, dd)
    = (fun k => if k < n then trans * pmobf k * (dp + gcapf k) else dflux k,
       fun k => if k < n then trans * pmobf k
                else if np ≤ k ∧ k < np + n then -(trans * pmobf (k - np)) else dd k) := by
  induction n with
  | zero =>
    refine Prod.ext (by simp) ?_
    funext k
    have : ¬ (np ≤ k ∧ k < np) := by omega
    simp [this]
  | succ n ih =>
    rw [forLoop_succ, ih (by omega)]
    refine Prod.ext ?_ ?_
    · funext k
      simp only [Function.update_apply, zero_add]
      split_ifs <;> first | rfl | omega | (subst_vars; rfl)
    · funext k
      simp only [Function.update_apply, zero_add, zero_mul, one_mul]
      split_ifs <;> first | rfl | omega | (subst_vars; simp)

theorem darcy_eq (np : Nat) (trans dp : ℚ) (pmobf gcapf dflux dd : Nat → ℚ) :
    compute_darcyflux_and_deriv np trans dp pmobf gcapf dflux dd
    = (fun k => if k < np then trans * pmobf k * (dp + gcapf k) else dflux k,
       fun k => if k < np then trans * pmobf k
                else if np ≤ k ∧ k < np + np then -(trans * pmobf (k - np)) else dd k) :=
  darcy_loop np trans dp pmobf gcapf dflux dd np le_rfl

theorem compflux_step_boundary (G : grid_t) (np : Nat) (cpress trans pmobf gcapf Af : Nat → ℚ)
    (f : Nat) (pimpl : cfs_tpfa_res_impl) (hf : ¬ interior G f) :
    compflux_step G np cpress trans pmobf gcapf Af f pimpl = pimpl := by
  unfold interior at hf
  simp only [compflux_step, if_neg hf]

/-- The flux work array left by the pass of an interior face. -/
theorem compflux_step_flux_work (G : grid_t) (np : Nat) (cpress trans pmobf gcapf Af : Nat → ℚ)
    (f : Nat) (pimpl : cfs_tpfa_res_impl) (hf : interior G f) (j : Nat) (hj : j < np) :
    (compflux_step G np cpress trans pmobf gcapf Af f pimpl).flux_work j
        = trans f * pmobf (f * np + j) * (face_dp G cpress f + gcapf (f * np + j)) ∧
    (compflux_step G np cpress trans pmobf gcapf Af f pimpl).flux_work (np + j)
        = trans f * pmobf (f * np + j) ∧
    (compflux_step G np cpress trans pmobf gcapf Af f pimpl).flux_work (np + (j + np))
        = -(trans f * pmobf (f * np + j)) := by
  unfold interior at hf
  simp only [compflux_step, if_pos hf, darcy_eq, writeBack, offset, face_dp]
  have h1 : ¬ (np ≤ j) := by omega
  have h2 : ¬ (j + np < np) := by omega
  have h3 : np ≤ j + np ∧ j + np < np + np := by omega
  simp [h1, hj, h2, h3]

theorem compflux_step_compflux (G : grid_t) (np : Nat) (cpress trans pmobf gcapf Af : Nat → ℚ)
    (f : Nat) (pimpl : cfs_tpfa_res_impl) (hf : interior G f) (k : Nat) :
    (compflux_step G np cpress trans pmobf gcapf Af f pimpl).compflux_f k
      = if f * np ≤ k ∧ k < f * np + np then
          ∑ j ∈ Finset.range np, Af (f * (np * np) + ((k - f * np) + j * np)) *
            (trans f * pmobf (f * np + j) * (face_dp G cpress f + gcapf (f * np + j)))
        else pimpl.compflux_f k := by
  have hw := compflux_step_flux_work G np cpress trans pmobf gcapf Af f pimpl hf
  have hf' := hf
  unfold interior at hf'
  simp only [compflux_step, if_pos hf'] at hw ⊢
  simp only [writeBack, matvec, offset]
  by_cases h1 : f * np ≤ k
  · by_cases h2 : k < f * np + np
    · have h3 : k - f * np < np := by omega
      rw [if_pos h1, if_pos h3, if_pos ⟨h1, h2⟩]
      refine Finset.sum_congr rfl fun j hj => ?_
      have := (hw j (Finset.mem_range.mp hj)).1
      simp only [writeBack] at this
      rw [this]
    · have h3 : ¬ (k - f * np < np) := by omega
      have h4 : ¬ (f * np ≤ k ∧ k < f * np + np) := by omega
      rw [if_pos h1, if_neg h3, if_neg h4]
      congr 1; omega
  · have h4 : ¬ (f * np ≤ k ∧ k < f * np + np) := by omega
    rw [if_neg h1, if_neg h4]

theorem compflux_step_deriv (G : grid_t) (np : Nat) (cpress trans pmobf gcapf Af : Nat → ℚ)
    (f : Nat) (pimpl : cfs_tpfa_res_impl) (hf : interior G f) (k : Nat) :
    (compflux_step G np cpress trans pmobf gcapf Af f pimpl).compflux_deriv_f k
      = if f * (2 * np) ≤ k ∧ k < f * (2 * np) + np then
          ∑ j ∈ Finset.range np, Af (f * (np * np) + ((k - f * (2 * np)) + j * np)) *
            (trans f * pmobf (f * np + j))
        else if f * (2 * np) + np ≤ k ∧ k < f * (2 * np) + 2 * np then
          ∑ j ∈ Finset.range np, Af (f * (np * np) + ((k - f * (2 * np) - np) + j * np)) *
            (-(trans f * pmobf (f * np + j)))
        else pimpl.compflux_deriv_f k := by
  have hw := compflux_step_flux_work G np cpress trans pmobf gcapf Af f pimpl hf
  have hf' := hf
  unfold interior at hf'
  simp only [compflux_step, if_pos hf'] at hw ⊢
  simp only [writeBack, matmat, offset]
  by_cases h1 : f * (2 * np) ≤ k
  · by_cases h2 : k < f * (2 * np) + np
    · have h3 : k - f * (2 * np) < np * 2 := by omega
      have h5 : k - f * (2 * np) < np := by omega
      rw [if_pos h1, if_pos h3, if_pos ⟨h1, h2⟩, Nat.mod_eq_of_lt h5, Nat.div_eq_of_lt h5]
      refine Finset.sum_congr rfl fun j hj => ?_
      have := (hw j (Finset.mem_range.mp hj)).2.1
      simp only [writeBack] at this
      rw [show np + (j + 0 * np) = np + j by omega, this]
    · by_cases h2' : k < f * (2 * np) + 2 * np
      · have h3 : k - f * (2 * np) < np * 2 := by omega
        have h4 : ¬ (f * (2 * np) ≤ k ∧ k < f * (2 * np) + np) := by omega
        have h5 : f * (2 * np) + np ≤ k ∧ k < f * (2 * np) + 2 * np := by omega
        have hnp : 0 < np := by omega
        have h6 : (k - f * (2 * np)) / np = 1 := by
          apply Nat.div_eq_of_lt_le <;> omega
        have h7 : (k - f * (2 * np)) % np = k - f * (2 * np) - np := by
          rw [Nat.mod_eq_sub_mod (by omega)]
          exact Nat.mod_eq_of_lt (by omega)
        rw [if_pos h1, if_pos h3, if_neg h4, if_pos h5, h6, h7]
        refine Finset.sum_congr rfl fun j hj => ?_
        have := (hw j (Finset.mem_range.mp hj)).2.2
        simp only [writeBack] at this
        rw [show np + (j + 1 * np) = np + (j + np) by omega, this]
      · have h3 : ¬ (k - f * (2 * np) < np * 2) := by omega
        have h4 : ¬ (f * (2 * np) ≤ k ∧ k < f * (2 * np) + np) := by omega
        have h5 : ¬ (f * (2 * np) + np ≤ k ∧ k < f * (2 * np) + 2 * np) := by omega
        rw [if_pos h1, if_neg h3, if_neg h4, if_neg h5]
        congr 1; omega
  · have h4 : ¬ (f * (2 * np) ≤ k ∧ k < f * (2 * np) + np) := by omega
    have h5 : ¬ (f * (2 * np) + np ≤ k ∧ k < f * (2 * np) + 2 * np) := by omega
    rw [if_neg h1, if_neg h4, if_neg h5]

theorem compflux_step_frame (G : grid_t) (np : Nat) (cpress trans pmobf gcapf Af : Nat → ℚ)
    (f : Nat) (pimpl : cfs_tpfa_res_impl) :
    (compflux_step G np cpress trans pmobf gcapf Af f pimpl).is_incomp = pimpl.is_incomp ∧
    (compflux_step G np cpress trans pmobf gcapf Af f pimpl).ratio = pimpl.ratio ∧
    (compflux_step G np cpress trans pmobf gcapf Af f pimpl).scratch_f = pimpl.scratch_f := by
  unfold compflux_step
  simp only []
  split_ifs <;> simp

theorem compflux_loop_frame (G : grid_t) (np : Nat) (cpress trans pmobf gcapf Af : Nat → ℚ)
    (pimpl : cfs_tpfa_res_impl) (n : Nat) :
    (forLoop (compflux_step G np cpress trans pmobf gcapf Af) 0 n pimpl).is_incomp
      = pimpl.is_incomp ∧
    (forLoop (compflux_step G np cpress trans pmobf gcapf Af) 0 n pimpl).ratio = pimpl.ratio ∧
    (forLoop (compflux_step G np cpress trans pmobf gcapf Af) 0 n pimpl).scratch_f
      = pimpl.scratch_f := by
  induction n with
  | zero => simp
  | succ n ih =>
    rw [forLoop_succ]
    have h := compflux_step_frame G np cpress trans pmobf gcapf Af (0 + n)
      (forLoop (compflux_step G np cpress trans pmobf gcapf Af) 0 n pimpl)
    exact ⟨h.1.trans ih.1, h.2.1.trans ih.2.1, h.2.2.trans ih.2.2⟩

theorem block_le (f n w : Nat) (h : f < n) : f * w + w ≤ n * w := by
  have := Nat.mul_le_mul_right w (Nat.succ_le_of_lt h)
  rwa [Nat.succ_mul] at this

/-- State of the component-flux array after the first `n` faces. -/
theorem compflux_loop_compflux (G : grid_t) (np : Nat) (cpress trans pmobf gcapf Af : Nat → ℚ)
    (pimpl : cfs_tpfa_res_impl) (n : Nat) :
    (∀ f, f < n → interior G f → ∀ i, i < np →
      (forLoop (compflux_step G np cpress trans pmobf gcapf Af) 0 n pimpl).compflux_f (f * np + i)
        = ∑ j ∈ Finset.range np, Af (f * (np * np) + (i + j * np)) *
            (trans f * pmobf (f * np + j) * (face_dp G cpress f + gcapf (f * np + j)))) ∧
    (∀ k, (∀ f, f < n → interior G f → ¬ (f * np ≤ k ∧ k < f * np + np)) →
      (forLoop (compflux_step G np cpress trans pmobf gcapf Af) 0 n pimpl).compflux_f k
        = pimpl.compflux_f k) := by
  induction n with
  | zero => exact ⟨fun f hf => absurd hf (Nat.not_lt_zero f), fun k _ => rfl⟩
  | succ n ih =>
    rw [forLoop_succ, Nat.zero_add]
    by_cases hn : interior G n
    · constructor
      · intro f hf hint i hi
        rw [compflux_step_compflux _ _ _ _ _ _ _ _ _ hn]
        rcases Nat.lt_succ_iff_lt_or_eq.mp hf with hlt | heq
        · have := block_le f n np hlt
          rw [if_neg (by omega)]
          exact ih.1 f hlt hint i hi
        · subst heq
          rw [if_pos (by omega), Nat.add_sub_cancel_left]
      · intro k hk
        rw [compflux_step_compflux _ _ _ _ _ _ _ _ _ hn, if_neg (hk n (Nat.lt_succ_self n) hn)]
        exact ih.2 k fun f hf hint => hk f (Nat.lt_succ_of_lt hf) hint
    · rw [compflux_step_boundary _ _ _ _ _ _ _ _ _ hn]
      constructor
      · intro f hf hint i hi
        rcases Nat.lt_succ_iff_lt_or_eq.mp hf with hlt | heq
        · exact ih.1 f hlt hint i hi
        · subst heq; exact absurd hint hn
      · intro k hk
        exact ih.2 k fun f hf hint => hk f (Nat.lt_succ_of_lt hf) hint

/-- State of the derivative array after the first `n` faces. -/
theorem compflux_loop_deriv (G : grid_t) (np : Nat) (cpress trans pmobf gcapf Af : Nat → ℚ)
    (pimpl : cfs_tpfa_res_impl) (n : Nat) :
    (∀ f, f < n → interior G f → ∀ i, i < np →
      (forLoop (compflux_step G np cpress trans pmobf gcapf Af) 0 n pimpl).compflux_deriv_f
          (f * (2 * np) + i)
        = ∑ j ∈ Finset.range np, Af (f * (np * np) + (i + j * np)) *
            (trans f * pmobf (f * np + j)) ∧
      (forLoop (compflux_step G np cpress trans pmobf gcapf Af) 0 n pimpl).compflux_deriv_f
          (f * (2 * np) + (np + i))
        = ∑ j ∈ Finset.range np, Af (f * (np * np) + (i + j * np)) *
            (-(trans f * pmobf (f * np + j)))) ∧
    (∀ k, (∀ f, f < n → interior G f → ¬ (f * (2 * np) ≤ k ∧ k < f * (2 * np) + 2 * np)) →
      (forLoop (compflux_step G np cpress trans pmobf gcapf Af) 0 n pimpl).compflux_deriv_f k
        = pimpl.compflux_deriv_f k) := by
  induction n with
  | zero => exact ⟨fun f hf => absurd hf (Nat.not_lt_zero f), fun k _ => rfl⟩
  | succ n ih =>
    rw [forLoop_succ, Nat.zero_add]
    by_cases hn : interior G n
    · constructor
      · intro f hf hint i hi
        rw [compflux_step_deriv _ _ _ _ _ _ _ _ _ hn, compflux_step_deriv _ _ _ _ _ _ _ _ _ hn]
        rcases Nat.lt_succ_iff_lt_or_eq.mp hf with hlt | heq
        · have := block_le f n (2 * np) hlt
          rw [if_neg (by omega), if_neg (by omega), if_neg (by omega), if_neg (by omega)]
          exact ih.1 f hlt hint i hi
        · subst heq
          rw [if_pos (by omega), if_neg (by omega), if_pos (by omega), Nat.add_sub_cancel_left,
            show f * (2 * np) + (np + i) - f * (2 * np) - np = i by omega]
          exact ⟨rfl, rfl⟩
      · intro k hk
        have := hk n (Nat.lt_succ_self n) hn
        rw [compflux_step_deriv _ _ _ _ _ _ _ _ _ hn, if_neg (by omega), if_neg (by omega)]
        exact ih.2 k fun f hf hint => hk f (Nat.lt_succ_of_lt hf) hint
    · rw [compflux_step_boundary _ _ _ _ _ _ _ _ _ hn]
      constructor
      · intro f hf hint i hi
        rcases Nat.lt_succ_iff_lt_or_eq.mp hf with hlt | heq
        · exact ih.1 f hlt hint i hi
        · subst heq; exact absurd hint hn
      · intro k hk
        exact ih.2 k fun f hf hint => hk f (Nat.lt_succ_of_lt hf) hint

/-- C3: for every phase `p < np`, `compute_darcyflux_and_deriv` returns
`dflux[p] = trans * pmobf[p] * (dp + gcapf[p])`, `dflux_deriv[p] = trans * pmobf[p]` and
`dflux_deriv[np + p] = -trans * pmobf[p]`; and the pass of `compute_compflux_and_deriv`
for an interior face `f` is the call with `trans[f]`, `dp = cpress[c1] - cpress[c2]`, the
mobilities and gravity terms of `f`, writing into `flux_work` and `flux_work + np`. -/
theorem C3_darcyflux_and_deriv (np : Nat) (trans dp : ℚ)
    (pmobf gcapf dflux dflux_deriv : Nat → ℚ)
    (G : grid_t) (cpress transf Af : Nat → ℚ) (pimpl : cfs_tpfa_res_impl) :
    (∀ p, p < np →
      (compute_darcyflux_and_deriv np trans dp pmobf gcapf dflux dflux_deriv).1 p
        = trans * pmobf p * (dp + gcapf p) ∧
      (compute_darcyflux_and_deriv np trans dp pmobf gcapf dflux dflux_deriv).2 p
        = trans * pmobf p ∧
      (compute_darcyflux_and_deriv np trans dp pmobf gcapf dflux dflux_deriv).2 (np + p)
        = -(trans * pmobf p)) ∧
    (∀ f, interior G f →
      (compflux_step G np cpress transf pmobf gcapf Af f pimpl).flux_work
        = writeBack
            (compute_darcyflux_and_deriv np (transf f)
              (cpress (G.face_cells (2 * f + 0)).toNat - cpress (G.face_cells (2 * f + 1)).toNat)
              (offset pmobf (f * np)) (offset gcapf (f * np))
              pimpl.flux_work (offset pimpl.flux_work np)).1 np
            (compute_darcyflux_and_deriv np (transf f)
              (cpress (G.face_cells (2 * f + 0)).toNat - cpress (G.face_cells (2 * f + 1)).toNat)
              (offset pmobf (f * np)) (offset gcapf (f * np))
              pimpl.flux_work (offset pimpl.flux_work np)).2) := by
  constructor
  · intro p hp
    rw [darcy_eq]
    have h1 : ¬ (np + p < np) := by omega
    have h2 : np ≤ np + p ∧ np + p < np + np := by omega
    simp [hp, h1, h2]
  · intro f hf
    unfold interior at hf
    simp only [compflux_step, if_pos hf]

/-- The statement of `C3_darcyflux_and_deriv` at a sample input. -/
theorem C3_darcyflux_and_deriv_witness :
    (compute_darcyflux_and_deriv 2 3 5 (fun _ => 7) (fun _ => 1) (fun _ => 0) (fun _ => 0)).1 1
        = 3 * 7 * (5 + 1) ∧
    (compflux_step grid2 1 (fun _ => 1) (fun _ => 1) (fun _ => 7) (fun _ => 1) (fun _ => 1) 0
        blank_impl).flux_work
      = writeBack
          (compute_darcyflux_and_deriv 1 1 (1 - 1) (offset (fun _ => 7) (0 * 1))
            (offset (fun _ => 1) (0 * 1)) blank_impl.flux_work
            (offset blank_impl.flux_work 1)).1 1
          (compute_darcyflux_and_deriv 1 1 (1 - 1) (offset (fun _ => 7) (0 * 1))
            (offset (fun _ => 1) (0 * 1)) blank_impl.flux_work
            (offset blank_impl.flux_work 1)).2 :=
  ⟨((C3_darcyflux_and_deriv 2 3 5 (fun _ => 7) (fun _ => 1) (fun _ => 0) (fun _ => 0)
      grid2 (fun _ => 1) (fun _ => 1) (fun _ => 1) blank_impl).1 1 (by decide)).1,
   (C3_darcyflux_and_deriv 1 3 5 (fun _ => 7) (fun _ => 1) (fun _ => 0) (fun _ => 0)
      grid2 (fun _ => 1) (fun _ => 1) (fun _ => 1) blank_impl).2 0 (by decide)⟩

theorem block_disjoint (f g w k : Nat) (hne : g ≠ f) (hk : f * w ≤ k ∧ k < f * w + w) :
    ¬ (g * w ≤ k ∧ k < g * w + w) := by
  rcases Nat.lt_or_gt_of_ne hne with h | h
  · have := block_le g f w h; omega
  · have := block_le f g w h; omega

/-- C4: after `compute_compflux_and_deriv`, for every interior face `f` the block
`compflux_f[f*np .. f*np+np)` holds `Af_f * v_f` (`Af_f` column-major, `v_f[j]` the Darcy
flux `trans[f] * pmobf[f*np+j] * (cpress[c1] - cpress[c2] + gcapf[f*np+j])`) and the block
`compflux_deriv_f[f*2np .. f*2np+2np)` holds the two columns `Af_f * a` and `Af_f * (-a)`
with `a[j] = trans[f] * pmobf[f*np+j]`; the blocks of the other faces keep their prior
contents. -/
theorem C4_compflux_blocks (G : grid_t) (np : Nat) (cpress trans pmobf gcapf Af : Nat → ℚ)
    (pimpl : cfs_tpfa_res_impl) :
    (∀ f, f < G.number_of_faces → interior G f → ∀ i, i < np →
      (compute_compflux_and_deriv G np cpress trans pmobf gcapf Af pimpl).compflux_f (f * np + i)
        = ∑ j ∈ Finset.range np, Af (f * (np * np) + (i + j * np)) *
            (trans f * pmobf (f * np + j) *
              (cpress (G.face_cells (2 * f + 0)).toNat - cpress (G.face_cells (2 * f + 1)).toNat
                + gcapf (f * np + j))) ∧
      (compute_compflux_and_deriv G np cpress trans pmobf gcapf Af pimpl).compflux_deriv_f
          (f * (2 * np) + i)
        = ∑ j ∈ Finset.range np, Af (f * (np * np) + (i + j * np)) *
            (trans f * pmobf (f * np + j)) ∧
      (compute_compflux_and_deriv G np cpress trans pmobf gcapf Af pimpl).compflux_deriv_f
          (f * (2 * np) + (np + i))
        = ∑ j ∈ Finset.range np, Af (f * (np * np) + (i + j * np)) *
            (-(trans f * pmobf (f * np + j)))) ∧
    (∀ f, ¬ interior G f →
      (∀ i, i < np →
        (compute_compflux_and_deriv G np cpress trans pmobf gcapf Af pimpl).compflux_f
            (f * np + i) = pimpl.compflux_f (f * np + i)) ∧
      (∀ i, i < 2 * np →
        (compute_compflux_and_deriv G np cpress trans pmobf gcapf Af pimpl).compflux_deriv_f
            (f * (2 * np) + i) = pimpl.compflux_deriv_f (f * (2 * np) + i))) := by
  unfold compute_compflux_and_deriv
  constructor
  · intro f hf hint i hi
    have h1 := (compflux_loop_compflux G np cpress trans pmobf gcapf Af pimpl
      G.number_of_faces).1 f hf hint i hi
    have h2 := (compflux_loop_deriv G np cpress trans pmobf gcapf Af pimpl
      G.number_of_faces).1 f hf hint i hi
    exact ⟨h1, h2.1, h2.2⟩
  · intro f hf
    constructor
    · intro i hi
      refine (compflux_loop_compflux G np cpress trans pmobf gcapf Af pimpl
        G.number_of_faces).2 _ fun g _ hg => ?_
      have hne : g ≠ f := fun h => hf (h ▸ hg)
      exact block_disjoint f g np _ hne (by omega)
    · intro i hi
      refine (compflux_loop_deriv G np cpress trans pmobf gcapf Af pimpl
        G.number_of_faces).2 _ fun g _ hg => ?_
      have hne : g ≠ f := fun h => hf (h ▸ hg)
      exact block_disjoint f g (2 * np) _ hne (by omega)

/-- The statement of `C4_compflux_blocks` at a sample input. -/
theorem C4_compflux_blocks_witness :
    (compute_compflux_and_deriv grid2 1 (fun c => 3 * c) (fun _ => 2) (fun _ => 5)
        (fun _ => 1) (fun _ => 7) blank_impl).compflux_f (0 * 1 + 0)
      = ∑ j ∈ Finset.range 1, (fun _ => 7 : Nat → ℚ) (0 * (1 * 1) + (0 + j * 1)) *
          ((fun _ => 2 : Nat → ℚ) 0 * (fun _ => 5 : Nat → ℚ) (0 * 1 + j) *
            ((fun c => 3 * c : Nat → ℚ) (grid2.face_cells (2 * 0 + 0)).toNat
              - (fun c => 3 * c : Nat → ℚ) (grid2.face_cells (2 * 0 + 1)).toNat
              + (fun _ => 1 : Nat → ℚ) (0 * 1 + j))) :=
  ((C4_compflux_blocks grid2 1 (fun c => 3 * c) (fun _ => 2) (fun _ => 5)
    (fun _ => 1) (fun _ => 7) blank_impl).1 0 (by decide) (by decide) 0 (by decide)).1

/-- C6: after `compute_compflux_and_deriv`, for every interior face and every component
`i` the stored derivative with respect to the second neighbour's pressure is the negative
of the stored derivative with respect to the first neighbour's pressure. -/
theorem C6_flux_deriv_antisymmetric (G : grid_t) (np : Nat)
    (cpress trans pmobf gcapf Af : Nat → ℚ) (pimpl : cfs_tpfa_res_impl)
    (f : Nat) (hf : f < G.number_of_faces) (hint : interior G f) (i : Nat) (hi : i < np) :
    (compute_compflux_and_deriv G np cpress trans pmobf gcapf Af pimpl).compflux_deriv_f
        (f * (2 * np) + (np + i))
      = -(compute_compflux_and_deriv G np cpress trans pmobf gcapf Af pimpl).compflux_deriv_f
          (f * (2 * np) + i) := by
  have h := (compflux_loop_deriv G np cpress trans pmobf gcapf Af pimpl
    G.number_of_faces).1 f hf hint i hi
  unfold compute_compflux_and_deriv
  rw [h.1, h.2, ← Finset.sum_neg_distrib]
  exact Finset.sum_congr rfl fun j _ => by ring

/-- The statement of `C6_flux_deriv_antisymmetric` at a sample input. -/
theorem C6_flux_deriv_antisymmetric_witness :
    (compute_compflux_and_deriv grid2 1 (fun c => 3 * c) (fun _ => 2) (fun _ => 5)
        (fun _ => 1) (fun _ => 7) blank_impl).compflux_deriv_f (0 * (2 * 1) + (1 + 0))
      = -(compute_compflux_and_deriv grid2 1 (fun c => 3 * c) (fun _ => 2) (fun _ => 5)
        (fun _ => 1) (fun _ => 7) blank_impl).compflux_deriv_f (0 * (2 * 1) + 0) :=
  C6_flux_deriv_antisymmetric grid2 1 (fun c => 3 * c) (fun _ => 2) (fun _ => 5)
    (fun _ => 1) (fun _ => 7) blank_impl 0 (by decide) (by decide) 0 (by decide)

theorem face_dp_update_first (G : grid_t) (cpress : Nat → ℚ) (f : Nat) (h : ℚ)
    (hne : (G.face_cells (2 * f + 0)).toNat ≠ (G.face_cells (2 * f + 1)).toNat) :
    face_dp G (Function.update cpress (G.face_cells (2 * f + 0)).toNat
        (cpress (G.face_cells (2 * f + 0)).toNat + h)) f = face_dp G cpress f + h := by
  unfold face_dp
  rw [Function.update_same, Function.update_noteq (Ne.symm hne)]
  ring

theorem face_dp_update_second (G : grid_t) (cpress : Nat → ℚ) (f : Nat) (h : ℚ)
    (hne : (G.face_cells (2 * f + 0)).toNat ≠ (G.face_cells (2 * f + 1)).toNat) :
    face_dp G (Function.update cpress (G.face_cells (2 * f + 1)).toNat
        (cpress (G.face_cells (2 * f + 1)).toNat + h)) f = face_dp G cpress f - h := by
  unfold face_dp
  rw [Function.update_same, Function.update_noteq hne]
  ring

/-- C5: the stored derivative block is the exact pressure sensitivity of the stored
component flux.  For an interior face `f = (c1, c2)` with `c1 ≠ c2` and every `h`,
recomputing with `cpress[c1] + h` in place of `cpress[c1]` changes the component flux of
`f` by `h` times the first derivative column of `f`, and with `cpress[c2] + h` in place of
`cpress[c2]` by `h` times the second derivative column. -/
theorem C5_deriv_is_pressure_sensitivity (G : grid_t) (np : Nat)
    (cpress trans pmobf gcapf Af : Nat → ℚ) (pimpl : cfs_tpfa_res_impl)
    (f : Nat) (hf : f < G.number_of_faces) (hint : interior G f)
    (hne : G.face_cells (2 * f + 0) ≠ G.face_cells (2 * f + 1))
    (h : ℚ) (i : Nat) (hi : i < np) :
    (compute_compflux_and_deriv G np
        (Function.update cpress (G.face_cells (2 * f + 0)).toNat
          (cpress (G.face_cells (2 * f + 0)).toNat + h))
        trans pmobf gcapf Af pimpl).compflux_f (f * np + i)
      = (compute_compflux_and_deriv G np cpress trans pmobf gcapf Af pimpl).compflux_f
          (f * np + i)
        + h * (compute_compflux_and_deriv G np cpress trans pmobf gcapf Af
            pimpl).compflux_deriv_f (f * (2 * np) + i) ∧
    (compute_compflux_and_deriv G np
        (Function.update cpress (G.face_cells (2 * f + 1)).toNat
          (cpress (G.face_cells (2 * f + 1)).toNat + h))
        trans pmobf gcapf Af pimpl).compflux_f (f * np + i)
      = (compute_compflux_and_deriv G np cpress trans pmobf gcapf Af pimpl).compflux_f
          (f * np + i)
        + h * (compute_compflux_and_deriv G np cpress trans pmobf gcapf Af
            pimpl).compflux_deriv_f (f * (2 * np) + (np + i)) := by
  have hne' : (G.face_cells (2 * f + 0)).toNat ≠ (G.face_cells (2 * f + 1)).toNat := by
    intro heq
    apply hne
    have h1 := Int.toNat_of_nonneg hint.1
    have h2 := Int.toNat_of_nonneg hint.2
    rw [← h1, ← h2, heq]
  have hd := (compflux_loop_deriv G np cpress trans pmobf gcapf Af pimpl
    G.number_of_faces).1 f hf hint i hi
  have h0 := (compflux_loop_compflux G np cpress trans pmobf gcapf Af pimpl
    G.number_of_faces).1 f hf hint i hi
  unfold compute_compflux_and_deriv
  constructor
  · rw [(compflux_loop_compflux G np _ trans pmobf gcapf Af pimpl
      G.number_of_faces).1 f hf hint i hi, h0, hd.1, face_dp_update_first G cpress f h hne',
      Finset.mul_sum, ← Finset.sum_add_distrib]
    exact Finset.sum_congr rfl fun j _ => by ring
  · rw [(compflux_loop_compflux G np _ trans pmobf gcapf Af pimpl
      G.number_of_faces).1 f hf hint i hi, h0, hd.2, face_dp_update_second G cpress f h hne',
      Finset.mul_sum, ← Finset.sum_add_distrib]
    exact Finset.sum_congr rfl fun j _ => by ring

/-- The statement of `C5_deriv_is_pressure_sensitivity` at a sample input. -/
theorem C5_deriv_is_pressure_sensitivity_witness :
    (compute_compflux_and_deriv grid2 1
        (Function.update (fun c => 3 * c : Nat → ℚ) (grid2.face_cells (2 * 0 + 0)).toNat
          ((fun c => 3 * c : Nat → ℚ) (grid2.face_cells (2 * 0 + 0)).toNat + 4))
        (fun _ => 2) (fun _ => 5) (fun _ => 1) (fun _ => 7) blank_impl).compflux_f (0 * 1 + 0)
      = (compute_compflux_and_deriv grid2 1 (fun c => 3 * c) (fun _ => 2) (fun _ => 5)
          (fun _ => 1) (fun _ => 7) blank_impl).compflux_f (0 * 1 + 0)
        + 4 * (compute_compflux_and_deriv grid2 1 (fun c => 3 * c) (fun _ => 2) (fun _ => 5)
          (fun _ => 1) (fun _ => 7) blank_impl).compflux_deriv_f (0 * (2 * 1) + 0) :=
  (C5_deriv_is_pressure_sensitivity grid2 1 (fun c => 3 * c) (fun _ => 2) (fun _ => 5)
    (fun _ => 1) (fun _ => 7) blank_impl 0 (by decide) (by decide) (by decide) 4 0
    (by decide)).1

/-! ## The sparsity pattern: counting and filling -/

theorem row_of_append (P Q : List (Nat × Nat)) (r : Nat) :
    row_of (P ++ Q) r = row_of P r ++ row_of Q r := by
  simp [row_of]

theorem row_of_singleton (r v r' : Nat) :
    row_of [(r, v)] r' = if r = r' then [v] else [] := by
  by_cases h : r = r' <;> simp [row_of, h]

theorem row_of_nil (r : Nat) : row_of [] r = [] := rfl

theorem row_start_succ (ia : Nat → Nat) (i : Nat) :
    row_start ia (i + 1) = row_start ia i + ia (i + 1) := rfl

theorem row_start_mono (ia : Nat → Nat) {a b : Nat} (h : a ≤ b) :
    row_start ia a ≤ row_start ia b := by
  induction b with
  | zero => simp [Nat.le_zero.mp h]
  | succ b ih =>
    rcases Nat.le_succ_iff.mp h with h' | h'
    · exact le_trans (ih h') (by rw [row_start_succ]; omega)
    · rw [h']

/-- One store of the filling pass keeps the rows filled so far in place and appends to
its own row. -/
theorem push_entry_inv (cnt : Nat → Nat) (nc : Nat) (P : List (Nat × Nat)) (r v : Nat)
    (hr : r < nc)
    (hcap : ∀ r', (row_of (P ++ [(r, v)]) r').length ≤ cnt (r' + 1))
    (s : (Nat → Nat) × (Nat → Nat))
    (hinv : ∀ r', r' < nc →
      s.1 (r' + 1) = row_start cnt r' + (row_of P r').length ∧
      ∀ k, k < (row_of P r').length → s.2 (row_start cnt r' + k) = (row_of P r').getD k 0) :
    ∀ r', r' < nc →
      (push_entry r v s).1 (r' + 1) = row_start cnt r' + (row_of (P ++ [(r, v)]) r').length ∧
      ∀ k, k < (row_of (P ++ [(r, v)]) r').length →
        (push_entry r v s).2 (row_start cnt r' + k) = (row_of (P ++ [(r, v)]) r').getD k 0 := by
  intro r' hr'
  have hrr := hcap r
  rw [row_of_append, row_of_singleton, if_pos rfl, List.length_append] at hrr
  simp only [List.length_singleton] at hrr
  have hslot := (hinv r hr).1
  rw [row_of_append, row_of_singleton]
  simp only [push_entry]
  by_cases h : r = r'
  · subst h
    rw [if_pos rfl]
    constructor
    · rw [Function.update_same, hslot, List.length_append]; simp; omega
    · intro k hk
      rw [List.length_append] at hk
      simp only [List.length_singleton] at hk
      rw [hslot]
      by_cases hk' : k < (row_of P r).length
      · rw [Function.update_noteq (by omega), (hinv r hr).2 k hk',
          List.getD_append _ _ _ _ hk']
      · have hk'' : k = (row_of P r).length := by omega
        subst hk''
        rw [Function.update_same, List.getD_append_right _ _ _ _ (le_refl _)]
        simp
  · rw [if_neg h, List.append_nil]
    constructor
    · rw [Function.update_noteq (by omega)]
      exact (hinv r' hr').1
    · intro k hk
      have hcap' := hcap r'
      rw [row_of_append, row_of_singleton, if_neg h, List.append_nil] at hcap'
      have hne : row_start cnt r' + k ≠ s.1 (r + 1) := by
        rw [hslot]
        rcases Nat.lt_or_gt_of_ne h with hlt | hgt
        · have := row_start_mono cnt (Nat.succ_le_of_lt hlt)
          rw [row_start_succ] at this
          omega
        · have := row_start_mono cnt (Nat.succ_le_of_lt hgt)
          rw [row_start_succ] at this
          omega
      rw [Function.update_noteq hne]
      exact (hinv r' hr').2 k hk

theorem push_entry_zero (r v : Nat) (s : (Nat → Nat) × (Nat → Nat)) :
    (push_entry r v s).1 0 = s.1 0 := by
  simp [push_entry, Function.update_apply]

theorem face_entries_succ (G : grid_t) (n : Nat) :
    face_entries G (n + 1) = face_entries G n ++
      (if interior G n then
        [((G.face_cells (2 * n + 0)).toNat, (G.face_cells (2 * n + 1)).toNat),
         ((G.face_cells (2 * n + 1)).toNat, (G.face_cells (2 * n + 0)).toNat)]
      else []) := by
  simp [face_entries, List.range_succ, List.flatMap_append]

theorem self_entries_succ (n : Nat) : self_entries (n + 1) = self_entries n ++ [(n, n)] := by
  simp [self_entries, List.range_succ]

theorem self_entries_initial {a b : Nat} (h : a ≤ b) : self_entries a <+: self_entries b := by
  induction b with
  | zero => rw [Nat.le_zero.mp h]
  | succ b ih =>
    rcases Nat.le_succ_iff.mp h with h' | h'
    · exact (ih h').trans ⟨[(b, b)], (self_entries_succ b).symm⟩
    · rw [h']

theorem face_entries_initial (G : grid_t) {a b : Nat} (h : a ≤ b) :
    face_entries G a <+: face_entries G b := by
  induction b with
  | zero => rw [Nat.le_zero.mp h]
  | succ b ih =>
    rcases Nat.le_succ_iff.mp h with h' | h'
    · exact (ih h').trans ⟨_, (face_entries_succ G b).symm⟩
    · rw [h']

theorem row_of_length_le {P Q : List (Nat × Nat)} (h : P <+: Q) (r : Nat) :
    (row_of P r).length ≤ (row_of Q r).length := by
  obtain ⟨t, rfl⟩ := h
  rw [row_of_append, List.length_append]
  omega

theorem row_of_self_entries (n r : Nat) :
    row_of (self_entries n) r = if r < n then [r] else [] := by
  induction n with
  | zero => simp [self_entries, row_of]
  | succ n ih =>
    rw [self_entries_succ, row_of_append, ih, row_of_singleton]
    by_cases h1 : r < n
    · have h2 : n ≠ r := by omega
      have h3 : r < n + 1 := by omega
      simp [h1, h2, h3]
    · by_cases h2 : n = r
      · subst h2; simp
      · have h3 : ¬ r < n + 1 := by omega
        simp [h1, h2, h3]

/-- The order in which `construct_matrix` stores the entries of the pattern. -/
theorem fill_prefix_self (G : grid_t) {i : Nat} (h : i ≤ G.number_of_cells) :
    self_entries i <+: self_entries G.number_of_cells ++ face_entries G G.number_of_faces :=
  (self_entries_initial h).trans (List.prefix_append _ _)

theorem fill_prefix_face (G : grid_t) {n : Nat} (h : n ≤ G.number_of_faces) :
    self_entries G.number_of_cells ++ face_entries G n
      <+: self_entries G.number_of_cells ++ face_entries G G.number_of_faces :=
  (List.prefix_append_right_inj _).mpr (face_entries_initial G h)

/-! ### Counting pass -/

theorem count_self_loop (n : Nat) :
    forLoop (fun i (ia : Nat → Nat) => Function.update ia (i + 1) 1) 0 n (fun _ => 0)
      = fun k => if 1 ≤ k ∧ k ≤ n then 1 else 0 := by
  induction n with
  | zero =>
    funext k
    have : ¬ (1 ≤ k ∧ k ≤ 0) := by omega
    rw [forLoop_zero, if_neg this]
  | succ n ih =>
    rw [forLoop_succ, ih]
    funext k
    simp only [Function.update_apply, Nat.zero_add]
    split_ifs <;> first | rfl | omega

theorem count_entry_apply (c : Nat) (ia : Nat → Nat) (k : Nat) :
    count_entry c ia k = ia k + if k = c + 1 then 1 else 0 := by
  unfold count_entry
  rw [Function.update_apply]
  split_ifs with h
  · rw [h]
  · rfl

theorem count_face_loop (G : grid_t) (ia : Nat → Nat) (n r : Nat) :
    forLoop (fun f (ia : Nat → Nat) =>
        let c1 := G.face_cells (2 * f + 0)
        let c2 := G.face_cells (2 * f + 1)
        if 0 ≤ c1 ∧ 0 ≤ c2 then count_entry c2.toNat (count_entry c1.toNat ia) else ia)
      0 n ia (r + 1)
      = ia (r + 1) + (row_of (face_entries G n) r).length := by
  induction n with
  | zero => simp [face_entries, row_of]
  | succ n ih =>
    rw [forLoop_succ, face_entries_succ, row_of_append, List.length_append, ← Nat.add_assoc,
      ← ih, Nat.zero_add]
    generalize forLoop _ 0 n ia = X
    by_cases h : interior G n
    · have h' := h
      unfold interior at h'
      simp only [if_pos h', if_pos h, count_entry_apply]
      have e1 : row_of [((G.face_cells (2 * n + 0)).toNat, (G.face_cells (2 * n + 1)).toNat),
          ((G.face_cells (2 * n + 1)).toNat, (G.face_cells (2 * n + 0)).toNat)] r
          = row_of [((G.face_cells (2 * n + 0)).toNat, (G.face_cells (2 * n + 1)).toNat)] r ++
            row_of [((G.face_cells (2 * n + 1)).toNat, (G.face_cells (2 * n + 0)).toNat)] r := by
        rw [← row_of_append]; rfl
      rw [e1, List.length_append, row_of_singleton, row_of_singleton]
      by_cases h1 : (G.face_cells (2 * n + 0)).toNat = r <;>
        by_cases h2 : (G.face_cells (2 * n + 1)).toNat = r
      · have a1 : r + 1 = (G.face_cells (2 * n + 0)).toNat + 1 := by omega
        have a2 : r + 1 = (G.face_cells (2 * n + 1)).toNat + 1 := by omega
        rw [if_pos a1, if_pos a2, if_pos h1, if_pos h2]; simp
      · have a1 : r + 1 = (G.face_cells (2 * n + 0)).toNat + 1 := by omega
        have a2 : ¬ r + 1 = (G.face_cells (2 * n + 1)).toNat + 1 := by omega
        rw [if_pos a1, if_neg a2, if_pos h1, if_neg h2]; simp
      · have a1 : ¬ r + 1 = (G.face_cells (2 * n + 0)).toNat + 1 := by omega
        have a2 : r + 1 = (G.face_cells (2 * n + 1)).toNat + 1 := by omega
        rw [if_neg a1, if_pos a2, if_neg h1, if_pos h2]; simp
      · have a1 : ¬ r + 1 = (G.face_cells (2 * n + 0)).toNat + 1 := by omega
        have a2 : ¬ r + 1 = (G.face_cells (2 * n + 1)).toNat + 1 := by omega
        rw [if_neg a1, if_neg a2, if_neg h1, if_neg h2]; simp
    · have h' := h
      unfold interior at h'
      simp only [if_neg h', if_neg h]
      simp [row_of]

theorem count_face_loop_zero (G : grid_t) (ia : Nat → Nat) (n : Nat) :
    forLoop (fun f (ia : Nat → Nat) =>
        let c1 := G.face_cells (2 * f + 0)
        let c2 := G.face_cells (2 * f + 1)
        if 0 ≤ c1 ∧ 0 ≤ c2 then count_entry c2.toNat (count_entry c1.toNat ia) else ia)
      0 n ia 0 = ia 0 := by
  induction n with
  | zero => rfl
  | succ n ih =>
    rw [forLoop_succ]
    simp only []
    split_ifs
    · rw [count_entry_apply, count_entry_apply, ih]; simp
    · exact ih

theorem row_start_count_entry (r : Nat) (ia : Nat → Nat) (n : Nat) :
    row_start (count_entry r ia) n = row_start ia n + if r < n then 1 else 0 := by
  induction n with
  | zero => simp [row_start]
  | succ n ih =>
    rw [row_start_succ, row_start_succ, ih, count_entry_apply]
    by_cases h1 : r < n
    · have h2 : ¬ n + 1 = r + 1 := by omega
      have h3 : r < n + 1 := by omega
      rw [if_pos h1, if_neg h2, if_pos h3]; omega
    · by_cases h2 : n + 1 = r + 1
      · have h3 : r < n + 1 := by omega
        rw [if_neg h1, if_pos h2, if_pos h3]; omega
      · have h3 : ¬ r < n + 1 := by omega
        rw [if_neg h1, if_neg h2, if_neg h3]; omega

theorem row_start_self (m n : Nat) (h : n ≤ m) :
    row_start (fun k => if 1 ≤ k ∧ k ≤ m then 1 else 0) n = n := by
  induction n with
  | zero => rfl
  | succ n ih =>
    rw [row_start_succ, ih (by omega), if_pos (by omega)]

/-- The counting pass counts two entries for every interior face. -/
theorem count_face_loop_total (G : grid_t) (hG : faces_ok G) (ia : Nat → Nat) (n : Nat)
    (hn : n ≤ G.number_of_faces) :
    row_start (forLoop (fun f (ia : Nat → Nat) =>
        let c1 := G.face_cells (2 * f + 0)
        let c2 := G.face_cells (2 * f + 1)
        if 0 ≤ c1 ∧ 0 ≤ c2 then count_entry c2.toNat (count_entry c1.toNat ia) else ia)
      0 n ia) G.number_of_cells
      = row_start ia G.number_of_cells
        + 2 * ((List.range n).filter (fun f => decide (interior G f))).length := by
  induction n with
  | zero => simp
  | succ n ih =>
    rw [forLoop_succ, Nat.zero_add, List.range_succ, List.filter_append, List.length_append]
    have ih' := ih (by omega)
    generalize forLoop _ 0 n ia = X at ih' ⊢
    by_cases h : interior G n
    · have h' := h
      unfold interior at h'
      have hb := hG n (by omega)
      have b1 : (G.face_cells (2 * n + 0)).toNat < G.number_of_cells := by omega
      have b2 : (G.face_cells (2 * n + 1)).toNat < G.number_of_cells := by omega
      simp only [if_pos h', row_start_count_entry, if_pos b1, if_pos b2, ih']
      simp [h]
      omega
    · have h' := h
      unfold interior at h'
      simp only [if_neg h', ih']
      simp [h]

/-! ### Filling pass -/

theorem fill_self_loop (G : grid_t) (cnt : Nat → Nat)
    (hcnt : ∀ r, cnt (r + 1)
      = (row_of (self_entries G.number_of_cells ++ face_entries G G.number_of_faces) r).length)
    (s0 : (Nat → Nat) × (Nat → Nat))
    (h0 : ∀ r, r < G.number_of_cells → s0.1 (r + 1) = row_start cnt r)
    (i : Nat) (hi : i ≤ G.number_of_cells) :
    ∀ r, r < G.number_of_cells →
      (forLoop (fun i s => push_entry i i s) 0 i s0).1 (r + 1)
        = row_start cnt r + (row_of (self_entries i) r).length ∧
      ∀ k, k < (row_of (self_entries i) r).length →
        (forLoop (fun i s => push_entry i i s) 0 i s0).2 (row_start cnt r + k)
          = (row_of (self_entries i) r).getD k 0 := by
  induction i with
  | zero =>
    intro r hr
    refine ⟨by simp [self_entries, row_of, h0 r hr], fun k hk => ?_⟩
    simp [self_entries, row_of] at hk
  | succ i ih =>
    rw [forLoop_succ, Nat.zero_add, self_entries_succ]
    refine push_entry_inv cnt G.number_of_cells (self_entries i) i i (by omega) ?_ _
      (ih (by omega))
    intro r'
    rw [hcnt, ← self_entries_succ]
    exact row_of_length_le (fill_prefix_self G hi) r'

theorem fill_face_loop (G : grid_t) (hG : faces_ok G) (cnt : Nat → Nat)
    (hcnt : ∀ r, cnt (r + 1)
      = (row_of (self_entries G.number_of_cells ++ face_entries G G.number_of_faces) r).length)
    (s1 : (Nat → Nat) × (Nat → Nat))
    (h1 : ∀ r, r < G.number_of_cells →
      s1.1 (r + 1) = row_start cnt r + (row_of (self_entries G.number_of_cells) r).length ∧
      ∀ k, k < (row_of (self_entries G.number_of_cells) r).length →
        s1.2 (row_start cnt r + k) = (row_of (self_entries G.number_of_cells) r).getD k 0)
    (n : Nat) (hn : n ≤ G.number_of_faces) :
    ∀ r, r < G.number_of_cells →
      (forLoop (fun f s =>
          let c1 := G.face_cells (2 * f + 0)
          let c2 := G.face_cells (2 * f + 1)
          if 0 ≤ c1 ∧ 0 ≤ c2 then
            push_entry c2.toNat c1.toNat (push_entry c1.toNat c2.toNat s)
          else s) 0 n s1).1 (r + 1)
        = row_start cnt r
          + (row_of (self_entries G.number_of_cells ++ face_entries G n) r).length ∧
      ∀ k, k < (row_of (self_entries G.number_of_cells ++ face_entries G n) r).length →
        (forLoop (fun f s =>
          let c1 := G.face_cells (2 * f + 0)
          let c2 := G.face_cells (2 * f + 1)
          if 0 ≤ c1 ∧ 0 ≤ c2 then
            push_entry c2.toNat c1.toNat (push_entry c1.toNat c2.toNat s)
          else s) 0 n s1).2 (row_start cnt r + k)
          = (row_of (self_entries G.number_of_cells ++ face_entries G n) r).getD k 0 := by
  induction n with
  | zero =>
    simp only [forLoop_zero, face_entries, List.range_zero, List.flatMap_nil, List.append_nil]
    exact h1
  | succ n ih =>
    rw [forLoop_succ, Nat.zero_add]
    have ih' := ih (by omega)
    have hpre := fill_prefix_face G hn
    rw [face_entries_succ] at hpre ⊢
    generalize forLoop _ 0 n s1 = X at ih' ⊢
    by_cases h : interior G n
    · have h' := h
      unfold interior at h'
      have hb := hG n (by omega)
      have b1 : (G.face_cells (2 * n + 0)).toNat < G.number_of_cells := by omega
      have b2 : (G.face_cells (2 * n + 1)).toNat < G.number_of_cells := by omega
      simp only [if_pos h', if_pos h] at hpre ⊢
      have e : self_entries G.number_of_cells ++ (face_entries G n ++
          [((G.face_cells (2 * n + 0)).toNat, (G.face_cells (2 * n + 1)).toNat),
           ((G.face_cells (2 * n + 1)).toNat, (G.face_cells (2 * n + 0)).toNat)])
          = ((self_entries G.number_of_cells ++ face_entries G n) ++
              [((G.face_cells (2 * n + 0)).toNat, (G.face_cells (2 * n + 1)).toNat)]) ++
              [((G.face_cells (2 * n + 1)).toNat, (G.face_cells (2 * n + 0)).toNat)] := by
        simp
      rw [e] at hpre ⊢
      refine push_entry_inv cnt G.number_of_cells _ _ _ b2 ?_ _
        (push_entry_inv cnt G.number_of_cells _ _ _ b1 ?_ _ ih')
      · intro r'
        rw [hcnt]
        exact row_of_length_le hpre r'
      · intro r'
        rw [hcnt]
        exact row_of_length_le ((List.prefix_append _ _).trans hpre) r'
    · have h' := h
      unfold interior at h'
      simp only [if_neg h', if_neg h, List.append_nil]
      exact ih'

theorem fill_pass_zero (G : grid_t) (s : (Nat → Nat) × (Nat → Nat)) :
    (fill_pass G s).1 0 = s.1 0 := by
  have hA : ∀ n, (forLoop (fun i s => push_entry i i s) 0 n s).1 0 = s.1 0 := by
    intro n
    induction n with
    | zero => rfl
    | succ n ih => rw [forLoop_succ, push_entry_zero, ih]
  have hB : ∀ n (s1 : (Nat → Nat) × (Nat → Nat)), (forLoop (fun f s =>
      let c1 := G.face_cells (2 * f + 0)
      let c2 := G.face_cells (2 * f + 1)
      if 0 ≤ c1 ∧ 0 ≤ c2 then push_entry c2.toNat c1.toNat (push_entry c1.toNat c2.toNat s)
      else s) 0 n s1).1 0 = s1.1 0 := by
    intro n s1
    induction n with
    | zero => rfl
    | succ n ih =>
      rw [forLoop_succ]
      simp only []
      split_ifs
      · rw [push_entry_zero, push_entry_zero, ih]
      · exact ih
  unfold fill_pass
  simp only []
  rw [hB, hA]

/-- After the counting pass `ia[r + 1]` is the number of entries of row `r`. -/
theorem count_pass_row (G : grid_t) (r : Nat) :
    count_pass G (fun _ => 0) (r + 1)
      = (row_of (self_entries G.number_of_cells ++ face_entries G G.number_of_faces) r).length := by
  unfold count_pass
  simp only []
  rw [count_face_loop, count_self_loop, row_of_append, List.length_append, row_of_self_entries]
  by_cases h : r < G.number_of_cells
  · have h2 : 1 ≤ r + 1 ∧ r + 1 ≤ G.number_of_cells := by omega
    simp only [if_pos h, if_pos h2, List.length_singleton]
  · have h2 : ¬ (1 ≤ r + 1 ∧ r + 1 ≤ G.number_of_cells) := by omega
    simp only [if_neg h, if_neg h2, List.length_nil]

theorem count_pass_total (G : grid_t) (hG : faces_ok G) :
    row_start (count_pass G (fun _ => 0)) G.number_of_cells
      = G.number_of_cells + 2 * num_interior_faces G := by
  unfold count_pass num_interior_faces
  simp only []
  rw [count_face_loop_total G hG _ _ le_rfl, count_self_loop, row_start_self _ _ le_rfl]

/-- After the filling pass the row pointers are the row starts and every row holds its
entries in fill order. -/
theorem fill_pass_rows (G : grid_t) (hG : faces_ok G) (ja0 : Nat → Nat) (ia0 : Nat → Nat)
    (h0 : ia0 0 = 0)
    (h1 : ∀ r, r < G.number_of_cells →
      ia0 (r + 1) = row_start (count_pass G (fun _ => 0)) r) :
    (∀ i, i ≤ G.number_of_cells →
      (fill_pass G (ia0, ja0)).1 i = row_start (count_pass G (fun _ => 0)) i) ∧
    (∀ r, r < G.number_of_cells →
      csr_row (fill_pass G (ia0, ja0)).1 (fill_pass G (ia0, ja0)).2 r
        = row_of (self_entries G.number_of_cells ++ face_entries G G.number_of_faces) r) := by
  have hcnt := count_pass_row G
  have hs := fill_self_loop G _ hcnt (ia0, ja0) h1 G.number_of_cells le_rfl
  have hf := fill_face_loop G hG _ hcnt _ hs G.number_of_faces le_rfl
  have hia : ∀ i, i ≤ G.number_of_cells →
      (fill_pass G (ia0, ja0)).1 i = row_start (count_pass G (fun _ => 0)) i := by
    intro i hi
    cases i with
    | zero => rw [fill_pass_zero]; exact h0
    | succ r =>
      have := (hf r (by omega)).1
      unfold fill_pass
      simp only []
      rw [this, row_start_succ, hcnt]
  refine ⟨hia, fun r hr => ?_⟩
  unfold csr_row
  rw [hia r (by omega), hia (r + 1) (by omega), row_start_succ, hcnt, Nat.add_sub_cancel_left]
  apply List.ext_getElem
  · simp
  · intro k hk1 hk2
    have := (hf r hr).2 k hk2
    unfold fill_pass
    simp only [List.getElem_map, List.getElem_range']
    rw [Nat.one_mul, this, List.getD_eq_getElem _ _ hk2]

/-! ### Sorting the rows -/

theorem csr_row_congr (ia ja ja' : Nat → Nat) (r : Nat)
    (h : ∀ x, ia r ≤ x → x < ia (r + 1) → ja x = ja' x) :
    csr_row ia ja r = csr_row ia ja' r := by
  unfold csr_row
  apply List.map_congr_left
  intro x hx
  rw [List.mem_range'_1] at hx
  exact h x hx.1 (by omega)

theorem csr_row_length (ia ja : Nat → Nat) (r : Nat) :
    (csr_row ia ja r).length = ia (r + 1) - ia r := by
  simp [csr_row]

theorem ia_mono (ia : Nat → Nat) (m : Nat) (hmono : ∀ r, r < m → ia r ≤ ia (r + 1))
    {a b : Nat} (hab : a ≤ b) (hb : b ≤ m) : ia a ≤ ia b := by
  induction b with
  | zero => rw [Nat.le_zero.mp hab]
  | succ b ih =>
    rcases Nat.le_succ_iff.mp hab with h' | h'
    · exact le_trans (ih h' (by omega)) (hmono b (by omega))
    · rw [h']

theorem sort_rows_loop (ia ja0 : Nat → Nat) (m : Nat)
    (hmono : ∀ r, r < m → ia r ≤ ia (r + 1)) (n : Nat) (hn : n ≤ m) :
    (∀ r, r < n → csr_row ia (forLoop (sort_row ia) 0 n ja0) r
      = (csr_row ia ja0 r).insertionSort (fun a b => a ≤ b)) ∧
    (∀ x, ia n ≤ x → forLoop (sort_row ia) 0 n ja0 x = ja0 x) := by
  induction n with
  | zero => exact ⟨fun r hr => absurd hr (Nat.not_lt_zero r), fun x _ => rfl⟩
  | succ n ih =>
    have ih' := ih (by omega)
    rw [forLoop_succ, Nat.zero_add]
    generalize forLoop (sort_row ia) 0 n ja0 = X at ih' ⊢
    have hstep := hmono n (by omega)
    constructor
    · intro r hr
      rcases Nat.lt_succ_iff_lt_or_eq.mp hr with hlt | heq
      · rw [← ih'.1 r hlt]
        apply csr_row_congr
        intro x _ hx2
        have := ia_mono ia m hmono (by omega : r + 1 ≤ n) (by omega : n ≤ m)
        unfold sort_row
        rw [if_neg (by omega)]
      · subst heq
        have hrow : csr_row ia X r = csr_row ia ja0 r :=
          csr_row_congr _ _ _ _ fun x hx1 _ => ih'.2 x hx1
        have hlen : ((csr_row ia ja0 r).insertionSort (fun a b => a ≤ b)).length
            = ia (r + 1) - ia r := by
          rw [List.length_insertionSort, csr_row_length]
        apply List.ext_getElem
        · rw [csr_row_length, hlen]
        · intro k hk1 hk2
          have e : (csr_row ia (sort_row ia r X) r)[k] = sort_row ia r X (ia r + k) := by
            simp [csr_row]
          rw [e]
          unfold sort_row
          have hk3 := hk2
          rw [hlen] at hk3
          rw [if_pos (by omega), Nat.add_sub_cancel_left, hrow]
          exact List.getD_eq_getElem _ _ hk2
    · intro x hx
      unfold sort_row
      rw [if_neg (by omega)]
      exact ih'.2 x (by omega)

/-! ### The rows of the pattern -/

theorem row_of_face_entries (G : grid_t) (r n : Nat) :
    row_of (face_entries G n) r
      = (List.range n).flatMap fun f =>
          if interior G f then
            (if (G.face_cells (2 * f + 0)).toNat = r
              then [(G.face_cells (2 * f + 1)).toNat] else []) ++
            (if (G.face_cells (2 * f + 1)).toNat = r
              then [(G.face_cells (2 * f + 0)).toNat] else [])
          else [] := by
  induction n with
  | zero => rfl
  | succ n ih =>
    rw [face_entries_succ, row_of_append, ih, List.range_succ, List.flatMap_append]
    congr 1
    simp only [List.flatMap_cons, List.flatMap_nil, List.append_nil]
    by_cases h : interior G n
    · rw [if_pos h, if_pos h]
      have e : ∀ a b : Nat × Nat, row_of [a, b] r = row_of [a] r ++ row_of [b] r := by
        intro a b; rw [← row_of_append]; rfl
      rw [e, row_of_singleton, row_of_singleton]
    · rw [if_neg h, if_neg h]; rfl

theorem row_of_fill (G : grid_t) (r : Nat) (hr : r < G.number_of_cells) :
    row_of (self_entries G.number_of_cells ++ face_entries G G.number_of_faces) r
      = expected_row G r := by
  rw [row_of_append, row_of_self_entries, if_pos hr, row_of_face_entries]
  rfl

/-- What `construct_matrix` returns for a grid with at least one cell: the row pointers
are the running sums of the row counts and every row is the ascending rearrangement of
the entries stored for it. -/
theorem construct_matrix_rows (G : grid_t) (hnc : 0 < G.number_of_cells) (hG : faces_ok G) :
    ∃ A, construct_matrix G = some A ∧ A.m = G.number_of_cells ∧
      A.nnz = G.number_of_cells + 2 * num_interior_faces G ∧
      (∀ i, i ≤ G.number_of_cells → A.ia i = row_start (count_pass G (fun _ => 0)) i) ∧
      (∀ r, r < G.number_of_cells →
        csr_row A.ia A.ja r = (expected_row G r).insertionSort (fun a b => a ≤ b)) := by
  have htot := count_pass_total G hG
  have hfill := fill_pass_rows G hG (fun _ => 0)
    (fun i => if i = 0 then 0 else if i ≤ G.number_of_cells
      then row_start (count_pass G (fun _ => 0)) (i - 1) else count_pass G (fun _ => 0) i)
    (by simp) (fun r hr => by
      have h1 : ¬ (r + 1 = 0) := by omega
      have h2 : r + 1 ≤ G.number_of_cells := by omega
      simp only [if_neg h1, if_pos h2, Nat.add_sub_cancel])
  unfold construct_matrix
  simp only [csrmatrix_new_count_nnz, csrmatrix_new_elms_pushback]
  rw [if_neg (by rw [htot]; omega), if_pos (hfill.1 _ le_rfl)]
  refine ⟨_, rfl, rfl, htot, ?_, ?_⟩
  · intro i hi
    exact hfill.1 i hi
  · intro r hr
    simp only [csrmatrix_sortrows]
    rw [(sort_rows_loop _ _ G.number_of_cells (fun r hr => by
        rw [hfill.1 r (by omega), hfill.1 (r + 1) (by omega), row_start_succ]
        omega) G.number_of_cells le_rfl).1 r hr,
      hfill.2 r hr, row_of_fill G r hr]

/-- C2: for a grid with at least one cell (whose face neighbours are cells of the grid)
`construct_matrix` returns a pattern with one row per cell, rows laid out one after the
other from position 0; the multiset of column indices stored in row `c` is `c` once plus,
for every interior face `(c1, c2)`, one `c2` in row `c1` and one `c1` in row `c2`; the
number of stored entries is `number_of_cells + 2 * (number of interior faces)`. -/
theorem C2_construct_matrix_pattern (G : grid_t) (hnc : 0 < G.number_of_cells)
    (hG : faces_ok G) :
    ∃ A, construct_matrix G = some A ∧ A.m = G.number_of_cells ∧ A.ia 0 = 0 ∧
      (∀ c, c < G.number_of_cells → A.ia c ≤ A.ia (c + 1) ∧
        ((csr_row A.ia A.ja c : List Nat) : Multiset Nat) = (expected_row G c : List Nat)) ∧
      A.ia G.number_of_cells = G.number_of_cells + 2 * num_interior_faces G ∧
      A.nnz = G.number_of_cells + 2 * num_interior_faces G := by
  obtain ⟨A, hA, hm, hnnz, hia, hrow⟩ := construct_matrix_rows G hnc hG
  refine ⟨A, hA, hm, ?_, ?_, ?_, hnnz⟩
  · rw [hia 0 (Nat.zero_le _)]; rfl
  · intro c hc
    constructor
    · rw [hia c (by omega), hia (c + 1) (by omega), row_start_succ]
      omega
    · rw [hrow c hc]
      exact Multiset.coe_eq_coe.mpr (List.perm_insertionSort _ _)
  · rw [hia _ le_rfl, count_pass_total G hG]

/-- The statement of `C2_construct_matrix_pattern` at a sample input. -/
theorem C2_construct_matrix_pattern_witness :
    ∃ A, construct_matrix grid2 = some A ∧ A.m = grid2.number_of_cells ∧ A.ia 0 = 0 ∧
      (∀ c, c < grid2.number_of_cells → A.ia c ≤ A.ia (c + 1) ∧
        ((csr_row A.ia A.ja c : List Nat) : Multiset Nat)
          = (expected_row grid2 c : List Nat)) ∧
      A.ia grid2.number_of_cells = grid2.number_of_cells + 2 * num_interior_faces grid2 ∧
      A.nnz = grid2.number_of_cells + 2 * num_interior_faces grid2 :=
  C2_construct_matrix_pattern grid2 (by decide) (by decide)

/-- The pattern that `construct_matrix` builds for the two-cell sample grid: rows
`[0, 1]` and `[0, 1]`. -/
theorem grid2_pattern :
    (construct_matrix grid2).map
        (fun A => (A.m, A.nnz, (List.range 3).map A.ia, (List.range 4).map A.ja))
      = some (2, 4, [0, 2, 4], [0, 1, 0, 1]) := by
  decide

/-! ## Loading the cell system -/

theorem interior_among_zero (G : grid_t) (lo : Nat) : interior_among G lo 0 = [] := rfl

theorem interior_among_succ (G : grid_t) (lo m : Nat) :
    interior_among G lo (m + 1) = interior_among G lo m ++
      (if interior G (G.cell_faces (lo + m)) then [G.cell_faces (lo + m)] else []) := by
  unfold interior_among
  rw [List.range'_1_concat, List.map_append, List.filter_append]
  by_cases h : interior G (G.cell_faces (lo + m)) <;> simp [h]

theorem interior_faces_eq (G : grid_t) (c : Nat) :
    interior_faces G c
      = interior_among G (G.cell_facepos c) (G.cell_facepos (c + 1) - G.cell_facepos c) := rfl

theorem interior_among_length_mono (G : grid_t) (lo : Nat) {a b : Nat} (h : a ≤ b) :
    (interior_among G lo a).length ≤ (interior_among G lo b).length := by
  induction b with
  | zero => rw [Nat.le_zero.mp h]
  | succ b ih =>
    rcases Nat.le_succ_iff.mp h with h' | h'
    · rw [interior_among_succ, List.length_append]
      exact le_trans (ih h') (Nat.le_add_right _ _)
    · rw [h']

theorem count_internal_conn_loop (G : grid_t) (lo m : Nat) (nconn0 : Int) :
    forLoop (fun i (nconn : Int) =>
        let f := G.cell_faces i
        let c1 := G.face_cells (2 * f + 0)
        let c2 := G.face_cells (2 * f + 1)
        nconn + (if 0 ≤ c1 ∧ 0 ≤ c2 then 1 else 0)) lo m nconn0
      = nconn0 + ((interior_among G lo m).length : Int) := by
  induction m with
  | zero => simp [interior_among_zero]
  | succ m ih =>
    rw [forLoop_succ, ih, interior_among_succ, List.length_append]
    by_cases h : interior G (G.cell_faces (lo + m))
    · have h' := h
      unfold interior at h'
      simp only [if_pos h', if_pos h, List.length_singleton]
      push_cast; ring
    · have h' := h
      unfold interior at h'
      simp only [if_neg h', if_neg h, List.length_nil]
      push_cast; ring

/-- The counter returned by `count_internal_conn` is its indeterminate start value plus
the number of interior faces of the cell. -/
theorem count_internal_conn_eq (G : grid_t) (c : Nat) (nconn0 : Int) :
    count_internal_conn G c nconn0 = nconn0 + ((interior_faces G c).length : Int) :=
  count_internal_conn_loop G _ _ nconn0

theorem init_step_boundary (G : grid_t) (np : Nat) (dt : ℚ) (cf cdf : Nat → ℚ) (i : Nat)
    (s : init_locals) (h : ¬ interior G (G.cell_faces i)) :
    init_cell_contrib_step G np dt cf cdf i s = s := by
  unfold interior at h
  simp only [init_cell_contrib_step, if_neg h]

/-- The cursors `conn` and `cflx` of `init_cell_contrib` advance once per interior face. -/
theorem init_loop_cursors (G : grid_t) (np : Nat) (dt : ℚ) (cf cdf : Nat → ℚ) (lo m : Nat)
    (s0 : init_locals) :
    (forLoop (init_cell_contrib_step G np dt cf cdf) lo m s0).conn
      = s0.conn + (interior_among G lo m).length ∧
    (forLoop (init_cell_contrib_step G np dt cf cdf) lo m s0).cflx
      = s0.cflx + ((interior_among G lo m).length : Int) * np ∧
    (forLoop (init_cell_contrib_step G np dt cf cdf) lo m s0).dcflx
      = s0.dcflx + ((interior_among G lo m).length : Int) * (2 * np) := by
  induction m with
  | zero => simp [interior_among_zero]
  | succ m ih =>
    rw [forLoop_succ, interior_among_succ, List.length_append]
    generalize forLoop (init_cell_contrib_step G np dt cf cdf) lo m s0 = X at ih ⊢
    by_cases h : interior G (G.cell_faces (lo + m))
    · have h' := h
      unfold interior at h'
      simp only [init_cell_contrib_step, if_pos h', if_pos h, List.length_singleton, ih]
      refine ⟨by omega, ?_, ?_⟩ <;> (push_cast; ring)
    · rw [init_step_boundary _ _ _ _ _ _ _ h, if_neg h]
      simpa using ih

theorem write_block (buf src : Nat → ℚ) (a n x : Nat) :
    writeBack buf a (memcpy (offset buf a) src n) x
      = if a ≤ x ∧ x < a + n then src (x - a) else buf x := by
  unfold writeBack memcpy offset
  by_cases h1 : a ≤ x
  · by_cases h2 : x - a < n
    · rw [if_pos h1, if_pos h2, if_pos (by omega)]
    · rw [if_pos h1, if_neg h2, if_neg (by omega)]
      congr 1; omega
  · rw [if_neg h1, if_neg (by omega)]

theorem init_step_interior (G : grid_t) (np : Nat) (dt : ℚ) (cf cdf : Nat → ℚ) (i : Nat)
    (s : init_locals) (h : interior G (G.cell_faces i)) (a b : Nat)
    (ha : s.cflx = (a : Int)) (hb : s.dcflx = (b : Int)) :
    (init_cell_contrib_step G np dt cf cdf i s).buffer
      = (fun x => if b ≤ x ∧ x < b + 2 * np then cdf (G.cell_faces i * (2 * np) + (x - b))
          else if a ≤ x ∧ x < a + np then cf (G.cell_faces i * np + (x - a))
          else s.buffer x) ∧
    (init_cell_contrib_step G np dt cf cdf i s).coeff = Function.update s.coeff s.conn dt := by
  unfold interior at h
  simp only [init_cell_contrib_step, if_pos h, ha, hb, Int.toNat_ofNat, and_true]
  funext x
  rw [write_block, write_block]
  simp only [offset, Nat.add_zero]

/-- The contents of `linsolve_buffer` and `coeff` while `init_cell_contrib` loads the
connections, `K` being the value of `nconn` that places the derivative blocks. -/
theorem init_loop_buffer (G : grid_t) (np : Nat) (dt : ℚ) (cf cdf : Nat → ℚ) (lo K : Nat)
    (s0 : init_locals) (hc0 : s0.conn = 1) (hcf : s0.cflx = 1 * (np : Int))
    (hdcf : s0.dcflx = 1 * (np : Int) + (K : Int) * np) (m : Nat)
    (hm : (interior_among G lo m).length ≤ K) :
    (∀ x, x < np →
      (forLoop (init_cell_contrib_step G np dt cf cdf) lo m s0).buffer x = s0.buffer x) ∧
    (∀ k, k < (interior_among G lo m).length → ∀ i, i < np →
      (forLoop (init_cell_contrib_step G np dt cf cdf) lo m s0).buffer (np + k * np + i)
        = cf ((interior_among G lo m).getD k 0 * np + i)) ∧
    (∀ k, k < (interior_among G lo m).length → ∀ i, i < 2 * np →
      (forLoop (init_cell_contrib_step G np dt cf cdf) lo m s0).buffer
          (np + K * np + k * (2 * np) + i)
        = cdf ((interior_among G lo m).getD k 0 * (2 * np) + i)) ∧
    (forLoop (init_cell_contrib_step G np dt cf cdf) lo m s0).coeff 0 = s0.coeff 0 ∧
    (∀ k, k < (interior_among G lo m).length →
      (forLoop (init_cell_contrib_step G np dt cf cdf) lo m s0).coeff (1 + k) = dt) := by
  induction m with
  | zero =>
    refine ⟨fun _ _ => rfl, ?_, ?_, rfl, ?_⟩ <;>
      (intro k hk; simp [interior_among_zero] at hk)
  | succ m ih =>
    have hlen := interior_among_length_mono G lo (by omega : m ≤ m + 1)
    have ih' := ih (by omega)
    have hcur := init_loop_cursors G np dt cf cdf lo m s0
    rw [forLoop_succ]
    rw [interior_among_succ] at hm ⊢
    generalize forLoop (init_cell_contrib_step G np dt cf cdf) lo m s0 = X at ih' hcur ⊢
    by_cases h : interior G (G.cell_faces (lo + m))
    · rw [if_pos h, List.length_append, List.length_singleton] at hm
      rw [if_pos h]
      have ha : X.cflx = ((np + (interior_among G lo m).length * np : Nat) : Int) := by
        rw [hcur.2.1, hcf]; push_cast; ring
      have hb : X.dcflx
          = ((np + K * np + (interior_among G lo m).length * (2 * np) : Nat) : Int) := by
        rw [hcur.2.2, hdcf]; push_cast; ring
      obtain ⟨hbuf, hco⟩ := init_step_interior G np dt cf cdf (lo + m) X h _ _ ha hb
      rw [hbuf, hco, hcur.1, hc0]
      have hK := block_le (interior_among G lo m).length K np (by omega)
      refine ⟨?_, ?_, ?_, ?_, ?_⟩
      · intro x hx
        simp only []
        rw [if_neg (by omega), if_neg (by omega)]
        exact ih'.1 x hx
      · intro k hk i hi
        rw [List.length_append, List.length_singleton] at hk
        have hkK := block_le k K np (by omega)
        simp only []
        rw [if_neg (by omega)]
        rcases Nat.lt_succ_iff_lt_or_eq.mp hk with hlt | heq
        · have := block_le k _ np hlt
          rw [if_neg (by omega), List.getD_append _ _ _ _ hlt]
          exact ih'.2.1 k hlt i hi
        · subst heq
          rw [if_pos (by omega), List.getD_append_right _ _ _ _ (le_refl _)]
          simp only [Nat.sub_self, List.getD_cons_zero]
          congr 2; omega
      · intro k hk i hi
        rw [List.length_append, List.length_singleton] at hk
        simp only []
        rcases Nat.lt_succ_iff_lt_or_eq.mp hk with hlt | heq
        · have := block_le k _ (2 * np) hlt
          rw [if_neg (by omega), if_neg (by omega), List.getD_append _ _ _ _ hlt]
          exact ih'.2.2.1 k hlt i hi
        · subst heq
          rw [if_pos (by omega), List.getD_append_right _ _ _ _ (le_refl _)]
          simp only [Nat.sub_self, List.getD_cons_zero]
          congr 2; omega
      · rw [Function.update_noteq (by omega)]
        exact ih'.2.2.2.1
      · intro k hk
        rw [List.length_append, List.length_singleton] at hk
        rcases Nat.lt_succ_iff_lt_or_eq.mp hk with hlt | heq
        · rw [Function.update_noteq (by omega)]
          exact ih'.2.2.2.2 k hlt
        · subst heq
          rw [Function.update_same]
    · rw [init_step_boundary _ _ _ _ _ _ _ h, if_neg h, List.append_nil]
      exact ih'

/-! ## The dense solve -/

theorem solve_entry_congr (np : Nat) (A A' b b' : Nat → ℚ) (p : Nat)
    (hA : ∀ k, k < np * np → A k = A' k) (hb : ∀ i, i < np → b i = b' i) :
    solve_entry np A b p = solve_entry np A' b' p := by
  have e1 : denseMat np A = denseMat np A' := by
    ext i j
    simp only [denseMat, Matrix.of_apply]
    apply hA
    have := block_le j.val np np j.isLt
    have := i.isLt
    omega
  have e2 : denseVec np b = denseVec np b' := by
    funext i
    exact hb i.val i.isLt
  unfold solve_entry
  rw [e1, e2]

theorem solve_linear_systems_apply (np nrhs : Nat) (w : densrat_util) (b : Nat → ℚ)
    (p j : Nat) (hp : p < np) (hj : j < nrhs) :
    solve_linear_systems np nrhs w b (p + j * np) = solve_entry np w.lu (offset b (j * np)) p := by
  have hk : p + j * np < np * nrhs := by
    have := block_le j nrhs np hj
    rw [Nat.mul_comm np nrhs]; omega
  have hdiv : (p + j * np) / np = j := by
    rw [Nat.add_mul_div_right _ _ (by omega), Nat.div_eq_of_lt hp, Nat.zero_add]
  have hmod : (p + j * np) % np = p := by
    rw [Nat.add_mul_mod_self_right, Nat.mod_eq_of_lt hp]
  unfold solve_linear_systems
  rw [if_pos hk, hdiv, hmod]

theorem solve_linear_systems_apply_zero (np nrhs : Nat) (w : densrat_util) (b : Nat → ℚ)
    (p : Nat) (hp : p < np) (hj : 0 < nrhs) :
    solve_linear_systems np nrhs w b p = solve_entry np w.lu b p := by
  have := solve_linear_systems_apply np nrhs w b p 0 hp hj
  rw [Nat.zero_mul, Nat.add_zero] at this
  rw [this]
  apply solve_entry_congr _ _ _ _ _ _ (fun _ _ => rfl)
  intro i _
  simp [offset]

theorem matvec_apply (nrow ncol : Nat) (A x y : Nat → ℚ) (i : Nat) (hi : i < nrow) :
    matvec nrow ncol A x y i = ∑ j ∈ Finset.range ncol, A (i + j * nrow) * x j := by
  unfold matvec
  rw [if_pos hi]

theorem solve_linear_systems_outside (np nrhs : Nat) (w : densrat_util) (b : Nat → ℚ)
    (k : Nat) (hk : np * nrhs ≤ k) : solve_linear_systems np nrhs w b k = b k := by
  unfold solve_linear_systems
  rw [if_neg (by omega)]

theorem solve_entry_add_smul (np : Nat) (A b1 b2 : Nat → ℚ) (a c : ℚ) (p : Nat) :
    solve_entry np A (fun i => a * b1 i + c * b2 i) p
      = a * solve_entry np A b1 p + c * solve_entry np A b2 p := by
  unfold solve_entry
  by_cases hp : p < np
  · simp only [dif_pos hp, denseSolve]
    have : denseVec np (fun i => a * b1 i + c * b2 i)
        = a • denseVec np b1 + c • denseVec np b2 := by
      funext i; simp [denseVec]
    rw [this, Matrix.mulVec_add, Matrix.mulVec_smul, Matrix.mulVec_smul]
    simp only [Pi.add_apply, Pi.smul_apply, smul_eq_mul]
    ring
  · simp [dif_neg hp]

/-- The solve `denseSolve` is multiplication by the inverse matrix. -/
theorem denseSolve_eq_inv {n : Nat} (A : Matrix (Fin n) (Fin n) ℚ) (b : Fin n → ℚ) :
    denseSolve A b = A⁻¹.mulVec b := by
  funext i
  unfold denseSolve
  rw [Matrix.inv_def, Ring.inverse_eq_inv', Matrix.smul_mulVec_assoc]
  simp only [Pi.smul_apply, smul_eq_mul]

theorem solve_entry_eq_inv (np : Nat) (A b : Nat → ℚ) (p : Nat) (hp : p < np) :
    solve_entry np A b p = ((denseMat np A)⁻¹.mulVec (denseVec np b)) ⟨p, hp⟩ := by
  unfold solve_entry
  rw [dif_pos hp, denseSolve_eq_inv]

theorem solve_entry_one (A b : Nat → ℚ) : solve_entry 1 A b 0 = (A 0)⁻¹ * b 0 := by
  simp [solve_entry, denseSolve, denseMat, denseVec, Matrix.det_fin_one,
    Matrix.adjugate_fin_one, Matrix.mulVec, Matrix.dotProduct]

theorem denseMat_one_det (A : Nat → ℚ) : (denseMat 1 A).det = A 0 := by
  simp [denseMat, Matrix.det_fin_one]

/-! ## The cell contribution -/

/-- With a counter that does not start at zero the assertions of `init_cell_contrib`
fail. -/
theorem init_cell_contrib_nonzero (G : grid_t) (c np : Nat) (pvol dt : ℚ) (z : Nat → ℚ)
    (pimpl : cfs_tpfa_res_impl) (nconn0 : Int) (h : nconn0 ≠ 0) :
    init_cell_contrib G c np pvol dt z pimpl nconn0 = none := by
  unfold init_cell_contrib
  simp only []
  rw [if_neg]
  intro hc
  have h1 := hc.1
  rw [(init_loop_cursors G np dt _ _ _ _ _).1, count_internal_conn_eq] at h1
  simp only [interior_faces_eq] at h1
  push_cast at h1
  omega

/-- With a counter that starts at zero `init_cell_contrib` returns the number of
interior faces and leaves `[z, fluxes, derivative blocks]` in `linsolve_buffer` and
`[-pvol, dt, .., dt]` in `coeff`. -/
theorem init_cell_contrib_zero (G : grid_t) (c np : Nat) (pvol dt : ℚ) (z : Nat → ℚ)
    (pimpl : cfs_tpfa_res_impl) :
    ∃ B C : Nat → ℚ,
      init_cell_contrib G c np pvol dt z pimpl 0
        = some (((interior_faces G c).length : Int),
            { pimpl with ratio := { pimpl.ratio with linsolve_buffer := B, coeff := C } }) ∧
      (∀ x, x < np → B x = z x) ∧
      (∀ k, k < (interior_faces G c).length → ∀ i, i < np →
        B (np + k * np + i) = pimpl.compflux_f ((interior_faces G c).getD k 0 * np + i)) ∧
      (∀ k, k < (interior_faces G c).length → ∀ i, i < 2 * np →
        B (np + (interior_faces G c).length * np + k * (2 * np) + i)
          = pimpl.compflux_deriv_f ((interior_faces G c).getD k 0 * (2 * np) + i)) ∧
      C 0 = -pvol ∧
      (∀ k, k < (interior_faces G c).length → C (1 + k) = dt) := by
  have hcount : count_internal_conn G c 0 = ((interior_faces G c).length : Int) := by
    rw [count_internal_conn_eq, Int.zero_add]
  unfold init_cell_contrib
  simp only [hcount]
  have hcur := init_loop_cursors G np dt pimpl.compflux_f pimpl.compflux_deriv_f
    (G.cell_facepos c) (G.cell_facepos (c + 1) - G.cell_facepos c)
    { buffer := memcpy pimpl.ratio.linsolve_buffer z np
      coeff := Function.update pimpl.ratio.coeff 0 (-pvol)
      conn := 1
      cflx := 1 * (np : Int)
      dcflx := 1 * (np : Int) + ((interior_faces G c).length : Int) * np }
  have hbuf := init_loop_buffer G np dt pimpl.compflux_f pimpl.compflux_deriv_f
    (G.cell_facepos c) (interior_faces G c).length
    { buffer := memcpy pimpl.ratio.linsolve_buffer z np
      coeff := Function.update pimpl.ratio.coeff 0 (-pvol)
      conn := 1
      cflx := 1 * (np : Int)
      dcflx := 1 * (np : Int) + ((interior_faces G c).length : Int) * np }
    rfl rfl rfl (G.cell_facepos (c + 1) - G.cell_facepos c) (le_refl _)
  rw [← interior_faces_eq] at hcur hbuf
  rw [if_pos]
  · refine ⟨_, _, rfl, ?_, hbuf.2.1, hbuf.2.2.1, ?_, hbuf.2.2.2.2⟩
    · intro x hx
      rw [hbuf.1 x hx]
      simp [memcpy, hx]
    · rw [hbuf.2.2.2.1]
      simp
  · constructor
    · rw [hcur.1]; push_cast; ring
    · rw [hcur.2.1]; ring

theorem residual_loop (t1 : Nat → ℚ) (n : Nat) (x : ℚ) :
    forLoop (fun p (r : ℚ) => r + t1 p) 0 n x = x + ∑ p ∈ Finset.range n, t1 p := by
  induction n with
  | zero => simp
  | succ n ih => rw [forLoop_succ, ih, Finset.sum_range_succ, Nat.zero_add]; ring

theorem sum_pair_eq (np : Nat) (a b : Nat → ℚ) :
    sum_pair np a b = (∑ p ∈ Finset.range np, a p, ∑ p ∈ Finset.range np, b p) := by
  unfold sum_pair
  induction np with
  | zero => simp
  | succ n ih => rw [forLoop_succ, ih, Finset.sum_range_succ, Finset.sum_range_succ, Nat.zero_add]

theorem sum_range_getD (l : List Nat) (g : Nat → ℚ) :
    ∑ k ∈ Finset.range l.length, g (l.getD k 0) = (l.map g).sum := by
  induction l with
  | nil => simp
  | cons a l ih =>
    rw [List.length_cons, Finset.sum_range_succ', List.map_cons, List.sum_cons]
    simp only [List.getD_cons_succ, List.getD_cons_zero]
    rw [ih]; ring

theorem abs_pos_flag (x : ℚ) : (!decide (|x| > 0)) = decide (x = 0) := by
  by_cases h : x = 0
  · simp [h]
  · simp [h, abs_pos.mpr h]

/-- The vector `t1` computed from the loaded and solved cell system. -/
theorem cell_t1_eq (G : grid_t) (c np : Nat) (pvol dt : ℚ) (z Ac cf : Nat → ℚ)
    (w : densrat_util) (B C y : Nat → ℚ)
    (hlu : ∀ k, k < np * np → w.lu k = Ac k)
    (hz : ∀ x, x < np → B x = z x)
    (hcf : ∀ k, k < (interior_faces G c).length → ∀ i, i < np →
      B (np + k * np + i) = cf ((interior_faces G c).getD k 0 * np + i))
    (hC0 : C 0 = -pvol)
    (hC : ∀ k, k < (interior_faces G c).length → C (1 + k) = dt)
    (p : Nat) (hp : p < np) :
    matvec np ((interior_faces G c).length + 1)
        (solve_linear_systems np (1 + (1 + 2) * (interior_faces G c).length) w B) C y p
      = spec_t1 G c np pvol dt z Ac cf p := by
  unfold matvec spec_t1
  rw [if_pos hp, Finset.sum_range_succ', ← sum_range_getD, Finset.mul_sum]
  have h0 : solve_linear_systems np (1 + (1 + 2) * (interior_faces G c).length) w B
      (p + 0 * np) = solve_entry np Ac z p := by
    rw [solve_linear_systems_apply _ _ _ _ _ _ hp (by omega)]
    apply solve_entry_congr _ _ _ _ _ _ hlu
    intro i hi
    simp only [offset, Nat.zero_mul, Nat.zero_add]
    exact hz i hi
  rw [h0, hC0, add_comm]
  congr 1
  · ring
  · apply Finset.sum_congr rfl
    intro k hk
    rw [Finset.mem_range] at hk
    rw [solve_linear_systems_apply _ _ _ _ _ _ hp (by omega), Nat.add_comm k 1, hC k hk,
      mul_comm]
    congr 1
    apply solve_entry_congr _ _ _ _ _ _ hlu
    intro i hi
    simp only [offset]
    rw [← hcf k hk i hi]
    congr 1
    rw [Nat.add_mul, Nat.one_mul]

/-- With a counter starting at zero and a non-singular cell matrix `compute_cell_contrib`
completes; it leaves the flux arrays alone, stores the reference residual and clears the
incompressibility flag exactly when the reference `dF2` is not zero. -/
theorem compute_cell_contrib_some (G : grid_t) (c np : Nat) (pvol dt : ℚ)
    (z Ac dAc : Nat → ℚ) (pimpl : cfs_tpfa_res_impl) (hdet : (denseMat np Ac).det ≠ 0) :
    ∃ r, compute_cell_contrib G c np pvol dt z Ac dAc pimpl 0 = some r ∧
      r.compflux_f = pimpl.compflux_f ∧ r.compflux_deriv_f = pimpl.compflux_deriv_f ∧
      r.flux_work = pimpl.flux_work ∧ r.scratch_f = pimpl.scratch_f ∧
      r.ratio.residual = spec_residual G c np pvol dt z Ac pimpl.compflux_f ∧
      r.is_incomp = (pimpl.is_incomp &&
        decide (spec_dF2 G c np pvol dt z Ac dAc pimpl.compflux_f = 0)) := by
  obtain ⟨B, C, hinit, hz, hcf, _, hC0, hC⟩ := init_cell_contrib_zero G c np pvol dt z pimpl
  unfold compute_cell_contrib
  rw [hinit]
  simp only [Option.some_bind, factorise_fluid_matrix, if_neg hdet, Int.toNat_ofNat]
  have hlu : ∀ k, k < np * np → (memcpy pimpl.ratio.lu Ac (np * np)) k = Ac k := by
    intro k hk
    simp [memcpy, hk]
  have ht1 := cell_t1_eq G c np pvol dt z Ac pimpl.compflux_f
    { pimpl.ratio with linsolve_buffer := B, coeff := C, lu := memcpy pimpl.ratio.lu Ac (np * np) }
    B C pimpl.ratio.t1 hlu hz hcf hC0 hC
  refine ⟨_, rfl, rfl, rfl, rfl, rfl, ?_, ?_⟩
  · simp only []
    rw [residual_loop]
    unfold spec_residual
    congr 1
    exact Finset.sum_congr rfl fun p hp => ht1 p (Finset.mem_range.mp hp)
  · simp only []
    rw [abs_pos_flag, sum_pair_eq]
    simp only []
    congr 2
    unfold spec_dF2
    congr 1
    apply Finset.sum_congr rfl
    intro p hp
    rw [Finset.mem_range] at hp
    rw [solve_linear_systems_apply_zero _ _ _ _ _ hp (by omega)]
    apply solve_entry_congr _ _ _ _ _ _ hlu
    intro i hi
    rw [matvec_apply _ _ _ _ _ _ hi]
    apply Finset.sum_congr rfl
    intro j hj
    rw [Finset.mem_range] at hj
    rw [cell_t1_eq G c np pvol dt z Ac pimpl.compflux_f _ B C _ ?_ hz hcf hC0 hC j hj]
    exact hlu

theorem compute_cell_contrib_nonzero (G : grid_t) (c np : Nat) (pvol dt : ℚ)
    (z Ac dAc : Nat → ℚ) (pimpl : cfs_tpfa_res_impl) (nconn0 : Int) (h : nconn0 ≠ 0) :
    compute_cell_contrib G c np pvol dt z Ac dAc pimpl nconn0 = none := by
  unfold compute_cell_contrib
  rw [init_cell_contrib_nonzero _ _ _ _ _ _ _ _ h]
  rfl

theorem compute_cell_contrib_singular (G : grid_t) (c np : Nat) (pvol dt : ℚ)
    (z Ac dAc : Nat → ℚ) (pimpl : cfs_tpfa_res_impl) (nconn0 : Int)
    (h : (denseMat np Ac).det = 0) :
    compute_cell_contrib G c np pvol dt z Ac dAc pimpl nconn0 = none := by
  unfold compute_cell_contrib
  cases init_cell_contrib G c np pvol dt z pimpl nconn0 with
  | none => rfl
  | some r => simp [factorise_fluid_matrix, h]

/-! ## Scattering a cell into the global system -/

theorem forLoopM_zero {σ : Type} (body : Nat → σ → Option σ) (lo : Nat) (s : σ) :
    forLoopM body lo 0 s = some s := rfl

theorem forLoopM_succ {σ : Type} (body : Nat → σ → Option σ) (lo n : Nat) (s : σ) :
    forLoopM body lo (n + 1) s = (forLoopM body lo n s).bind (body (lo + n)) := rfl

theorem elm_index_isSome (i j : Nat) (A : CSRMatrix) (h : j ∈ csr_row A.ia A.ja i) :
    (csrmatrix_elm_index i j A).isSome = true := by
  unfold csr_row at h
  obtain ⟨x, hx, hxj⟩ := List.mem_map.mp h
  unfold csrmatrix_elm_index
  rw [List.find?_isSome]
  exact ⟨x, hx, by simp [hxj]⟩

theorem elm_index_congr (i j : Nat) (A B : CSRMatrix) (hia : A.ia = B.ia) (hja : A.ja = B.ja) :
    csrmatrix_elm_index i j A = csrmatrix_elm_index i j B := by
  unfold csrmatrix_elm_index
  rw [hia, hja]

theorem lookups_ok_congr (G : grid_t) (A B : CSRMatrix) (hia : A.ia = B.ia)
    (hja : A.ja = B.ja) (h : lookups_ok G A) : lookups_ok G B := by
  intro c hc
  have := h c hc
  simp only [elm_index_congr _ _ A B hia hja] at this
  exact this

theorem assemble_loop_some (G : grid_t) (c : Nat) (J : CSRMatrix) (mr : Nat → ℚ) (lo n : Nat)
    (s : (Nat → ℚ) × Nat)
    (h : ∀ i, lo ≤ i → i < lo + n → 0 ≤ other_cell G c (G.cell_faces i) →
      (csrmatrix_elm_index c (other_cell G c (G.cell_faces i)).toNat J).isSome = true) :
    (forLoopM (assemble_step G c J mr) lo n s).isSome = true := by
  induction n with
  | zero => rfl
  | succ n ih =>
    rw [forLoopM_succ]
    have ih' := ih fun i h1 h2 => h i h1 (by omega)
    obtain ⟨s1, hs1⟩ := Option.isSome_iff_exists.mp ih'
    rw [hs1, Option.some_bind]
    have hn := h (lo + n) (by omega) (by omega)
    unfold assemble_step
    simp only []
    split_ifs with hpos
    · obtain ⟨k, hk⟩ := Option.isSome_iff_exists.mp (hn hpos)
      rw [hk]; rfl
    · rfl

/-- What `assemble_cell_contrib` leaves behind when it completes. -/
theorem assemble_cell_contrib_frame (G : grid_t) (c : Nat) (h h' : cfs_tpfa_res_data)
    (hs : assemble_cell_contrib G c h = some h') :
    h'.F = Function.update h.F c h.pimpl.ratio.residual ∧ h'.pimpl = h.pimpl ∧
    h'.J.ia = h.J.ia ∧ h'.J.ja = h.J.ja ∧ h'.J.m = h.J.m ∧ h'.J.nnz = h.J.nnz := by
  unfold assemble_cell_contrib at hs
  cases h1 : csrmatrix_elm_index c c h.J with
  | none => rw [h1] at hs; simp at hs
  | some j1 =>
    rw [h1] at hs
    simp only [Option.some_bind] at hs
    cases h2 : forLoopM (assemble_step G c h.J h.pimpl.ratio.mat_row) (G.cell_facepos c)
        (G.cell_facepos (c + 1) - G.cell_facepos c)
        (Function.update h.J.sa j1 (h.J.sa j1 + h.pimpl.ratio.mat_row 0), 1) with
    | none => rw [h2] at hs; simp at hs
    | some s =>
      rw [h2] at hs
      simp only [Option.map_some', Option.some.injEq] at hs
      rw [← hs]
      exact ⟨rfl, rfl, rfl, rfl, rfl, rfl⟩

theorem assemble_cell_contrib_isSome (G : grid_t) (c : Nat) (h : cfs_tpfa_res_data)
    (hc : c < G.number_of_cells) (hl : lookups_ok G h.J) :
    (assemble_cell_contrib G c h).isSome = true := by
  obtain ⟨hd, ho⟩ := hl c hc
  obtain ⟨j1, hj1⟩ := Option.isSome_iff_exists.mp hd
  unfold assemble_cell_contrib
  rw [hj1, Option.some_bind]
  have := assemble_loop_some G c h.J h.pimpl.ratio.mat_row (G.cell_facepos c)
    (G.cell_facepos (c + 1) - G.cell_facepos c)
    (Function.update h.J.sa j1 (h.J.sa j1 + h.pimpl.ratio.mat_row 0), 1)
    (fun i h1 h2 => ho (G.cell_faces i) (by
      unfold cell_face_list
      exact List.mem_map.mpr ⟨i, List.mem_range'_1.mpr ⟨h1, by omega⟩, rfl⟩))
  obtain ⟨s, hs⟩ := Option.isSome_iff_exists.mp this
  simp only []
  rw [hs]; rfl

/-! ## The loop over the cells -/

/-- What one pass of the cell loop does when it completes. -/
theorem cell_pass_some (G : grid_t) (dt : ℚ) (zc : Nat → ℚ) (cq : compr_quantities_gen)
    (porevol : Nat → ℚ) (nconn0 : Nat → Int) (c : Nat) (h h' : cfs_tpfa_res_data)
    (hs : cell_pass G dt zc cq porevol nconn0 c h = some h') :
    nconn0 c = 0 ∧
    (denseMat cq.nphases (offset cq.Ac (c * (cq.nphases * cq.nphases)))).det ≠ 0 ∧
    h'.F = Function.update h.F c
      (spec_residual G c cq.nphases (porevol c) dt (offset zc (c * cq.nphases))
        (offset cq.Ac (c * (cq.nphases * cq.nphases))) h.pimpl.compflux_f) ∧
    h'.pimpl.compflux_f = h.pimpl.compflux_f ∧
    h'.pimpl.compflux_deriv_f = h.pimpl.compflux_deriv_f ∧
    h'.pimpl.is_incomp = (h.pimpl.is_incomp &&
      decide (spec_dF2 G c cq.nphases (porevol c) dt (offset zc (c * cq.nphases))
        (offset cq.Ac (c * (cq.nphases * cq.nphases)))
        (offset cq.dAc (c * (cq.nphases * cq.nphases))) h.pimpl.compflux_f = 0)) ∧
    h'.J.ia = h.J.ia ∧ h'.J.ja = h.J.ja ∧ h'.J.m = h.J.m ∧ h'.J.nnz = h.J.nnz := by
  unfold cell_pass at hs
  simp only [] at hs
  by_cases h0 : nconn0 c = 0
  · by_cases hdet : (denseMat cq.nphases (offset cq.Ac (c * (cq.nphases * cq.nphases)))).det = 0
    · rw [compute_cell_contrib_singular _ _ _ _ _ _ _ _ _ _ hdet] at hs
      simp at hs
    · obtain ⟨r, hr, r1, r2, _, _, r5, r6⟩ := compute_cell_contrib_some G c cq.nphases
        (porevol c) dt (offset zc (c * cq.nphases)) (offset cq.Ac (c * (cq.nphases * cq.nphases)))
        (offset cq.dAc (c * (cq.nphases * cq.nphases))) h.pimpl hdet
      rw [h0, hr, Option.some_bind] at hs
      obtain ⟨f1, f2, f3, f4, f5, f6⟩ := assemble_cell_contrib_frame G c _ h' hs
      simp only [] at f1 f2 f3 f4 f5 f6
      refine ⟨h0, hdet, ?_, ?_, ?_, ?_, f3, f4, f5, f6⟩
      · rw [f1, r5]
      · rw [f2, r1]
      · rw [f2, r2]
      · rw [f2, r6]
  · rw [compute_cell_contrib_nonzero _ _ _ _ _ _ _ _ _ _ h0] at hs
    simp at hs

theorem cell_pass_isSome (G : grid_t) (dt : ℚ) (zc : Nat → ℚ) (cq : compr_quantities_gen)
    (porevol : Nat → ℚ) (nconn0 : Nat → Int) (c : Nat) (h : cfs_tpfa_res_data)
    (hc : c < G.number_of_cells) (h0 : nconn0 c = 0)
    (hdet : (denseMat cq.nphases (offset cq.Ac (c * (cq.nphases * cq.nphases)))).det ≠ 0)
    (hl : lookups_ok G h.J) :
    (cell_pass G dt zc cq porevol nconn0 c h).isSome = true := by
  obtain ⟨r, hr, _⟩ := compute_cell_contrib_some G c cq.nphases
    (porevol c) dt (offset zc (c * cq.nphases)) (offset cq.Ac (c * (cq.nphases * cq.nphases)))
    (offset cq.dAc (c * (cq.nphases * cq.nphases))) h.pimpl hdet
  unfold cell_pass
  simp only []
  rw [h0, hr, Option.some_bind]
  exact assemble_cell_contrib_isSome G c _ hc hl

/-- The state of the cell loop after `m` completed passes. -/
theorem cell_loop_some (G : grid_t) (dt : ℚ) (zc : Nat → ℚ) (cq : compr_quantities_gen)
    (porevol : Nat → ℚ) (nconn0 : Nat → Int) (h0 : cfs_tpfa_res_data) (m : Nat)
    (hm : cfs_tpfa_res_data)
    (hs : forLoopM (cell_pass G dt zc cq porevol nconn0) 0 m h0 = some hm) :
    hm.J.ia = h0.J.ia ∧ hm.J.ja = h0.J.ja ∧ hm.J.m = h0.J.m ∧ hm.J.nnz = h0.J.nnz ∧
    hm.pimpl.compflux_f = h0.pimpl.compflux_f ∧
    hm.pimpl.compflux_deriv_f = h0.pimpl.compflux_deriv_f ∧
    (∀ c, c < m → nconn0 c = 0 ∧
      (denseMat cq.nphases (offset cq.Ac (c * (cq.nphases * cq.nphases)))).det ≠ 0 ∧
      hm.F c = spec_residual G c cq.nphases (porevol c) dt (offset zc (c * cq.nphases))
        (offset cq.Ac (c * (cq.nphases * cq.nphases))) h0.pimpl.compflux_f) ∧
    (∀ c, m ≤ c → hm.F c = h0.F c) ∧
    (hm.pimpl.is_incomp = true ↔ (h0.pimpl.is_incomp = true ∧ ∀ c, c < m →
      spec_dF2 G c cq.nphases (porevol c) dt (offset zc (c * cq.nphases))
        (offset cq.Ac (c * (cq.nphases * cq.nphases)))
        (offset cq.dAc (c * (cq.nphases * cq.nphases))) h0.pimpl.compflux_f = 0)) := by
  induction m generalizing hm with
  | zero =>
    rw [forLoopM_zero, Option.some.injEq] at hs
    subst hs
    refine ⟨rfl, rfl, rfl, rfl, rfl, rfl, fun c hc => absurd hc (Nat.not_lt_zero c),
      fun _ _ => rfl, ?_⟩
    exact ⟨fun h => ⟨h, fun c hc => absurd hc (Nat.not_lt_zero c)⟩, fun h => h.1⟩
  | succ m ih =>
    rw [forLoopM_succ, Nat.zero_add] at hs
    cases hprev : forLoopM (cell_pass G dt zc cq porevol nconn0) 0 m h0 with
    | none => rw [hprev] at hs; simp at hs
    | some hp =>
      rw [hprev, Option.some_bind] at hs
      obtain ⟨i1, i2, i3, i4, i5, i6, i7, i8, i9⟩ := ih hp hprev
      obtain ⟨p1, p2, p3, p4, p5, p6, p7, p8, p9, p10⟩ :=
        cell_pass_some G dt zc cq porevol nconn0 m hp hm hs
      refine ⟨p7.trans i1, p8.trans i2, p9.trans i3, p10.trans i4, p4.trans i5, p5.trans i6,
        ?_, ?_, ?_⟩
      · intro c hc
        rcases Nat.lt_succ_iff_lt_or_eq.mp hc with hlt | heq
        · refine ⟨(i7 c hlt).1, (i7 c hlt).2.1, ?_⟩
          rw [p3, Function.update_noteq (by omega)]
          exact (i7 c hlt).2.2
        · subst heq
          refine ⟨p1, p2, ?_⟩
          rw [p3, Function.update_same, i5]
      · intro c hc
        rw [p3, Function.update_noteq (by omega)]
        exact i8 c (by omega)
      · rw [p6, Bool.and_eq_true, i9, decide_eq_true_eq, i5]
        constructor
        · rintro ⟨⟨a, b⟩, d⟩
          refine ⟨a, fun c hc => ?_⟩
          rcases Nat.lt_succ_iff_lt_or_eq.mp hc with hlt | heq
          · exact b c hlt
          · subst heq; exact d
        · rintro ⟨a, b⟩
          exact ⟨⟨a, fun c hc => b c (by omega)⟩, b m (by omega)⟩

/-- The cell loop completes when every counter starts at zero, every cell matrix is
non-singular and the pattern holds every entry that is looked up. -/
theorem cell_loop_isSome (G : grid_t) (dt : ℚ) (zc : Nat → ℚ) (cq : compr_quantities_gen)
    (porevol : Nat → ℚ) (nconn0 : Nat → Int) (h0 : cfs_tpfa_res_data) (m : Nat)
    (hmn : m ≤ G.number_of_cells) (hl : lookups_ok G h0.J)
    (hc : ∀ c, c < m → nconn0 c = 0 ∧
      (denseMat cq.nphases (offset cq.Ac (c * (cq.nphases * cq.nphases)))).det ≠ 0) :
    (forLoopM (cell_pass G dt zc cq porevol nconn0) 0 m h0).isSome = true := by
  induction m with
  | zero => rfl
  | succ m ih =>
    obtain ⟨hp, hprev⟩ := Option.isSome_iff_exists.mp
      (ih (by omega) fun c hlt => hc c (by omega))
    rw [forLoopM_succ, Nat.zero_add, hprev, Option.some_bind]
    obtain ⟨i1, i2, _⟩ := cell_loop_some G dt zc cq porevol nconn0 h0 m hp hprev
    exact cell_pass_isSome G dt zc cq porevol nconn0 m hp (by omega) (hc m (by omega)).1
      (hc m (by omega)).2 (lookups_ok_congr G h0.J hp.J i1.symm i2.symm hl)

/-! ## The pattern of `construct_matrix` serves the assembly -/

theorem mem_expected_row_self (G : grid_t) (c : Nat) : c ∈ expected_row G c := by
  unfold expected_row
  exact List.mem_cons_self _ _

theorem mem_expected_row_other (G : grid_t) (hG : grid_ok G) (c : Nat)
    (hc : c < G.number_of_cells) (f : Nat) (hf : f ∈ cell_face_list G c)
    (ho : 0 ≤ other_cell G c f) : (other_cell G c f).toNat ∈ expected_row G c := by
  obtain ⟨hfn, hside⟩ := hG.2 c hc f hf
  unfold expected_row
  refine List.mem_cons_of_mem _ (List.mem_flatMap.mpr ⟨f, List.mem_range.mpr hfn, ?_⟩)
  unfold other_cell at ho ⊢
  by_cases h1 : G.face_cells (2 * f + 0) = (c : Int)
  · rw [if_pos h1] at ho ⊢
    have hint : interior G f := ⟨by rw [h1]; exact Int.natCast_nonneg c, ho⟩
    rw [if_pos hint]
    apply List.mem_append_left
    rw [if_pos (by rw [h1]; exact Int.toNat_ofNat c)]
    exact List.mem_singleton_self _
  · rw [if_neg h1] at ho ⊢
    have h2 : G.face_cells (2 * f + 1) = (c : Int) := hside.resolve_left h1
    have hint : interior G f := ⟨ho, by rw [h2]; exact Int.natCast_nonneg c⟩
    rw [if_pos hint]
    apply List.mem_append_right
    rw [if_pos (by rw [h2]; exact Int.toNat_ofNat c)]
    exact List.mem_singleton_self _

/-- On a consistent grid the pattern returned by `construct_matrix` holds every entry
that the assembly looks up. -/
theorem construct_matrix_lookups_ok (G : grid_t) (hnc : 0 < G.number_of_cells)
    (hG : grid_ok G) (A : CSRMatrix) (hA : construct_matrix G = some A) : lookups_ok G A := by
  obtain ⟨A', hA', _, _, _, hrow⟩ := construct_matrix_rows G hnc hG.1
  rw [hA, Option.some.injEq] at hA'
  subst hA'
  intro c hc
  have hmem : ∀ x, x ∈ expected_row G c → x ∈ csr_row A.ia A.ja c := by
    intro x hx
    rw [hrow c hc]
    exact (List.perm_insertionSort _ _).mem_iff.mpr hx
  refine ⟨elm_index_isSome c c A (hmem c (mem_expected_row_self G c)), fun f hf ho => ?_⟩
  exact elm_index_isSome c _ A (hmem _ (mem_expected_row_other G hG c hc f hf ho))

/-- In the pattern returned by `construct_matrix` the first stored entry is the diagonal
entry of row 0. -/
theorem construct_matrix_first_entry (G : grid_t) (hnc : 0 < G.number_of_cells)
    (hG : faces_ok G) (A : CSRMatrix) (hA : construct_matrix G = some A) :
    A.ia 0 = 0 ∧ 0 < A.ia 1 ∧ A.ja 0 = 0 ∧ csrmatrix_elm_index 0 0 A = some 0 := by
  obtain ⟨A', hA', _, _, hia, hrow⟩ := construct_matrix_rows G hnc hG
  rw [hA, Option.some.injEq] at hA'
  subst hA'
  have h0 : A.ia 0 = 0 := by rw [hia 0 (Nat.zero_le _)]; rfl
  have hr := hrow 0 hnc
  have hsorted := List.sorted_insertionSort (fun a b : Nat => a ≤ b) (expected_row G 0)
  have hmem : 0 ∈ csr_row A.ia A.ja 0 := by
    rw [hr]
    exact (List.perm_insertionSort _ _).mem_iff.mpr (mem_expected_row_self G 0)
  rw [← hr] at hsorted
  unfold csr_row at hsorted hmem
  rw [h0, Nat.sub_zero] at hsorted hmem
  have hpos : 0 < A.ia 1 := by
    rcases Nat.eq_zero_or_pos (A.ia 1) with hz | hp
    · rw [hz] at hmem; simp at hmem
    · exact hp
  obtain ⟨n, hn⟩ : ∃ n, A.ia 1 = n + 1 := ⟨A.ia 1 - 1, by omega⟩
  rw [hn, List.range'_succ, List.map_cons] at hsorted hmem
  have hja : A.ja 0 = 0 := by
    rcases List.mem_cons.mp hmem with h | h
    · exact h.symm
    · exact Nat.le_zero.mp (List.rel_of_sorted_cons hsorted 0 h)
  refine ⟨h0, hpos, hja, ?_⟩
  unfold csrmatrix_elm_index
  rw [h0, Nat.sub_zero, hn, List.range'_succ, List.find?_cons_of_pos]
  simp [hja]

/-! ## Claims on the assembled residual and the fix-up -/

theorem offset_zero (a : Nat → ℚ) : offset a 0 = a := by
  funext k
  simp [offset]

/-- The reference residual written with the inverse of the cell matrix. -/
theorem spec_residual_eq_inv (G : grid_t) (c np : Nat) (pvol dt : ℚ) (z Ac cf : Nat → ℚ) :
    spec_residual G c np pvol dt z Ac cf
      = pvol + ∑ p : Fin np,
          (-pvol * ((denseMat np Ac)⁻¹.mulVec (denseVec np z)) p
            + dt * ((interior_faces G c).map fun f =>
                ((denseMat np Ac)⁻¹.mulVec (denseVec np (offset cf (f * np)))) p).sum) := by
  unfold spec_residual spec_t1
  rw [Finset.sum_range]
  congr 1
  apply Finset.sum_congr rfl
  intro p _
  rw [solve_entry_eq_inv np Ac z p.val p.isLt]
  congr 3
  apply List.map_congr_left
  intro f _
  rw [solve_entry_eq_inv np Ac _ p.val p.isLt]

/-- The result of `cfs_tpfa_res_assemble` is the result of the cell loop with the first
stored value doubled when the incompressibility flag survived. -/
theorem assemble_some (G : grid_t) (dt : ℚ) (bc : flowbc_t) (src zc : Nat → ℚ)
    (cq : compr_quantities_gen) (trans gravcap_f cpress porevol : Nat → ℚ)
    (h : cfs_tpfa_res_data) (nconn0 : Nat → Int) (h' : cfs_tpfa_res_data)
    (hs : cfs_tpfa_res_assemble G dt bc src zc cq trans gravcap_f cpress porevol h nconn0
      = some h') :
    ∃ h1, assemble_cells G dt zc cq trans gravcap_f cpress porevol h nconn0 = some h1 ∧
      h'.F = h1.F ∧ h'.pimpl = h1.pimpl ∧
      h'.J.sa = (if h1.pimpl.is_incomp = true
        then Function.update h1.J.sa 0 (h1.J.sa 0 * 2) else h1.J.sa) := by
  unfold cfs_tpfa_res_assemble at hs
  cases h1 : assemble_cells G dt zc cq trans gravcap_f cpress porevol h nconn0 with
  | none => rw [h1] at hs; simp at hs
  | some x =>
    rw [h1, Option.map_some', Option.some.injEq] at hs
    refine ⟨x, rfl, ?_⟩
    rw [← hs]
    by_cases hi : x.pimpl.is_incomp = true
    · simp [hi]
    · simp [hi]

theorem assemble_isSome (G : grid_t) (dt : ℚ) (bc : flowbc_t) (src zc : Nat → ℚ)
    (cq : compr_quantities_gen) (trans gravcap_f cpress porevol : Nat → ℚ)
    (h : cfs_tpfa_res_data) (nconn0 : Nat → Int) (hl : lookups_ok G h.J)
    (hc : ∀ c, c < G.number_of_cells → nconn0 c = 0 ∧
      (denseMat cq.nphases (offset cq.Ac (c * (cq.nphases * cq.nphases)))).det ≠ 0) :
    (cfs_tpfa_res_assemble G dt bc src zc cq trans gravcap_f cpress porevol h nconn0).isSome
      = true := by
  unfold cfs_tpfa_res_assemble assemble_cells
  rw [Option.isSome_map']
  exact cell_loop_isSome G dt zc cq porevol nconn0 _ G.number_of_cells le_rfl hl hc

/-- Whenever `cfs_tpfa_res_assemble` completes, every cell matrix is non-singular and every
residual entry is the reference residual of its cell. -/
theorem assemble_residual (G : grid_t) (dt : ℚ) (bc : flowbc_t) (src zc : Nat → ℚ)
    (cq : compr_quantities_gen) (trans gravcap_f cpress porevol : Nat → ℚ)
    (h : cfs_tpfa_res_data) (nconn0 : Nat → Int) (h' : cfs_tpfa_res_data)
    (hs : cfs_tpfa_res_assemble G dt bc src zc cq trans gravcap_f cpress porevol h nconn0
      = some h') (c : Nat) (hc : c < G.number_of_cells) :
    (denseMat cq.nphases (offset cq.Ac (c * (cq.nphases * cq.nphases)))).det ≠ 0 ∧
    h'.F c = spec_residual G c cq.nphases (porevol c) dt (offset zc (c * cq.nphases))
      (offset cq.Ac (c * (cq.nphases * cq.nphases)))
      (compute_compflux_and_deriv G cq.nphases cpress trans cq.phasemobf gravcap_f cq.Af
        { h.pimpl with is_incomp := true }).compflux_f := by
  obtain ⟨h1, hh1, hF, _, _⟩ := assemble_some G dt bc src zc cq trans gravcap_f cpress porevol
    h nconn0 h' hs
  unfold assemble_cells at hh1
  obtain ⟨_, _, _, _, _, _, i7, _, _⟩ := cell_loop_some G dt zc cq porevol nconn0 _ _ h1 hh1
  exact ⟨(i7 c hc).2.1, by rw [hF, (i7 c hc).2.2]⟩

/-- C1: whenever `cfs_tpfa_res_assemble` completes, for every cell `c` the matrix `Ac_c`
is non-singular and `F[c] = porevol[c] + sum_p t1[p]` with
`t1 = -porevol[c] * (Ac_c⁻¹ zc_c) + dt * sum over the interior faces f of c's face list of
Ac_c⁻¹ * (component flux block of f)`.  It completes when every connection counter starts
at zero, every cell matrix `Ac_c` is non-singular and the pattern holds the entries looked
up, as the pattern built by `construct_matrix` for a consistent grid does. -/
theorem C1_residual_formula (G : grid_t) (dt : ℚ) (bc : flowbc_t) (src zc : Nat → ℚ)
    (cq : compr_quantities_gen) (trans gravcap_f cpress porevol : Nat → ℚ)
    (h : cfs_tpfa_res_data) (nconn0 : Nat → Int) :
    (lookups_ok G h.J →
      (∀ c, c < G.number_of_cells → nconn0 c = 0 ∧
        (denseMat cq.nphases (offset cq.Ac (c * (cq.nphases * cq.nphases)))).det ≠ 0) →
      (cfs_tpfa_res_assemble G dt bc src zc cq trans gravcap_f cpress porevol h nconn0).isSome
        = true) ∧
    (∀ h', cfs_tpfa_res_assemble G dt bc src zc cq trans gravcap_f cpress porevol h nconn0
        = some h' →
      ∀ c, c < G.number_of_cells →
        (denseMat cq.nphases (offset cq.Ac (c * (cq.nphases * cq.nphases)))).det ≠ 0 ∧
        h'.F c = porevol c + ∑ p : Fin cq.nphases,
          (-porevol c *
              ((denseMat cq.nphases (offset cq.Ac (c * (cq.nphases * cq.nphases))))⁻¹.mulVec
                (denseVec cq.nphases (offset zc (c * cq.nphases)))) p
            + dt * ((interior_faces G c).map fun f =>
                ((denseMat cq.nphases (offset cq.Ac (c * (cq.nphases * cq.nphases))))⁻¹.mulVec
                  (denseVec cq.nphases
                    (offset (compute_compflux_and_deriv G cq.nphases cpress trans cq.phasemobf
                      gravcap_f cq.Af { h.pimpl with is_incomp := true }).compflux_f
                      (f * cq.nphases)))) p).sum)) ∧
    (0 < G.number_of_cells → grid_ok G → ∀ A, construct_matrix G = some A →
      h.J.ia = A.ia → h.J.ja = A.ja → lookups_ok G h.J) := by
  refine ⟨fun hl hc => assemble_isSome G dt bc src zc cq trans gravcap_f cpress porevol h
    nconn0 hl hc, fun h' hs c hc => ?_, fun hnc hG A hA hia hja => ?_⟩
  · obtain ⟨hdet, hF⟩ := assemble_residual G dt bc src zc cq trans gravcap_f cpress porevol h
      nconn0 h' hs c hc
    exact ⟨hdet, by rw [hF, spec_residual_eq_inv]⟩
  · exact lookups_ok_congr G A h.J hia.symm hja.symm (construct_matrix_lookups_ok G hnc hG A hA)

theorem cq1_regular (c : Nat) :
    (denseMat cq1.nphases (offset cq1.Ac (c * (cq1.nphases * cq1.nphases)))).det ≠ 0 := by
  have : cq1.nphases = 1 := rfl
  rw [this, denseMat_one_det]
  simp [offset, cq1]

/-- The statement of `C1_residual_formula` at a sample input. -/
theorem C1_residual_formula_witness :
    (cfs_tpfa_res_assemble grid2 1 bc0 (fun _ => 0) (fun _ => 1) cq1 (fun _ => 1)
      (fun _ => 0) press2 (fun _ => 1) (handle2 0) (fun _ => 0)).isSome = true ∧
    ∀ h', cfs_tpfa_res_assemble grid2 1 bc0 (fun _ => 0) (fun _ => 1) cq1 (fun _ => 1)
        (fun _ => 0) press2 (fun _ => 1) (handle2 0) (fun _ => 0) = some h' →
      (denseMat cq1.nphases (offset cq1.Ac (0 * (cq1.nphases * cq1.nphases)))).det ≠ 0 ∧
      h'.F 0 = (fun _ => 1 : Nat → ℚ) 0 + ∑ p : Fin cq1.nphases,
        (-(fun _ => 1 : Nat → ℚ) 0 *
            ((denseMat cq1.nphases (offset cq1.Ac (0 * (cq1.nphases * cq1.nphases))))⁻¹.mulVec
              (denseVec cq1.nphases (offset (fun _ => 1) (0 * cq1.nphases)))) p
          + 1 * ((interior_faces grid2 0).map fun f =>
              ((denseMat cq1.nphases (offset cq1.Ac (0 * (cq1.nphases * cq1.nphases))))⁻¹.mulVec
                (denseVec cq1.nphases
                  (offset (compute_compflux_and_deriv grid2 cq1.nphases press2 (fun _ => 1)
                    cq1.phasemobf (fun _ => 0) cq1.Af
                    { (handle2 0).pimpl with is_incomp := true }).compflux_f
                    (f * cq1.nphases)))) p).sum) :=
  ⟨(C1_residual_formula grid2 1 bc0 (fun _ => 0) (fun _ => 1) cq1 (fun _ => 1)
      (fun _ => 0) press2 (fun _ => 1) (handle2 0) (fun _ => 0)).1 (by decide)
      (fun c _ => ⟨rfl, cq1_regular c⟩),
   fun h' hs => (C1_residual_formula grid2 1 bc0 (fun _ => 0) (fun _ => 1) cq1 (fun _ => 1)
      (fun _ => 0) press2 (fun _ => 1) (handle2 0) (fun _ => 0)).2.1 h' hs 0 (by decide)⟩

/-- C10: on a grid with a single cell none of whose faces is interior, whenever
`cfs_tpfa_res_assemble` completes `F[0] = porevol[0] - porevol[0] * sum_p (Ac⁻¹ zc)[p]`,
whatever `dt` is (so two runs with different `dt` give the same `F[0]`); and it completes
for every `dt` when the connection counter starts at zero, `Ac` is non-singular and the
pattern holds the diagonal entry. -/
theorem C10_single_cell_residual (G : grid_t) (bc : flowbc_t) (src zc : Nat → ℚ)
    (cq : compr_quantities_gen) (trans gravcap_f cpress porevol : Nat → ℚ)
    (h : cfs_tpfa_res_data) (nconn0 : Nat → Int)
    (hnc : G.number_of_cells = 1) (hno : interior_faces G 0 = []) :
    (∀ dt h', cfs_tpfa_res_assemble G dt bc src zc cq trans gravcap_f cpress porevol h nconn0
        = some h' →
      h'.F 0 = porevol 0 - porevol 0 * ∑ p : Fin cq.nphases,
        ((denseMat cq.nphases cq.Ac)⁻¹.mulVec (denseVec cq.nphases zc)) p) ∧
    (∀ dt1 dt2 h1 h2,
      cfs_tpfa_res_assemble G dt1 bc src zc cq trans gravcap_f cpress porevol h nconn0
        = some h1 →
      cfs_tpfa_res_assemble G dt2 bc src zc cq trans gravcap_f cpress porevol h nconn0
        = some h2 →
      h1.F 0 = h2.F 0) ∧
    (lookups_ok G h.J → nconn0 0 = 0 → (denseMat cq.nphases cq.Ac).det ≠ 0 →
      ∀ dt, (cfs_tpfa_res_assemble G dt bc src zc cq trans gravcap_f cpress porevol h
        nconn0).isSome = true) := by
  have key : ∀ dt h', cfs_tpfa_res_assemble G dt bc src zc cq trans gravcap_f cpress porevol
      h nconn0 = some h' →
      h'.F 0 = porevol 0 - porevol 0 * ∑ p : Fin cq.nphases,
        ((denseMat cq.nphases cq.Ac)⁻¹.mulVec (denseVec cq.nphases zc)) p := by
    intro dt h' hs
    have hF := (assemble_residual G dt bc src zc cq trans gravcap_f cpress porevol h nconn0 h'
      hs 0 (by omega)).2
    rw [hF, spec_residual_eq_inv, hno, Nat.zero_mul, Nat.zero_mul, offset_zero, offset_zero,
      Finset.mul_sum, sub_eq_add_neg, ← Finset.sum_neg_distrib]
    congr 1
    apply Finset.sum_congr rfl
    intro p _
    simp
  refine ⟨key, fun dt1 dt2 h1 h2 e1 e2 => ?_, fun hl h0 hdet dt => ?_⟩
  · rw [key dt1 h1 e1, key dt2 h2 e2]
  · apply assemble_isSome G dt bc src zc cq trans gravcap_f cpress porevol h nconn0 hl
    intro c hc
    have hc0 : c = 0 := by omega
    subst hc0
    rw [Nat.zero_mul, offset_zero]
    exact ⟨h0, hdet⟩

/-- The statement of `C10_single_cell_residual` at a sample input. -/
theorem C10_single_cell_residual_witness :
    (∀ dt h', cfs_tpfa_res_assemble grid1 dt bc0 (fun _ => 0) (fun _ => 3) cq1 (fun _ => 1)
        (fun _ => 0) press2 (fun _ => 5) handle1 (fun _ => 0) = some h' →
      h'.F 0 = (fun _ => 5 : Nat → ℚ) 0 - (fun _ => 5 : Nat → ℚ) 0 * ∑ p : Fin cq1.nphases,
        ((denseMat cq1.nphases cq1.Ac)⁻¹.mulVec (denseVec cq1.nphases (fun _ => 3))) p) ∧
    ∀ dt, (cfs_tpfa_res_assemble grid1 dt bc0 (fun _ => 0) (fun _ => 3) cq1 (fun _ => 1)
      (fun _ => 0) press2 (fun _ => 5) handle1 (fun _ => 0)).isSome = true :=
  ⟨(C10_single_cell_residual grid1 bc0 (fun _ => 0) (fun _ => 3) cq1 (fun _ => 1)
      (fun _ => 0) press2 (fun _ => 5) handle1 (fun _ => 0) rfl (by decide)).1,
   (C10_single_cell_residual grid1 bc0 (fun _ => 0) (fun _ => 3) cq1 (fun _ => 1)
      (fun _ => 0) press2 (fun _ => 5) handle1 (fun _ => 0) rfl (by decide)).2.2 (by decide) rfl
      (by have := cq1_regular 0; rwa [Nat.zero_mul, offset_zero] at this)⟩

theorem solve_entry_zero_rhs (np : Nat) (A b : Nat → ℚ) (p : Nat)
    (hb : ∀ i, i < np → b i = 0) : solve_entry np A b p = 0 := by
  rw [solve_entry_congr np A A b (fun _ => 0) p (fun _ _ => rfl) hb]
  unfold solve_entry
  by_cases hp : p < np
  · rw [dif_pos hp]
    have : denseVec np (fun _ => (0 : ℚ)) = 0 := rfl
    simp [denseSolve, this]
  · rw [dif_neg hp]

/-- A zero matrix `dAc` makes the reference `dF2` vanish. -/
theorem spec_dF2_zero (G : grid_t) (c np : Nat) (pvol dt : ℚ) (z Ac dAc cf : Nat → ℚ)
    (h : ∀ k, k < np * np → dAc k = 0) : spec_dF2 G c np pvol dt z Ac dAc cf = 0 := by
  unfold spec_dF2
  apply Finset.sum_eq_zero
  intro p _
  apply solve_entry_zero_rhs
  intro i hi
  apply Finset.sum_eq_zero
  intro j hj
  rw [Finset.mem_range] at hj
  have := block_le j np np hj
  rw [h (i + j * np) (by omega), zero_mul]

/-- C8: incompressible detection.  Let `h1` be the handle after the loop over the cells.
If the term `dF2` of every cell is zero (as it is when every `dAc` is the zero matrix),
`cfs_tpfa_res_assemble` returns with `is_incomp` true, the first stored Jacobian value
twice its value in `h1`, and every other stored value and the residual as in `h1`; if some
cell has `dF2 ≠ 0` it returns with `is_incomp` false and the values of `h1`.  In a pattern
built by `construct_matrix` the first stored value is the diagonal entry `(0,0)`.  The
cell loop completes when the counters start at zero, the cell matrices are non-singular
and the pattern holds the entries looked up. -/
theorem C8_incompressible_fixup (G : grid_t) (dt : ℚ) (bc : flowbc_t) (src zc : Nat → ℚ)
    (cq : compr_quantities_gen) (trans gravcap_f cpress porevol : Nat → ℚ)
    (h : cfs_tpfa_res_data) (nconn0 : Nat → Int) :
    (∀ h1, assemble_cells G dt zc cq trans gravcap_f cpress porevol h nconn0 = some h1 →
      ((∀ c, c < G.number_of_cells →
          spec_dF2 G c cq.nphases (porevol c) dt (offset zc (c * cq.nphases))
            (offset cq.Ac (c * (cq.nphases * cq.nphases)))
            (offset cq.dAc (c * (cq.nphases * cq.nphases)))
            (compute_compflux_and_deriv G cq.nphases cpress trans cq.phasemobf gravcap_f cq.Af
              { h.pimpl with is_incomp := true }).compflux_f = 0) →
        ∃ h2, cfs_tpfa_res_assemble G dt bc src zc cq trans gravcap_f cpress porevol h nconn0
            = some h2 ∧
          h2.pimpl.is_incomp = true ∧ h2.J.sa 0 = 2 * h1.J.sa 0 ∧
          (∀ k, k ≠ 0 → h2.J.sa k = h1.J.sa k) ∧ h2.F = h1.F) ∧
      ((∃ c, c < G.number_of_cells ∧
          spec_dF2 G c cq.nphases (porevol c) dt (offset zc (c * cq.nphases))
            (offset cq.Ac (c * (cq.nphases * cq.nphases)))
            (offset cq.dAc (c * (cq.nphases * cq.nphases)))
            (compute_compflux_and_deriv G cq.nphases cpress trans cq.phasemobf gravcap_f cq.Af
              { h.pimpl with is_incomp := true }).compflux_f ≠ 0) →
        ∃ h2, cfs_tpfa_res_assemble G dt bc src zc cq trans gravcap_f cpress porevol h nconn0
            = some h2 ∧
          h2.pimpl.is_incomp = false ∧ h2.J.sa = h1.J.sa ∧ h2.F = h1.F)) ∧
    (∀ c cf, (∀ k, k < cq.nphases * cq.nphases →
        cq.dAc (c * (cq.nphases * cq.nphases) + k) = 0) →
      spec_dF2 G c cq.nphases (porevol c) dt (offset zc (c * cq.nphases))
        (offset cq.Ac (c * (cq.nphases * cq.nphases)))
        (offset cq.dAc (c * (cq.nphases * cq.nphases))) cf = 0) ∧
    (0 < G.number_of_cells → faces_ok G → ∀ A, construct_matrix G = some A →
      h.J.ia = A.ia → h.J.ja = A.ja → csrmatrix_elm_index 0 0 h.J = some 0) ∧
    (lookups_ok G h.J →
      (∀ c, c < G.number_of_cells → nconn0 c = 0 ∧
        (denseMat cq.nphases (offset cq.Ac (c * (cq.nphases * cq.nphases)))).det ≠ 0) →
      (assemble_cells G dt zc cq trans gravcap_f cpress porevol h nconn0).isSome = true) := by
  refine ⟨fun h1 hh1 => ?_, fun c cf hz => ?_, fun hnc hG A hA hia hja => ?_, fun hl hc => ?_⟩
  · have hloop := hh1
    unfold assemble_cells at hloop
    obtain ⟨_, _, _, _, _, _, _, _, i9⟩ := cell_loop_some G dt zc cq porevol nconn0 _ _ h1 hloop
    have hinit : (compute_compflux_and_deriv G cq.nphases cpress trans cq.phasemobf gravcap_f
        cq.Af { h.pimpl with is_incomp := true }).is_incomp = true :=
      (compflux_loop_frame G cq.nphases cpress trans cq.phasemobf gravcap_f cq.Af
        { h.pimpl with is_incomp := true } G.number_of_faces).1
    constructor
    · intro hall
      have hflag : h1.pimpl.is_incomp = true := i9.mpr ⟨hinit, hall⟩
      refine ⟨{ h1 with J := { h1.J with sa := Function.update h1.J.sa 0 (h1.J.sa 0 * 2) } },
        by unfold cfs_tpfa_res_assemble; rw [hh1, Option.map_some', if_pos hflag],
        hflag, ?_, ?_, rfl⟩
      · simp only [Function.update_same]; ring
      · intro k hk
        simp only []
        rw [Function.update_noteq hk]
    · rintro ⟨c, hc, hne⟩
      have hflag : ¬ h1.pimpl.is_incomp = true := fun hf => hne ((i9.mp hf).2 c hc)
      refine ⟨h1, by unfold cfs_tpfa_res_assemble; rw [hh1, Option.map_some', if_neg hflag],
        ?_, rfl, rfl⟩
      simpa using hflag
  · exact spec_dF2_zero G c cq.nphases (porevol c) dt _ _ _ cf fun k hk => by
      simp only [offset]; exact hz k hk
  · rw [elm_index_congr 0 0 h.J A hia hja]
    exact (construct_matrix_first_entry G hnc hG A hA).2.2.2
  · unfold assemble_cells
    exact cell_loop_isSome G dt zc cq porevol nconn0 _ G.number_of_cells le_rfl hl hc

/-- The statement of `C8_incompressible_fixup` at a sample input. -/
theorem C8_incompressible_fixup_witness :
    ∃ h1 h2,
      assemble_cells grid2 1 (fun _ => 1) cq1 (fun _ => 1) (fun _ => 0) press2 (fun _ => 1)
        (handle2 0) (fun _ => 0) = some h1 ∧
      cfs_tpfa_res_assemble grid2 1 bc0 (fun _ => 0) (fun _ => 1) cq1 (fun _ => 1)
        (fun _ => 0) press2 (fun _ => 1) (handle2 0) (fun _ => 0) = some h2 ∧
      h2.pimpl.is_incomp = true ∧ h2.J.sa 0 = 2 * h1.J.sa 0 ∧
      (∀ k, k ≠ 0 → h2.J.sa k = h1.J.sa k) ∧ h2.F = h1.F := by
  obtain ⟨h1, hh1⟩ := Option.isSome_iff_exists.mp
    ((C8_incompressible_fixup grid2 1 bc0 (fun _ => 0) (fun _ => 1) cq1 (fun _ => 1)
      (fun _ => 0) press2 (fun _ => 1) (handle2 0) (fun _ => 0)).2.2.2 (by decide)
      (fun c _ => ⟨rfl, cq1_regular c⟩))
  obtain ⟨h2, hh2⟩ := ((C8_incompressible_fixup grid2 1 bc0 (fun _ => 0) (fun _ => 1) cq1
      (fun _ => 1) (fun _ => 0) press2 (fun _ => 1) (handle2 0) (fun _ => 0)).1 h1 hh1).1
    (fun c _ => (C8_incompressible_fixup grid2 1 bc0 (fun _ => 0) (fun _ => 1) cq1
      (fun _ => 1) (fun _ => 0) press2 (fun _ => 1) (handle2 0) (fun _ => 0)).2.1 c _
      (fun _ _ => rfl))
  exact ⟨h1, h2, hh1, hh2⟩

/-! ## Claims on the Jacobian contributions -/

set_option maxHeartbeats 4000000 in
/-- The assembly on the two-cell sample grid, evaluated: stored Jacobian values and
residual for a workspace whose `mat_row[2]` held `stale` before the call. -/
theorem assemble_grid2_eval (stale : ℚ) :
    (cfs_tpfa_res_assemble grid2 1 bc0 (fun _ => 0) (fun _ => 1) cq1 (fun _ => 1)
      (fun _ => 0) press2 (fun _ => 1) (handle2 stale) (fun _ => 0)).map
        (fun h => (h.J.sa 0, h.J.sa 1, h.J.sa 2, h.J.sa 3, h.F 0, h.F 1))
      = some (2, stale - 1, -1, 1, 1, 1) := by
  simp [cfs_tpfa_res_assemble, assemble_cells, cell_pass, forLoopM_succ, forLoopM_zero,
    compute_cell_contrib, init_cell_contrib, count_internal_conn, forLoop_succ,
    init_cell_contrib_step, grid2, handle2, blank_impl, blank_ratio, press2, cq1,
    compute_compflux_and_deriv, compflux_step, compute_darcyflux_and_deriv,
    factorise_fluid_matrix, denseMat_one_det, solve_entry_one, denseMat,
    jac_row_step, connection_contrib, sum_pair, solve_linear_systems, offset, writeBack, memcpy,
    matvec, matmat, vector_zero, Function.update_apply, csrmatrix_zero,
    Finset.sum_range_succ, assemble_cell_contrib, assemble_step, other_cell,
    csrmatrix_elm_index, List.range'_succ, List.find?_cons]
  exact ⟨by norm_num, by ring, by norm_num⟩

/-- C9 (the code at the failing input): on the two-cell sample grid, with all inputs and
the sparsity pattern fixed, the stored Jacobian value of entry `(0,1)` returned by
`cfs_tpfa_res_assemble` is `stale - 1`, where `stale` is what `mat_row[2]` held before the
call; so two calls with identical inputs and different prior scratch contents return
different Jacobians (`-1` for `stale = 0`, `4` for `stale = 5`). -/
theorem C9_stale_mat_row_reaches_jacobian (stale : ℚ) :
    (handle2 stale).J.ja 1 = 1 ∧ (handle2 stale).J.ia 0 ≤ 1 ∧ 1 < (handle2 stale).J.ia 1 ∧
    (cfs_tpfa_res_assemble grid2 1 bc0 (fun _ => 0) (fun _ => 1) cq1 (fun _ => 1)
      (fun _ => 0) press2 (fun _ => 1) (handle2 stale) (fun _ => 0)).map (fun h => h.J.sa 1)
      = some (stale - 1) := by
  refine ⟨rfl, by simp [handle2], by simp [handle2], ?_⟩
  have h := assemble_grid2_eval stale
  cases hr : cfs_tpfa_res_assemble grid2 1 bc0 (fun _ => 0) (fun _ => 1) cq1 (fun _ => 1)
      (fun _ => 0) press2 (fun _ => 1) (handle2 stale) (fun _ => 0) with
  | none => rw [hr] at h; simp at h
  | some x =>
    rw [hr] at h
    simp only [Option.map_some', Option.some.injEq, Prod.mk.injEq] at h ⊢
    exact h.2.1

theorem solve_entry_neg (np : Nat) (A b : Nat → ℚ) (p : Nat) :
    solve_entry np A (fun i => -b i) p = -solve_entry np A b p := by
  have := solve_entry_add_smul np A b b (-1) 0 p
  simp only [neg_one_mul, zero_mul, add_zero] at this
  exact this

/-- C7 (amended): for an interior face `f = (c1, c2)` with `c1 ≠ c2`, let `blk` be the
derivative block of `f` solved with the factored cell matrix held in `w` (the same matrix
for both cells).  The dt-scaled increment that the connection step of
`compute_cell_contrib` computes from `blk` for the off-diagonal entry of row `c1` equals
the one it computes for the off-diagonal entry of row `c2`: both are
`-dt * sum_p (Ac⁻¹ * Af_f * a)[p]`, the same sign and the same magnitude. -/
theorem C7_offdiag_contributions_equal (G : grid_t) (np : Nat) (dt : ℚ)
    (cpress trans pmobf gcapf Af : Nat → ℚ) (pimpl : cfs_tpfa_res_impl) (w : densrat_util)
    (f : Nat) (hf : f < G.number_of_faces) (hint : interior G f) (c1 c2 : Nat)
    (h1 : G.face_cells (2 * f + 0) = (c1 : Int)) (hne : c1 ≠ c2) :
    (connection_contrib np dt c1 (G.face_cells (2 * f + 0))
        (solve_linear_systems np 2 w
          (offset (compute_compflux_and_deriv G np cpress trans pmobf gcapf Af
            pimpl).compflux_deriv_f (f * (2 * np))))).2
      = -(dt * ∑ p ∈ Finset.range np, solve_entry np w.lu
          (offset (compute_compflux_and_deriv G np cpress trans pmobf gcapf Af
            pimpl).compflux_deriv_f (f * (2 * np))) p) ∧
    (connection_contrib np dt c2 (G.face_cells (2 * f + 0))
        (solve_linear_systems np 2 w
          (offset (compute_compflux_and_deriv G np cpress trans pmobf gcapf Af
            pimpl).compflux_deriv_f (f * (2 * np))))).2
      = -(dt * ∑ p ∈ Finset.range np, solve_entry np w.lu
          (offset (compute_compflux_and_deriv G np cpress trans pmobf gcapf Af
            pimpl).compflux_deriv_f (f * (2 * np))) p) := by
  have hsecond : ∀ p, p < np →
      solve_linear_systems np 2 w
        (offset (compute_compflux_and_deriv G np cpress trans pmobf gcapf Af
          pimpl).compflux_deriv_f (f * (2 * np))) (np + p)
      = -solve_entry np w.lu
          (offset (compute_compflux_and_deriv G np cpress trans pmobf gcapf Af
            pimpl).compflux_deriv_f (f * (2 * np))) p := by
    intro p hp
    have e := solve_linear_systems_apply np 2 w
      (offset (compute_compflux_and_deriv G np cpress trans pmobf gcapf Af
        pimpl).compflux_deriv_f (f * (2 * np))) p 1 hp (by omega)
    rw [Nat.one_mul, Nat.add_comm p np] at e
    rw [e, ← solve_entry_neg]
    apply solve_entry_congr _ _ _ _ _ _ (fun _ _ => rfl)
    intro i hi
    have hd := (compflux_loop_deriv G np cpress trans pmobf gcapf Af pimpl
      G.number_of_faces).1 f hf hint i hi
    unfold compute_compflux_and_deriv
    simp only [offset]
    rw [show f * (2 * np) + (np + i) = f * (2 * np) + (np + i) from rfl, hd.2, hd.1,
      ← Finset.sum_neg_distrib]
    exact Finset.sum_congr rfl fun j _ => by ring
  have hfirst : ∀ p, p < np →
      solve_linear_systems np 2 w
        (offset (compute_compflux_and_deriv G np cpress trans pmobf gcapf Af
          pimpl).compflux_deriv_f (f * (2 * np))) p
      = solve_entry np w.lu
          (offset (compute_compflux_and_deriv G np cpress trans pmobf gcapf Af
            pimpl).compflux_deriv_f (f * (2 * np))) p := by
    intro p hp
    exact solve_linear_systems_apply_zero np 2 w _ p hp (by omega)
  have hne' : ¬ G.face_cells (2 * f + 0) = (c2 : Int) := by
    rw [h1]
    intro h
    exact hne (Int.ofNat.inj h)
  constructor
  · unfold connection_contrib
    simp only [if_pos h1, sum_pair_eq, offset]
    rw [Finset.sum_congr rfl fun p hp => hsecond p (Finset.mem_range.mp hp),
      Finset.sum_neg_distrib]
    ring
  · unfold connection_contrib
    simp only [if_neg hne', sum_pair_eq, offset, Nat.zero_add]
    rw [Finset.sum_congr rfl fun p hp => hfirst p (Finset.mem_range.mp hp)]
    ring

/-- The statement of `C7_offdiag_contributions_equal` at a sample input. -/
theorem C7_offdiag_contributions_equal_witness :
    (connection_contrib 1 1 0 (grid2.face_cells (2 * 0 + 0))
        (solve_linear_systems 1 2 blank_ratio
          (offset (compute_compflux_and_deriv grid2 1 press2 (fun _ => 1) (fun _ => 1)
            (fun _ => 0) (fun _ => 1) blank_impl).compflux_deriv_f (0 * (2 * 1))))).2
      = -(1 * ∑ p ∈ Finset.range 1, solve_entry 1 blank_ratio.lu
          (offset (compute_compflux_and_deriv grid2 1 press2 (fun _ => 1) (fun _ => 1)
            (fun _ => 0) (fun _ => 1) blank_impl).compflux_deriv_f (0 * (2 * 1))) p) ∧
    (connection_contrib 1 1 1 (grid2.face_cells (2 * 0 + 0))
        (solve_linear_systems 1 2 blank_ratio
          (offset (compute_compflux_and_deriv grid2 1 press2 (fun _ => 1) (fun _ => 1)
            (fun _ => 0) (fun _ => 1) blank_impl).compflux_deriv_f (0 * (2 * 1))))).2
      = -(1 * ∑ p ∈ Finset.range 1, solve_entry 1 blank_ratio.lu
          (offset (compute_compflux_and_deriv grid2 1 press2 (fun _ => 1) (fun _ => 1)
            (fun _ => 0) (fun _ => 1) blank_impl).compflux_deriv_f (0 * (2 * 1))) p) :=
  C7_offdiag_contributions_equal grid2 1 1 press2 (fun _ => 1) (fun _ => 1) (fun _ => 0)
    (fun _ => 1) blank_impl blank_ratio 0 (by decide) (by decide) 0 1 (by decide) (by decide)

/-- C7 (counterexample): on the two-cell sample grid, whose cells have the same
accumulation matrix and share the one interior face `(0, 1)`, the assembly leaves `-1` in
entry `(0,1)` of row 0 and `-1` in entry `(1,0)` of row 1, each being the single dt-scaled
contribution of the face to that entry: equal, not of opposite sign. -/
theorem C7_offdiag_not_opposite :
    ∃ h', cfs_tpfa_res_assemble grid2 1 bc0 (fun _ => 0) (fun _ => 1) cq1 (fun _ => 1)
        (fun _ => 0) press2 (fun _ => 1) (handle2 0) (fun _ => 0) = some h' ∧
      (handle2 0).J.ja 1 = 1 ∧ (handle2 0).J.ja 2 = 0 ∧
      h'.J.sa 1 = -1 ∧ h'.J.sa 2 = -1 ∧ h'.J.sa 1 ≠ -(h'.J.sa 2) := by
  have h := assemble_grid2_eval 0
  cases hr : cfs_tpfa_res_assemble grid2 1 bc0 (fun _ => 0) (fun _ => 1) cq1 (fun _ => 1)
      (fun _ => 0) press2 (fun _ => 1) (handle2 0) (fun _ => 0) with
  | none => rw [hr] at h; simp at h
  | some x =>
    rw [hr] at h
    simp only [Option.map_some', Option.some.injEq, Prod.mk.injEq] at h
    refine ⟨x, rfl, rfl, rfl, ?_, h.2.2.1, ?_⟩
    · rw [h.2.1]; norm_num
    · rw [h.2.1, h.2.2.1]; norm_num

/-! ## Order and symmetry of the sparsity pattern -/

theorem count_ite_singleton (p : Prop) [Decidable p] (y x : Nat) :
    (if p then [y] else []).count x = if p ∧ y = x then 1 else 0 := by
  by_cases hp : p
  · by_cases hy : y = x
    · rw [if_pos hp, if_pos ⟨hp, hy⟩, hy]
      simp
    · rw [if_pos hp, if_neg (fun e => hy e.2)]
      exact List.count_eq_zero_of_not_mem (by simp [hy, Ne.symm hy])
  · rw [if_neg hp, if_neg (fun e => hp e.1)]
    rfl

/-- How often column `x` is stored for row `c`: once for the diagonal if `x = c`, and once
for every side of an interior face that joins `c` to `x`. -/
theorem count_expected_row (G : grid_t) (c x : Nat) :
    (expected_row G c).count x
      = (if c = x then 1 else 0)
        + ∑ f ∈ Finset.range G.number_of_faces,
            (if interior G f then
              (if (G.face_cells (2 * f + 0)).toNat = c ∧ (G.face_cells (2 * f + 1)).toNat = x
                then 1 else 0)
              + (if (G.face_cells (2 * f + 1)).toNat = c ∧ (G.face_cells (2 * f + 0)).toNat = x
                then 1 else 0)
             else 0) := by
  unfold expected_row
  rw [List.count_cons, List.count_flatMap, add_comm]
  congr 1
  · simp
  · change _ = ((List.range G.number_of_faces).map _).sum
    congr 1
    apply List.map_congr_left
    intro f _
    simp only [Function.comp]
    by_cases hint : interior G f
    · rw [if_pos hint, if_pos hint, List.count_append]
      rw [count_ite_singleton, count_ite_singleton]
    · rw [if_neg hint, if_neg hint]
      rfl

/-- The stored counts are symmetric in row and column. -/
theorem count_expected_row_symm (G : grid_t) (i j : Nat) :
    (expected_row G i).count j = (expected_row G j).count i := by
  rw [count_expected_row, count_expected_row]
  congr 1
  · by_cases h : i = j
    · rw [if_pos h, if_pos h.symm]
    · rw [if_neg h, if_neg (fun e => h e.symm)]
  · apply Finset.sum_congr rfl
    intro f _
    by_cases hint : interior G f
    · rw [if_pos hint, if_pos hint, add_comm]
      congr 1
      · by_cases h : (G.face_cells (2 * f + 1)).toNat = i ∧ (G.face_cells (2 * f + 0)).toNat = j
        · rw [if_pos h, if_pos ⟨h.2, h.1⟩]
        · rw [if_neg h, if_neg (fun e => h ⟨e.2, e.1⟩)]
      · by_cases h : (G.face_cells (2 * f + 0)).toNat = i ∧ (G.face_cells (2 * f + 1)).toNat = j
        · rw [if_pos h, if_pos ⟨h.2, h.1⟩]
        · rw [if_neg h, if_neg (fun e => h ⟨e.2, e.1⟩)]
    · rw [if_neg hint, if_neg hint]

theorem mem_ite_singleton (p : Prop) [Decidable p] (y x : Nat) :
    x ∈ (if p then [y] else []) ↔ p ∧ y = x := by
  by_cases hp : p
  · rw [if_pos hp, List.mem_singleton]
    exact ⟨fun e => ⟨hp, e.symm⟩, fun e => e.2.symm⟩
  · rw [if_neg hp]
    exact ⟨fun e => absurd e (List.not_mem_nil _), fun e => absurd e.1 hp⟩

/-- A column stored for row `c` is the diagonal or the other side of an interior face
of `c`. -/
theorem mem_expected_row (G : grid_t) (c x : Nat) (hx : x ∈ expected_row G c) :
    x = c ∨ ∃ f, f < G.number_of_faces ∧ interior G f ∧
      (((G.face_cells (2 * f + 0)).toNat = c ∧ (G.face_cells (2 * f + 1)).toNat = x) ∨
       ((G.face_cells (2 * f + 1)).toNat = c ∧ (G.face_cells (2 * f + 0)).toNat = x)) := by
  unfold expected_row at hx
  rcases List.mem_cons.mp hx with h | h
  · exact Or.inl h
  · obtain ⟨f, hf, hmem⟩ := List.mem_flatMap.mp h
    by_cases hint : interior G f
    · rw [if_pos hint] at hmem
      refine Or.inr ⟨f, List.mem_range.mp hf, hint, ?_⟩
      rcases List.mem_append.mp hmem with h1 | h1
      · exact Or.inl ((mem_ite_singleton _ _ _).mp h1)
      · exact Or.inr ((mem_ite_singleton _ _ _).mp h1)
    · rw [if_neg hint] at hmem
      exact absurd hmem (List.not_mem_nil _)

/-- Without self-connections and without two interior faces between the same two cells,
no column is stored twice for a row. -/
theorem expected_row_nodup (G : grid_t)
    (hself : ∀ f, f < G.number_of_faces → interior G f →
      G.face_cells (2 * f + 0) ≠ G.face_cells (2 * f + 1))
    (hpair : ∀ f g, f < G.number_of_faces → g < G.number_of_faces → interior G f →
      interior G g → f ≠ g →
      ¬ (G.face_cells (2 * f + 0) = G.face_cells (2 * g + 0) ∧
          G.face_cells (2 * f + 1) = G.face_cells (2 * g + 1)) ∧
      ¬ (G.face_cells (2 * f + 0) = G.face_cells (2 * g + 1) ∧
          G.face_cells (2 * f + 1) = G.face_cells (2 * g + 0)))
    (c : Nat) : (expected_row G c).Nodup := by
  rw [List.nodup_iff_count_le_one]
  intro x
  rw [count_expected_row]
  have hterm : ∀ f, f < G.number_of_faces → interior G f →
      ¬ (((G.face_cells (2 * f + 0)).toNat = c ∧ (G.face_cells (2 * f + 1)).toNat = x) ∧
         ((G.face_cells (2 * f + 1)).toNat = c ∧ (G.face_cells (2 * f + 0)).toNat = x)) := by
    rintro f hf hint ⟨⟨h1, _⟩, ⟨h3, _⟩⟩
    have hne := hself f hf hint
    have hint2 := hint
    unfold interior at hint2
    omega
  by_cases hcx : c = x
  · have hz : (∑ f ∈ Finset.range G.number_of_faces,
        (if interior G f then
          (if (G.face_cells (2 * f + 0)).toNat = c ∧ (G.face_cells (2 * f + 1)).toNat = x
            then 1 else 0)
          + (if (G.face_cells (2 * f + 1)).toNat = c ∧ (G.face_cells (2 * f + 0)).toNat = x
            then 1 else 0)
         else 0)) = 0 := by
      apply Finset.sum_eq_zero
      intro f hf
      by_cases hint : interior G f
      · rw [if_pos hint]
        have hne := hself f (Finset.mem_range.mp hf) hint
        have hint2 := hint
        unfold interior at hint2
        rw [if_neg (by rintro ⟨h1, h2⟩; omega), if_neg (by rintro ⟨h1, h2⟩; omega), add_zero]
      · rw [if_neg hint]
    rw [if_pos hcx, hz]
  · rw [if_neg hcx, zero_add]
    by_cases hex : ∃ f, f < G.number_of_faces ∧ interior G f ∧
        (((G.face_cells (2 * f + 0)).toNat = c ∧ (G.face_cells (2 * f + 1)).toNat = x) ∨
         ((G.face_cells (2 * f + 1)).toNat = c ∧ (G.face_cells (2 * f + 0)).toNat = x))
    · obtain ⟨f0, hf0, hint0, hside0⟩ := hex
      have hint0b := hint0
      unfold interior at hint0b
      rw [Finset.sum_eq_single f0]
      · rw [if_pos hint0]
        have := hterm f0 hf0 hint0
        by_cases h1 : (G.face_cells (2 * f0 + 0)).toNat = c ∧
            (G.face_cells (2 * f0 + 1)).toNat = x
        · rw [if_pos h1, if_neg (fun h2 => this ⟨h1, h2⟩)]
        · rw [if_neg h1]
          split_ifs <;> omega
      · intro g hg hne
        by_cases hintg : interior G g
        · rw [if_pos hintg]
          have hp := hpair g f0 (Finset.mem_range.mp hg) hf0 hintg hint0 hne
          have hintgb := hintg
          unfold interior at hintgb
          rw [if_neg (by rintro ⟨h1, h2⟩; rcases hside0 with ⟨h3, h4⟩ | ⟨h3, h4⟩ <;> omega),
            if_neg (by rintro ⟨h1, h2⟩; rcases hside0 with ⟨h3, h4⟩ | ⟨h3, h4⟩ <;> omega),
            add_zero]
        · rw [if_neg hintg]
      · intro hn
        exact absurd (Finset.mem_range.mpr hf0) hn
    · rw [Finset.sum_eq_zero]
      · exact Nat.zero_le _
      · intro f hf
        by_cases hint : interior G f
        · rw [if_pos hint,
            if_neg (fun h => hex ⟨f, Finset.mem_range.mp hf, hint, Or.inl h⟩),
            if_neg (fun h => hex ⟨f, Finset.mem_range.mp hf, hint, Or.inr h⟩), add_zero]
        · rw [if_neg hint]

/-- In an ascending row that holds `c` and nothing below `c`, the first stored column
is `c`. -/
theorem csr_row_first (ia ja : Nat → Nat) (r c : Nat)
    (hs : List.Sorted (fun a b => a ≤ b) (csr_row ia ja r)) (hmem : c ∈ csr_row ia ja r)
    (hmin : ∀ x, x ∈ csr_row ia ja r → c ≤ x) : ia r < ia (r + 1) ∧ ja (ia r) = c := by
  unfold csr_row at hs hmem hmin
  have hpos : 0 < ia (r + 1) - ia r := by
    rcases Nat.eq_zero_or_pos (ia (r + 1) - ia r) with hz | hp
    · rw [hz] at hmem; simp at hmem
    · exact hp
  obtain ⟨n, hn⟩ : ∃ n, ia (r + 1) - ia r = n + 1 := ⟨ia (r + 1) - ia r - 1, by omega⟩
  rw [hn, List.range'_succ, List.map_cons] at hs hmem hmin
  refine ⟨by omega, ?_⟩
  have h1 : c ≤ ja (ia r) := hmin _ (List.mem_cons_self _ _)
  rcases List.mem_cons.mp hmem with h | h
  · exact h.symm
  · exact le_antisymm (List.rel_of_sorted_cons hs c h) h1

/-- C12: for a grid with at least one cell (whose face neighbours are cells of the grid)
`construct_matrix` returns a pattern in which the column indices of every row are in
non-decreasing order; the first stored entry of a row `c` none of whose neighbours has a
smaller index is the diagonal, and so is the first stored entry of row 0; and when no
interior face has the same cell on both sides and no two interior faces join the same two
cells, the column indices of every row are strictly increasing. -/
theorem C12_rows_sorted (G : grid_t) (hnc : 0 < G.number_of_cells) (hG : faces_ok G) :
    ∃ A, construct_matrix G = some A ∧
      (∀ c, c < G.number_of_cells →
        List.Sorted (fun a b => a ≤ b) (csr_row A.ia A.ja c)) ∧
      (∀ c, c < G.number_of_cells →
        (∀ f, f < G.number_of_faces → interior G f →
          ((G.face_cells (2 * f + 0)).toNat = c → c ≤ (G.face_cells (2 * f + 1)).toNat) ∧
          ((G.face_cells (2 * f + 1)).toNat = c → c ≤ (G.face_cells (2 * f + 0)).toNat)) →
        A.ia c < A.ia (c + 1) ∧ A.ja (A.ia c) = c) ∧
      (A.ia 0 < A.ia 1 ∧ A.ja (A.ia 0) = 0) ∧
      ((∀ f, f < G.number_of_faces → interior G f →
          G.face_cells (2 * f + 0) ≠ G.face_cells (2 * f + 1)) →
        (∀ f g, f < G.number_of_faces → g < G.number_of_faces → interior G f →
          interior G g → f ≠ g →
          ¬ (G.face_cells (2 * f + 0) = G.face_cells (2 * g + 0) ∧
              G.face_cells (2 * f + 1) = G.face_cells (2 * g + 1)) ∧
          ¬ (G.face_cells (2 * f + 0) = G.face_cells (2 * g + 1) ∧
              G.face_cells (2 * f + 1) = G.face_cells (2 * g + 0))) →
        ∀ c, c < G.number_of_cells →
          List.Sorted (fun a b => a < b) (csr_row A.ia A.ja c)) := by
  obtain ⟨A, hA, _, _, _, hrow⟩ := construct_matrix_rows G hnc hG
  have hsorted : ∀ c, c < G.number_of_cells →
      List.Sorted (fun a b => a ≤ b) (csr_row A.ia A.ja c) := by
    intro c hc
    rw [hrow c hc]
    exact List.sorted_insertionSort (fun a b : Nat => a ≤ b) (expected_row G c)
  have hmem : ∀ c, c < G.number_of_cells → ∀ x,
      x ∈ csr_row A.ia A.ja c ↔ x ∈ expected_row G c := by
    intro c hc x
    rw [hrow c hc]
    exact (List.perm_insertionSort _ _).mem_iff
  refine ⟨A, hA, hsorted, fun c hc hnb => ?_, ?_, fun hself hpair c hc => ?_⟩
  · refine csr_row_first A.ia A.ja c c (hsorted c hc)
      ((hmem c hc c).mpr (mem_expected_row_self G c)) (fun x hx => ?_)
    rcases mem_expected_row G c x ((hmem c hc x).mp hx) with h | ⟨f, hf, hint, h | h⟩
    · exact le_of_eq h.symm
    · rw [← h.2]; exact (hnb f hf hint).1 h.1
    · rw [← h.2]; exact (hnb f hf hint).2 h.1
  · exact csr_row_first A.ia A.ja 0 0 (hsorted 0 hnc)
      ((hmem 0 hnc 0).mpr (mem_expected_row_self G 0)) (fun x _ => Nat.zero_le x)
  · refine List.Sorted.lt_of_le (hsorted c hc) ?_
    rw [hrow c hc]
    exact (List.perm_insertionSort _ _).nodup_iff.mpr (expected_row_nodup G hself hpair c)

/-- The statement of `C12_rows_sorted` at a sample input, the two-cell sample grid. -/
theorem C12_rows_sorted_witness :
    ∃ A, construct_matrix grid2 = some A ∧
      (∀ c, c < grid2.number_of_cells →
        List.Sorted (fun a b => a ≤ b) (csr_row A.ia A.ja c)) ∧
      (∀ c, c < grid2.number_of_cells →
        (∀ f, f < grid2.number_of_faces → interior grid2 f →
          ((grid2.face_cells (2 * f + 0)).toNat = c →
            c ≤ (grid2.face_cells (2 * f + 1)).toNat) ∧
          ((grid2.face_cells (2 * f + 1)).toNat = c →
            c ≤ (grid2.face_cells (2 * f + 0)).toNat)) →
        A.ia c < A.ia (c + 1) ∧ A.ja (A.ia c) = c) ∧
      (A.ia 0 < A.ia 1 ∧ A.ja (A.ia 0) = 0) ∧
      ((∀ f, f < grid2.number_of_faces → interior grid2 f →
          grid2.face_cells (2 * f + 0) ≠ grid2.face_cells (2 * f + 1)) →
        (∀ f g, f < grid2.number_of_faces → g < grid2.number_of_faces → interior grid2 f →
          interior grid2 g → f ≠ g →
          ¬ (grid2.face_cells (2 * f + 0) = grid2.face_cells (2 * g + 0) ∧
              grid2.face_cells (2 * f + 1) = grid2.face_cells (2 * g + 1)) ∧
          ¬ (grid2.face_cells (2 * f + 0) = grid2.face_cells (2 * g + 1) ∧
              grid2.face_cells (2 * f + 1) = grid2.face_cells (2 * g + 0))) →
        ∀ c, c < grid2.number_of_cells →
          List.Sorted (fun a b => a < b) (csr_row A.ia A.ja c)) :=
  C12_rows_sorted grid2 (by decide) (by decide)

/-- C13: for a grid with at least one cell (whose face neighbours are cells of the grid)
the pattern returned by `construct_matrix` is structurally symmetric: for all cells `i`
and `j`, column `j` occurs in row `i` exactly as many times as column `i` occurs in
row `j`. -/
theorem C13_pattern_symmetric (G : grid_t) (hnc : 0 < G.number_of_cells) (hG : faces_ok G) :
    ∃ A, construct_matrix G = some A ∧
      ∀ i j, i < G.number_of_cells → j < G.number_of_cells →
        (csr_row A.ia A.ja i).count j = (csr_row A.ia A.ja j).count i := by
  obtain ⟨A, hA, _, _, _, hrow⟩ := construct_matrix_rows G hnc hG
  refine ⟨A, hA, fun i j hi hj => ?_⟩
  rw [hrow i hi, hrow j hj, (List.perm_insertionSort _ _).count_eq,
    (List.perm_insertionSort _ _).count_eq]
  exact count_expected_row_symm G i j

/-- The statement of `C13_pattern_symmetric` at a sample input, the two-cell sample
grid. -/
theorem C13_pattern_symmetric_witness :
    ∃ A, construct_matrix grid2 = some A ∧
      ∀ i j, i < grid2.number_of_cells → j < grid2.number_of_cells →
        (csr_row A.ia A.ja i).count j = (csr_row A.ia A.ja j).count i :=
  C13_pattern_symmetric grid2 (by decide) (by decide)

/-! ## Face fluxes for reporting (`compute_flux`) -/

theorem flux_sums_loop (np : Nat) (pmobf gravcap_f : Nat → ℚ) (f n : Nat) :
    forLoop (fun p (s : ℚ × ℚ) =>
        (s.1 + pmobf (f * np + p), s.2 + pmobf (f * np + p) * gravcap_f (f * np + p)))
      0 n (0, 0)
      = (∑ p ∈ Finset.range n, pmobf (f * np + p),
         ∑ p ∈ Finset.range n, pmobf (f * np + p) * gravcap_f (f * np + p)) := by
  induction n with
  | zero => simp
  | succ n ih =>
    rw [forLoop_succ, ih, Finset.sum_range_succ, Finset.sum_range_succ, Nat.zero_add]

theorem flux_sums_eq (np : Nat) (pmobf gravcap_f : Nat → ℚ) (f : Nat) :
    flux_sums np pmobf gravcap_f f
      = (∑ p ∈ Finset.range np, pmobf (f * np + p),
         ∑ p ∈ Finset.range np, pmobf (f * np + p) * gravcap_f (f * np + p)) :=
  flux_sums_loop np pmobf gravcap_f f np

/-- A pass of the face loop of `compute_flux` stores one value, at its own face, and that
value does not depend on the array it is stored in. -/
theorem compute_flux_step_eq (G : grid_t) (bc : flowbc_t) (np : Nat)
    (trans pmobf gravcap_f cpress : Nat → ℚ) (f : Nat) (fflux : Nat → ℚ) :
    compute_flux_step G bc np trans pmobf gravcap_f cpress f fflux
      = Function.update fflux f
          (compute_flux_step G bc np trans pmobf gravcap_f cpress f (fun _ => 0) f) := by
  unfold compute_flux_step
  simp only []
  split_ifs <;> simp only [Function.update_same]

theorem compute_flux_loop (G : grid_t) (bc : flowbc_t) (np : Nat)
    (trans pmobf gravcap_f cpress fflux : Nat → ℚ) (n k : Nat) :
    forLoop (compute_flux_step G bc np trans pmobf gravcap_f cpress) 0 n fflux k
      = if k < n then compute_flux_step G bc np trans pmobf gravcap_f cpress k (fun _ => 0) k
        else fflux k := by
  induction n with
  | zero => simp
  | succ n ih =>
    rw [forLoop_succ, Nat.zero_add, compute_flux_step_eq, Function.update_apply, ih]
    split_ifs with h1 h2 h3 h4 h5
    · rw [h1]
    · omega
    · rfl
    · omega
    · omega
    · rfl

/-- The value that `cfs_tpfa_res_flux` leaves for a face of the grid is the value stored by
the pass of that face. -/
theorem res_flux_apply (G : grid_t) (bc : flowbc_t) (np : Nat)
    (trans pmobf gravcap_f cpress fflux : Nat → ℚ) (f : Nat) (hf : f < G.number_of_faces) :
    cfs_tpfa_res_flux G bc np trans pmobf gravcap_f cpress fflux f
      = compute_flux_step G bc np trans pmobf gravcap_f cpress f (fun _ => 0) f := by
  unfold cfs_tpfa_res_flux compute_flux
  rw [compute_flux_loop, if_pos hf]

/-- C14: after `cfs_tpfa_res_flux`, with `t = sum_p pmobf[f*np+p]` and
`g = sum_p pmobf[f*np+p] * gravcap_f[f*np+p]`: for an interior face, whatever its
boundary-condition entry, `fflux[f] = trans[f] * (t * (cpress[c1] - cpress[c2]) + g)`; for
a face with a `PRESSURE` condition whose first neighbour is missing,
`fflux[f] = trans[f] * (t * (bcval[f] - cpress[c2]) + g)`, and whose second neighbour is
missing, `fflux[f] = trans[f] * (t * (cpress[c1] - bcval[f]) + g)`. -/
theorem C14_flux_interior_and_pressure (G : grid_t) (bc : flowbc_t) (np : Nat)
    (trans pmobf gravcap_f cpress fflux : Nat → ℚ) (f : Nat) (hf : f < G.number_of_faces) :
    (interior G f →
      cfs_tpfa_res_flux G bc np trans pmobf gravcap_f cpress fflux f
        = trans f * ((∑ p ∈ Finset.range np, pmobf (f * np + p)) *
            (cpress (G.face_cells (2 * f + 0)).toNat - cpress (G.face_cells (2 * f + 1)).toNat)
            + ∑ p ∈ Finset.range np, pmobf (f * np + p) * gravcap_f (f * np + p))) ∧
    (bc.type f = flowbc_type.PRESSURE →
      G.face_cells (2 * f + 0) < 0 → 0 ≤ G.face_cells (2 * f + 1) →
      cfs_tpfa_res_flux G bc np trans pmobf gravcap_f cpress fflux f
        = trans f * ((∑ p ∈ Finset.range np, pmobf (f * np + p)) *
            (bc.bcval f - cpress (G.face_cells (2 * f + 1)).toNat)
            + ∑ p ∈ Finset.range np, pmobf (f * np + p) * gravcap_f (f * np + p))) ∧
    (bc.type f = flowbc_type.PRESSURE →
      0 ≤ G.face_cells (2 * f + 0) → G.face_cells (2 * f + 1) < 0 →
      cfs_tpfa_res_flux G bc np trans pmobf gravcap_f cpress fflux f
        = trans f * ((∑ p ∈ Finset.range np, pmobf (f * np + p)) *
            (cpress (G.face_cells (2 * f + 0)).toNat - bc.bcval f)
            + ∑ p ∈ Finset.range np, pmobf (f * np + p) * gravcap_f (f * np + p))) := by
  rw [res_flux_apply _ _ _ _ _ _ _ _ _ hf]
  unfold compute_flux_step
  simp only [flux_sums_eq]
  refine ⟨fun hint => ?_, fun hp h1 h2 => ?_, fun hp h1 h2 => ?_⟩
  · have hint' := hint
    unfold interior at hint'
    have hnb : ¬ ((G.face_cells (2 * f + 0) < 0 ∨ G.face_cells (2 * f + 1) < 0) ∧
        bc.type f = flowbc_type.FLUX) := by
      rintro ⟨h | h, _⟩ <;> omega
    rw [if_neg hnb, Function.update_same, if_pos hint']
  · have hnb : ¬ ((G.face_cells (2 * f + 0) < 0 ∨ G.face_cells (2 * f + 1) < 0) ∧
        bc.type f = flowbc_type.FLUX) := by
      rintro ⟨_, h⟩
      rw [hp] at h
      exact flowbc_type.noConfusion h
    have hni : ¬ (0 ≤ G.face_cells (2 * f + 0) ∧ 0 ≤ G.face_cells (2 * f + 1)) := by
      rintro ⟨h, _⟩; omega
    rw [if_neg hnb, Function.update_same, if_neg hni, if_pos hp, if_pos h1]
  · have hnb : ¬ ((G.face_cells (2 * f + 0) < 0 ∨ G.face_cells (2 * f + 1) < 0) ∧
        bc.type f = flowbc_type.FLUX) := by
      rintro ⟨_, h⟩
      rw [hp] at h
      exact flowbc_type.noConfusion h
    have hni : ¬ (0 ≤ G.face_cells (2 * f + 0) ∧ 0 ≤ G.face_cells (2 * f + 1)) := by
      rintro ⟨_, h⟩; omega
    rw [if_neg hnb, Function.update_same, if_neg hni, if_pos hp, if_neg (by omega)]

/-- The statement of `C14_flux_interior_and_pressure` at a sample input: face 1 of the
two-cell sample grid, a `PRESSURE` face whose first neighbour is missing. -/
theorem C14_flux_interior_and_pressure_witness :
    cfs_tpfa_res_flux grid2 bc2 1 (fun _ => 2) (fun _ => 3) (fun _ => 5) press2 (fun _ => 0) 1
      = (fun _ => 2 : Nat → ℚ) 1 * ((∑ p ∈ Finset.range 1, (fun _ => 3 : Nat → ℚ) (1 * 1 + p)) *
          (bc2.bcval 1 - press2 (grid2.face_cells (2 * 1 + 1)).toNat)
          + ∑ p ∈ Finset.range 1,
              (fun _ => 3 : Nat → ℚ) (1 * 1 + p) * (fun _ => 5 : Nat → ℚ) (1 * 1 + p)) :=
  (C14_flux_interior_and_pressure grid2 bc2 1 (fun _ => 2) (fun _ => 3) (fun _ => 5) press2
    (fun _ => 0) 1 (by decide)).2.1 rfl (by decide) (by decide)

/-- C15: after `cfs_tpfa_res_flux`, for every boundary face (a neighbour index negative)
whose condition is `FLUX`, `fflux[f]` is the prescribed `bcval[f]`, whatever the pressures,
mobilities, transmissibilities and gravity terms are. -/
theorem C15_flux_prescribed (G : grid_t) (bc : flowbc_t) (np : Nat)
    (trans pmobf gravcap_f cpress fflux : Nat → ℚ) (f : Nat) (hf : f < G.number_of_faces)
    (hb : G.face_cells (2 * f + 0) < 0 ∨ G.face_cells (2 * f + 1) < 0)
    (ht : bc.type f = flowbc_type.FLUX) :
    cfs_tpfa_res_flux G bc np trans pmobf gravcap_f cpress fflux f = bc.bcval f := by
  rw [res_flux_apply _ _ _ _ _ _ _ _ _ hf]
  unfold compute_flux_step
  simp only []
  rw [if_pos ⟨hb, ht⟩, Function.update_same]

/-- The statement of `C15_flux_prescribed` at a sample input: face 2 of the two-cell
sample grid. -/
theorem C15_flux_prescribed_witness :
    cfs_tpfa_res_flux grid2 bc2 1 (fun _ => 2) (fun _ => 3) (fun _ => 5) press2 (fun _ => 0) 2
      = bc2.bcval 2 :=
  C15_flux_prescribed grid2 bc2 1 (fun _ => 2) (fun _ => 3) (fun _ => 5) press2 (fun _ => 0) 2
    (by decide) (by decide) rfl

/-- C16 (amended): after `cfs_tpfa_res_flux`, for every boundary face with neither a `FLUX`
nor a `PRESSURE` condition and total mobility `t ≠ 0`, the flux is
`trans[f] * (t * dp + g)` with `dp = -g / t`; in exact arithmetic (the rationals here) this
is zero, whatever the transmissibility and the gravity term. -/
theorem C16_flux_no_flow (G : grid_t) (bc : flowbc_t) (np : Nat)
    (trans pmobf gravcap_f cpress fflux : Nat → ℚ) (f : Nat) (hf : f < G.number_of_faces)
    (hb : G.face_cells (2 * f + 0) < 0 ∨ G.face_cells (2 * f + 1) < 0)
    (hnf : bc.type f ≠ flowbc_type.FLUX) (hnp : bc.type f ≠ flowbc_type.PRESSURE)
    (ht : ∑ p ∈ Finset.range np, pmobf (f * np + p) ≠ 0) :
    cfs_tpfa_res_flux G bc np trans pmobf gravcap_f cpress fflux f
      = trans f * ((∑ p ∈ Finset.range np, pmobf (f * np + p)) *
          (-(∑ p ∈ Finset.range np, pmobf (f * np + p) * gravcap_f (f * np + p)) /
            (∑ p ∈ Finset.range np, pmobf (f * np + p)))
          + ∑ p ∈ Finset.range np, pmobf (f * np + p) * gravcap_f (f * np + p)) ∧
    cfs_tpfa_res_flux G bc np trans pmobf gravcap_f cpress fflux f = 0 := by
  have hval : cfs_tpfa_res_flux G bc np trans pmobf gravcap_f cpress fflux f
      = trans f * ((∑ p ∈ Finset.range np, pmobf (f * np + p)) *
          (-(∑ p ∈ Finset.range np, pmobf (f * np + p) * gravcap_f (f * np + p)) /
            (∑ p ∈ Finset.range np, pmobf (f * np + p)))
          + ∑ p ∈ Finset.range np, pmobf (f * np + p) * gravcap_f (f * np + p)) := by
    rw [res_flux_apply _ _ _ _ _ _ _ _ _ hf]
    unfold compute_flux_step
    simp only [flux_sums_eq]
    have hni : ¬ (0 ≤ G.face_cells (2 * f + 0) ∧ 0 ≤ G.face_cells (2 * f + 1)) := by
      rintro ⟨h1, h2⟩
      rcases hb with h | h <;> omega
    rw [if_neg (fun h => hnf h.2), Function.update_same, if_neg hni, if_neg hnp]
  refine ⟨hval, ?_⟩
  rw [hval, mul_div_cancel₀ _ ht]
  ring

/-- The statement of `C16_flux_no_flow` at a sample input: face 1 of the two-cell sample
grid with no boundary condition, in exact arithmetic. -/
theorem C16_flux_no_flow_witness :
    cfs_tpfa_res_flux grid2 bc0 1 (fun _ => 2) (fun _ => 3) (fun _ => 5) press2 (fun _ => 0) 1
      = 0 :=
  (C16_flux_no_flow grid2 bc0 1 (fun _ => 2) (fun _ => 3) (fun _ => 5) press2 (fun _ => 0) 1
    (by decide) (by decide) (by simp [bc0]) (by simp [bc0]) (by simp)).2

/-! ## Face pressures for reporting (`compute_fpress`) -/

/-- The clearing loop of `compute_fpress`. -/
theorem fpress_clear_loop (n : Nat) (s : fpress_locals) :
    (forLoop (fun f (s : fpress_locals) =>
        { s with fpress := Function.update s.fpress f 0,
                 scratch_f := Function.update s.scratch_f f 0 }) 0 n s).i = s.i ∧
    ∀ k,
      (forLoop (fun f (s : fpress_locals) =>
        { s with fpress := Function.update s.fpress f 0,
                 scratch_f := Function.update s.scratch_f f 0 }) 0 n s).fpress k
        = (if k < n then 0 else s.fpress k) ∧
      (forLoop (fun f (s : fpress_locals) =>
        { s with fpress := Function.update s.fpress f 0,
                 scratch_f := Function.update s.scratch_f f 0 }) 0 n s).scratch_f k
        = (if k < n then 0 else s.scratch_f k) := by
  induction n with
  | zero => simp
  | succ n ih =>
    rw [forLoop_succ, Nat.zero_add]
    refine ⟨ih.1, fun k => ?_⟩
    simp only [Function.update_apply, (ih.2 k).1, (ih.2 k).2]
    constructor <;> (split_ifs <;> first | rfl | omega)

/-- The weights after one visit of a face-list position. -/
theorem fpress_visit_apply (G : grid_t) (htrans cpress : Nat → ℚ) (c j : Nat)
    (s : fpress_locals) (k : Nat) :
    (fpress_visit G htrans cpress c j s).scratch_f k
      = if G.cell_faces j = k then s.scratch_f k + htrans j else s.scratch_f k := by
  unfold fpress_visit
  simp only [Function.update_apply]
  by_cases h : G.cell_faces j = k
  · rw [if_pos h.symm, if_pos h, h]
  · rw [if_neg (fun e => h e.symm), if_neg h]

/-- The weighted pressures after one visit of a face-list position. -/
theorem fpress_visit_apply_fpress (G : grid_t) (htrans cpress : Nat → ℚ) (c j : Nat)
    (s : fpress_locals) (k : Nat) :
    (fpress_visit G htrans cpress c j s).fpress k
      = if G.cell_faces j = k then s.fpress k + htrans j * cpress c else s.fpress k := by
  unfold fpress_visit
  simp only [Function.update_apply]
  by_cases h : G.cell_faces j = k
  · rw [if_pos h.symm, if_pos h, h]
  · rw [if_neg (fun e => h e.symm), if_neg h]

/-- The loop over the face list of one cell in `compute_fpress`. -/
theorem fpress_visit_loop (G : grid_t) (htrans cpress : Nat → ℚ) (c lo n : Nat)
    (s : fpress_locals) :
    (forLoop (fpress_visit G htrans cpress c) lo n s).i = s.i ∧
    ∀ k,
      (forLoop (fpress_visit G htrans cpress c) lo n s).scratch_f k
        = s.scratch_f k
          + ∑ j ∈ Finset.range n, (if G.cell_faces (lo + j) = k then htrans (lo + j) else 0) ∧
      (forLoop (fpress_visit G htrans cpress c) lo n s).fpress k
        = s.fpress k
          + ∑ j ∈ Finset.range n,
              (if G.cell_faces (lo + j) = k then htrans (lo + j) * cpress c else 0) := by
  induction n with
  | zero => simp
  | succ n ih =>
    rw [forLoop_succ]
    refine ⟨ih.1, fun k => ?_⟩
    rw [fpress_visit_apply, fpress_visit_apply_fpress, Finset.sum_range_succ,
      Finset.sum_range_succ, (ih.2 k).1, (ih.2 k).2]
    by_cases h : G.cell_faces (lo + n) = k
    · rw [if_pos h, if_pos h, if_pos h, if_pos h]
      constructor <;> ring
    · rw [if_neg h, if_neg h, if_neg h, if_neg h]
      constructor <;> ring

/-- One pass of the cell loop of `compute_fpress`, entered with the cursor at the start of
the face list of the cell. -/
theorem fpress_cell_eq (G : grid_t) (htrans cpress : Nat → ℚ) (c : Nat) (s : fpress_locals)
    (hi : s.i = G.cell_facepos c) (hle : G.cell_facepos c ≤ G.cell_facepos (c + 1)) :
    (fpress_cell G htrans cpress c s).i = G.cell_facepos (c + 1) ∧
    ∀ k,
      (fpress_cell G htrans cpress c s).scratch_f k
        = s.scratch_f k
          + ∑ j ∈ Finset.Ico (G.cell_facepos c) (G.cell_facepos (c + 1)),
              (if G.cell_faces j = k then htrans j else 0) ∧
      (fpress_cell G htrans cpress c s).fpress k
        = s.fpress k
          + ∑ j ∈ Finset.Ico (G.cell_facepos c) (G.cell_facepos (c + 1)),
              (if G.cell_faces j = k then htrans j * cpress c else 0) := by
  unfold fpress_cell
  simp only []
  rw [hi]
  refine ⟨by omega, fun k => ?_⟩
  have h := (fpress_visit_loop G htrans cpress c (G.cell_facepos c)
    (G.cell_facepos (c + 1) - G.cell_facepos c) s).2 k
  rw [Finset.sum_Ico_eq_sum_range, Finset.sum_Ico_eq_sum_range]
  exact h

/-- The cell loop of `compute_fpress` on a grid whose face lists follow one another. -/
theorem fpress_cell_loop (G : grid_t) (htrans cpress : Nat → ℚ) (s : fpress_locals)
    (hi : s.i = G.cell_facepos 0) (n : Nat)
    (hmono : ∀ c, c < n → G.cell_facepos c ≤ G.cell_facepos (c + 1)) :
    (forLoop (fpress_cell G htrans cpress) 0 n s).i = G.cell_facepos n ∧
    ∀ k,
      (forLoop (fpress_cell G htrans cpress) 0 n s).scratch_f k
        = s.scratch_f k
          + ∑ c ∈ Finset.range n, ∑ j ∈ Finset.Ico (G.cell_facepos c) (G.cell_facepos (c + 1)),
              (if G.cell_faces j = k then htrans j else 0) ∧
      (forLoop (fpress_cell G htrans cpress) 0 n s).fpress k
        = s.fpress k
          + ∑ c ∈ Finset.range n, ∑ j ∈ Finset.Ico (G.cell_facepos c) (G.cell_facepos (c + 1)),
              (if G.cell_faces j = k then htrans j * cpress c else 0) := by
  induction n with
  | zero => simpa using hi
  | succ n ih =>
    have ih' := ih (fun c hc => hmono c (by omega))
    rw [forLoop_succ, Nat.zero_add]
    have h := fpress_cell_eq G htrans cpress n _ ih'.1 (hmono n (by omega))
    refine ⟨h.1, fun k => ?_⟩
    rw [(h.2 k).1, (h.2 k).2, (ih'.2 k).1, (ih'.2 k).2, Finset.sum_range_succ,
      Finset.sum_range_succ]
    constructor <;> ring

/-- One pass of the closing loop of `compute_fpress` keeps the weights. -/
theorem fpress_finish_scratch (G : grid_t) (bc : flowbc_t) (f : Nat) (s : fpress_locals) :
    (fpress_finish G bc f s).scratch_f = s.scratch_f := by
  unfold fpress_finish
  simp only []
  split_ifs <;> rfl

/-- One pass of the closing loop of `compute_fpress` stores the pressure of its face. -/
theorem fpress_finish_apply (G : grid_t) (bc : flowbc_t) (f : Nat) (s : fpress_locals)
    (k : Nat) :
    (fpress_finish G bc f s).fpress k
      = if k = f then
          (if (G.face_cells (2 * f + 0) < 0 ∨ G.face_cells (2 * f + 1) < 0) ∧
              bc.type f = flowbc_type.PRESSURE then bc.bcval f
           else s.fpress f / s.scratch_f f)
        else s.fpress k := by
  unfold fpress_finish
  simp only []
  by_cases hk : k = f
  · subst hk
    rw [if_pos rfl]
    split_ifs <;> simp only [Function.update_same]
  · rw [if_neg hk]
    split_ifs <;> simp only [Function.update_apply, if_neg hk]

/-- The closing loop of `compute_fpress`. -/
theorem fpress_finish_loop (G : grid_t) (bc : flowbc_t) (n : Nat) (s : fpress_locals) :
    (forLoop (fpress_finish G bc) 0 n s).scratch_f = s.scratch_f ∧
    ∀ k,
      (forLoop (fpress_finish G bc) 0 n s).fpress k
        = if k < n then
            (if (G.face_cells (2 * k + 0) < 0 ∨ G.face_cells (2 * k + 1) < 0) ∧
                bc.type k = flowbc_type.PRESSURE then bc.bcval k
             else s.fpress k / s.scratch_f k)
          else s.fpress k := by
  induction n with
  | zero => simp
  | succ n ih =>
    rw [forLoop_succ, Nat.zero_add]
    refine ⟨by rw [fpress_finish_scratch, ih.1], fun k => ?_⟩
    rw [fpress_finish_apply, ih.1, ih.2 n, ih.2 k, if_neg (lt_irrefl n)]
    by_cases hk : k = n
    · subst hk
      rw [if_pos rfl, if_pos (show k < k + 1 by omega)]
    · rw [if_neg hk]
      by_cases hlt : k < n
      · rw [if_pos hlt, if_pos (show k < n + 1 by omega)]
      · rw [if_neg hlt, if_neg (show ¬ k < n + 1 by omega)]

/-- The value that `cfs_tpfa_res_fpress` leaves for a face of the grid. -/
theorem res_fpress_apply (G : grid_t) (bc : flowbc_t) (np : Nat)
    (htrans pmobf gravcap_f : Nat → ℚ) (h : cfs_tpfa_res_data) (cpress fflux fpress : Nat → ℚ)
    (f : Nat) (hf : f < G.number_of_faces) :
    cfs_tpfa_res_fpress G bc np htrans pmobf gravcap_f h cpress fflux fpress f
      = if (G.face_cells (2 * f + 0) < 0 ∨ G.face_cells (2 * f + 1) < 0) ∧
            bc.type f = flowbc_type.PRESSURE then bc.bcval f
        else
          (forLoop (fpress_cell G htrans cpress) 0 G.number_of_cells
            (forLoop (fun f (s : fpress_locals) =>
              { s with fpress := Function.update s.fpress f 0,
                       scratch_f := Function.update s.scratch_f f 0 }) 0 G.number_of_faces
              { i := 0, scratch_f := h.pimpl.scratch_f, fpress := fpress })).fpress f /
          (forLoop (fpress_cell G htrans cpress) 0 G.number_of_cells
            (forLoop (fun f (s : fpress_locals) =>
              { s with fpress := Function.update s.fpress f 0,
                       scratch_f := Function.update s.scratch_f f 0 }) 0 G.number_of_faces
              { i := 0, scratch_f := h.pimpl.scratch_f, fpress := fpress })).scratch_f f := by
  unfold cfs_tpfa_res_fpress compute_fpress
  simp only []
  rw [(fpress_finish_loop G bc _ _).2 f, if_pos hf]

/-- On a grid whose face lists follow one another from position `0`, the face pressure of an
unconstrained face is the ratio of the accumulated weighted pressures to the accumulated
weights. -/
theorem res_fpress_sums (G : grid_t) (bc : flowbc_t) (np : Nat)
    (htrans pmobf gravcap_f : Nat → ℚ) (h : cfs_tpfa_res_data) (cpress fflux fpress : Nat → ℚ)
    (f : Nat) (hf : f < G.number_of_faces) (h0 : G.cell_facepos 0 = 0)
    (hmono : ∀ c, c < G.number_of_cells → G.cell_facepos c ≤ G.cell_facepos (c + 1))
    (hfree : ¬ ((G.face_cells (2 * f + 0) < 0 ∨ G.face_cells (2 * f + 1) < 0) ∧
            bc.type f = flowbc_type.PRESSURE)) :
    cfs_tpfa_res_fpress G bc np htrans pmobf gravcap_f h cpress fflux fpress f
      = (∑ c ∈ Finset.range G.number_of_cells,
          ∑ j ∈ Finset.Ico (G.cell_facepos c) (G.cell_facepos (c + 1)),
            (if G.cell_faces j = f then htrans j * cpress c else 0)) /
        (∑ c ∈ Finset.range G.number_of_cells,
          ∑ j ∈ Finset.Ico (G.cell_facepos c) (G.cell_facepos (c + 1)),
            (if G.cell_faces j = f then htrans j else 0)) := by
  rw [res_fpress_apply _ _ _ _ _ _ _ _ _ _ _ hf, if_neg hfree]
  have hclear := fpress_clear_loop G.number_of_faces
    { i := 0, scratch_f := h.pimpl.scratch_f, fpress := fpress }
  have hcell := fpress_cell_loop G htrans cpress _ (by rw [hclear.1, h0]) G.number_of_cells hmono
  rw [(hcell.2 f).1, (hcell.2 f).2, (hclear.2 f).1, (hclear.2 f).2, if_pos hf, if_pos hf,
    zero_add, zero_add]

/-- Face-list positions do not decrease from one cell to a later one. -/
theorem facepos_mono (G : grid_t) (n : Nat)
    (hmono : ∀ c, c < n → G.cell_facepos c ≤ G.cell_facepos (c + 1)) (a b : Nat)
    (hab : a ≤ b) (hb : b ≤ n) : G.cell_facepos a ≤ G.cell_facepos b := by
  induction b with
  | zero =>
    have : a = 0 := by omega
    rw [this]
  | succ b ih =>
    rcases Nat.lt_or_ge a (b + 1) with h | h
    · exact le_trans (ih (by omega) (by omega)) (hmono b (by omega))
    · have : a = b + 1 := by omega
      rw [this]

/-- A position belongs to the face list of one cell only. -/
theorem facepos_cell_unique (G : grid_t) (n : Nat)
    (hmono : ∀ c, c < n → G.cell_facepos c ≤ G.cell_facepos (c + 1)) (a b i : Nat)
    (ha : a < n) (hb : b < n)
    (hia : G.cell_facepos a ≤ i ∧ i < G.cell_facepos (a + 1))
    (hib : G.cell_facepos b ≤ i ∧ i < G.cell_facepos (b + 1)) : a = b := by
  rcases Nat.lt_trichotomy a b with h | h | h
  · have := facepos_mono G n hmono (a + 1) b (by omega) (by omega)
    omega
  · exact h
  · have := facepos_mono G n hmono (b + 1) a (by omega) (by omega)
    omega

/-- A sum over the positions of all face lists that selects one position. -/
theorem sum_facepos_single (G : grid_t) (n : Nat)
    (hmono : ∀ c, c < n → G.cell_facepos c ≤ G.cell_facepos (c + 1)) (w : Nat → Nat → ℚ)
    (c1 i1 : Nat) (hc1 : c1 < n)
    (hi1 : G.cell_facepos c1 ≤ i1 ∧ i1 < G.cell_facepos (c1 + 1)) :
    (∑ c ∈ Finset.range n, ∑ j ∈ Finset.Ico (G.cell_facepos c) (G.cell_facepos (c + 1)),
        (if j = i1 then w c j else 0)) = w c1 i1 := by
  rw [Finset.sum_eq_single c1]
  · rw [Finset.sum_ite_eq', if_pos (Finset.mem_Ico.2 hi1)]
  · intro c hc hne
    apply Finset.sum_eq_zero
    intro j hj
    rw [if_neg]
    intro e
    subst e
    exact hne (facepos_cell_unique G n hmono c c1 j (Finset.mem_range.1 hc) hc1
      (Finset.mem_Ico.1 hj) hi1)
  · intro hc
    exact absurd (Finset.mem_range.2 hc1) hc

/-- A sum over the positions of all face lists in which face `f` occupies exactly the two
positions `i1` (in the list of `c1`) and `i2` (in the list of `c2`). -/
theorem sum_facepos_pair (G : grid_t) (n : Nat)
    (hmono : ∀ c, c < n → G.cell_facepos c ≤ G.cell_facepos (c + 1)) (w : Nat → Nat → ℚ)
    (f c1 c2 i1 i2 : Nat) (hc1 : c1 < n) (hc2 : c2 < n)
    (hi1 : G.cell_facepos c1 ≤ i1 ∧ i1 < G.cell_facepos (c1 + 1))
    (hi2 : G.cell_facepos c2 ≤ i2 ∧ i2 < G.cell_facepos (c2 + 1))
    (hne : i1 ≠ i2) (hf1 : G.cell_faces i1 = f) (hf2 : G.cell_faces i2 = f)
    (honly : ∀ j, j < G.cell_facepos n → G.cell_faces j = f → j = i1 ∨ j = i2) :
    (∑ c ∈ Finset.range n, ∑ j ∈ Finset.Ico (G.cell_facepos c) (G.cell_facepos (c + 1)),
        (if G.cell_faces j = f then w c j else 0)) = w c1 i1 + w c2 i2 := by
  rw [← sum_facepos_single G n hmono w c1 i1 hc1 hi1,
    ← sum_facepos_single G n hmono w c2 i2 hc2 hi2, ← Finset.sum_add_distrib]
  apply Finset.sum_congr rfl
  intro c hc
  rw [← Finset.sum_add_distrib]
  apply Finset.sum_congr rfl
  intro j hj
  have hjn : j < G.cell_facepos n :=
    lt_of_lt_of_le (Finset.mem_Ico.1 hj).2
      (facepos_mono G n hmono (c + 1) n (by have := Finset.mem_range.1 hc; omega) le_rfl)
  by_cases hjf : G.cell_faces j = f
  · rcases honly j hjn hjf with e | e
    · rw [if_pos hjf, if_pos e, if_neg (by rw [e]; exact hne), add_zero]
    · rw [if_pos hjf, if_neg (by rw [e]; exact fun x => hne x.symm), if_pos e, zero_add]
  · rw [if_neg hjf, if_neg (fun e => hjf (by rw [e]; exact hf1)),
      if_neg (fun e => hjf (by rw [e]; exact hf2)), add_zero]

/-- C17 (amended): after `cfs_tpfa_res_fpress`, on a grid whose face lists follow one
another from position `0`, for a face `f` with the two valid neighbours `c1` and `c2` that
occupies one position `i1` of the face list of `c1`, one position `i2` of the face list of
`c2` and no other position, with half-transmissibilities `h1 = htrans[i1] > 0` and
`h2 = htrans[i2] > 0`: `fpress[f] = (h1*cpress[c1] + h2*cpress[c2]) / (h1 + h2)`; in exact
arithmetic (the rationals here) this is `w1*cpress[c1] + w2*cpress[c2]` with the
non-negative weights `w1 = h1/(h1+h2)` and `w2 = h2/(h1+h2)` of sum `1`, and lies between
the smaller and the larger of the two cell pressures, whatever the boundary-condition
table says about the face. -/
theorem C17_fpress_convex_combination (G : grid_t) (bc : flowbc_t) (np : Nat)
    (htrans pmobf gravcap_f : Nat → ℚ) (h : cfs_tpfa_res_data) (cpress fflux fpress : Nat → ℚ)
    (f c1 c2 i1 i2 : Nat) (hf : f < G.number_of_faces) (h0 : G.cell_facepos 0 = 0)
    (hmono : ∀ c, c < G.number_of_cells → G.cell_facepos c ≤ G.cell_facepos (c + 1))
    (hc1 : G.face_cells (2 * f + 0) = (c1 : Int)) (hc2 : G.face_cells (2 * f + 1) = (c2 : Int))
    (hn1 : c1 < G.number_of_cells) (hn2 : c2 < G.number_of_cells)
    (hi1 : G.cell_facepos c1 ≤ i1 ∧ i1 < G.cell_facepos (c1 + 1))
    (hi2 : G.cell_facepos c2 ≤ i2 ∧ i2 < G.cell_facepos (c2 + 1))
    (hne : i1 ≠ i2) (hf1 : G.cell_faces i1 = f) (hf2 : G.cell_faces i2 = f)
    (honly : ∀ j, j < G.cell_facepos G.number_of_cells → G.cell_faces j = f → j = i1 ∨ j = i2)
    (hp1 : 0 < htrans i1) (hp2 : 0 < htrans i2) :
    cfs_tpfa_res_fpress G bc np htrans pmobf gravcap_f h cpress fflux fpress f
      = (htrans i1 * cpress c1 + htrans i2 * cpress c2) / (htrans i1 + htrans i2) ∧
    cfs_tpfa_res_fpress G bc np htrans pmobf gravcap_f h cpress fflux fpress f
      = htrans i1 / (htrans i1 + htrans i2) * cpress c1
        + htrans i2 / (htrans i1 + htrans i2) * cpress c2 ∧
    0 ≤ htrans i1 / (htrans i1 + htrans i2) ∧ 0 ≤ htrans i2 / (htrans i1 + htrans i2) ∧
    htrans i1 / (htrans i1 + htrans i2) + htrans i2 / (htrans i1 + htrans i2) = 1 ∧
    min (cpress c1) (cpress c2)
      ≤ cfs_tpfa_res_fpress G bc np htrans pmobf gravcap_f h cpress fflux fpress f ∧
    cfs_tpfa_res_fpress G bc np htrans pmobf gravcap_f h cpress fflux fpress f
      ≤ max (cpress c1) (cpress c2) := by
  have hfree : ¬ ((G.face_cells (2 * f + 0) < 0 ∨ G.face_cells (2 * f + 1) < 0) ∧
      bc.type f = flowbc_type.PRESSURE) := by
    rintro ⟨hb | hb, _⟩ <;> omega
  have hsum : 0 < htrans i1 + htrans i2 := add_pos hp1 hp2
  have hval : cfs_tpfa_res_fpress G bc np htrans pmobf gravcap_f h cpress fflux fpress f
      = (htrans i1 * cpress c1 + htrans i2 * cpress c2) / (htrans i1 + htrans i2) := by
    rw [res_fpress_sums G bc np htrans pmobf gravcap_f h cpress fflux fpress f hf h0 hmono hfree,
      sum_facepos_pair G G.number_of_cells hmono (fun c j => htrans j * cpress c) f c1 c2 i1 i2
        hn1 hn2 hi1 hi2 hne hf1 hf2 honly,
      sum_facepos_pair G G.number_of_cells hmono (fun _ j => htrans j) f c1 c2 i1 i2
        hn1 hn2 hi1 hi2 hne hf1 hf2 honly]
  have hw : (htrans i1 * cpress c1 + htrans i2 * cpress c2) / (htrans i1 + htrans i2)
      = htrans i1 / (htrans i1 + htrans i2) * cpress c1
        + htrans i2 / (htrans i1 + htrans i2) * cpress c2 := by
    field_simp
  have hw1 : 0 ≤ htrans i1 / (htrans i1 + htrans i2) := le_of_lt (div_pos hp1 hsum)
  have hw2 : 0 ≤ htrans i2 / (htrans i1 + htrans i2) := le_of_lt (div_pos hp2 hsum)
  have hone : htrans i1 / (htrans i1 + htrans i2) + htrans i2 / (htrans i1 + htrans i2) = 1 := by
    field_simp
  refine ⟨hval, hval.trans hw, hw1, hw2, hone, ?_, ?_⟩
  · rw [hval, hw]
    have hm1 := min_le_left (cpress c1) (cpress c2)
    have hm2 := min_le_right (cpress c1) (cpress c2)
    calc min (cpress c1) (cpress c2)
        = (htrans i1 / (htrans i1 + htrans i2) + htrans i2 / (htrans i1 + htrans i2))
            * min (cpress c1) (cpress c2) := by rw [hone, one_mul]
      _ = htrans i1 / (htrans i1 + htrans i2) * min (cpress c1) (cpress c2)
            + htrans i2 / (htrans i1 + htrans i2) * min (cpress c1) (cpress c2) := by ring
      _ ≤ _ := add_le_add (mul_le_mul_of_nonneg_left hm1 hw1)
            (mul_le_mul_of_nonneg_left hm2 hw2)
  · rw [hval, hw]
    have hm1 := le_max_left (cpress c1) (cpress c2)
    have hm2 := le_max_right (cpress c1) (cpress c2)
    calc htrans i1 / (htrans i1 + htrans i2) * cpress c1
          + htrans i2 / (htrans i1 + htrans i2) * cpress c2
        ≤ htrans i1 / (htrans i1 + htrans i2) * max (cpress c1) (cpress c2)
            + htrans i2 / (htrans i1 + htrans i2) * max (cpress c1) (cpress c2) :=
          add_le_add (mul_le_mul_of_nonneg_left hm1 hw1) (mul_le_mul_of_nonneg_left hm2 hw2)
      _ = (htrans i1 / (htrans i1 + htrans i2) + htrans i2 / (htrans i1 + htrans i2))
            * max (cpress c1) (cpress c2) := by ring
      _ = max (cpress c1) (cpress c2) := by rw [hone, one_mul]

/-- The statement of `C17_fpress_convex_combination` at a sample input: face 0 of the
two-cell sample grid, at position 1 of the list of cell 0 and position 2 of the list of
cell 1, with half-transmissibilities `1` and `3`. -/
theorem C17_fpress_convex_combination_witness :
    cfs_tpfa_res_fpress grid2 bc2 1 htrans2 (fun _ => 3) (fun _ => 5) (handle2 0) press2
        (fun _ => 0) (fun _ => 0) 0
      = (htrans2 1 * press2 0 + htrans2 2 * press2 1) / (htrans2 1 + htrans2 2) :=
  (C17_fpress_convex_combination grid2 bc2 1 htrans2 (fun _ => 3) (fun _ => 5) (handle2 0)
    press2 (fun _ => 0) (fun _ => 0) 0 0 1 1 2 (by decide) (by decide) (by decide) (by decide)
    (by decide) (by decide) (by decide) (by decide) (by decide) (by decide) (by decide)
    (by decide) (by decide) (by norm_num [htrans2]) (by norm_num [htrans2])).1

/-- C18: after `cfs_tpfa_res_fpress`, for every boundary face (a neighbour index negative)
whose condition is `PRESSURE`, `fpress[f]` is the prescribed `bcval[f]`, whatever the cell
pressures and half-transmissibilities are; for an interior face the result is the same for
every boundary-condition table, so a `PRESSURE` entry on it leaves the weighted average
(accumulated weighted pressures over accumulated weights) in place. -/
theorem C18_fpress_prescribed (G : grid_t) (bc : flowbc_t) (np : Nat)
    (htrans pmobf gravcap_f : Nat → ℚ) (h : cfs_tpfa_res_data) (cpress fflux fpress : Nat → ℚ)
    (f : Nat) (hf : f < G.number_of_faces) :
    ((G.face_cells (2 * f + 0) < 0 ∨ G.face_cells (2 * f + 1) < 0) →
      bc.type f = flowbc_type.PRESSURE →
      cfs_tpfa_res_fpress G bc np htrans pmobf gravcap_f h cpress fflux fpress f = bc.bcval f) ∧
    (interior G f → ∀ other : flowbc_t,
      cfs_tpfa_res_fpress G bc np htrans pmobf gravcap_f h cpress fflux fpress f
        = cfs_tpfa_res_fpress G other np htrans pmobf gravcap_f h cpress fflux fpress f) ∧
    (interior G f → bc.type f = flowbc_type.PRESSURE → G.cell_facepos 0 = 0 →
      (∀ c, c < G.number_of_cells → G.cell_facepos c ≤ G.cell_facepos (c + 1)) →
      cfs_tpfa_res_fpress G bc np htrans pmobf gravcap_f h cpress fflux fpress f
        = (∑ c ∈ Finset.range G.number_of_cells,
            ∑ j ∈ Finset.Ico (G.cell_facepos c) (G.cell_facepos (c + 1)),
              (if G.cell_faces j = f then htrans j * cpress c else 0)) /
          (∑ c ∈ Finset.range G.number_of_cells,
            ∑ j ∈ Finset.Ico (G.cell_facepos c) (G.cell_facepos (c + 1)),
              (if G.cell_faces j = f then htrans j else 0))) := by
  refine ⟨fun hb hp => ?_, fun hint other => ?_, fun hint _ h0 hmono => ?_⟩
  · rw [res_fpress_apply _ _ _ _ _ _ _ _ _ _ _ hf, if_pos ⟨hb, hp⟩]
  · have hint2 := hint
    unfold interior at hint2
    have hfree : ∀ b : flowbc_t, ¬ ((G.face_cells (2 * f + 0) < 0 ∨
        G.face_cells (2 * f + 1) < 0) ∧ b.type f = flowbc_type.PRESSURE) := by
      rintro b ⟨hb | hb, _⟩ <;> omega
    rw [res_fpress_apply _ _ _ _ _ _ _ _ _ _ _ hf, res_fpress_apply _ _ _ _ _ _ _ _ _ _ _ hf,
      if_neg (hfree bc), if_neg (hfree other)]
  · have hint2 := hint
    unfold interior at hint2
    exact res_fpress_sums G bc np htrans pmobf gravcap_f h cpress fflux fpress f hf h0 hmono
      (by rintro ⟨hb | hb, _⟩ <;> omega)

/-- The statement of `C18_fpress_prescribed` at a sample input: face 1 of the two-cell
sample grid, a boundary face with the `PRESSURE` value `9`. -/
theorem C18_fpress_prescribed_witness :
    cfs_tpfa_res_fpress grid2 bc2 1 htrans2 (fun _ => 3) (fun _ => 5) (handle2 0) press2
        (fun _ => 0) (fun _ => 0) 1 = bc2.bcval 1 :=
  (C18_fpress_prescribed grid2 bc2 1 htrans2 (fun _ => 3) (fun _ => 5) (handle2 0) press2
    (fun _ => 0) (fun _ => 0) 1 (by decide)).1 (by decide) rfl

/-! ## The adaptive sub-step timer -/

theorem std_min_eq_min (a b : ℚ) : std_min a b = min a b := by
  unfold std_min
  split_ifs with h
  · exact (min_eq_right (le_of_lt h)).symm
  · exact (min_eq_left (not_lt.mp h)).symm

/-- The step length that `provideTimeStepEstimate` sets, by cases on the remaining time
`r` and the capped estimate `d = min(estimate, max_time_step_)`. -/
theorem provide_dt (t : AdaptiveSimulatorTimer) (est : ℚ) :
    (t.provideTimeStepEstimate est).dt_
      = if t.total_time_ - t.current_time_ > 0 then
          if 105 / 100 * min est t.max_time_step_ > t.total_time_ - t.current_time_ then
            if t.total_time_ - t.current_time_ > t.max_time_step_
            then 1 / 2 * (t.total_time_ - t.current_time_)
            else t.total_time_ - t.current_time_
          else if 3 / 2 * min est t.max_time_step_ > t.total_time_ - t.current_time_
            then 1 / 2 * (t.total_time_ - t.current_time_)
            else min est t.max_time_step_
        else min est t.max_time_step_ := by
  unfold AdaptiveSimulatorTimer.provideTimeStepEstimate
  simp only [std_min_eq_min]
  split_ifs <;> rfl

theorem provide_frame (t : AdaptiveSimulatorTimer) (est : ℚ) :
    (t.provideTimeStepEstimate est).total_time_ = t.total_time_ ∧
    (t.provideTimeStepEstimate est).current_time_ = t.current_time_ ∧
    (t.provideTimeStepEstimate est).max_time_step_ = t.max_time_step_ := by
  unfold AdaptiveSimulatorTimer.provideTimeStepEstimate
  simp only []
  split_ifs <;> exact ⟨rfl, rfl, rfl⟩

/-- C19: for every timer state and every estimate, the step length `dt_` that
`provideTimeStepEstimate` sets is at most `max_time_step_` (which it leaves unchanged). -/
theorem C19_step_at_most_max (t : AdaptiveSimulatorTimer) (est : ℚ) :
    (t.provideTimeStepEstimate est).dt_ ≤ t.max_time_step_ ∧
    (t.provideTimeStepEstimate est).max_time_step_ = t.max_time_step_ := by
  refine ⟨?_, (provide_frame t est).2.2⟩
  rw [provide_dt]
  have hmin : min est t.max_time_step_ ≤ t.max_time_step_ := min_le_right _ _
  split_ifs with h1 h2 h3 h4
  · linarith
  · linarith
  · linarith
  · exact hmin
  · exact hmin

/-- In exact arithmetic (the rationals here, `1.05` being `105/100`): when
`remaining = total_time_ - current_time_ > 0` and the capped estimate
`d = min(estimate, max_time_step_)` has `1.05 * d > remaining`, the step is set to
`remaining` if `remaining ≤ max_time_step_`, and the following `operator++` then makes
`done()` true; otherwise the step is set to `0.5 * remaining`. -/
theorem clamp_to_remainder_exact (t : AdaptiveSimulatorTimer) (est : ℚ)
    (hrem : t.total_time_ - t.current_time_ > 0)
    (hover : 105 / 100 * min est t.max_time_step_ > t.total_time_ - t.current_time_) :
    (t.total_time_ - t.current_time_ ≤ t.max_time_step_ →
      (t.provideTimeStepEstimate est).dt_ = t.total_time_ - t.current_time_ ∧
      (t.provideTimeStepEstimate est).increment.done = true ∧
      (t.provideTimeStepEstimate est).increment.current_time_ = t.total_time_) ∧
    (t.max_time_step_ < t.total_time_ - t.current_time_ →
      (t.provideTimeStepEstimate est).dt_ = 1 / 2 * (t.total_time_ - t.current_time_)) := by
  have hdt := provide_dt t est
  rw [if_pos hrem, if_pos hover] at hdt
  obtain ⟨f1, f2, _⟩ := provide_frame t est
  constructor
  · intro hle
    rw [if_neg (not_lt.mpr hle)] at hdt
    have hcur : (t.provideTimeStepEstimate est).increment.current_time_ = t.total_time_ := by
      simp only [AdaptiveSimulatorTimer.increment, hdt, f2]
      ring
    refine ⟨hdt, ?_, hcur⟩
    unfold AdaptiveSimulatorTimer.done
    rw [hcur]
    simp [AdaptiveSimulatorTimer.increment, f1]
  · intro hlt
    rw [if_pos hlt] at hdt
    exact hdt

/-! ## The two-cell scenario, end to end -/

set_option maxHeartbeats 8000000 in
/-- The two-cell scenario on the grid that lists nothing but the shared face: the
residual of cell 0 is `V1 * (1 - z1/Ac1) + dt*T*m*(p1 - p2)*Af/Ac1` and the stored value
of entry `(0,1)` is `-dt*T*m*Af/Ac1`, whatever `mat_row[2]` held before the call. -/
theorem assemble_shared_eval (T m p1 p2 V1 V2 z1 z2 Ac1 Ac2 dAc1 dAc2 Af dt stale : ℚ)
    (h1 : Ac1 ≠ 0) (h2 : Ac2 ≠ 0) :
    (cfs_tpfa_res_assemble grid2_shared dt bc0 (fun _ => 0) (two_cells z1 z2)
      (cq2 Ac1 Ac2 dAc1 dAc2 Af m) (fun _ => T) (fun _ => 0) (two_cells p1 p2)
      (two_cells V1 V2) (handle2 stale) (fun _ => 0)).map (fun h => (h.F 0, h.J.sa 1))
      = some (V1 * (1 - z1 / Ac1) + dt * T * m * (p1 - p2) * Af / Ac1,
              -(dt * T * m * Af / Ac1)) := by
  simp [cfs_tpfa_res_assemble, assemble_cells, cell_pass, forLoopM_succ, forLoopM_zero,
    compute_cell_contrib, init_cell_contrib, count_internal_conn, forLoop_succ,
    init_cell_contrib_step, grid2_shared, handle2, blank_impl, blank_ratio, two_cells, cq2,
    compute_compflux_and_deriv, compflux_step, compute_darcyflux_and_deriv,
    factorise_fluid_matrix, denseMat_one_det, solve_entry_one, denseMat,
    jac_row_step, connection_contrib, sum_pair, solve_linear_systems, offset, writeBack, memcpy,
    matvec, matmat, vector_zero, Function.update_apply, csrmatrix_zero,
    Finset.sum_range_succ, assemble_cell_contrib, assemble_step, other_cell,
    csrmatrix_elm_index, List.range'_succ, List.find?_cons, h1, h2]
  split_ifs <;> simp [Function.update_apply] <;> constructor <;> field_simp <;> ring

set_option maxHeartbeats 8000000 in
/-- C11 (the code at the failing input): in the two-cell scenario on the sample grid whose
cell 0 lists a boundary face before the shared face `(0, 1)` (one component, zero gravity
term, transmissibility `T`, mobility `m`, pressures `p1`, `p2`, pore volumes `V1`, `V2`,
invertible `Ac1`, `Ac2`, no boundary conditions), `cfs_tpfa_res_assemble` completes, the
residual of cell 0 is `V1 * (1 - z1/Ac1) + dt*T*m*(p1 - p2)*Af/Ac1`, but the stored value
of the off-diagonal entry `(0,1)` is `stale - dt*T*m*Af/Ac1`, where `stale` is what
`mat_row[2]` held before the call; and the call leaves `stale - dt*T*m*Af/Ac1` in
`mat_row[2]` for the next one. -/
theorem C11_two_cell_scenario (T m p1 p2 V1 V2 z1 z2 Ac1 Ac2 dAc1 dAc2 Af dt stale : ℚ)
    (h1 : Ac1 ≠ 0) (h2 : Ac2 ≠ 0) :
    (handle2 stale).J.ja 1 = 1 ∧ (handle2 stale).J.ia 0 ≤ 1 ∧ 1 < (handle2 stale).J.ia 1 ∧
    (cfs_tpfa_res_assemble grid2 dt bc0 (fun _ => 0) (two_cells z1 z2)
      (cq2 Ac1 Ac2 dAc1 dAc2 Af m) (fun _ => T) (fun _ => 0) (two_cells p1 p2)
      (two_cells V1 V2) (handle2 stale) (fun _ => 0)).map
        (fun h => (h.F 0, h.J.sa 1, h.pimpl.ratio.mat_row 2))
      = some (V1 * (1 - z1 / Ac1) + dt * T * m * (p1 - p2) * Af / Ac1,
              stale + -(dt * T * m * Af / Ac1), stale + -(dt * T * m * Af / Ac1)) := by
  refine ⟨rfl, by simp [handle2], by simp [handle2], ?_⟩
  simp [cfs_tpfa_res_assemble, assemble_cells, cell_pass, forLoopM_succ, forLoopM_zero,
    compute_cell_contrib, init_cell_contrib, count_internal_conn, forLoop_succ,
    init_cell_contrib_step, grid2, handle2, blank_impl, blank_ratio, two_cells, cq2,
    compute_compflux_and_deriv, compflux_step, compute_darcyflux_and_deriv,
    factorise_fluid_matrix, denseMat_one_det, solve_entry_one, denseMat,
    jac_row_step, connection_contrib, sum_pair, solve_linear_systems, offset, writeBack, memcpy,
    matvec, matmat, vector_zero, Function.update_apply, csrmatrix_zero,
    Finset.sum_range_succ, assemble_cell_contrib, assemble_step, other_cell,
    csrmatrix_elm_index, List.range'_succ, List.find?_cons, h1, h2]
  split_ifs <;> simp [Function.update_apply, vector_zero] <;> constructor <;>
    field_simp <;> ring

/-- The statement of `C11_two_cell_scenario` at a sample input: unit data, pressures `2`
and `1`, and `mat_row[2] = 5` before the call; the stored value of entry `(0,1)` is `4`,
not `-1`. -/
theorem C11_two_cell_scenario_witness :
    (handle2 5).J.ja 1 = 1 ∧ (handle2 5).J.ia 0 ≤ 1 ∧ 1 < (handle2 5).J.ia 1 ∧
    (cfs_tpfa_res_assemble grid2 1 bc0 (fun _ => 0) (two_cells 1 1)
      (cq2 1 1 0 0 1 1) (fun _ => 1) (fun _ => 0) (two_cells 2 1)
      (two_cells 1 1) (handle2 5) (fun _ => 0)).map
        (fun h => (h.F 0, h.J.sa 1, h.pimpl.ratio.mat_row 2))
      = some (1 * (1 - 1 / 1) + 1 * 1 * 1 * (2 - 1) * 1 / 1,
              5 + -(1 * 1 * 1 * 1 / 1), 5 + -(1 * 1 * 1 * 1 / 1)) :=
  C11_two_cell_scenario 1 1 2 1 1 1 1 1 1 1 0 0 1 1 5 (by norm_num) (by norm_num)

/-! ## The adaptive sub-step timer: halving and monotonicity -/

/-- In exact arithmetic (the rationals here, `1.05` being `105/100`), with
`remaining = total_time_ - current_time_` and the capped estimate
`d = min(estimate, max_time_step_)`: when `remaining > 0` and
`1.05 * d ≤ remaining < 1.5 * d`, `provideTimeStepEstimate` sets the step to
`0.5 * remaining`; when `1.5 * d ≤ remaining`, or `remaining ≤ 0`, it sets the step
to `d`. -/
theorem half_of_remainder_exact (t : AdaptiveSimulatorTimer) (est : ℚ) :
    (t.total_time_ - t.current_time_ > 0 →
      105 / 100 * min est t.max_time_step_ ≤ t.total_time_ - t.current_time_ →
      t.total_time_ - t.current_time_ < 3 / 2 * min est t.max_time_step_ →
      (t.provideTimeStepEstimate est).dt_ = 1 / 2 * (t.total_time_ - t.current_time_)) ∧
    (3 / 2 * min est t.max_time_step_ ≤ t.total_time_ - t.current_time_ →
      (t.provideTimeStepEstimate est).dt_ = min est t.max_time_step_) ∧
    (t.total_time_ - t.current_time_ ≤ 0 →
      (t.provideTimeStepEstimate est).dt_ = min est t.max_time_step_) := by
  rw [provide_dt]
  refine ⟨fun h1 h2 h3 => ?_, fun h1 => ?_, fun h1 => ?_⟩
  · rw [if_pos h1, if_neg (not_lt.mpr h2), if_pos h3]
  · by_cases hr : t.total_time_ - t.current_time_ > 0
    · rw [if_pos hr, if_neg (by intro h; linarith), if_neg (not_lt.mpr h1)]
    · rw [if_neg hr]
  · rw [if_neg (not_lt.mpr h1)]

/-- C28 (counterexample): with three time units remaining and maximum step `4`, the
estimate `2` gives the step `2`, the larger estimate `2.1` gives the smaller step `1.5`. -/
theorem C28_larger_estimate_smaller_step :
    (2 : ℚ) ≤ 21 / 10 ∧
    (timer10_late.provideTimeStepEstimate 2).dt_ = 2 ∧
    (timer10_late.provideTimeStepEstimate (21 / 10)).dt_ = 3 / 2 ∧
    (timer10_late.provideTimeStepEstimate (21 / 10)).dt_
      < (timer10_late.provideTimeStepEstimate 2).dt_ := by
  have h1 : (timer10_late.provideTimeStepEstimate 2).dt_ = 2 := by
    rw [provide_dt]
    norm_num [timer10_late]
  have h2 : (timer10_late.provideTimeStepEstimate (21 / 10)).dt_ = 3 / 2 := by
    rw [provide_dt]
    norm_num [timer10_late]
  refine ⟨by norm_num, h1, h2, ?_⟩
  rw [h1, h2]
  norm_num

/-- In exact arithmetic (the rationals here), for a fixed timer state, with
`remaining = total_time_ - current_time_` and `d1 = min(estimate1, max_time_step_)` the
capped smaller estimate: if `remaining ≤ 0`, or `d1 ≤ 0.5 * remaining`, or
`1.5 * d1 > remaining`, a larger estimate never yields a smaller step length; and whenever
`remaining > 0` the step for the larger estimate is at least the smaller of the step for
the smaller estimate and `0.5 * remaining`. -/
theorem monotone_outside_halving_exact (t : AdaptiveSimulatorTimer) (est1 est2 : ℚ)
    (hle : est1 ≤ est2) :
    ((t.total_time_ - t.current_time_ ≤ 0 ∨
        min est1 t.max_time_step_ ≤ 1 / 2 * (t.total_time_ - t.current_time_) ∨
        3 / 2 * min est1 t.max_time_step_ > t.total_time_ - t.current_time_) →
      (t.provideTimeStepEstimate est1).dt_ ≤ (t.provideTimeStepEstimate est2).dt_) ∧
    (t.total_time_ - t.current_time_ > 0 →
      min (t.provideTimeStepEstimate est1).dt_ (1 / 2 * (t.total_time_ - t.current_time_))
        ≤ (t.provideTimeStepEstimate est2).dt_) := by
  have hd : min est1 t.max_time_step_ ≤ min est2 t.max_time_step_ :=
    min_le_min hle le_rfl
  rw [provide_dt, provide_dt]
  constructor
  · intro hout
    split_ifs <;> rcases hout with h | h | h <;> linarith
  · intro hr
    rw [if_pos hr, if_pos hr]
    split_ifs <;> first
      | exact min_le_right _ _
      | exact le_trans (min_le_right _ _) (by linarith)
      | exact le_trans (min_le_left _ _) (by linarith)

/-! ## The constant-compressibility phase -/

/-- A loop that stores `g i` at position `i` of one array. -/
theorem forLoop_write {K : Type} (g : Nat → K) (n : Nat) (out : Nat → K) :
    forLoop (fun i (o : Nat → K) => Function.update o i (g i)) 0 n out
      = fun k => if k < n then g k else out k := by
  induction n with
  | zero => simp
  | succ n ih =>
    rw [forLoop_succ, ih, Nat.zero_add]
    funext k
    rw [Function.update_apply]
    by_cases hk : k = n
    · rw [if_pos hk, if_pos (show k < n + 1 by omega), hk]
    · rw [if_neg hk]
      by_cases hlt : k < n
      · rw [if_pos hlt, if_pos (show k < n + 1 by omega)]
      · rw [if_neg hlt, if_neg (show ¬ k < n + 1 by omega)]

/-- A loop that stores `g i` and `h i` at position `i` of two arrays. -/
theorem forLoop_write_pair {K : Type} (g h : Nat → K) (n : Nat) (a b : Nat → K) :
    forLoop (fun i (o : (Nat → K) × (Nat → K)) =>
        (Function.update o.1 i (g i), Function.update o.2 i (h i))) 0 n (a, b)
      = (fun k => if k < n then g k else a k, fun k => if k < n then h k else b k) := by
  induction n with
  | zero => simp
  | succ n ih =>
    rw [forLoop_succ, ih, Nat.zero_add]
    refine Prod.ext ?_ ?_ <;>
    · funext k
      simp only [Function.update_apply]
      by_cases hk : k = n
      · rw [if_pos hk, if_pos (show k < n + 1 by omega), hk]
      · rw [if_neg hk]
        by_cases hlt : k < n
        · rw [if_pos hlt, if_pos (show k < n + 1 by omega)]
        · rw [if_neg hlt, if_neg (show ¬ k < n + 1 by omega)]

/-- What `mu(n, p, z, output_mu)` leaves in `output_mu`. -/
theorem mu_apply {K : Type} [Field K] [DecidableEq K]
    (s : SinglePvtConstCompr K) (n : Nat) (p z output_mu : Nat → K) (k : Nat) :
    s.mu n p z output_mu k
      = if k < n then
          (if s.visc_comp_ ≠ 0 then
            s.viscosity_ / (1 + -s.visc_comp_ * (p k - s.ref_press_)
              + 1 / 2 * (-s.visc_comp_ * (p k - s.ref_press_))
                * (-s.visc_comp_ * (p k - s.ref_press_)))
           else s.viscosity_)
        else output_mu k := by
  unfold SinglePvtConstCompr.mu
  by_cases hv : s.visc_comp_ ≠ 0
  · rw [if_pos hv, if_pos hv]
    exact congrFun (forLoop_write _ n output_mu) k
  · rw [if_neg hv, if_neg hv]
    rfl

/-- What `mu(n, p, r, output_mu, output_dmudp, output_dmudr)` leaves in its three output
arrays. -/
theorem mu_r_apply {K : Type} [Field K] [DecidableEq K] (s : SinglePvtConstCompr K) (n : Nat)
    (p r output_mu output_dmudp output_dmudr : Nat → K) (k : Nat) :
    (s.mu_r n p r output_mu output_dmudp output_dmudr).1 k
      = (if k < n then
          (if s.visc_comp_ ≠ 0 then
            s.viscosity_ / (1 + -s.visc_comp_ * (p k - s.ref_press_)
              + 1 / 2 * (-s.visc_comp_ * (p k - s.ref_press_))
                * (-s.visc_comp_ * (p k - s.ref_press_)))
           else s.viscosity_)
        else output_mu k) ∧
    (s.mu_r n p r output_mu output_dmudp output_dmudr).2.1 k
      = (if k < n then
          (if s.visc_comp_ ≠ 0 then
            s.viscosity_ /
                ((1 + -s.visc_comp_ * (p k - s.ref_press_)
                    + 1 / 2 * (-s.visc_comp_ * (p k - s.ref_press_))
                      * (-s.visc_comp_ * (p k - s.ref_press_)))
                  * (1 + -s.visc_comp_ * (p k - s.ref_press_)
                    + 1 / 2 * (-s.visc_comp_ * (p k - s.ref_press_))
                      * (-s.visc_comp_ * (p k - s.ref_press_))))
              * (1 + -s.visc_comp_ * (p k - s.ref_press_)) * s.visc_comp_
           else 0)
        else output_dmudp k) ∧
    (s.mu_r n p r output_mu output_dmudp output_dmudr).2.2 k
      = (if k < n then 0 else output_dmudr k) := by
  unfold SinglePvtConstCompr.mu_r
  by_cases hv : s.visc_comp_ ≠ 0
  · simp only [if_pos hv]
    rw [forLoop_write_pair]
    exact ⟨rfl, rfl, rfl⟩
  · simp only [if_neg hv]
    refine ⟨?_, ?_, rfl⟩ <;> · unfold std_fill; split_ifs <;> rfl

/-- The overload of `mu` with a phase-state argument returns what the overload without
it returns. -/
theorem mu_cond_eq {K : Type} [Field K] [DecidableEq K]
    (s : SinglePvtConstCompr K) (n : Nat) (p r : Nat → K)
    (cond : Nat → PhasePresence) (output_mu output_dmudp output_dmudr : Nat → K) :
    s.mu_cond n p r cond output_mu output_dmudp output_dmudr
      = s.mu_r n p r output_mu output_dmudp output_dmudr := rfl

/-- What `B(n, p, z, output_B)` leaves in `output_B`. -/
theorem B_apply {K : Type} [Field K] [DecidableEq K]
    (s : SinglePvtConstCompr K) (n : Nat) (p z output_B : Nat → K) (k : Nat) :
    s.B n p z output_B k
      = if k < n then
          (if s.comp_ ≠ 0 then
            s.ref_B_ / (1 + s.comp_ * (p k - s.ref_press_)
              + 1 / 2 * (s.comp_ * (p k - s.ref_press_)) * (s.comp_ * (p k - s.ref_press_)))
           else s.ref_B_)
        else output_B k := by
  unfold SinglePvtConstCompr.B
  by_cases hv : s.comp_ ≠ 0
  · rw [if_pos hv, if_pos hv]
    exact congrFun (forLoop_write _ n output_B) k
  · rw [if_neg hv, if_neg hv]
    rfl

/-- What `dBdp(n, p, z, output_B, output_dBdp)` leaves in its two output arrays. -/
theorem dBdp_apply {K : Type} [Field K] [DecidableEq K] (s : SinglePvtConstCompr K) (n : Nat)
    (p z output_B output_dBdp : Nat → K) (k : Nat) :
    (s.dBdp n p z output_B output_dBdp).1 k
      = (if k < n then
          (if s.comp_ ≠ 0 then
            s.ref_B_ / (1 + s.comp_ * (p k - s.ref_press_)
              + 1 / 2 * (s.comp_ * (p k - s.ref_press_)) * (s.comp_ * (p k - s.ref_press_)))
           else s.ref_B_)
        else output_B k) ∧
    (s.dBdp n p z output_B output_dBdp).2 k
      = (if k < n then
          (if s.comp_ ≠ 0 then
            -s.ref_B_ /
                ((1 + s.comp_ * (p k - s.ref_press_)
                    + 1 / 2 * (s.comp_ * (p k - s.ref_press_)) * (s.comp_ * (p k - s.ref_press_)))
                  * (1 + s.comp_ * (p k - s.ref_press_)
                    + 1 / 2 * (s.comp_ * (p k - s.ref_press_))
                      * (s.comp_ * (p k - s.ref_press_))))
              * (1 + s.comp_ * (p k - s.ref_press_)) * s.comp_
           else 0)
        else output_dBdp k) := by
  unfold SinglePvtConstCompr.dBdp
  by_cases hv : s.comp_ ≠ 0
  · simp only [if_pos hv]
    rw [forLoop_write_pair]
    exact ⟨rfl, rfl⟩
  · simp only [if_neg hv]
    refine ⟨?_, ?_⟩ <;> · unfold std_fill; split_ifs <;> rfl

/-- What `b(n, p, r, output_b, output_dbdp, output_dbdr)` leaves in its three output
arrays. -/
theorem b_apply {K : Type} [Field K] [DecidableEq K] (s : SinglePvtConstCompr K) (n : Nat)
    (p r output_b output_dbdp output_dbdr : Nat → K) (k : Nat) :
    (s.b n p r output_b output_dbdp output_dbdr).1 k
      = (if k < n then
          (if s.comp_ ≠ 0 then
            (1 + s.comp_ * (p k - s.ref_press_)
              + 1 / 2 * (s.comp_ * (p k - s.ref_press_)) * (s.comp_ * (p k - s.ref_press_)))
              / s.ref_B_
           else 1 / s.ref_B_)
        else output_b k) ∧
    (s.b n p r output_b output_dbdp output_dbdr).2.1 k
      = (if k < n then
          (if s.comp_ ≠ 0 then
            (1 + s.comp_ * (p k - s.ref_press_)) * s.comp_ / s.ref_B_
           else 0)
        else output_dbdp k) ∧
    (s.b n p r output_b output_dbdp output_dbdr).2.2 k
      = (if k < n then 0 else output_dbdr k) := by
  unfold SinglePvtConstCompr.b
  by_cases hv : s.comp_ ≠ 0
  · simp only [if_pos hv]
    rw [forLoop_write_pair]
    exact ⟨rfl, rfl, rfl⟩
  · simp only [if_neg hv]
    refine ⟨?_, ?_, rfl⟩ <;> · unfold std_fill; split_ifs <;> rfl

/-- The overload of `b` with a phase-state argument returns what the overload without
it returns. -/
theorem b_cond_eq {K : Type} [Field K] [DecidableEq K]
    (s : SinglePvtConstCompr K) (n : Nat) (p r : Nat → K)
    (cond : Nat → PhasePresence) (output_b output_dbdp output_dbdr : Nat → K) :
    s.b_cond n p r cond output_b output_dbdp output_dbdr
      = s.b n p r output_b output_dbdp output_dbdr := rfl

/-! ## Claims on the constant-compressibility phase -/

/-- The polynomial `1 + x + x^2/2` that the methods divide by is positive. -/
theorem pvt_denominator_pos {F : Type} [LinearOrderedField F] (x : F) :
    0 < 1 + x + 1 / 2 * x * x := by
  nlinarith [sq_nonneg (1 + x)]

/-- The value `d/B` (or `1/B`) is the inverse of `B/d` (or `B`). -/
theorem inverse_value {F : Type} [LinearOrderedField F] (B c d : F) (hB : B ≠ 0) :
    (if c ≠ 0 then d / B else 1 / B) = 1 / (if c ≠ 0 then B / d else B) := by
  by_cases hc : c ≠ 0
  · rw [if_pos hc, if_pos hc]
    field_simp
  · rw [if_neg hc, if_neg hc]

/-- The slope `u*c/B` (or `0`) is `-(1/V^2) * W` for the value `V = B/d` (or `B`) and the
slope `W = -B/(d*d) * u * c` (or `0`). -/
theorem inverse_slope {F : Type} [LinearOrderedField F] (B c d u : F) (hB : B ≠ 0)
    (hd : d ≠ 0) :
    (if c ≠ 0 then u * c / B else 0)
      = -(1 / (if c ≠ 0 then B / d else B) ^ 2)
          * (if c ≠ 0 then -B / (d * d) * u * c else 0) := by
  by_cases hc : c ≠ 0
  · rw [if_pos hc, if_pos hc, if_pos hc]
    field_simp
    ring
  · rw [if_neg hc, if_neg hc, if_neg hc, mul_zero]

/-- C22: the constructor from a table throws exactly when the table does not hold exactly
one region (an empty table included); for a table of one region with at least five
entries it returns an object whose reference pressure, reference factor, compressibility,
viscosity and viscosibility are entries 0 to 4 of the region. -/
theorem C22_construct_from_table {K : Type} (pvtw : List (List K)) :
    (SinglePvtConstCompr.construct pvtw = Except.error pvt_failure.runtime_error
      ↔ pvtw.length ≠ 1) ∧
    (∀ region, pvtw = [region] → 5 ≤ region.length →
      ∃ obj, SinglePvtConstCompr.construct pvtw = Except.ok obj ∧
        region.get? 0 = some obj.ref_press_ ∧ region.get? 1 = some obj.ref_B_ ∧
        region.get? 2 = some obj.comp_ ∧ region.get? 3 = some obj.viscosity_ ∧
        region.get? 4 = some obj.visc_comp_) := by
  constructor
  · constructor
    · intro h hlen
      obtain ⟨region, rfl⟩ := List.length_eq_one.mp hlen
      rcases region with _ | ⟨a, _ | ⟨b, _ | ⟨c, _ | ⟨d, _ | ⟨e, rest⟩⟩⟩⟩⟩ <;>
        simp [SinglePvtConstCompr.construct, vector_at, bind, Except.bind, pure,
          Except.pure] at h
    · intro hlen
      unfold SinglePvtConstCompr.construct
      simp only []
      rw [if_pos hlen]
  · rintro region rfl hlen
    rcases region with _ | ⟨a, _ | ⟨b, _ | ⟨c, _ | ⟨d, _ | ⟨e, rest⟩⟩⟩⟩⟩
    · simp at hlen
    · simp at hlen
    · simp at hlen
    · simp at hlen
    · simp at hlen
    · exact ⟨⟨a, b, c, d, e⟩, by
        simp [SinglePvtConstCompr.construct, vector_at, bind, Except.bind, pure,
          Except.pure], rfl, rfl, rfl, rfl, rfl⟩

/-- The statement of `C22_construct_from_table` at a sample input: a table of one region
with five entries. -/
theorem C22_construct_from_table_witness :
    ∃ obj, SinglePvtConstCompr.construct [[(1 : ℚ), 2, 1 / 2, 3, 1 / 4]] = Except.ok obj ∧
      [(1 : ℚ), 2, 1 / 2, 3, 1 / 4].get? 0 = some obj.ref_press_ ∧
      [(1 : ℚ), 2, 1 / 2, 3, 1 / 4].get? 1 = some obj.ref_B_ ∧
      [(1 : ℚ), 2, 1 / 2, 3, 1 / 4].get? 2 = some obj.comp_ ∧
      [(1 : ℚ), 2, 1 / 2, 3, 1 / 4].get? 3 = some obj.viscosity_ ∧
      [(1 : ℚ), 2, 1 / 2, 3, 1 / 4].get? 4 = some obj.visc_comp_ :=
  (C22_construct_from_table [[(1 : ℚ), 2, 1 / 2, 3, 1 / 4]]).2 _ rfl (by decide)

/-- C23: for a phase with `ref_B ≠ 0`, at every position `i < n`: the value that `b`
returns (in both overloads) is `1/B` for the `B` that `dBdp` returns, which is the `B`
that `B` returns; and the pressure derivative that `b` returns is `-(1/B^2) * dBdp` for
the `dBdp` that `dBdp` returns.  Exact arithmetic in an ordered field. -/
theorem C23_b_is_inverse_of_B {F : Type} [LinearOrderedField F] (s : SinglePvtConstCompr F)
    (hB : s.ref_B_ ≠ 0) (n : Nat) (p r z : Nat → F) (cond : Nat → PhasePresence)
    (ob odbp odbr oB odB oB2 : Nat → F) (i : Nat) (hi : i < n) :
    (s.b n p r ob odbp odbr).1 i = 1 / (s.dBdp n p z oB odB).1 i ∧
    (s.b_cond n p r cond ob odbp odbr).1 i = 1 / (s.dBdp n p z oB odB).1 i ∧
    (s.dBdp n p z oB odB).1 i = s.B n p z oB2 i ∧
    (s.b n p r ob odbp odbr).2.1 i
      = -(1 / ((s.dBdp n p z oB odB).1 i) ^ 2) * (s.dBdp n p z oB odB).2 i ∧
    (s.b_cond n p r cond ob odbp odbr).2.1 i
      = -(1 / ((s.dBdp n p z oB odB).1 i) ^ 2) * (s.dBdp n p z oB odB).2 i := by
  rw [b_cond_eq]
  have hb := b_apply s n p r ob odbp odbr i
  have hd := dBdp_apply s n p z oB odB i
  have hBB := B_apply s n p z oB2 i
  rw [if_pos hi] at hb hd hBB
  rw [if_pos hi] at hb hd
  rw [hb.1, hb.2.1, hd.1, hd.2, hBB]
  have hne := ne_of_gt (pvt_denominator_pos (s.comp_ * (p i - s.ref_press_)))
  exact ⟨inverse_value _ _ _ hB, inverse_value _ _ _ hB, rfl,
    inverse_slope _ _ _ _ hB hne, inverse_slope _ _ _ _ hB hne⟩

/-- The statement of `C23_b_is_inverse_of_B` at a sample input: the sample water phase
over the rationals, two positions, position 1. -/
theorem C23_b_is_inverse_of_B_witness :
    ((pvt_water ℚ).b 2 (fun _ => 3) (fun _ => 0) (fun _ => 0) (fun _ => 0) (fun _ => 0)).1 1
      = 1 / ((pvt_water ℚ).dBdp 2 (fun _ => 3) (fun _ => 0) (fun _ => 0) (fun _ => 0)).1 1 ∧
    ((pvt_water ℚ).b_cond 2 (fun _ => 3) (fun _ => 0) (fun _ => ⟨0⟩) (fun _ => 0) (fun _ => 0)
        (fun _ => 0)).1 1
      = 1 / ((pvt_water ℚ).dBdp 2 (fun _ => 3) (fun _ => 0) (fun _ => 0) (fun _ => 0)).1 1 ∧
    ((pvt_water ℚ).dBdp 2 (fun _ => 3) (fun _ => 0) (fun _ => 0) (fun _ => 0)).1 1
      = (pvt_water ℚ).B 2 (fun _ => 3) (fun _ => 0) (fun _ => 0) 1 ∧
    ((pvt_water ℚ).b 2 (fun _ => 3) (fun _ => 0) (fun _ => 0) (fun _ => 0) (fun _ => 0)).2.1 1
      = -(1 / (((pvt_water ℚ).dBdp 2 (fun _ => 3) (fun _ => 0) (fun _ => 0)
            (fun _ => 0)).1 1) ^ 2)
          * ((pvt_water ℚ).dBdp 2 (fun _ => 3) (fun _ => 0) (fun _ => 0) (fun _ => 0)).2 1 ∧
    ((pvt_water ℚ).b_cond 2 (fun _ => 3) (fun _ => 0) (fun _ => ⟨0⟩) (fun _ => 0) (fun _ => 0)
        (fun _ => 0)).2.1 1
      = -(1 / (((pvt_water ℚ).dBdp 2 (fun _ => 3) (fun _ => 0) (fun _ => 0)
            (fun _ => 0)).1 1) ^ 2)
          * ((pvt_water ℚ).dBdp 2 (fun _ => 3) (fun _ => 0) (fun _ => 0) (fun _ => 0)).2 1 :=
  C23_b_is_inverse_of_B (pvt_water ℚ) (by norm_num [pvt_water]) 2 (fun _ => 3) (fun _ => 0)
    (fun _ => 0) (fun _ => ⟨0⟩) (fun _ => 0) (fun _ => 0) (fun _ => 0) (fun _ => 0)
    (fun _ => 0) (fun _ => 0) 1 (by decide)

/-- The derivative of `q ↦ 1 + x + x^2/2` with `x = k * (q - q0)`. -/
theorem hasDerivAt_denominator (k q0 q : ℝ) :
    HasDerivAt (fun t : ℝ => 1 + k * (t - q0) + 1 / 2 * (k * (t - q0)) * (k * (t - q0)))
      ((1 + k * (q - q0)) * k) q := by
  have hx : HasDerivAt (fun t : ℝ => k * (t - q0)) k q := by
    simpa using ((hasDerivAt_id q).sub_const q0).const_mul k
  have h := ((hasDerivAt_const q (1 : ℝ)).add hx).add ((hx.const_mul (1 / 2)).mul hx)
  convert h using 1
  ring

/-- The derivative of `q ↦ v / (1 + x + x^2/2)` with `x = k * (q - q0)`. -/
theorem hasDerivAt_quotient (v k q0 q : ℝ) :
    HasDerivAt
      (fun t : ℝ => v / (1 + k * (t - q0) + 1 / 2 * (k * (t - q0)) * (k * (t - q0))))
      (-v / ((1 + k * (q - q0) + 1 / 2 * (k * (q - q0)) * (k * (q - q0)))
          * (1 + k * (q - q0) + 1 / 2 * (k * (q - q0)) * (k * (q - q0))))
        * (1 + k * (q - q0)) * k) q := by
  have hne := ne_of_gt (pvt_denominator_pos (k * (q - q0)))
  have h := (hasDerivAt_const q v).div (hasDerivAt_denominator k q0 q) hne
  convert h using 1
  field_simp
  ring

/-- C24: for a phase over the reals and a position `i < n`, the value `output_dmudp[i]`
returned by the overloads of `mu` with derivatives is the derivative at `p[i]` of the
function that maps the pressure at position `i` to the `output_mu[i]` the same call
returns; that function is `viscosity_ / (1 + x + x^2/2)` with
`x = -visc_comp_ * (p - ref_press_)`, or the constant `viscosity_` when `visc_comp_ = 0`. -/
theorem C24_dmudp_is_derivative (s : SinglePvtConstCompr ℝ) (n : Nat) (p r : Nat → ℝ)
    (cond : Nat → PhasePresence) (om odp odr : Nat → ℝ) (i : Nat) (hi : i < n) :
    HasDerivAt (fun q : ℝ => (s.mu_r n (Function.update p i q) r om odp odr).1 i)
      ((s.mu_r n p r om odp odr).2.1 i) (p i) ∧
    HasDerivAt (fun q : ℝ => (s.mu_cond n (Function.update p i q) r cond om odp odr).1 i)
      ((s.mu_cond n p r cond om odp odr).2.1 i) (p i) ∧
    (∀ q : ℝ, (s.mu_r n (Function.update p i q) r om odp odr).1 i
      = if s.visc_comp_ ≠ 0 then
          s.viscosity_ / (1 + -s.visc_comp_ * (q - s.ref_press_)
            + 1 / 2 * (-s.visc_comp_ * (q - s.ref_press_))
              * (-s.visc_comp_ * (q - s.ref_press_)))
        else s.viscosity_) := by
  have hval : ∀ q : ℝ, (s.mu_r n (Function.update p i q) r om odp odr).1 i
      = if s.visc_comp_ ≠ 0 then
          s.viscosity_ / (1 + -s.visc_comp_ * (q - s.ref_press_)
            + 1 / 2 * (-s.visc_comp_ * (q - s.ref_press_))
              * (-s.visc_comp_ * (q - s.ref_press_)))
        else s.viscosity_ := by
    intro q
    rw [(mu_r_apply s n _ r om odp odr i).1, if_pos hi, Function.update_same]
  have hder : HasDerivAt (fun q : ℝ => (s.mu_r n (Function.update p i q) r om odp odr).1 i)
      ((s.mu_r n p r om odp odr).2.1 i) (p i) := by
    rw [funext hval, (mu_r_apply s n p r om odp odr i).2.1, if_pos hi]
    by_cases hv : s.visc_comp_ ≠ 0
    · simp only [if_pos hv]
      have h := hasDerivAt_quotient s.viscosity_ (-s.visc_comp_) s.ref_press_ (p i)
      convert h using 1
      ring
    · simp only [if_neg hv]
      exact hasDerivAt_const _ _
  exact ⟨hder, by rw [mu_cond_eq]; simpa only [mu_cond_eq] using hder, hval⟩

/-- The statement of `C24_dmudp_is_derivative` at a sample input: the sample water phase
over the reals, two positions, position 1. -/
theorem C24_dmudp_is_derivative_witness :
    HasDerivAt (fun q : ℝ => ((pvt_water ℝ).mu_r 2 (Function.update (fun _ => 3) 1 q)
        (fun _ => 0) (fun _ => 0) (fun _ => 0) (fun _ => 0)).1 1)
      (((pvt_water ℝ).mu_r 2 (fun _ => 3) (fun _ => 0) (fun _ => 0) (fun _ => 0)
        (fun _ => 0)).2.1 1) ((fun _ => 3 : Nat → ℝ) 1) :=
  (C24_dmudp_is_derivative (pvt_water ℝ) 2 (fun _ => 3) (fun _ => 0) (fun _ => ⟨0⟩)
    (fun _ => 0) (fun _ => 0) (fun _ => 0) 1 (by decide)).1

/-- C25: for a phase over the reals and a position `i < n`, the value `output_dbdp[i]`
returned by `b` (in both overloads) is the derivative at `p[i]` of the function that maps
the pressure at position `i` to the `output_b[i]` the same call returns, and the value
`output_dBdp[i]` returned by `dBdp` is the derivative at `p[i]` of the function that maps
the pressure at position `i` to the `output_B[i]` the same call returns; `ref_B_` may
be any real. -/
theorem C25_dbdp_dBdp_are_derivatives (s : SinglePvtConstCompr ℝ) (n : Nat)
    (p r z : Nat → ℝ) (cond : Nat → PhasePresence) (ob odbp odbr oB odB : Nat → ℝ) (i : Nat)
    (hi : i < n) :
    HasDerivAt (fun q : ℝ => (s.b n (Function.update p i q) r ob odbp odbr).1 i)
      ((s.b n p r ob odbp odbr).2.1 i) (p i) ∧
    HasDerivAt (fun q : ℝ => (s.b_cond n (Function.update p i q) r cond ob odbp odbr).1 i)
      ((s.b_cond n p r cond ob odbp odbr).2.1 i) (p i) ∧
    HasDerivAt (fun q : ℝ => (s.dBdp n (Function.update p i q) z oB odB).1 i)
      ((s.dBdp n p z oB odB).2 i) (p i) := by
  have hb : HasDerivAt (fun q : ℝ => (s.b n (Function.update p i q) r ob odbp odbr).1 i)
      ((s.b n p r ob odbp odbr).2.1 i) (p i) := by
    have hval : ∀ q : ℝ, (s.b n (Function.update p i q) r ob odbp odbr).1 i
        = if s.comp_ ≠ 0 then
            (1 + s.comp_ * (q - s.ref_press_)
              + 1 / 2 * (s.comp_ * (q - s.ref_press_)) * (s.comp_ * (q - s.ref_press_)))
              / s.ref_B_
          else 1 / s.ref_B_ := by
      intro q
      rw [(b_apply s n _ r ob odbp odbr i).1, if_pos hi, Function.update_same]
    rw [funext hval, (b_apply s n p r ob odbp odbr i).2.1, if_pos hi]
    by_cases hc : s.comp_ ≠ 0
    · simp only [if_pos hc]
      have h := (hasDerivAt_denominator s.comp_ s.ref_press_ (p i)).div_const s.ref_B_
      exact h
    · simp only [if_neg hc]
      exact hasDerivAt_const _ _
  refine ⟨hb, by simpa only [b_cond_eq] using hb, ?_⟩
  have hval : ∀ q : ℝ, (s.dBdp n (Function.update p i q) z oB odB).1 i
      = if s.comp_ ≠ 0 then
          s.ref_B_ / (1 + s.comp_ * (q - s.ref_press_)
            + 1 / 2 * (s.comp_ * (q - s.ref_press_)) * (s.comp_ * (q - s.ref_press_)))
        else s.ref_B_ := by
    intro q
    rw [(dBdp_apply s n _ z oB odB i).1, if_pos hi, Function.update_same]
  rw [funext hval, (dBdp_apply s n p z oB odB i).2, if_pos hi]
  by_cases hc : s.comp_ ≠ 0
  · simp only [if_pos hc]
    exact hasDerivAt_quotient s.ref_B_ s.comp_ s.ref_press_ (p i)
  · simp only [if_neg hc]
    exact hasDerivAt_const _ _

/-- The statement of `C25_dbdp_dBdp_are_derivatives` at a sample input: the sample water
phase over the reals, two positions, position 1. -/
theorem C25_dbdp_dBdp_are_derivatives_witness :
    HasDerivAt (fun q : ℝ => ((pvt_water ℝ).dBdp 2 (Function.update (fun _ => 3) 1 q)
        (fun _ => 0) (fun _ => 0) (fun _ => 0)).1 1)
      (((pvt_water ℝ).dBdp 2 (fun _ => 3) (fun _ => 0) (fun _ => 0) (fun _ => 0)).2 1)
      ((fun _ => 3 : Nat → ℝ) 1) :=
  (C25_dbdp_dBdp_are_derivatives (pvt_water ℝ) 2 (fun _ => 3) (fun _ => 0) (fun _ => 0)
    (fun _ => ⟨0⟩) (fun _ => 0) (fun _ => 0) (fun _ => 0) (fun _ => 0) (fun _ => 0) 1
    (by decide)).2.2

/-- C26: the phase is composition-independent.  For every `n` and every position `i < n`
the derivatives with respect to `r` returned by `mu` and `b` are zero, `rsSat` and `rvSat`
return zero values and zero pressure derivatives, and `R` and `dRdp` return zero; and what
`mu`, `B`, `dBdp` and `b` return is the same for every `r`, `z` and phase state. -/
theorem C26_composition_independent {K : Type} [Field K] [DecidableEq K]
    (s : SinglePvtConstCompr K) (n : Nat) (p r z o1 o2 o3 : Nat → K)
    (cond : Nat → PhasePresence) (i : Nat) (hi : i < n) :
    (s.mu_r n p r o1 o2 o3).2.2 i = 0 ∧ (s.mu_cond n p r cond o1 o2 o3).2.2 i = 0 ∧
    (s.b n p r o1 o2 o3).2.2 i = 0 ∧ (s.b_cond n p r cond o1 o2 o3).2.2 i = 0 ∧
    (s.rsSat n p o1 o2).1 i = 0 ∧ (s.rsSat n p o1 o2).2 i = 0 ∧
    (s.rvSat n p o1 o2).1 i = 0 ∧ (s.rvSat n p o1 o2).2 i = 0 ∧
    s.R n p z o1 i = 0 ∧ (s.dRdp n p z o1 o2).1 i = 0 ∧ (s.dRdp n p z o1 o2).2 i = 0 ∧
    (∀ (r2 z2 : Nat → K) (cond2 : Nat → PhasePresence),
      s.mu n p z2 o1 = s.mu n p z o1 ∧
      s.mu_r n p r2 o1 o2 o3 = s.mu_r n p r o1 o2 o3 ∧
      s.mu_cond n p r2 cond2 o1 o2 o3 = s.mu_cond n p r cond o1 o2 o3 ∧
      s.B n p z2 o1 = s.B n p z o1 ∧
      s.dBdp n p z2 o1 o2 = s.dBdp n p z o1 o2 ∧
      s.b n p r2 o1 o2 o3 = s.b n p r o1 o2 o3 ∧
      s.b_cond n p r2 cond2 o1 o2 o3 = s.b_cond n p r cond o1 o2 o3) := by
  have hfill : ∀ o : Nat → K, std_fill n (0 : K) o i = 0 := by
    intro o
    unfold std_fill
    rw [if_pos hi]
  refine ⟨?_, ?_, ?_, ?_, hfill o1, hfill o2, hfill o1, hfill o2, hfill o1, hfill o1, hfill o2,
    fun r2 z2 cond2 => ⟨rfl, rfl, rfl, rfl, rfl, rfl, rfl⟩⟩
  · rw [(mu_r_apply s n p r o1 o2 o3 i).2.2, if_pos hi]
  · rw [mu_cond_eq, (mu_r_apply s n p r o1 o2 o3 i).2.2, if_pos hi]
  · rw [(b_apply s n p r o1 o2 o3 i).2.2, if_pos hi]
  · rw [b_cond_eq, (b_apply s n p r o1 o2 o3 i).2.2, if_pos hi]

/-- The statement of `C26_composition_independent` at a sample input: the sample water
phase over the rationals; the derivative of `mu` with respect to `r` at position 1 of 2. -/
theorem C26_composition_independent_witness :
    ((pvt_water ℚ).mu_r 2 (fun _ => 3) (fun _ => 7) (fun _ => 1) (fun _ => 1)
      (fun _ => 1)).2.2 1 = 0 :=
  (C26_composition_independent (pvt_water ℚ) 2 (fun _ => 3) (fun _ => 7) (fun _ => 0)
    (fun _ => 1) (fun _ => 1) (fun _ => 1) (fun _ => ⟨0⟩) 1 (by decide)).1

/-- C27: for every phase, pressure array and position `i < n`, the viscosity returned by
the overload of `mu` with a phase-state argument equals the one returned by the overload
with arguments `(p, z)` and the one returned by the overload with arguments `(p, r)`,
whatever the phase state, `r`, `z` and the prior contents of the output arrays are. -/
theorem C27_mu_overloads_agree {K : Type} [Field K] [DecidableEq K]
    (s : SinglePvtConstCompr K) (n : Nat) (p r r2 z : Nat → K) (cond : Nat → PhasePresence)
    (o1 o2 o3 o4 o5 o6 o7 : Nat → K) (i : Nat) (hi : i < n) :
    (s.mu_cond n p r cond o1 o2 o3).1 i = s.mu n p z o4 i ∧
    (s.mu_cond n p r cond o1 o2 o3).1 i = (s.mu_r n p r2 o5 o6 o7).1 i := by
  rw [mu_cond_eq, (mu_r_apply s n p r o1 o2 o3 i).1, (mu_r_apply s n p r2 o5 o6 o7 i).1,
    mu_apply]
  simp only [if_pos hi, and_self]

/-- The statement of `C27_mu_overloads_agree` at a sample input: the sample water phase
over the rationals, two positions, position 1. -/
theorem C27_mu_overloads_agree_witness :
    ((pvt_water ℚ).mu_cond 2 (fun _ => 3) (fun _ => 7) (fun _ => ⟨1⟩) (fun _ => 0) (fun _ => 0)
        (fun _ => 0)).1 1
      = (pvt_water ℚ).mu 2 (fun _ => 3) (fun _ => 5) (fun _ => 1) 1 ∧
    ((pvt_water ℚ).mu_cond 2 (fun _ => 3) (fun _ => 7) (fun _ => ⟨1⟩) (fun _ => 0) (fun _ => 0)
        (fun _ => 0)).1 1
      = ((pvt_water ℚ).mu_r 2 (fun _ => 3) (fun _ => 8) (fun _ => 2) (fun _ => 2)
          (fun _ => 2)).1 1 :=
  C27_mu_overloads_agree (pvt_water ℚ) 2 (fun _ => 3) (fun _ => 7) (fun _ => 8) (fun _ => 5)
    (fun _ => ⟨1⟩) (fun _ => 0) (fun _ => 0) (fun _ => 0) (fun _ => 1) (fun _ => 2)
    (fun _ => 2) (fun _ => 2) 1 (by decide)

/-! ## The derivative blocks of a cell with two connections -/

set_option maxHeartbeats 16000000 in
/-- The assembly on the three-cell sample grid, evaluated: the stored values of row 1,
the row of the cell with the two connections `f0 = (0, 1)` and `f1 = (1, 2)`.  Both
connections contribute the derivative block of `f0` (transmissibility `T0`); the block of
`f1` (transmissibility `T1`) does not appear. -/
theorem assemble_grid3_eval (T0 T1 m p0 p1 p2 V z A dA Af dt : ℚ) (hA : A ≠ 0) :
    ∃ h', cfs_tpfa_res_assemble grid3 dt bc0 (fun _ => 0) (fun _ => z)
        (cq3 A dA Af m) (two_faces T0 T1) (fun _ => 0) (three_cells p0 p1 p2)
        (fun _ => V) handle3 (fun _ => 0) = some h' ∧
      h'.J.sa 2 = -(dt * T0 * m * Af / A) ∧
      h'.J.sa 3
        = (-(V * z / A) + dt * Af * m * (T0 * (p0 - p1) + T1 * (p1 - p2)) / A)
            * (1 - dA / A)
          + 2 * (dt * T0 * m * Af / A) ∧
      h'.J.sa 4 = -(dt * T0 * m * Af / A) := by
  have h : (cfs_tpfa_res_assemble grid3 dt bc0 (fun _ => 0) (fun _ => z)
      (cq3 A dA Af m) (two_faces T0 T1) (fun _ => 0) (three_cells p0 p1 p2)
      (fun _ => V) handle3 (fun _ => 0)).map (fun h => (h.J.sa 2, h.J.sa 3, h.J.sa 4))
      = some (-(dt * T0 * m * Af / A),
          (-(V * z / A) + dt * Af * m * (T0 * (p0 - p1) + T1 * (p1 - p2)) / A)
              * (1 - dA / A)
            + 2 * (dt * T0 * m * Af / A),
          -(dt * T0 * m * Af / A)) := by
    simp [cfs_tpfa_res_assemble, assemble_cells, cell_pass, forLoopM_succ, forLoopM_zero,
      compute_cell_contrib, init_cell_contrib, count_internal_conn, forLoop_succ,
      init_cell_contrib_step, grid3, handle3, blank_impl, blank_ratio, two_faces,
      three_cells, cq3,
      compute_compflux_and_deriv, compflux_step, compute_darcyflux_and_deriv,
      factorise_fluid_matrix, denseMat_one_det, solve_entry_one, denseMat,
      jac_row_step, connection_contrib, sum_pair, solve_linear_systems, offset, writeBack,
      memcpy, matvec, matmat, vector_zero, Function.update_apply, csrmatrix_zero,
      Finset.sum_range_succ, assemble_cell_contrib, assemble_step, other_cell,
      csrmatrix_elm_index, List.range'_succ, List.find?_cons, hA]
    split_ifs <;> simp [Function.update_apply, vector_zero] <;>
      refine ⟨?_, ?_, ?_⟩ <;> field_simp <;> ring
  cases hr : cfs_tpfa_res_assemble grid3 dt bc0 (fun _ => 0) (fun _ => z)
      (cq3 A dA Af m) (two_faces T0 T1) (fun _ => 0) (three_cells p0 p1 p2)
      (fun _ => V) handle3 (fun _ => 0) with
  | none => rw [hr] at h; simp at h
  | some x =>
    rw [hr] at h
    simp only [Option.map_some', Option.some.injEq, Prod.mk.injEq] at h
    exact ⟨x, rfl, h.1, h.2.1, h.2.2⟩

theorem interior_faces_grid3 : interior_faces grid3 1 = [0, 1] := by decide

/-- The pattern that `construct_matrix` builds for the three-cell sample grid is the
pattern of `handle3`: rows `[0, 1]`, `[0, 1, 2]` and `[1, 2]`. -/
theorem grid3_pattern :
    (construct_matrix grid3).map
        (fun A => (A.m, A.nnz, (List.range 4).map A.ia, (List.range 7).map A.ja))
      = some (3, 7, [0, 2, 5, 7], [0, 1, 0, 1, 2, 1, 2]) := by
  decide

/-- The reference off-diagonal value of row 1 for face `f1` on the three-cell sample grid:
it is built from the block of `f1`, transmissibility `T1`. -/
theorem spec_offdiag_grid3 (T0 T1 m p0 p1 p2 A dA Af dt : ℚ) :
    spec_offdiag grid3 1 1 dt (offset (cq3 A dA Af m).Ac (1 * (1 * 1)))
        (compute_compflux_and_deriv grid3 1 (three_cells p0 p1 p2) (two_faces T0 T1)
          (cq3 A dA Af m).phasemobf (fun _ => 0) (cq3 A dA Af m).Af
          { handle3.pimpl with is_incomp := true }).compflux_deriv_f 1
      = -(dt * T1 * m * Af / A) := by
  simp [spec_offdiag, grid3, handle3, blank_impl, two_faces, three_cells, cq3,
    compute_compflux_and_deriv, compflux_step, compute_darcyflux_and_deriv, forLoop_succ,
    solve_entry_one, offset, writeBack, matvec, matmat, Function.update_apply,
    Finset.sum_range_succ]
  ring

/-- The reference diagonal value of row 1 on the three-cell sample grid: it holds the
blocks of both faces, transmissibilities `T0` and `T1`. -/
theorem spec_diag_grid3 (T0 T1 m p0 p1 p2 V z A dA Af dt : ℚ) :
    spec_diag grid3 1 1 V dt (offset (fun _ => z) (1 * 1))
        (offset (cq3 A dA Af m).Ac (1 * (1 * 1))) (offset (cq3 A dA Af m).dAc (1 * (1 * 1)))
        (compute_compflux_and_deriv grid3 1 (three_cells p0 p1 p2) (two_faces T0 T1)
          (cq3 A dA Af m).phasemobf (fun _ => 0) (cq3 A dA Af m).Af
          { handle3.pimpl with is_incomp := true }).compflux_f
        (compute_compflux_and_deriv grid3 1 (three_cells p0 p1 p2) (two_faces T0 T1)
          (cq3 A dA Af m).phasemobf (fun _ => 0) (cq3 A dA Af m).Af
          { handle3.pimpl with is_incomp := true }).compflux_deriv_f
      = (-(V * z / A) + dt * Af * m * (T0 * (p0 - p1) + T1 * (p1 - p2)) / A)
            * (1 - dA / A)
          + (dt * T0 * m * Af / A + dt * T1 * m * Af / A) := by
  simp only [spec_diag, spec_t1, spec_dF2, interior_faces_grid3, List.map, List.sum_cons,
    List.sum_nil]
  simp [grid3, handle3, blank_impl, two_faces, three_cells, cq3,
    compute_compflux_and_deriv, compflux_step, compute_darcyflux_and_deriv, forLoop_succ,
    solve_entry_one, offset, writeBack, matvec, matmat, Function.update_apply,
    Finset.sum_range_succ]
  ring

/-- C29 (the code at the failing input): on the three-cell sample grid (one component,
zero gravity term, the same invertible `Ac` in every cell, no boundary faces), cell 1 has
the two connections `f0 = (0, 1)` with transmissibility `T0` and `f1 = (1, 2)` with
transmissibility `T1`.  `cfs_tpfa_res_assemble` completes and stores `-dt*T0*m*Af/Ac` in
entry `(1, 2)`, the value built from the derivative block of `f0`; the reference value
`s * dt * sum_p (Ac⁻¹ * D)[p]` for the block of `f1` itself is `-dt*T1*m*Af/Ac`. -/
theorem C29_offdiag_uses_first_block (T0 T1 m p0 p1 p2 V z A dA Af dt : ℚ) (hA : A ≠ 0) :
    handle3.J.ja 4 = 2 ∧ handle3.J.ia 1 ≤ 4 ∧ 4 < handle3.J.ia 2 ∧
    (cfs_tpfa_res_assemble grid3 dt bc0 (fun _ => 0) (fun _ => z)
        (cq3 A dA Af m) (two_faces T0 T1) (fun _ => 0) (three_cells p0 p1 p2)
        (fun _ => V) handle3 (fun _ => 0)).map (fun h => h.J.sa 4)
      = some (-(dt * T0 * m * Af / A)) ∧
    spec_offdiag grid3 1 1 dt (offset (cq3 A dA Af m).Ac (1 * (1 * 1)))
        (compute_compflux_and_deriv grid3 1 (three_cells p0 p1 p2) (two_faces T0 T1)
          (cq3 A dA Af m).phasemobf (fun _ => 0) (cq3 A dA Af m).Af
          { handle3.pimpl with is_incomp := true }).compflux_deriv_f 1
      = -(dt * T1 * m * Af / A) := by
  obtain ⟨h', hs, _, _, h4⟩ := assemble_grid3_eval T0 T1 m p0 p1 p2 V z A dA Af dt hA
  refine ⟨rfl, by simp [handle3], by simp [handle3], ?_,
    spec_offdiag_grid3 T0 T1 m p0 p1 p2 A dA Af dt⟩
  rw [hs, Option.map_some', h4]

/-- The statement of `C29_offdiag_uses_first_block` at a sample input: unit data,
pressures `3, 2, 1`, transmissibilities `T0 = 1` and `T1 = 3`; the stored value of entry
`(1, 2)` is `-1`, the reference value is `-3`. -/
theorem C29_offdiag_uses_first_block_witness :
    handle3.J.ja 4 = 2 ∧ handle3.J.ia 1 ≤ 4 ∧ 4 < handle3.J.ia 2 ∧
    (cfs_tpfa_res_assemble grid3 1 bc0 (fun _ => 0) (fun _ => 1)
        (cq3 1 0 1 1) (two_faces 1 3) (fun _ => 0) (three_cells 3 2 1)
        (fun _ => 1) handle3 (fun _ => 0)).map (fun h => h.J.sa 4)
      = some (-(1 * 1 * 1 * 1 / 1)) ∧
    spec_offdiag grid3 1 1 1 (offset (cq3 1 0 1 1).Ac (1 * (1 * 1)))
        (compute_compflux_and_deriv grid3 1 (three_cells 3 2 1) (two_faces 1 3)
          (cq3 1 0 1 1).phasemobf (fun _ => 0) (cq3 1 0 1 1).Af
          { handle3.pimpl with is_incomp := true }).compflux_deriv_f 1
      = -(1 * 3 * 1 * 1 / 1) :=
  C29_offdiag_uses_first_block 1 3 1 3 2 1 1 1 1 0 1 1 (by norm_num)

/-- C30 (the code at the failing input): on the three-cell sample grid (one component,
zero gravity term, the same invertible `Ac` in every cell, no boundary faces), cell 1 has
the two connections `f0 = (0, 1)` with transmissibility `T0` and `f1 = (1, 2)` with
transmissibility `T1`.  `cfs_tpfa_res_assemble` completes and the value it stores in the
diagonal entry `(1, 1)` is the reference value
`dF1 - dF2 + dt * sum_f s_f * sum_p (Ac⁻¹ * D_f)[p]` plus `dt*(T0 - T1)*m*Af/Ac`: the
connection `f1` contributes the block of `f0` in place of its own.  The reference value is
`dF1 - dF2 + dt*T0*m*Af/Ac + dt*T1*m*Af/Ac`. -/
theorem C30_diagonal_uses_first_block (T0 T1 m p0 p1 p2 V z A dA Af dt : ℚ) (hA : A ≠ 0) :
    handle3.J.ja 3 = 1 ∧ handle3.J.ia 1 ≤ 3 ∧ 3 < handle3.J.ia 2 ∧
    (cfs_tpfa_res_assemble grid3 dt bc0 (fun _ => 0) (fun _ => z)
        (cq3 A dA Af m) (two_faces T0 T1) (fun _ => 0) (three_cells p0 p1 p2)
        (fun _ => V) handle3 (fun _ => 0)).map (fun h => h.J.sa 3)
      = some
          (spec_diag grid3 1 1 V dt (offset (fun _ => z) (1 * 1))
              (offset (cq3 A dA Af m).Ac (1 * (1 * 1)))
              (offset (cq3 A dA Af m).dAc (1 * (1 * 1)))
              (compute_compflux_and_deriv grid3 1 (three_cells p0 p1 p2) (two_faces T0 T1)
                (cq3 A dA Af m).phasemobf (fun _ => 0) (cq3 A dA Af m).Af
                { handle3.pimpl with is_incomp := true }).compflux_f
              (compute_compflux_and_deriv grid3 1 (three_cells p0 p1 p2) (two_faces T0 T1)
                (cq3 A dA Af m).phasemobf (fun _ => 0) (cq3 A dA Af m).Af
                { handle3.pimpl with is_incomp := true }).compflux_deriv_f
            + dt * (T0 - T1) * m * Af / A) ∧
    spec_diag grid3 1 1 V dt (offset (fun _ => z) (1 * 1))
        (offset (cq3 A dA Af m).Ac (1 * (1 * 1))) (offset (cq3 A dA Af m).dAc (1 * (1 * 1)))
        (compute_compflux_and_deriv grid3 1 (three_cells p0 p1 p2) (two_faces T0 T1)
          (cq3 A dA Af m).phasemobf (fun _ => 0) (cq3 A dA Af m).Af
          { handle3.pimpl with is_incomp := true }).compflux_f
        (compute_compflux_and_deriv grid3 1 (three_cells p0 p1 p2) (two_faces T0 T1)
          (cq3 A dA Af m).phasemobf (fun _ => 0) (cq3 A dA Af m).Af
          { handle3.pimpl with is_incomp := true }).compflux_deriv_f
      = (-(V * z / A) + dt * Af * m * (T0 * (p0 - p1) + T1 * (p1 - p2)) / A)
            * (1 - dA / A)
          + (dt * T0 * m * Af / A + dt * T1 * m * Af / A) := by
  obtain ⟨h', hs, _, h3, _⟩ := assemble_grid3_eval T0 T1 m p0 p1 p2 V z A dA Af dt hA
  refine ⟨rfl, by simp [handle3], by simp [handle3], ?_,
    spec_diag_grid3 T0 T1 m p0 p1 p2 V z A dA Af dt⟩
  rw [hs, Option.map_some', h3, spec_diag_grid3]
  congr 1
  field_simp
  ring

/-- The statement of `C30_diagonal_uses_first_block` at a sample input: unit data,
pressures `3, 2, 1`, transmissibilities `T0 = 1` and `T1 = 3`; the stored diagonal value
is the reference value minus `2`. -/
theorem C30_diagonal_uses_first_block_witness :
    (cfs_tpfa_res_assemble grid3 1 bc0 (fun _ => 0) (fun _ => 1)
        (cq3 1 0 1 1) (two_faces 1 3) (fun _ => 0) (three_cells 3 2 1)
        (fun _ => 1) handle3 (fun _ => 0)).map (fun h => h.J.sa 3)
      = some
          (spec_diag grid3 1 1 1 1 (offset (fun _ => 1) (1 * 1))
              (offset (cq3 1 0 1 1).Ac (1 * (1 * 1)))
              (offset (cq3 1 0 1 1).dAc (1 * (1 * 1)))
              (compute_compflux_and_deriv grid3 1 (three_cells 3 2 1) (two_faces 1 3)
                (cq3 1 0 1 1).phasemobf (fun _ => 0) (cq3 1 0 1 1).Af
                { handle3.pimpl with is_incomp := true }).compflux_f
              (compute_compflux_and_deriv grid3 1 (three_cells 3 2 1) (two_faces 1 3)
                (cq3 1 0 1 1).phasemobf (fun _ => 0) (cq3 1 0 1 1).Af
                { handle3.pimpl with is_incomp := true }).compflux_deriv_f
            + 1 * (1 - 3) * 1 * 1 / 1) :=
  (C30_diagonal_uses_first_block 1 3 1 3 2 1 1 1 1 0 1 1 (by norm_num)).2.2.2.1

/-! ## The adaptive sub-step timer: the end of the horizon -/

/-- The time that remains after `provideTimeStepEstimate` and `operator++`. -/
theorem remaining_after_step (t : AdaptiveSimulatorTimer) (est : ℚ) :
    (t.provideTimeStepEstimate est).increment.total_time_
        - (t.provideTimeStepEstimate est).increment.current_time_
      = t.total_time_ - t.current_time_ - (t.provideTimeStepEstimate est).dt_ := by
  obtain ⟨f1, f2, _⟩ := provide_frame t est
  simp only [AdaptiveSimulatorTimer.increment, f1, f2]
  ring

/-- C36 (amended): in exact arithmetic (the rationals here), for every timer state with
`total_time_ - current_time_ > 0` and every estimate, after `provideTimeStepEstimate` has
set `dt_` and `operator++` has taken that step, the time still remaining is zero or at
least half of the step `dt_` just taken. -/
theorem C36_no_undersized_trailing_step (t : AdaptiveSimulatorTimer) (est : ℚ)
    (hrem : t.total_time_ - t.current_time_ > 0) :
    (t.provideTimeStepEstimate est).increment.total_time_
        - (t.provideTimeStepEstimate est).increment.current_time_ = 0 ∨
    1 / 2 * (t.provideTimeStepEstimate est).dt_
      ≤ (t.provideTimeStepEstimate est).increment.total_time_
          - (t.provideTimeStepEstimate est).increment.current_time_ := by
  rw [remaining_after_step, provide_dt, if_pos hrem]
  split_ifs with h1 h2 h3
  · right; linarith
  · left; ring
  · right; linarith
  · right
    have : 3 / 2 * min est t.max_time_step_ ≤ t.total_time_ - t.current_time_ := not_lt.mp h3
    linarith

/-- The statement of `C36_no_undersized_trailing_step` at a sample input: three time units
remain, the maximum step is `4`, the estimate is `2.5`. -/
theorem C36_no_undersized_trailing_step_witness :
    (timer10_late.provideTimeStepEstimate (5 / 2)).increment.total_time_
        - (timer10_late.provideTimeStepEstimate (5 / 2)).increment.current_time_ = 0 ∨
    1 / 2 * (timer10_late.provideTimeStepEstimate (5 / 2)).dt_
      ≤ (timer10_late.provideTimeStepEstimate (5 / 2)).increment.total_time_
          - (timer10_late.provideTimeStepEstimate (5 / 2)).increment.current_time_ :=
  C36_no_undersized_trailing_step timer10_late (5 / 2) (by norm_num [timer10_late])

/-! ## Bounds of the phase properties; the reporting utilities -/

/-- C39 (amended): in exact arithmetic (the rationals here), for every interior face `f` of
the grid, the flux `fflux[f]` that `cfs_tpfa_res_flux` returns is the sum over the phases
of the per-phase fluxes `dflux[p]` that `compute_darcyflux_and_deriv` returns for the
transmissibility `trans[f]`, the mobilities and gravity terms of `f` and the pressure
difference `cpress[c1] - cpress[c2]`. -/
theorem C39_flux_is_sum_of_darcy_fluxes (G : grid_t) (bc : flowbc_t) (np : Nat)
    (trans pmobf gravcap_f cpress fflux dflux dflux_deriv : Nat → ℚ) (f : Nat)
    (hf : f < G.number_of_faces) (hint : interior G f) :
    cfs_tpfa_res_flux G bc np trans pmobf gravcap_f cpress fflux f
      = ∑ p ∈ Finset.range np,
          (compute_darcyflux_and_deriv np (trans f)
            (cpress (G.face_cells (2 * f + 0)).toNat - cpress (G.face_cells (2 * f + 1)).toNat)
            (offset pmobf (f * np)) (offset gravcap_f (f * np)) dflux dflux_deriv).1 p := by
  have hint2 := hint
  unfold interior at hint2
  have hnb : ¬ ((G.face_cells (2 * f + 0) < 0 ∨ G.face_cells (2 * f + 1) < 0) ∧
      bc.type f = flowbc_type.FLUX) := by
    rintro ⟨h | h, _⟩ <;> omega
  rw [res_flux_apply _ _ _ _ _ _ _ _ _ hf, darcy_eq]
  unfold compute_flux_step
  simp only [flux_sums_eq]
  rw [if_neg hnb, Function.update_same, if_pos hint2, mul_add, Finset.sum_mul, Finset.mul_sum,
    Finset.mul_sum, ← Finset.sum_add_distrib]
  apply Finset.sum_congr rfl
  intro p hp
  rw [if_pos (Finset.mem_range.mp hp)]
  simp only [offset]
  ring

/-- The statement of `C39_flux_is_sum_of_darcy_fluxes` at a sample input: face 0 of the
two-cell sample grid. -/
theorem C39_flux_is_sum_of_darcy_fluxes_witness :
    cfs_tpfa_res_flux grid2 bc2 1 (fun _ => 2) (fun _ => 3) (fun _ => 5) press2 (fun _ => 0) 0
      = ∑ p ∈ Finset.range 1,
          (compute_darcyflux_and_deriv 1 ((fun _ => 2 : Nat → ℚ) 0)
            (press2 (grid2.face_cells (2 * 0 + 0)).toNat
              - press2 (grid2.face_cells (2 * 0 + 1)).toNat)
            (offset (fun _ => 3) (0 * 1)) (offset (fun _ => 5) (0 * 1)) (fun _ => 0)
            (fun _ => 0)).1 p :=
  C39_flux_is_sum_of_darcy_fluxes grid2 bc2 1 (fun _ => 2) (fun _ => 3) (fun _ => 5) press2
    (fun _ => 0) (fun _ => 0) (fun _ => 0) 0 (by decide) (by decide)

/-- A sum over the positions of all face lists in which face `f` occupies exactly the one
position `i1` (in the list of `c1`). -/
theorem sum_facepos_one (G : grid_t) (n : Nat)
    (hmono : ∀ c, c < n → G.cell_facepos c ≤ G.cell_facepos (c + 1)) (w : Nat → Nat → ℚ)
    (f c1 i1 : Nat) (hc1 : c1 < n)
    (hi1 : G.cell_facepos c1 ≤ i1 ∧ i1 < G.cell_facepos (c1 + 1))
    (hf1 : G.cell_faces i1 = f)
    (honly : ∀ j, j < G.cell_facepos n → G.cell_faces j = f → j = i1) :
    (∑ c ∈ Finset.range n, ∑ j ∈ Finset.Ico (G.cell_facepos c) (G.cell_facepos (c + 1)),
        (if G.cell_faces j = f then w c j else 0)) = w c1 i1 := by
  rw [← sum_facepos_single G n hmono w c1 i1 hc1 hi1]
  apply Finset.sum_congr rfl
  intro c hc
  apply Finset.sum_congr rfl
  intro j hj
  have hjn : j < G.cell_facepos n :=
    lt_of_lt_of_le (Finset.mem_Ico.1 hj).2
      (facepos_mono G n hmono (c + 1) n (by have := Finset.mem_range.1 hc; omega) le_rfl)
  by_cases hjf : G.cell_faces j = f
  · rw [if_pos hjf, if_pos (honly j hjn hjf)]
  · rw [if_neg hjf, if_neg (fun e => hjf (by rw [e]; exact hf1))]

/-- C40 (amended): in exact arithmetic (the rationals here), after `cfs_tpfa_res_fpress`,
on a grid whose face lists follow one another from position `0`, for a face `f` that is
not a boundary face with a `PRESSURE` condition: if `f` occupies one position `i1` of the
face list of one cell `c` and no other position, with `htrans[i1] ≠ 0`, then
`fpress[f] = cpress[c]`; and if `f` occupies one position `i1` of the face list of `c1`,
one position `i2` of the face list of `c2` and no other position, with
`htrans[i1] + htrans[i2] ≠ 0` and `cpress[c1] = cpress[c2]`, then `fpress[f]` is that
common pressure. -/
theorem C40_fpress_one_sided_and_equal (G : grid_t) (bc : flowbc_t) (np : Nat)
    (htrans pmobf gravcap_f : Nat → ℚ) (h : cfs_tpfa_res_data) (cpress fflux fpress : Nat → ℚ)
    (f : Nat) (hf : f < G.number_of_faces) (h0 : G.cell_facepos 0 = 0)
    (hmono : ∀ c, c < G.number_of_cells → G.cell_facepos c ≤ G.cell_facepos (c + 1))
    (hfree : ¬ ((G.face_cells (2 * f + 0) < 0 ∨ G.face_cells (2 * f + 1) < 0) ∧
      bc.type f = flowbc_type.PRESSURE)) :
    (∀ c i1, c < G.number_of_cells →
      G.cell_facepos c ≤ i1 ∧ i1 < G.cell_facepos (c + 1) → G.cell_faces i1 = f →
      (∀ j, j < G.cell_facepos G.number_of_cells → G.cell_faces j = f → j = i1) →
      htrans i1 ≠ 0 →
      cfs_tpfa_res_fpress G bc np htrans pmobf gravcap_f h cpress fflux fpress f = cpress c) ∧
    (∀ c1 c2 i1 i2, c1 < G.number_of_cells → c2 < G.number_of_cells →
      G.cell_facepos c1 ≤ i1 ∧ i1 < G.cell_facepos (c1 + 1) →
      G.cell_facepos c2 ≤ i2 ∧ i2 < G.cell_facepos (c2 + 1) →
      i1 ≠ i2 → G.cell_faces i1 = f → G.cell_faces i2 = f →
      (∀ j, j < G.cell_facepos G.number_of_cells → G.cell_faces j = f → j = i1 ∨ j = i2) →
      htrans i1 + htrans i2 ≠ 0 → cpress c1 = cpress c2 →
      cfs_tpfa_res_fpress G bc np htrans pmobf gravcap_f h cpress fflux fpress f
        = cpress c1) := by
  constructor
  · intro c i1 hc hi1 hf1 honly hne
    rw [res_fpress_sums G bc np htrans pmobf gravcap_f h cpress fflux fpress f hf h0 hmono hfree,
      sum_facepos_one G G.number_of_cells hmono (fun c j => htrans j * cpress c) f c i1
        hc hi1 hf1 honly,
      sum_facepos_one G G.number_of_cells hmono (fun _ j => htrans j) f c i1
        hc hi1 hf1 honly]
    field_simp
  · intro c1 c2 i1 i2 hc1 hc2 hi1 hi2 hne hf1 hf2 honly hsum heq
    rw [res_fpress_sums G bc np htrans pmobf gravcap_f h cpress fflux fpress f hf h0 hmono hfree,
      sum_facepos_pair G G.number_of_cells hmono (fun c j => htrans j * cpress c) f c1 c2 i1 i2
        hc1 hc2 hi1 hi2 hne hf1 hf2 honly,
      sum_facepos_pair G G.number_of_cells hmono (fun _ j => htrans j) f c1 c2 i1 i2
        hc1 hc2 hi1 hi2 hne hf1 hf2 honly, ← heq]
    field_simp
    ring

/-- The statement of `C40_fpress_one_sided_and_equal` at a sample input: face 2 of the
two-cell sample grid, a boundary face without a `PRESSURE` condition, at position 3 of
the face list of cell 1. -/
theorem C40_fpress_one_sided_and_equal_witness :
    cfs_tpfa_res_fpress grid2 bc2 1 htrans2 (fun _ => 3) (fun _ => 5) (handle2 0) press2
        (fun _ => 0) (fun _ => 0) 2 = press2 1 :=
  (C40_fpress_one_sided_and_equal grid2 bc2 1 htrans2 (fun _ => 3) (fun _ => 5) (handle2 0)
    press2 (fun _ => 0) (fun _ => 0) 2 (by decide) (by decide) (by decide)
    (by decide)).1 1 3 (by decide) (by decide) (by decide) (by decide)
    (by norm_num [htrans2])

/-! ## Connection counters and workspace bounds -/

/-- C35 (the code at the failing input): `count_internal_conn` returns the indeterminate
start value `nconn0` of its counter plus the number of entries of the face list of `c`
whose face has two valid neighbours; the assertions that close `init_cell_contrib` hold
when `nconn0 = 0` and fail for every other start value. -/
theorem C35_counter_not_initialised (G : grid_t) (c np : Nat) (pvol dt : ℚ) (z : Nat → ℚ)
    (pimpl : cfs_tpfa_res_impl) (nconn0 : Int) :
    count_internal_conn G c nconn0 = nconn0 + ((interior_faces G c).length : Int) ∧
    (nconn0 ≠ 0 → init_cell_contrib G c np pvol dt z pimpl nconn0 = none) ∧
    (init_cell_contrib G c np pvol dt z pimpl 0).isSome = true := by
  refine ⟨count_internal_conn_eq G c nconn0,
    init_cell_contrib_nonzero G c np pvol dt z pimpl nconn0, ?_⟩
  obtain ⟨B, C, h, _⟩ := init_cell_contrib_zero G c np pvol dt z pimpl
  rw [h]
  rfl

/-- The statement of `C35_counter_not_initialised` at a sample input: cell 0 of the
two-cell sample grid, which has one interior face, and the start value `5`: the function
returns `6` and the assertions fail. -/
theorem C35_counter_not_initialised_witness :
    (interior_faces grid2 0).length = 1 ∧
    count_internal_conn grid2 0 5 = 6 ∧
    init_cell_contrib grid2 0 1 1 1 (fun _ => 1) blank_impl 5 = none :=
  ⟨by decide,
   (C35_counter_not_initialised grid2 0 1 1 1 (fun _ => 1) blank_impl 5).1.trans (by decide),
   (C35_counter_not_initialised grid2 0 1 1 1 (fun _ => 1) blank_impl 5).2.1 (by decide)⟩

/-- The value of `maxconn` after the first `n` cells bounds the length of the face list
of each of them. -/
theorem maxconn_loop (G : grid_t) (n c : Nat) (hc : c < n) :
    G.cell_facepos (c + 1) - G.cell_facepos c
      ≤ forLoop (fun c m =>
            let n := G.cell_facepos (c + 1) - G.cell_facepos c
            if n > m then n else m) 0 n 0 := by
  induction n with
  | zero => omega
  | succ n ih =>
    rw [forLoop_succ, Nat.zero_add]
    rcases Nat.lt_succ_iff_lt_or_eq.mp hc with h | h
    · have hM := ih h
      generalize forLoop _ 0 n 0 = M at hM ⊢
      simp only []
      split_ifs <;> omega
    · subst h
      generalize forLoop _ 0 c 0 = M
      simp only []
      split_ifs <;> omega

/-- The length of the face list of a cell of the grid is at most `maxconn`. -/
theorem le_maxconn (G : grid_t) (c : Nat) (hc : c < G.number_of_cells) :
    G.cell_facepos (c + 1) - G.cell_facepos c ≤ maxconn G :=
  maxconn_loop G G.number_of_cells c hc

/-- Among `m` entries of a face list at most `m` are interior faces. -/
theorem interior_among_length_le (G : grid_t) (lo m : Nat) :
    (interior_among G lo m).length ≤ m := by
  induction m with
  | zero => simp [interior_among_zero]
  | succ m ih =>
    rw [interior_among_succ, List.length_append]
    split_ifs
    · simp only [List.length_singleton]; omega
    · simp only [List.length_nil]; omega

/-- One pass of the Jacobian-row loop of `compute_cell_contrib` advances `off` by one. -/
theorem jac_row_step_off (G : grid_t) (c np : Nat) (dt : ℚ) (dv : Nat → ℚ) (i : Nat)
    (s : (Nat → ℚ) × Nat) : (jac_row_step G c np dt dv i s).2 = s.2 + 1 := by
  unfold jac_row_step
  simp only []
  split_ifs <;> rfl

/-- The cursor `off` of the Jacobian-row loop of `compute_cell_contrib` after `m`
passes. -/
theorem jac_row_loop_off (G : grid_t) (c np : Nat) (dt : ℚ) (dv : Nat → ℚ) (lo m : Nat)
    (s : (Nat → ℚ) × Nat) :
    (forLoop (jac_row_step G c np dt dv) lo m s).2 = s.2 + m := by
  induction m with
  | zero => rfl
  | succ m ih =>
    rw [forLoop_succ, jac_row_step_off, ih]
    omega

/-- One pass of the connection loop of `assemble_cell_contrib` advances `off` by one. -/
theorem assemble_step_off (G : grid_t) (c : Nat) (J : CSRMatrix) (mr : Nat → ℚ) (i : Nat)
    (s s' : (Nat → ℚ) × Nat) (h : assemble_step G c J mr i s = some s') :
    s'.2 = s.2 + 1 := by
  unfold assemble_step at h
  simp only [] at h
  split_ifs at h
  · cases hj : csrmatrix_elm_index c (other_cell G c (G.cell_faces i)).toNat J with
    | none => rw [hj] at h; simp at h
    | some j =>
      rw [hj, Option.map_some', Option.some.injEq] at h
      rw [← h]
  · rw [Option.some.injEq] at h
    rw [← h]

/-- The cursor `off` of the connection loop of `assemble_cell_contrib` after `m` passes. -/
theorem assemble_loop_off (G : grid_t) (c : Nat) (J : CSRMatrix) (mr : Nat → ℚ) (lo m : Nat)
    (s s' : (Nat → ℚ) × Nat) (h : forLoopM (assemble_step G c J mr) lo m s = some s') :
    s'.2 = s.2 + m := by
  induction m generalizing s' with
  | zero =>
    rw [forLoopM_zero, Option.some.injEq] at h
    rw [← h]
    rfl
  | succ m ih =>
    rw [forLoopM_succ] at h
    cases hm : forLoopM (assemble_step G c J mr) lo m s with
    | none => rw [hm] at h; simp at h
    | some x =>
      rw [hm, Option.some_bind] at h
      rw [assemble_step_off G c J mr _ x s' h, ih x hm]
      omega

/-- The indices that do not depend on the connection counter: with
`max_conn = maxconn(G)`, for every cell `c` of the grid the face list of `c` has at most
`max_conn` entries, hence at most `max_conn` interior faces; every index `conn` at which
`init_cell_contrib` stores a coefficient in `coeff`, and every index `off` at which the
loops of `compute_cell_contrib` and `assemble_cell_contrib` address `mat_row`, is at most
`max_conn`; and a call of `init_cell_contrib` that passes its assertions returns the
number of interior faces of `c`. -/
theorem counter_free_index_bounds (G : grid_t) (c : Nat) (hc : c < G.number_of_cells) :
    G.cell_facepos (c + 1) - G.cell_facepos c ≤ maxconn G ∧
    (interior_faces G c).length ≤ maxconn G ∧
    (∀ (np : Nat) (dt : ℚ) (cf cdf : Nat → ℚ) (s0 : init_locals) (m : Nat), s0.conn = 1 →
      m < G.cell_facepos (c + 1) - G.cell_facepos c →
      interior G (G.cell_faces (G.cell_facepos c + m)) →
      (forLoop (init_cell_contrib_step G np dt cf cdf) (G.cell_facepos c) m s0).conn
        ≤ maxconn G) ∧
    (∀ (np : Nat) (dt : ℚ) (dv mr : Nat → ℚ) (m : Nat),
      m < G.cell_facepos (c + 1) - G.cell_facepos c →
      (forLoop (jac_row_step G c np dt dv) (G.cell_facepos c) m (mr, 1)).2 ≤ maxconn G) ∧
    (∀ (J : CSRMatrix) (mr sa : Nat → ℚ) (m : Nat) (s : (Nat → ℚ) × Nat),
      m < G.cell_facepos (c + 1) - G.cell_facepos c →
      forLoopM (assemble_step G c J mr) (G.cell_facepos c) m (sa, 1) = some s →
      s.2 ≤ maxconn G) ∧
    (∀ (np : Nat) (pvol dt : ℚ) (z : Nat → ℚ) (pimpl : cfs_tpfa_res_impl) (nconn0 : Int)
      (r : Int × cfs_tpfa_res_impl),
      init_cell_contrib G c np pvol dt z pimpl nconn0 = some r →
      r.1 = ((interior_faces G c).length : Int) ∧
      1 + (1 + 2) * r.1.toNat ≤ 1 + 3 * maxconn G ∧ 1 + r.1.toNat ≤ maxconn G + 1) := by
  have hlen := le_maxconn G c hc
  have hint : (interior_faces G c).length ≤ maxconn G := by
    rw [interior_faces_eq]
    exact le_trans (interior_among_length_le G _ _) hlen
  refine ⟨hlen, hint, ?_, ?_, ?_, ?_⟩
  · intro np dt cf cdf s0 m hs hm hi
    rw [(init_loop_cursors G np dt cf cdf (G.cell_facepos c) m s0).1, hs]
    have h1 := interior_among_length_le G (G.cell_facepos c) (m + 1)
    rw [interior_among_succ, if_pos hi, List.length_append, List.length_singleton] at h1
    omega
  · intro np dt dv mr m hm
    rw [jac_row_loop_off]
    simp only []
    omega
  · intro J mr sa m s hm hs
    rw [assemble_loop_off G c J mr _ m (sa, 1) s hs]
    simp only []
    omega
  · intro np pvol dt z pimpl nconn0 r hr
    have h0 : nconn0 = 0 := by
      by_contra hne
      rw [init_cell_contrib_nonzero G c np pvol dt z pimpl nconn0 hne] at hr
      exact Option.noConfusion hr
    subst h0
    obtain ⟨B, C, h, _⟩ := init_cell_contrib_zero G c np pvol dt z pimpl
    rw [h, Option.some.injEq] at hr
    rw [← hr]
    refine ⟨rfl, ?_, ?_⟩ <;> simp only [Int.toNat_ofNat] <;> omega

/-- The call `init_cell_contrib` tests its two assertions on the locals that
`init_cell_contrib_loop` returns. -/
theorem init_cell_contrib_unfold (G : grid_t) (c np : Nat) (pvol dt : ℚ) (z : Nat → ℚ)
    (pimpl : cfs_tpfa_res_impl) (nconn0 : Int) :
    init_cell_contrib G c np pvol dt z pimpl nconn0
      = if ((init_cell_contrib_loop G c np pvol dt z pimpl nconn0).conn : Int)
            = count_internal_conn G c nconn0 + 1 ∧
          (init_cell_contrib_loop G c np pvol dt z pimpl nconn0).cflx
            = (count_internal_conn G c nconn0 + 1) * np then
          some (count_internal_conn G c nconn0, { pimpl with
            ratio := { pimpl.ratio with
              linsolve_buffer := (init_cell_contrib_loop G c np pvol dt z pimpl nconn0).buffer
              coeff := (init_cell_contrib_loop G c np pvol dt z pimpl nconn0).coeff } })
        else none := rfl

/-- The derivative cursor of `init_cell_contrib` when its loop has ended: it started behind
`1 + nconn` columns and has advanced by two columns per interior face. -/
theorem init_loop_dcflx (G : grid_t) (c np : Nat) (pvol dt : ℚ) (z : Nat → ℚ)
    (pimpl : cfs_tpfa_res_impl) (nconn0 : Int) :
    (init_cell_contrib_loop G c np pvol dt z pimpl nconn0).dcflx
      = (1 + nconn0 + 3 * ((interior_faces G c).length : Int)) * np := by
  unfold init_cell_contrib_loop
  simp only []
  rw [(init_loop_cursors G np dt _ _ _ _ _).2.2, count_internal_conn_eq, interior_faces_eq]
  ring

/-- C34 (the code at the failing input): `init_cell_contrib` places the derivative blocks
behind `1 + nconn` columns of `linsolve_buffer`, where `nconn` is what
`count_internal_conn` returns, so for a cell with `k` interior faces and the indeterminate
start value `nconn0` of the counter the derivative cursor ends at column
`1 + nconn0 + 3 * k`.  On cell 0 of the two-cell sample grid (`maxconn = 2`, one interior
face) with one phase, `linsolve_buffer` has 7 entries; with the start value 5 the counter
is 6, the derivative block of face 0 (the values 11 and 13) is written to the entries 7
and 8, beyond the buffer, the cursor ends at 9, and only then do the assertions abort the
call.  With the start value 0 the cursor ends at 4. -/
theorem C34_derivative_block_past_buffer :
    (∀ (G : grid_t) (c np : Nat) (pvol dt : ℚ) (z : Nat → ℚ) (pimpl : cfs_tpfa_res_impl)
        (nconn0 : Int),
      (init_cell_contrib_loop G c np pvol dt z pimpl nconn0).dcflx
        = (1 + nconn0 + 3 * ((interior_faces G c).length : Int)) * np) ∧
    maxconn grid2 = 2 ∧
    linsolve_buffer_size (maxconn grid2) 1 = 7 ∧
    (interior_faces grid2 0).length = 1 ∧
    count_internal_conn grid2 0 5 = 6 ∧
    impl_marked.ratio.linsolve_buffer 7 = 0 ∧
    impl_marked.ratio.linsolve_buffer 8 = 0 ∧
    (init_cell_contrib_loop grid2 0 1 1 1 (fun _ => 1) impl_marked 5).buffer 7 = 11 ∧
    (init_cell_contrib_loop grid2 0 1 1 1 (fun _ => 1) impl_marked 5).buffer 8 = 13 ∧
    (init_cell_contrib_loop grid2 0 1 1 1 (fun _ => 1) impl_marked 5).dcflx = 9 ∧
    init_cell_contrib grid2 0 1 1 1 (fun _ => 1) impl_marked 5 = none ∧
    (init_cell_contrib_loop grid2 0 1 1 1 (fun _ => 1) impl_marked 0).dcflx = 4 := by
  have hk : (interior_faces grid2 0).length = 1 := by decide
  refine ⟨init_loop_dcflx, by decide, by decide, hk, ?_, rfl, rfl, ?_, ?_, ?_, ?_, ?_⟩
  · rw [count_internal_conn_eq, hk]
    rfl
  · norm_num [init_cell_contrib_loop, init_cell_contrib_step, count_internal_conn, forLoop,
      grid2, impl_marked, blank_impl, blank_ratio, writeBack, memcpy, offset, Int.toNat]
  · norm_num [init_cell_contrib_loop, init_cell_contrib_step, count_internal_conn, forLoop,
      grid2, impl_marked, blank_impl, blank_ratio, writeBack, memcpy, offset, Int.toNat]
  · rw [init_loop_dcflx, hk]
    rfl
  · exact init_cell_contrib_nonzero grid2 0 1 1 1 (fun _ => 1) impl_marked 5 (by decide)
  · rw [init_loop_dcflx, hk]
    rfl

/-! ## Row sums of the Jacobian and conservation in the residual -/

set_option maxHeartbeats 16000000 in
/-- The cell loop of the assembly on the two-cell sample grid, evaluated before the
closing adjustment of entry `(0, 0)`: the four stored Jacobian values, for a workspace
whose `mat_row[2]` held `stale` before the call. -/
theorem cells_grid2_eval (T m p1 p2 V1 V2 z1 z2 Ac1 Ac2 dAc1 dAc2 Af dt stale : ℚ)
    (h1 : Ac1 ≠ 0) (h2 : Ac2 ≠ 0) :
    ∃ h', assemble_cells grid2 dt (two_cells z1 z2)
        (cq2 Ac1 Ac2 dAc1 dAc2 Af m) (fun _ => T) (fun _ => 0) (two_cells p1 p2)
        (two_cells V1 V2) (handle2 stale) (fun _ => 0) = some h' ∧
      h'.J.sa 0
        = (-(V1 * z1 / Ac1) + dt * Af * T * m * (p1 - p2) / Ac1) * (1 - dAc1 / Ac1)
          + dt * T * m * Af / Ac1 ∧
      h'.J.sa 1 = stale + -(dt * T * m * Af / Ac1) ∧
      h'.J.sa 2 = -(dt * T * m * Af / Ac2) ∧
      h'.J.sa 3
        = (-(V2 * z2 / Ac2) + dt * Af * T * m * (p1 - p2) / Ac2) * (1 - dAc2 / Ac2)
          + dt * T * m * Af / Ac2 := by
  have h : (assemble_cells grid2 dt (two_cells z1 z2)
      (cq2 Ac1 Ac2 dAc1 dAc2 Af m) (fun _ => T) (fun _ => 0) (two_cells p1 p2)
      (two_cells V1 V2) (handle2 stale) (fun _ => 0)).map
        (fun h => (h.J.sa 0, h.J.sa 1, h.J.sa 2, h.J.sa 3))
      = some ((-(V1 * z1 / Ac1) + dt * Af * T * m * (p1 - p2) / Ac1) * (1 - dAc1 / Ac1)
            + dt * T * m * Af / Ac1,
          stale + -(dt * T * m * Af / Ac1),
          -(dt * T * m * Af / Ac2),
          (-(V2 * z2 / Ac2) + dt * Af * T * m * (p1 - p2) / Ac2) * (1 - dAc2 / Ac2)
            + dt * T * m * Af / Ac2) := by
    simp [assemble_cells, cell_pass, forLoopM_succ, forLoopM_zero,
      compute_cell_contrib, init_cell_contrib, count_internal_conn, forLoop_succ,
      init_cell_contrib_step, grid2, handle2, blank_impl, blank_ratio, two_cells, cq2,
      compute_compflux_and_deriv, compflux_step, compute_darcyflux_and_deriv,
      factorise_fluid_matrix, denseMat_one_det, solve_entry_one, denseMat,
      jac_row_step, connection_contrib, sum_pair, solve_linear_systems, offset, writeBack,
      memcpy, matvec, matmat, vector_zero, Function.update_apply, csrmatrix_zero,
      Finset.sum_range_succ, assemble_cell_contrib, assemble_step, other_cell,
      csrmatrix_elm_index, List.range'_succ, List.find?_cons, h1, h2]
    refine ⟨?_, ?_, ?_, ?_⟩ <;> field_simp <;> ring
  cases hr : assemble_cells grid2 dt (two_cells z1 z2)
      (cq2 Ac1 Ac2 dAc1 dAc2 Af m) (fun _ => T) (fun _ => 0) (two_cells p1 p2)
      (two_cells V1 V2) (handle2 stale) (fun _ => 0) with
  | none => rw [hr] at h; simp at h
  | some x =>
    rw [hr] at h
    simp only [Option.map_some', Option.some.injEq, Prod.mk.injEq] at h
    exact ⟨x, rfl, h.1, h.2.1, h.2.2.1, h.2.2.2⟩

theorem interior_faces_grid2 : interior_faces grid2 0 = [0] ∧ interior_faces grid2 1 = [0] := by
  decide

/-- The accumulation part `dF1 - dF2` of the Jacobian rows of the two-cell sample grid,
from the reference quantities. -/
theorem spec_accumulation_grid2 (T m p1 p2 V1 V2 z1 z2 Ac1 Ac2 dAc1 dAc2 Af dt : ℚ)
    (stale : ℚ) (c : Nat) (hc : c < 2) :
    (∑ p ∈ Finset.range 1, spec_t1 grid2 c 1 (two_cells V1 V2 c) dt
          (offset (two_cells z1 z2) (c * 1))
          (offset (cq2 Ac1 Ac2 dAc1 dAc2 Af m).Ac (c * (1 * 1)))
          (compute_compflux_and_deriv grid2 1 (two_cells p1 p2) (fun _ => T)
            (cq2 Ac1 Ac2 dAc1 dAc2 Af m).phasemobf (fun _ => 0)
            (cq2 Ac1 Ac2 dAc1 dAc2 Af m).Af
            { (handle2 stale).pimpl with is_incomp := true }).compflux_f p)
      - spec_dF2 grid2 c 1 (two_cells V1 V2 c) dt (offset (two_cells z1 z2) (c * 1))
          (offset (cq2 Ac1 Ac2 dAc1 dAc2 Af m).Ac (c * (1 * 1)))
          (offset (cq2 Ac1 Ac2 dAc1 dAc2 Af m).dAc (c * (1 * 1)))
          (compute_compflux_and_deriv grid2 1 (two_cells p1 p2) (fun _ => T)
            (cq2 Ac1 Ac2 dAc1 dAc2 Af m).phasemobf (fun _ => 0)
            (cq2 Ac1 Ac2 dAc1 dAc2 Af m).Af
            { (handle2 stale).pimpl with is_incomp := true }).compflux_f
      = (-(two_cells V1 V2 c * two_cells z1 z2 c / two_cells Ac1 Ac2 c)
            + dt * Af * T * m * (p1 - p2) / two_cells Ac1 Ac2 c)
          * (1 - two_cells dAc1 dAc2 c / two_cells Ac1 Ac2 c) := by
  have hc2 : c = 0 ∨ c = 1 := by omega
  rcases hc2 with rfl | rfl
  · simp only [spec_t1, spec_dF2, interior_faces_grid2.1, List.map, List.sum_cons,
      List.sum_nil]
    simp [grid2, handle2, blank_impl, two_cells, cq2,
      compute_compflux_and_deriv, compflux_step, compute_darcyflux_and_deriv, forLoop_succ,
      solve_entry_one, offset, writeBack, matvec, matmat, Function.update_apply,
      Finset.sum_range_succ]
    ring
  · simp only [spec_t1, spec_dF2, interior_faces_grid2.2, List.map, List.sum_cons,
      List.sum_nil]
    simp [grid2, handle2, blank_impl, two_cells, cq2,
      compute_compflux_and_deriv, compflux_step, compute_darcyflux_and_deriv, forLoop_succ,
      solve_entry_one, offset, writeBack, matvec, matmat, Function.update_apply,
      Finset.sum_range_succ]
    ring

/-- C31 (the code at the failing input): on the two-cell sample grid, whose cell 0 lists a
boundary face before the shared face, the cell loop of the assembly completes (invertible
`Ac1`, `Ac2`) and, before the closing adjustment of entry `(0, 0)`, row 0 is stored at
positions `0, 1` and row 1 at positions `2, 3`; the connection adds `dt*T*m*Af/Ac` to the
diagonal and `-dt*T*m*Af/Ac` to the off-diagonal entry of each row, but the sum of the
entries of row 0 is the accumulation part `dF1 - dF2` plus `stale`, the value that
`mat_row[2]` held before the call; the sum of the entries of row 1 is `dF1 - dF2`. -/
theorem C31_row_sum_keeps_stale_value
    (T m p1 p2 V1 V2 z1 z2 Ac1 Ac2 dAc1 dAc2 Af dt stale : ℚ)
    (h1 : Ac1 ≠ 0) (h2 : Ac2 ≠ 0) :
    (handle2 stale).J.ia 0 = 0 ∧ (handle2 stale).J.ia 1 = 2 ∧ (handle2 stale).J.ia 2 = 4 ∧
    ∃ h', assemble_cells grid2 dt (two_cells z1 z2)
        (cq2 Ac1 Ac2 dAc1 dAc2 Af m) (fun _ => T) (fun _ => 0) (two_cells p1 p2)
        (two_cells V1 V2) (handle2 stale) (fun _ => 0) = some h' ∧
      h'.J.sa 0 + h'.J.sa 1
        = ((∑ p ∈ Finset.range 1, spec_t1 grid2 0 1 (two_cells V1 V2 0) dt
              (offset (two_cells z1 z2) (0 * 1))
              (offset (cq2 Ac1 Ac2 dAc1 dAc2 Af m).Ac (0 * (1 * 1)))
              (compute_compflux_and_deriv grid2 1 (two_cells p1 p2) (fun _ => T)
                (cq2 Ac1 Ac2 dAc1 dAc2 Af m).phasemobf (fun _ => 0)
                (cq2 Ac1 Ac2 dAc1 dAc2 Af m).Af
                { (handle2 stale).pimpl with is_incomp := true }).compflux_f p)
          - spec_dF2 grid2 0 1 (two_cells V1 V2 0) dt (offset (two_cells z1 z2) (0 * 1))
              (offset (cq2 Ac1 Ac2 dAc1 dAc2 Af m).Ac (0 * (1 * 1)))
              (offset (cq2 Ac1 Ac2 dAc1 dAc2 Af m).dAc (0 * (1 * 1)))
              (compute_compflux_and_deriv grid2 1 (two_cells p1 p2) (fun _ => T)
                (cq2 Ac1 Ac2 dAc1 dAc2 Af m).phasemobf (fun _ => 0)
                (cq2 Ac1 Ac2 dAc1 dAc2 Af m).Af
                { (handle2 stale).pimpl with is_incomp := true }).compflux_f)
          + stale ∧
      h'.J.sa 2 + h'.J.sa 3
        = ((∑ p ∈ Finset.range 1, spec_t1 grid2 1 1 (two_cells V1 V2 1) dt
              (offset (two_cells z1 z2) (1 * 1))
              (offset (cq2 Ac1 Ac2 dAc1 dAc2 Af m).Ac (1 * (1 * 1)))
              (compute_compflux_and_deriv grid2 1 (two_cells p1 p2) (fun _ => T)
                (cq2 Ac1 Ac2 dAc1 dAc2 Af m).phasemobf (fun _ => 0)
                (cq2 Ac1 Ac2 dAc1 dAc2 Af m).Af
                { (handle2 stale).pimpl with is_incomp := true }).compflux_f p)
          - spec_dF2 grid2 1 1 (two_cells V1 V2 1) dt (offset (two_cells z1 z2) (1 * 1))
              (offset (cq2 Ac1 Ac2 dAc1 dAc2 Af m).Ac (1 * (1 * 1)))
              (offset (cq2 Ac1 Ac2 dAc1 dAc2 Af m).dAc (1 * (1 * 1)))
              (compute_compflux_and_deriv grid2 1 (two_cells p1 p2) (fun _ => T)
                (cq2 Ac1 Ac2 dAc1 dAc2 Af m).phasemobf (fun _ => 0)
                (cq2 Ac1 Ac2 dAc1 dAc2 Af m).Af
                { (handle2 stale).pimpl with is_incomp := true }).compflux_f) := by
  obtain ⟨h', hs, e0, e1, e2, e3⟩ :=
    cells_grid2_eval T m p1 p2 V1 V2 z1 z2 Ac1 Ac2 dAc1 dAc2 Af dt stale h1 h2
  refine ⟨rfl, rfl, rfl, h', hs, ?_, ?_⟩
  · rw [e0, e1, spec_accumulation_grid2 T m p1 p2 V1 V2 z1 z2 Ac1 Ac2 dAc1 dAc2 Af dt stale 0
      (by omega)]
    simp only [two_cells, if_pos]
    ring
  · rw [e2, e3, spec_accumulation_grid2 T m p1 p2 V1 V2 z1 z2 Ac1 Ac2 dAc1 dAc2 Af dt stale 1
      (by omega)]
    simp only [two_cells, if_neg (show ¬ (1 = 0) by omega)]
    ring

/-- The statement of `C31_row_sum_keeps_stale_value` at a sample input: unit data with
`dAc = 1/2`, pressures `2` and `1`, and `mat_row[2] = 5` before the call. -/
theorem C31_row_sum_keeps_stale_value_witness :
    (handle2 5).J.ia 0 = 0 ∧ (handle2 5).J.ia 1 = 2 ∧ (handle2 5).J.ia 2 = 4 ∧
    ∃ h', assemble_cells grid2 1 (two_cells 1 1)
        (cq2 1 1 (1 / 2) (1 / 2) 1 1) (fun _ => 1) (fun _ => 0) (two_cells 2 1)
        (two_cells 1 1) (handle2 5) (fun _ => 0) = some h' ∧
      h'.J.sa 0 + h'.J.sa 1
        = ((∑ p ∈ Finset.range 1, spec_t1 grid2 0 1 (two_cells 1 1 0) 1
              (offset (two_cells 1 1) (0 * 1))
              (offset (cq2 1 1 (1 / 2) (1 / 2) 1 1).Ac (0 * (1 * 1)))
              (compute_compflux_and_deriv grid2 1 (two_cells 2 1) (fun _ => 1)
                (cq2 1 1 (1 / 2) (1 / 2) 1 1).phasemobf (fun _ => 0)
                (cq2 1 1 (1 / 2) (1 / 2) 1 1).Af
                { (handle2 5).pimpl with is_incomp := true }).compflux_f p)
          - spec_dF2 grid2 0 1 (two_cells 1 1 0) 1 (offset (two_cells 1 1) (0 * 1))
              (offset (cq2 1 1 (1 / 2) (1 / 2) 1 1).Ac (0 * (1 * 1)))
              (offset (cq2 1 1 (1 / 2) (1 / 2) 1 1).dAc (0 * (1 * 1)))
              (compute_compflux_and_deriv grid2 1 (two_cells 2 1) (fun _ => 1)
                (cq2 1 1 (1 / 2) (1 / 2) 1 1).phasemobf (fun _ => 0)
                (cq2 1 1 (1 / 2) (1 / 2) 1 1).Af
                { (handle2 5).pimpl with is_incomp := true }).compflux_f)
          + 5 ∧
      h'.J.sa 2 + h'.J.sa 3
        = ((∑ p ∈ Finset.range 1, spec_t1 grid2 1 1 (two_cells 1 1 1) 1
              (offset (two_cells 1 1) (1 * 1))
              (offset (cq2 1 1 (1 / 2) (1 / 2) 1 1).Ac (1 * (1 * 1)))
              (compute_compflux_and_deriv grid2 1 (two_cells 2 1) (fun _ => 1)
                (cq2 1 1 (1 / 2) (1 / 2) 1 1).phasemobf (fun _ => 0)
                (cq2 1 1 (1 / 2) (1 / 2) 1 1).Af
                { (handle2 5).pimpl with is_incomp := true }).compflux_f p)
          - spec_dF2 grid2 1 1 (two_cells 1 1 1) 1 (offset (two_cells 1 1) (1 * 1))
              (offset (cq2 1 1 (1 / 2) (1 / 2) 1 1).Ac (1 * (1 * 1)))
              (offset (cq2 1 1 (1 / 2) (1 / 2) 1 1).dAc (1 * (1 * 1)))
              (compute_compflux_and_deriv grid2 1 (two_cells 2 1) (fun _ => 1)
                (cq2 1 1 (1 / 2) (1 / 2) 1 1).phasemobf (fun _ => 0)
                (cq2 1 1 (1 / 2) (1 / 2) 1 1).Af
                { (handle2 5).pimpl with is_incomp := true }).compflux_f) :=
  C31_row_sum_keeps_stale_value 1 1 2 1 1 1 1 1 1 1 (1 / 2) (1 / 2) 1 1 5 (by norm_num)
    (by norm_num)

set_option maxHeartbeats 16000000 in
/-- C32 (the code at the failing input): on the grid of two cells that lists nothing but
the shared face `(0, 1)` (one component, zero gravity term, the same invertible
accumulation matrix `A` in both cells), `cfs_tpfa_res_assemble` completes and the shared
face contributes `+dt*T*m*(p1 - p2)*Af/A` to the residual of cell 0 and the same
`+dt*T*m*(p1 - p2)*Af/A`, not its negative, to the residual of cell 1:
`F[0] = V1*(1 - z1/A) + dt*T*m*(p1 - p2)*Af/A` and
`F[1] = V2*(1 - z2/A) + dt*T*m*(p1 - p2)*Af/A`, so the terms of the face add up to
`2*dt*T*m*(p1 - p2)*Af/A` in `F[0] + F[1]`. -/
theorem C32_flux_enters_both_residuals (T m p1 p2 V1 V2 z1 z2 A dA1 dA2 Af dt stale : ℚ)
    (hA : A ≠ 0) :
    (cfs_tpfa_res_assemble grid2_shared dt bc0 (fun _ => 0) (two_cells z1 z2)
      (cq2 A A dA1 dA2 Af m) (fun _ => T) (fun _ => 0) (two_cells p1 p2)
      (two_cells V1 V2) (handle2 stale) (fun _ => 0)).map
        (fun h => (h.F 0, h.F 1, h.F 0 + h.F 1))
      = some (V1 * (1 - z1 / A) + dt * T * m * (p1 - p2) * Af / A,
              V2 * (1 - z2 / A) + dt * T * m * (p1 - p2) * Af / A,
              V1 * (1 - z1 / A) + V2 * (1 - z2 / A)
                + 2 * (dt * T * m * (p1 - p2) * Af / A)) := by
  simp [cfs_tpfa_res_assemble, assemble_cells, cell_pass, forLoopM_succ, forLoopM_zero,
    compute_cell_contrib, init_cell_contrib, count_internal_conn, forLoop_succ,
    init_cell_contrib_step, grid2_shared, handle2, blank_impl, blank_ratio, two_cells, cq2,
    compute_compflux_and_deriv, compflux_step, compute_darcyflux_and_deriv,
    factorise_fluid_matrix, denseMat_one_det, solve_entry_one, denseMat,
    jac_row_step, connection_contrib, sum_pair, solve_linear_systems, offset, writeBack, memcpy,
    matvec, matmat, vector_zero, Function.update_apply, csrmatrix_zero,
    Finset.sum_range_succ, assemble_cell_contrib, assemble_step, other_cell,
    csrmatrix_elm_index, List.range'_succ, List.find?_cons, hA]
  split_ifs <;> simp [Function.update_apply, vector_zero] <;> refine ⟨?_, ?_, ?_⟩ <;>
    field_simp <;> ring

/-- The statement of `C32_flux_enters_both_residuals` at a sample input: unit data with
pore volumes and `z` such that the accumulation terms vanish, pressures `2` and `1`:
`F[0] = 1`, `F[1] = 1` and `F[0] + F[1] = 2`, not `0`. -/
theorem C32_flux_enters_both_residuals_witness :
    (cfs_tpfa_res_assemble grid2_shared 1 bc0 (fun _ => 0) (two_cells 1 1)
      (cq2 1 1 0 0 1 1) (fun _ => 1) (fun _ => 0) (two_cells 2 1)
      (two_cells 1 1) (handle2 0) (fun _ => 0)).map
        (fun h => (h.F 0, h.F 1, h.F 0 + h.F 1))
      = some (1 * (1 - 1 / 1) + 1 * 1 * 1 * (2 - 1) * 1 / 1,
              1 * (1 - 1 / 1) + 1 * 1 * 1 * (2 - 1) * 1 / 1,
              1 * (1 - 1 / 1) + 1 * (1 - 1 / 1)
                + 2 * (1 * 1 * 1 * (2 - 1) * 1 / 1)) :=
  C32_flux_enters_both_residuals 1 1 2 1 1 1 1 1 1 0 0 1 1 0 (by norm_num)

/-! ## Data of boundary faces is not read by the assembly -/

/-- Two loop bodies that agree on the indices visited give the same loop. -/
theorem forLoop_congr {σ : Type} (body body2 : Nat → σ → σ) (lo n : Nat) (s : σ)
    (h : ∀ i, lo ≤ i → i < lo + n → ∀ x, body i x = body2 i x) :
    forLoop body lo n s = forLoop body2 lo n s := by
  induction n with
  | zero => rfl
  | succ n ih =>
    rw [forLoop_succ, forLoop_succ, ih (fun i h1 h2 x => h i h1 (by omega) x),
      h (lo + n) (by omega) (by omega)]

/-- Two monadic loop bodies that agree everywhere give the same loop. -/
theorem forLoopM_congr {σ : Type} (body body2 : Nat → σ → Option σ) (lo n : Nat) (s : σ)
    (h : ∀ i x, body i x = body2 i x) :
    forLoopM body lo n s = forLoopM body2 lo n s := by
  have : body = body2 := funext fun i => funext fun x => h i x
  rw [this]

/-- The function `compute_darcyflux_and_deriv` reads the first `np` mobilities and gravity
terms only. -/
theorem darcy_congr (np : Nat) (t dp : ℚ) (pm pm2 gc gc2 a b : Nat → ℚ)
    (hpm : ∀ p, p < np → pm2 p = pm p) (hgc : ∀ p, p < np → gc2 p = gc p) :
    compute_darcyflux_and_deriv np t dp pm2 gc2 a b
      = compute_darcyflux_and_deriv np t dp pm gc a b := by
  rw [darcy_eq, darcy_eq]
  refine Prod.ext ?_ ?_
  · funext k
    simp only []
    by_cases hk : k < np
    · rw [if_pos hk, if_pos hk, hpm k hk, hgc k hk]
    · rw [if_neg hk, if_neg hk]
  · funext k
    simp only []
    by_cases hk : k < np
    · rw [if_pos hk, if_pos hk, hpm k hk]
    · rw [if_neg hk, if_neg hk]
      by_cases hk2 : np ≤ k ∧ k < np + np
      · rw [if_pos hk2, if_pos hk2, hpm (k - np) (by omega)]
      · rw [if_neg hk2, if_neg hk2]

/-- The wrapper `matvec` reads the first `nrow * ncol` entries of the matrix only. -/
theorem matvec_congr (nrow ncol : Nat) (A A2 x y : Nat → ℚ)
    (h : ∀ k, k < nrow * ncol → A2 k = A k) :
    matvec nrow ncol A2 x y = matvec nrow ncol A x y := by
  funext i
  unfold matvec
  by_cases hi : i < nrow
  · rw [if_pos hi, if_pos hi]
    apply Finset.sum_congr rfl
    intro j hj
    have hj2 := Finset.mem_range.mp hj
    have hb := block_le j ncol nrow hj2
    rw [h (i + j * nrow) (by rw [Nat.mul_comm nrow ncol]; omega)]
  · rw [if_neg hi, if_neg hi]

/-- The wrapper `matmat` reads the first `np * np` entries of the left matrix only. -/
theorem matmat_congr (np ncol : Nat) (A A2 B C : Nat → ℚ)
    (h : ∀ k, k < np * np → A2 k = A k) :
    matmat np ncol A2 B C = matmat np ncol A B C := by
  funext k
  unfold matmat
  by_cases hk : k < np * ncol
  · rw [if_pos hk, if_pos hk]
    have hnp : 0 < np := by
      rcases Nat.eq_zero_or_pos np with h0 | h0
      · rw [h0, Nat.zero_mul] at hk; omega
      · exact h0
    apply Finset.sum_congr rfl
    intro l hl
    have hl2 := Finset.mem_range.mp hl
    have hb := block_le l np np hl2
    have hm := Nat.mod_lt k hnp
    rw [h (k % np + l * np) (by omega)]
  · rw [if_neg hk, if_neg hk]

/-- One pass of the face loop of `compute_compflux_and_deriv` reads the transmissibility,
mobilities, gravity terms and matrix `Af` of its own face, and only if the face is
interior. -/
theorem compflux_step_congr (G : grid_t) (np : Nat)
    (cpress trans trans2 pmobf pmobf2 gcapf gcapf2 Af Af2 : Nat → ℚ) (f : Nat)
    (pimpl : cfs_tpfa_res_impl)
    (ht : interior G f → trans2 f = trans f)
    (hm : interior G f → ∀ p, p < np → pmobf2 (f * np + p) = pmobf (f * np + p))
    (hg : interior G f → ∀ p, p < np → gcapf2 (f * np + p) = gcapf (f * np + p))
    (hA : interior G f → ∀ k, k < np * np → Af2 (f * (np * np) + k) = Af (f * (np * np) + k)) :
    compflux_step G np cpress trans2 pmobf2 gcapf2 Af2 f pimpl
      = compflux_step G np cpress trans pmobf gcapf Af f pimpl := by
  by_cases hint : interior G f
  · unfold compflux_step
    simp only []
    rw [ht hint,
      darcy_congr np (trans f) _ (offset pmobf (f * np)) (offset pmobf2 (f * np))
        (offset gcapf (f * np)) (offset gcapf2 (f * np)) _ _ (hm hint) (hg hint),
      matvec_congr np np (offset Af (f * (np * np))) (offset Af2 (f * (np * np))) _ _ (hA hint),
      matmat_congr np 2 (offset Af (f * (np * np))) (offset Af2 (f * (np * np))) _ _ (hA hint)]
  · rw [compflux_step_boundary _ _ _ _ _ _ _ _ _ hint,
      compflux_step_boundary _ _ _ _ _ _ _ _ _ hint]

/-- The function `compute_compflux_and_deriv` reads per-face data of interior faces
only. -/
theorem compflux_congr (G : grid_t) (np : Nat)
    (cpress trans trans2 pmobf pmobf2 gcapf gcapf2 Af Af2 : Nat → ℚ)
    (pimpl : cfs_tpfa_res_impl)
    (ht : ∀ f, f < G.number_of_faces → interior G f → trans2 f = trans f)
    (hm : ∀ f, f < G.number_of_faces → interior G f →
      ∀ p, p < np → pmobf2 (f * np + p) = pmobf (f * np + p))
    (hg : ∀ f, f < G.number_of_faces → interior G f →
      ∀ p, p < np → gcapf2 (f * np + p) = gcapf (f * np + p))
    (hA : ∀ f, f < G.number_of_faces → interior G f →
      ∀ k, k < np * np → Af2 (f * (np * np) + k) = Af (f * (np * np) + k)) :
    compute_compflux_and_deriv G np cpress trans2 pmobf2 gcapf2 Af2 pimpl
      = compute_compflux_and_deriv G np cpress trans pmobf gcapf Af pimpl := by
  unfold compute_compflux_and_deriv
  apply forLoop_congr
  intro f _ hf x
  rw [Nat.zero_add] at hf
  exact compflux_step_congr G np cpress trans trans2 pmobf pmobf2 gcapf gcapf2 Af Af2 f x
    (ht f hf) (hm f hf) (hg f hf) (hA f hf)

/-- C33: for every grid and input set, `cfs_tpfa_res_assemble` returns the same result
(the same Jacobian and residual, and the same outcome of its assertions) when the
boundary-condition table `bc` and the source terms `src` are replaced by any others, and
when the transmissibilities `trans`, the phase mobilities, the gravity terms `gravcap_f`
and the per-face matrices `Af` are changed on faces that are not interior (the phase
count and the per-cell matrices `Ac`, `dAc` kept). -/
theorem C33_boundary_data_not_read (G : grid_t) (dt : ℚ) (bc bc_alt : flowbc_t)
    (src src_alt zc : Nat → ℚ) (cq cq_alt : compr_quantities_gen)
    (trans trans_alt gravcap_f gravcap_alt cpress porevol : Nat → ℚ) (h : cfs_tpfa_res_data)
    (nconn0 : Nat → Int)
    (hnp : cq_alt.nphases = cq.nphases) (hAc : cq_alt.Ac = cq.Ac) (hdAc : cq_alt.dAc = cq.dAc)
    (ht : ∀ f, f < G.number_of_faces → interior G f → trans_alt f = trans f)
    (hm : ∀ f, f < G.number_of_faces → interior G f → ∀ p, p < cq.nphases →
      cq_alt.phasemobf (f * cq.nphases + p) = cq.phasemobf (f * cq.nphases + p))
    (hg : ∀ f, f < G.number_of_faces → interior G f → ∀ p, p < cq.nphases →
      gravcap_alt (f * cq.nphases + p) = gravcap_f (f * cq.nphases + p))
    (hA : ∀ f, f < G.number_of_faces → interior G f → ∀ k, k < cq.nphases * cq.nphases →
      cq_alt.Af (f * (cq.nphases * cq.nphases) + k) = cq.Af (f * (cq.nphases * cq.nphases) + k)) :
    cfs_tpfa_res_assemble G dt bc_alt src_alt zc cq_alt trans_alt gravcap_alt cpress porevol h nconn0
      = cfs_tpfa_res_assemble G dt bc src zc cq trans gravcap_f cpress porevol h nconn0 ∧
    (cfs_tpfa_res_assemble G dt bc_alt src_alt zc cq_alt trans_alt gravcap_alt cpress porevol h nconn0).map
        (fun r => (r.J, r.F))
      = (cfs_tpfa_res_assemble G dt bc src zc cq trans gravcap_f cpress porevol h nconn0).map
        (fun r => (r.J, r.F)) := by
  have key : cfs_tpfa_res_assemble G dt bc_alt src_alt zc cq_alt trans_alt gravcap_alt cpress porevol h
      nconn0
      = cfs_tpfa_res_assemble G dt bc src zc cq trans gravcap_f cpress porevol h nconn0 := by
    unfold cfs_tpfa_res_assemble assemble_cells
    simp only []
    rw [hnp, compflux_congr G cq.nphases cpress trans trans_alt cq.phasemobf cq_alt.phasemobf
      gravcap_f gravcap_alt cq.Af cq_alt.Af _ ht hm hg hA,
      forLoopM_congr (cell_pass G dt zc cq_alt porevol nconn0) (cell_pass G dt zc cq porevol nconn0)]
    intro i x
    unfold cell_pass
    simp only []
    rw [hnp, hAc, hdAc]
  exact ⟨key, by rw [key]⟩

/-- On the two-cell sample grid face 0 is the only interior face. -/
theorem interior_grid2 :
    ∀ f, f < grid2.number_of_faces → interior grid2 f → f = 0 := by
  decide

/-- The statement of `C33_boundary_data_not_read` at a sample input: the two-cell sample
grid, with a boundary-condition table, source terms, and transmissibilities, mobilities,
gravity terms and matrices `Af` of the boundary faces 1 and 2 that differ. -/
theorem C33_boundary_data_not_read_witness :
    cfs_tpfa_res_assemble grid2 1 bc2 (fun _ => 9) (fun _ => 1)
        { cq1 with phasemobf := fun k => if k = 0 then 1 else 5,
                   Af := fun k => if k = 0 then 1 else 7 }
        (fun f => if f = 0 then 1 else 3) (fun k => if k = 0 then 0 else 4) press2
        (fun _ => 1) (handle2 0) (fun _ => 0)
      = cfs_tpfa_res_assemble grid2 1 bc0 (fun _ => 0) (fun _ => 1) cq1 (fun _ => 1)
          (fun _ => 0) press2 (fun _ => 1) (handle2 0) (fun _ => 0) :=
  (C33_boundary_data_not_read grid2 1 bc0 bc2 (fun _ => 0) (fun _ => 9) (fun _ => 1) cq1
    { cq1 with phasemobf := fun k => if k = 0 then 1 else 5,
               Af := fun k => if k = 0 then 1 else 7 }
    (fun _ => 1) (fun f => if f = 0 then 1 else 3) (fun _ => 0)
    (fun k => if k = 0 then 0 else 4) press2 (fun _ => 1) (handle2 0) (fun _ => 0)
    rfl rfl rfl
    (fun f hf hint => by rw [interior_grid2 f hf hint]; rfl)
    (fun f hf hint p hp => by
      rw [interior_grid2 f hf hint, Nat.lt_one_iff.mp hp]; rfl)
    (fun f hf hint p hp => by
      rw [interior_grid2 f hf hint, Nat.lt_one_iff.mp hp]; rfl)
    (fun f hf hint k hk => by
      rw [interior_grid2 f hf hint, Nat.lt_one_iff.mp hk]; rfl)).1

/-! ## The rounded program: double-precision evaluations

Each statement below evaluates the double-precision embedding at one input.  Decimal
values are written as the literals they are in C (`dbl_of 7 10` is `0.7`), so every
equation can be replayed in any IEEE 754 binary64 arithmetic. -/

set_option exponentiation.threshold 5000 in
set_option maxRecDepth 20000 in
/-- The literal `0.1` is the `double` `7205759403792794 * 2 ^ (-56)`, and the quotient
`(0.1 * 0.1) / 0.1` is the next `double` above it, `7205759403792795 * 2 ^ (-56)`. -/
theorem dbl_one_tenth :
    dbl_of 1 10 = double.fin ((7205759403792794 * 2 ^ 1018 : Nat) : Int) ∧
    dbl_div (dbl_mul (dbl_of 1 10) (dbl_of 1 10)) (dbl_of 1 10)
      = double.fin ((7205759403792795 * 2 ^ 1018 : Nat) : Int) := by
  decide

set_option exponentiation.threshold 5000 in
set_option maxRecDepth 20000 in
/-- C16 (counterexample): in double precision, on face 1 of the two-cell sample grid (a
boundary face of cell 0 without a boundary condition), with two phases of mobilities
`0.25`, `1.5` and gravity terms `1.25`, `1.0` and the transmissibility `1`: the total
mobility is `t = 1.75`, the gravity sum is `g = 1.8125`, and `cfs_tpfa_res_flux` stores
`trans * (t * (-g / t) + g) = -2 ^ (-52)`, which is not zero. -/
theorem C16_flux_rounding_residue :
    grid2.face_cells (2 * 1 + 0) < 0 ∧ Dbl.bc0.type 1 = flowbc_type.UNSET ∧
    Dbl.flux_sums 2 Dbl.pmob_two Dbl.gcap_two 1 = (dbl_of 175 100, dbl_of 18125 10000) ∧
    Dbl.cfs_tpfa_res_flux grid2 Dbl.bc0 2 (fun _ => dbl_of 1 1) Dbl.pmob_two Dbl.gcap_two
        (fun _ => double.fin 0) (fun _ => double.fin 0) 1 = dbl_neg (dbl_two_pow (-52)) ∧
    Dbl.cfs_tpfa_res_flux grid2 Dbl.bc0 2 (fun _ => dbl_of 1 1) Dbl.pmob_two Dbl.gcap_two
        (fun _ => double.fin 0) (fun _ => double.fin 0) 1 ≠ double.fin 0 := by
  decide

set_option exponentiation.threshold 5000 in
set_option maxRecDepth 20000 in
/-- C17 (counterexample): in double precision, on the two-cell sample grid with every
half-transmissibility `0.1` and both cell pressures `0.1`, the interior face 0 occupies
position 1 (in the face list of cell 0), position 2 (in the list of cell 1) and no other,
and the face pressure that `cfs_tpfa_res_fpress` returns for it is
`(0.1 * 0.1 + 0.1 * 0.1) / (0.1 + 0.1) = 0.10000000000000002`, above the larger of the two
cell pressures. -/
theorem C17_fpress_above_both_pressures :
    interior grid2 0 ∧
    (∀ j, j < grid2.cell_facepos grid2.number_of_cells →
      (grid2.cell_faces j = 0 ↔ j = 1 ∨ j = 2)) ∧
    dbl_lt (double.fin 0) (dbl_of 1 10) = true ∧
    Dbl.cfs_tpfa_res_fpress grid2 Dbl.bc0 1 (fun _ => dbl_of 1 10) (fun _ => dbl_of 1 1)
        (fun _ => double.fin 0) (fun _ => double.fin 0) (fun _ => dbl_of 1 10)
        (fun _ => double.fin 0) (fun _ => double.fin 0) 0
      = dbl_of 10000000000000002 100000000000000000 ∧
    dbl_lt (dbl_of 1 10)
      (Dbl.cfs_tpfa_res_fpress grid2 Dbl.bc0 1 (fun _ => dbl_of 1 10) (fun _ => dbl_of 1 1)
        (fun _ => double.fin 0) (fun _ => double.fin 0) (fun _ => dbl_of 1 10)
        (fun _ => double.fin 0) (fun _ => double.fin 0) 0) = true := by
  decide

set_option exponentiation.threshold 5000 in
set_option maxRecDepth 20000 in
/-- C20 (counterexample): in double precision, a timer with horizon `0.9` at time `0.2`,
maximum step `1` and estimate `1`: the remainder `0.9 - 0.2` is `0.7`, positive and
below `1.05 * 1`, so the step is set to the remainder `0.7`, which is at most the
maximum step; the following `operator++` yields the time `0.2 + 0.7 = 0.8999999999999999`,
below the horizon, and `done()` is false.  And with horizon `1.785` at time `0`, maximum
step `100` and estimate `1.7`: on the exact values of the `double`s `1.05 * d > remaining`
(compared in units of `2 ^ (-1074)`) and `remaining` is at most the maximum step, but the
product `1.05 * 1.7` rounds to `1.785`, which is not above the remainder, and the step is
set to `0.5 * remaining = 0.8925`, not to the remainder. -/
theorem C20_clamped_step_misses_horizon :
    dbl_sub (dbl_of 9 10) (dbl_of 2 10) = dbl_of 7 10 ∧
    dbl_lt (double.fin 0) (dbl_of 7 10) = true ∧
    dbl_lt (dbl_of 7 10) (dbl_mul (dbl_of 105 100) (Dbl.std_min (dbl_of 1 1) (dbl_of 1 1)))
      = true ∧
    dbl_le (dbl_of 7 10) (dbl_of 1 1) = true ∧
    ((Dbl.timer (dbl_of 9 10) (dbl_of 2 10) (dbl_of 1 1)).provideTimeStepEstimate
        (dbl_of 1 1)).dt_ = dbl_of 7 10 ∧
    ((Dbl.timer (dbl_of 9 10) (dbl_of 2 10) (dbl_of 1 1)).provideTimeStepEstimate
        (dbl_of 1 1)).increment.current_time_ = dbl_of 8999999999999999 10000000000000000 ∧
    ((Dbl.timer (dbl_of 9 10) (dbl_of 2 10) (dbl_of 1 1)).provideTimeStepEstimate
        (dbl_of 1 1)).increment.done = false ∧
    dbl_sub (dbl_of 1785 1000) (double.fin 0) = dbl_of 1785 1000 ∧
    Dbl.std_min (dbl_of 17 10) (dbl_of 100 1) = dbl_of 17 10 ∧
    0 < (dbl_of 1785 1000).units ∧
    100 * (dbl_of 1785 1000).units < 105 * (dbl_of 17 10).units ∧
    dbl_le (dbl_of 1785 1000) (dbl_of 100 1) = true ∧
    dbl_mul (dbl_of 105 100) (dbl_of 17 10) = dbl_of 1785 1000 ∧
    ((Dbl.timer (dbl_of 1785 1000) (double.fin 0) (dbl_of 100 1)).provideTimeStepEstimate
        (dbl_of 17 10)).dt_ = dbl_of 8925 10000 ∧
    dbl_of 8925 10000 ≠ dbl_of 1785 1000 := by
  decide

set_option exponentiation.threshold 5000 in
set_option maxRecDepth 20000 in
/-- C21 (counterexample): in double precision, a timer with horizon `5.1` at time `0`,
maximum step `10` and estimate `3.4`: the remainder is `5.1` and the capped estimate is
`d = 3.4`; on the exact values of these two `double`s `1.05 * d ≤ remaining < 1.5 * d`
(compared in units of `2 ^ (-1074)`), but the product `1.5 * 3.4` rounds to `5.1`, which
is not above the remainder, and the step stays `3.4` instead of `0.5 * remaining = 2.55`. -/
theorem C21_rounded_threshold_keeps_estimate :
    dbl_sub (dbl_of 51 10) (double.fin 0) = dbl_of 51 10 ∧
    Dbl.std_min (dbl_of 34 10) (dbl_of 10 1) = dbl_of 34 10 ∧
    0 < (dbl_of 51 10).units ∧
    105 * (dbl_of 34 10).units ≤ 100 * (dbl_of 51 10).units ∧
    2 * (dbl_of 51 10).units < 3 * (dbl_of 34 10).units ∧
    dbl_mul (dbl_of 15 10) (dbl_of 34 10) = dbl_of 51 10 ∧
    dbl_mul (dbl_of 5 10) (dbl_of 51 10) = dbl_of 255 100 ∧
    ((Dbl.timer (dbl_of 51 10) (double.fin 0) (dbl_of 10 1)).provideTimeStepEstimate
        (dbl_of 34 10)).dt_ = dbl_of 34 10 ∧
    dbl_of 34 10 ≠ dbl_of 255 100 := by
  decide

set_option exponentiation.threshold 5000 in
set_option maxRecDepth 20000 in
/-- In double precision the halving threshold itself is rounded: with the remainder `5.1`
and maximum step `10`, the estimate `3.4` gives the step `3.4` and the next `double`
above it, `3.4000000000000004`, gives the step `2.55`. -/
theorem halving_threshold_is_rounded :
    ((Dbl.timer (dbl_of 51 10) (double.fin 0) (dbl_of 10 1)).provideTimeStepEstimate
        (dbl_of 34 10)).dt_ = dbl_of 34 10 ∧
    ((Dbl.timer (dbl_of 51 10) (double.fin 0) (dbl_of 10 1)).provideTimeStepEstimate
        (dbl_of 34000000000000004 10000000000000000)).dt_ = dbl_of 255 100 ∧
    dbl_lt (dbl_of 34 10) (dbl_of 34000000000000004 10000000000000000) = true ∧
    dbl_lt (dbl_of 255 100) (dbl_of 34 10) = true := by
  decide

set_option exponentiation.threshold 5000 in
set_option maxRecDepth 20000 in
/-- C36 (counterexample): in double precision, a timer with horizon `0.9` at time `0.2`,
maximum step `1` and estimate `1` takes the step `0.7`; the time that remains after
`operator++` is `0.9 - 0.8999999999999999 = 2 ^ (-53)`: not zero, and less than half of
the step just taken. -/
theorem C36_tiny_trailing_remainder :
    dbl_lt (double.fin 0) (dbl_sub (dbl_of 9 10) (dbl_of 2 10)) = true ∧
    ((Dbl.timer (dbl_of 9 10) (dbl_of 2 10) (dbl_of 1 1)).provideTimeStepEstimate
        (dbl_of 1 1)).increment.steps_ = [dbl_of 7 10] ∧
    dbl_sub
        ((Dbl.timer (dbl_of 9 10) (dbl_of 2 10) (dbl_of 1 1)).provideTimeStepEstimate
          (dbl_of 1 1)).increment.total_time_
        ((Dbl.timer (dbl_of 9 10) (dbl_of 2 10) (dbl_of 1 1)).provideTimeStepEstimate
          (dbl_of 1 1)).increment.current_time_ = dbl_two_pow (-53) ∧
    dbl_two_pow (-53) ≠ double.fin 0 ∧
    dbl_lt (dbl_two_pow (-53)) (dbl_mul (dbl_of 5 10) (dbl_of 7 10)) = true ∧
    2 * (dbl_two_pow (-53)).units < (dbl_of 7 10).units := by
  decide

set_option exponentiation.threshold 5000 in
set_option maxRecDepth 20000 in
/-- C37 (counterexample): in double precision, a timer with horizon `0.9` at time `0.3`,
maximum step `1` and estimate `1`: the remainder `0.9 - 0.3` rounds to
`0.6000000000000001`, the step is set to it, and the following `operator++` yields the
time `0.3 + 0.6000000000000001 = 0.9000000000000001`, past the horizon. -/
theorem C37_step_past_horizon :
    dbl_lt (double.fin 0) (dbl_sub (dbl_of 9 10) (dbl_of 3 10)) = true ∧
    ((Dbl.timer (dbl_of 9 10) (dbl_of 3 10) (dbl_of 1 1)).provideTimeStepEstimate
        (dbl_of 1 1)).dt_ = dbl_of 6000000000000001 10000000000000000 ∧
    ((Dbl.timer (dbl_of 9 10) (dbl_of 3 10) (dbl_of 1 1)).provideTimeStepEstimate
        (dbl_of 1 1)).increment.simulationTimeElapsed
      = dbl_of 9000000000000001 10000000000000000 ∧
    ((Dbl.timer (dbl_of 9 10) (dbl_of 3 10) (dbl_of 1 1)).provideTimeStepEstimate
        (dbl_of 1 1)).increment.totalTime = dbl_of 9 10 ∧
    dbl_le
        ((Dbl.timer (dbl_of 9 10) (dbl_of 3 10) (dbl_of 1 1)).provideTimeStepEstimate
          (dbl_of 1 1)).increment.simulationTimeElapsed
        ((Dbl.timer (dbl_of 9 10) (dbl_of 3 10) (dbl_of 1 1)).provideTimeStepEstimate
          (dbl_of 1 1)).increment.totalTime = false := by
  decide

set_option exponentiation.threshold 5000 in
set_option maxRecDepth 20000 in
/-- C39 (counterexample): in double precision, on the interior face 0 of the two-cell
sample grid with transmissibility `1`, two phases of mobilities `0.25`, `1.5` and gravity
terms `1.25`, `1.0`, and cell pressures `0.1` and `0` (pressure difference `0.1`):
`cfs_tpfa_res_flux` stores `1.9875`, whereas the per-phase fluxes of
`compute_darcyflux_and_deriv` are `0.3375` and `1.6500000000000001`, whose sum is
`1.9875000000000003` when rounded and differs from the stored flux when taken exactly (in
units of `2 ^ (-1074)`). -/
theorem C39_two_paths_round_differently :
    interior grid2 0 ∧
    dbl_sub (dbl_of 1 10) (double.fin 0) = dbl_of 1 10 ∧
    Dbl.cfs_tpfa_res_flux grid2 Dbl.bc0 2 (fun _ => dbl_of 1 1) Dbl.pmob_two Dbl.gcap_two
        (fun c => if c = 0 then dbl_of 1 10 else double.fin 0) (fun _ => double.fin 0) 0
      = dbl_of 19875 10000 ∧
    (Dbl.compute_darcyflux_and_deriv 2 (dbl_of 1 1) (dbl_of 1 10)
        (fun p => Dbl.pmob_two (0 * 2 + p)) (fun p => Dbl.gcap_two (0 * 2 + p))
        (fun _ => double.fin 0) (fun _ => double.fin 0)).1 0 = dbl_of 3375 10000 ∧
    (Dbl.compute_darcyflux_and_deriv 2 (dbl_of 1 1) (dbl_of 1 10)
        (fun p => Dbl.pmob_two (0 * 2 + p)) (fun p => Dbl.gcap_two (0 * 2 + p))
        (fun _ => double.fin 0) (fun _ => double.fin 0)).1 1
      = dbl_of 16500000000000001 10000000000000000 ∧
    dbl_add (dbl_of 3375 10000) (dbl_of 16500000000000001 10000000000000000)
      = dbl_of 19875000000000003 10000000000000000 ∧
    dbl_of 19875000000000003 10000000000000000 ≠ dbl_of 19875 10000 ∧
    (dbl_of 3375 10000).units + (dbl_of 16500000000000001 10000000000000000).units
      ≠ (dbl_of 19875 10000).units := by
  decide

set_option exponentiation.threshold 5000 in
set_option maxRecDepth 20000 in
/-- C40 (counterexample): in double precision, on the two-cell sample grid with every
half-transmissibility `0.1` and every cell pressure `0.1`, without boundary conditions:
face 1 occupies position 0 of the face list of cell 0 and no other position, and its
face pressure is `(0.1 * 0.1) / 0.1 = 0.10000000000000002`, not the pressure `0.1` of
cell 0; the interior face 0, whose two neighbours have the same pressure `0.1`, gets
`0.10000000000000002` as well. -/
theorem C40_fpress_differs_from_cell_pressure :
    grid2.face_cells (2 * 1 + 0) < 0 ∧ grid2.cell_faces 0 = 1 ∧
    (∀ j, j < grid2.cell_facepos grid2.number_of_cells → grid2.cell_faces j = 1 → j = 0) ∧
    dbl_nonzero (dbl_of 1 10) = true ∧
    Dbl.cfs_tpfa_res_fpress grid2 Dbl.bc0 1 (fun _ => dbl_of 1 10) (fun _ => dbl_of 1 1)
        (fun _ => double.fin 0) (fun _ => double.fin 0) (fun _ => dbl_of 1 10)
        (fun _ => double.fin 0) (fun _ => double.fin 0) 1
      = dbl_of 10000000000000002 100000000000000000 ∧
    Dbl.cfs_tpfa_res_fpress grid2 Dbl.bc0 1 (fun _ => dbl_of 1 10) (fun _ => dbl_of 1 1)
        (fun _ => double.fin 0) (fun _ => double.fin 0) (fun _ => dbl_of 1 10)
        (fun _ => double.fin 0) (fun _ => double.fin 0) 0
      = dbl_of 10000000000000002 100000000000000000 ∧
    dbl_of 10000000000000002 100000000000000000 ≠ dbl_of 1 10 := by
  decide

/-! ## Bounds that survive rounding

General facts about the rounding of the double-precision arithmetic (the search `ilog2`
finds the leading binary digit, `dbl_round_mag` rounds to nearest with ties to even), and
the bound of the timer that holds in double precision as it does in exact arithmetic. -/

/-- The binary search of `ilog2` keeps a quotient of at least one whose product with the
power found so far is at most the number. -/
theorem ilog2_search (n : Nat) (l : List Nat) (s : Nat × Nat)
    (h : 1 ≤ s.1 ∧ s.1 * 2 ^ s.2 ≤ n) :
    1 ≤ (l.foldl (fun (s : Nat × Nat) k =>
        if s.1 ≥ 2 ^ k then (s.1 / 2 ^ k, s.2 + k) else s) s).1 ∧
    (l.foldl (fun (s : Nat × Nat) k =>
        if s.1 ≥ 2 ^ k then (s.1 / 2 ^ k, s.2 + k) else s) s).1
      * 2 ^ (l.foldl (fun (s : Nat × Nat) k =>
        if s.1 ≥ 2 ^ k then (s.1 / 2 ^ k, s.2 + k) else s) s).2 ≤ n := by
  induction l generalizing s with
  | nil => exact h
  | cons k l ih =>
    rw [List.foldl_cons]
    apply ih
    by_cases hk : s.1 ≥ 2 ^ k
    · rw [if_pos hk]
      refine ⟨Nat.div_pos hk (Nat.pow_pos (by norm_num)), ?_⟩
      calc s.1 / 2 ^ k * 2 ^ (s.2 + k) = (s.1 / 2 ^ k * 2 ^ k) * 2 ^ s.2 := by
            rw [pow_add]; ring
        _ ≤ s.1 * 2 ^ s.2 := Nat.mul_le_mul_right _ (Nat.div_mul_le_self _ _)
        _ ≤ n := h.2
    · rw [if_neg hk]
      exact h

/-- The power of two that `ilog2` finds is at most the number. -/
theorem two_pow_ilog2_le (n : Nat) (hn : 1 ≤ n) : 2 ^ ilog2 n ≤ n := by
  have h := ilog2_search n [2048, 1024, 512, 256, 128, 64, 32, 16, 8, 4, 2, 1] (n, 0)
    ⟨hn, by simp⟩
  unfold ilog2
  calc 2 ^ _ ≤ _ * 2 ^ _ := Nat.le_mul_of_pos_left _ h.1
    _ ≤ n := h.2

/-- The binary search of `ilog2` over exponents that halve from one step to the next: the
quotient `n / 2 ^ s.2`, below `2 ^ K` at the start, ends below `2 ^ k` for the last
exponent `k` of the list. -/
theorem ilog2_search_upper (n : Nat) (l : List Nat) (K : Nat) (s : Nat × Nat)
    (h1 : s.1 = n / 2 ^ s.2) (h2 : s.1 < 2 ^ K)
    (hc : List.Chain (fun a b => a = 2 * b) K l) :
    (l.foldl (fun (s : Nat × Nat) k =>
        if s.1 ≥ 2 ^ k then (s.1 / 2 ^ k, s.2 + k) else s) s).1
      = n / 2 ^ (l.foldl (fun (s : Nat × Nat) k =>
        if s.1 ≥ 2 ^ k then (s.1 / 2 ^ k, s.2 + k) else s) s).2 ∧
    (l.foldl (fun (s : Nat × Nat) k =>
        if s.1 ≥ 2 ^ k then (s.1 / 2 ^ k, s.2 + k) else s) s).1
      < 2 ^ (K :: l).getLast (List.cons_ne_nil _ _) := by
  induction l generalizing K s with
  | nil => exact ⟨h1, h2⟩
  | cons k l ih =>
    rw [List.chain_cons] at hc
    obtain ⟨hK, hc'⟩ := hc
    rw [List.foldl_cons, List.getLast_cons_cons]
    apply ih k _ _ _ hc'
    · by_cases hk : s.1 ≥ 2 ^ k
      · rw [if_pos hk]
        show s.1 / 2 ^ k = n / 2 ^ (s.2 + k)
        rw [h1, Nat.div_div_eq_div_mul, pow_add]
      · rw [if_neg hk]
        exact h1
    · by_cases hk : s.1 ≥ 2 ^ k
      · rw [if_pos hk]
        show s.1 / 2 ^ k < 2 ^ k
        rw [Nat.div_lt_iff_lt_mul (Nat.pow_pos (by norm_num)), ← pow_add, ← two_mul, ← hK]
        exact h2
      · rw [if_neg hk]
        exact not_le.mp hk

/-- The power of two that `ilog2` finds for `n < 2 ^ 4096` is more than half of `n`. -/
theorem lt_two_pow_ilog2 (n : Nat) (hn : n < 2 ^ 4096) : n < 2 ^ (ilog2 n + 1) := by
  have h := ilog2_search_upper n [2048, 1024, 512, 256, 128, 64, 32, 16, 8, 4, 2, 1] 4096
    (n, 0) (by simp) hn (by simp)
  have hq : n / 2 ^ ilog2 n < 2 ^ 1 := by
    have h2 := h.2
    rw [h.1] at h2
    exact h2
  rw [Nat.div_lt_iff_lt_mul (Nat.pow_pos (by norm_num))] at hq
  rw [pow_succ, mul_comm]
  exact hq

/-- The exponent `e` of the spacing that `dbl_round_mag` uses for a quotient
`t = N / D < 2 ^ 4096` leaves a significand `t / 2 ^ e` below `2 ^ 53`, and of at least
`2 ^ 52` from the first normal binade on. -/
theorem significand_range (t : Nat) (ht : t < 2 ^ 4096) :
    t / 2 ^ (ilog2 t - 52) < 2 ^ 53 ∧ (2 ^ 52 ≤ t → 2 ^ 52 ≤ t / 2 ^ (ilog2 t - 52)) := by
  have hup := lt_two_pow_ilog2 t ht
  constructor
  · rw [Nat.div_lt_iff_lt_mul (Nat.pow_pos (by norm_num)), ← pow_add]
    exact lt_of_lt_of_le hup (Nat.pow_le_pow_right (by norm_num) (by omega))
  · intro h52
    have hlo := two_pow_ilog2_le t (le_trans (Nat.one_le_two_pow) h52)
    have hl : 52 ≤ ilog2 t := by
      by_contra hc
      have : 2 ^ (ilog2 t + 1) ≤ 2 ^ 52 := Nat.pow_le_pow_right (by norm_num) (by omega)
      omega
    rw [Nat.le_div_iff_mul_le (Nat.pow_pos (by norm_num)), ← pow_add]
    have he : 52 + (ilog2 t - 52) = ilog2 t := by omega
    rw [he]
    exact hlo

/-- The rounding `dbl_round_mag` is rounding to nearest with ties to even on 53 binary
digits: for a quotient `N / D < 2 ^ 4096` with spacing exponent `e`, the result is
`m * 2 ^ e` with a significand `m ≤ 2 ^ 53` (at least `2 ^ 52` from the first normal binade
on); it differs from `N / D` by at most half a spacing; and when it differs by exactly
half a spacing `m` is even. -/
theorem dbl_round_mag_nearest_even (N D : Nat) (hD : 0 < D) (ht : N / D < 2 ^ 4096) :
    ∃ m : Nat, dbl_round_mag N D = m * 2 ^ (ilog2 (N / D) - 52) ∧
      m ≤ 2 ^ 53 ∧ (2 ^ 52 ≤ N / D → 2 ^ 52 ≤ m) ∧
      2 * (dbl_round_mag N D * D) ≤ 2 * N + D * 2 ^ (ilog2 (N / D) - 52) ∧
      2 * N ≤ 2 * (dbl_round_mag N D * D) + D * 2 ^ (ilog2 (N / D) - 52) ∧
      ((2 * (dbl_round_mag N D * D) = 2 * N + D * 2 ^ (ilog2 (N / D) - 52) ∨
        2 * N = 2 * (dbl_round_mag N D * D) + D * 2 ^ (ilog2 (N / D) - 52)) → m % 2 = 0) := by
  obtain ⟨hq53, hq52⟩ := significand_range (N / D) ht
  rw [Nat.div_div_eq_div_mul] at hq53 hq52
  unfold dbl_round_mag
  simp only []
  generalize ilog2 (N / D) - 52 = e at hq53 hq52 ⊢
  have hD2pos : 0 < D * 2 ^ e := Nat.mul_pos hD (Nat.pow_pos (by norm_num))
  have hdm := Nat.div_add_mod N (D * 2 ^ e)
  have hr := Nat.mod_lt N hD2pos
  generalize N / (D * 2 ^ e) = q at hdm hq53 hq52 ⊢
  generalize N % (D * 2 ^ e) = r at hdm hr ⊢
  have hD2 : ∀ m : Nat, m * 2 ^ e * D = m * (D * 2 ^ e) := fun m => by ring
  simp only [hD2]
  generalize D * 2 ^ e = D2 at hdm hr hD2pos ⊢
  generalize N / D = t at hq52
  have hmul : (q + 1) * D2 = q * D2 + D2 := by ring
  have hcomm : D2 * q = q * D2 := mul_comm _ _
  split_ifs with hc
  · refine ⟨q + 1, rfl, by omega, fun h => by have := hq52 h; omega, ?_, ?_, ?_⟩
    · rw [hmul]
      rcases hc with h | h <;> omega
    · rw [hmul]; omega
    · rw [hmul]
      rintro (h | h)
      · rcases hc with h' | h'
        · omega
        · omega
      · omega
  · refine ⟨q, rfl, by omega, hq52, ?_, ?_, ?_⟩
    · omega
    · have : 2 * r ≤ D2 := by
        by_contra hlt
        exact hc (Or.inl (by omega))
      omega
    · rintro (h | h)
      · omega
      · have h2 : 2 * r = D2 := by omega
        by_contra hodd
        exact hc (Or.inr ⟨h2, by omega⟩)

/-- Rounding at most doubles a magnitude. -/
theorem dbl_round_mag_le (N D : Nat) : dbl_round_mag N D * D ≤ 2 * N := by
  unfold dbl_round_mag
  simp only []
  generalize ilog2 (N / D) - 52 = e
  have hdm := Nat.div_add_mod N (D * 2 ^ e)
  generalize N / (D * 2 ^ e) = q at hdm ⊢
  generalize N % (D * 2 ^ e) = r at hdm ⊢
  have hD2 : ∀ m : Nat, m * 2 ^ e * D = m * (D * 2 ^ e) := fun m => by ring
  rw [hD2]
  generalize D * 2 ^ e = D2 at hdm ⊢
  split_ifs with hc
  · have : D2 ≤ 2 * r := by rcases hc with h | h <;> omega
    nlinarith
  · nlinarith

/-- Rounding keeps at least two thirds of a magnitude of one and a half units or more. -/
theorem dbl_round_mag_ge (N D : Nat) (hD : 0 < D) (h : 3 * D ≤ 2 * N) :
    2 * N ≤ 3 * (dbl_round_mag N D * D) := by
  have ht : 1 ≤ N / D := (Nat.one_le_div_iff hD).mpr (by omega)
  have he : 2 ^ (ilog2 (N / D) - 52) ≤ N / D :=
    le_trans (Nat.pow_le_pow_right (by norm_num) (Nat.sub_le _ _)) (two_pow_ilog2_le _ ht)
  unfold dbl_round_mag
  simp only []
  generalize ilog2 (N / D) - 52 = e at he ⊢
  have hD2pos : 0 < D * 2 ^ e := Nat.mul_pos hD (Nat.pow_pos (by norm_num))
  have hle : D * 2 ^ e ≤ N :=
    le_trans (Nat.mul_le_mul_left D he) (Nat.mul_div_le N D)
  have hq : 1 ≤ N / (D * 2 ^ e) := (Nat.one_le_div_iff hD2pos).mpr hle
  have hdm := Nat.div_add_mod N (D * 2 ^ e)
  have hr := Nat.mod_lt N hD2pos
  generalize N / (D * 2 ^ e) = q at hdm hq ⊢
  generalize N % (D * 2 ^ e) = r at hdm hr ⊢
  have hD2 : ∀ m : Nat, m * 2 ^ e * D = m * (D * 2 ^ e) := fun m => by ring
  rw [hD2]
  generalize D * 2 ^ e = D2 at hdm hr ⊢
  split_ifs with hc
  · nlinarith
  · have : 2 * r ≤ D2 := by
      by_contra hlt
      exact hc (Or.inl (by omega))
    nlinarith

set_option exponentiation.threshold 5000 in
set_option maxRecDepth 20000 in
/-- The literals `0.5` and `1.5` are the `double`s `2 ^ 1073` and `3 * 2 ^ 1073` units. -/
theorem dbl_half_and_three_halves :
    dbl_of 5 10 = double.fin ((2 ^ 1073 : Nat) : Int) ∧
    dbl_of 15 10 = double.fin ((3 * 2 ^ 1073 : Nat) : Int) := by
  decide

/-- A rounded result that is finite is below `2 ^ 1024`. -/
theorem dbl_round_fin (neg : Bool) (N D : Nat) (k : Int) (h : dbl_round neg N D = double.fin k) :
    k.natAbs < 2 ^ 2098 := by
  unfold dbl_round at h
  simp only [] at h
  split_ifs at h with h1 h2
  · rw [double.fin.injEq] at h
    rw [← h, Int.natAbs_neg, Int.natAbs_ofNat]
    omega
  · rw [double.fin.injEq] at h
    rw [← h, Int.natAbs_ofNat]
    omega

/-- A finite difference is below `2 ^ 1024` in magnitude. -/
theorem dbl_sub_fin (a b : double) (k : Int) (h : dbl_sub a b = double.fin k) :
    k.natAbs < 2 ^ 2098 := by
  unfold dbl_sub at h
  cases a <;> cases b <;> simp only [dbl_neg, dbl_add] at h
  · exact dbl_round_fin _ _ _ _ h
  all_goals first
    | exact absurd h (by simp)
    | (split_ifs at h)

set_option exponentiation.threshold 5000 in
/-- Half of a positive finite `double`, rounded, is at most that `double`. -/
theorem dbl_half_le (k : Int) (hk : 0 < k) (hb : k.natAbs < 2 ^ 2098) :
    dbl_le (dbl_mul (dbl_of 5 10) (double.fin k)) (double.fin k) = true := by
  rw [dbl_half_and_three_halves.1]
  obtain ⟨n, rfl⟩ := Int.eq_ofNat_of_zero_le (le_of_lt hk)
  rw [Int.natAbs_ofNat] at hb
  have hU := dbl_round_mag_le (2 ^ 1073 * n) (2 ^ 1074)
  have hv : dbl_round_mag (2 ^ 1073 * n) (2 ^ 1074) ≤ n := by
    have h2 : 2 * (2 ^ 1073 * n) = n * 2 ^ 1074 := by
      rw [show (1074 : Nat) = 1073 + 1 from rfl, pow_succ]
      ring
    rw [h2] at hU
    exact Nat.le_of_mul_le_mul_right hU (Nat.pow_pos (by norm_num))
  simp only [dbl_mul, Int.natAbs_ofNat, dbl_round]
  have hs1 : decide (((2 ^ 1073 : Nat) : Int) < 0) = false := by
    rw [decide_eq_false_iff_not]; exact not_lt.mpr (Int.ofNat_nonneg _)
  have hs2 : decide ((n : Int) < 0) = false := by
    rw [decide_eq_false_iff_not]; exact not_lt.mpr (Int.ofNat_nonneg _)
  rw [hs1, hs2]
  rw [if_neg (by omega)]
  simp only [bne_self_eq_false, Bool.false_eq_true, if_false, dbl_le, decide_eq_true_eq]
  exact_mod_cast hv

set_option exponentiation.threshold 5000 in
/-- One and a half times a positive finite `double`, rounded, is at least that `double`. -/
theorem dbl_three_halves_ge (k : Int) (hk : 0 < k) :
    dbl_le (double.fin k) (dbl_mul (dbl_of 15 10) (double.fin k)) = true := by
  rw [dbl_half_and_three_halves.2]
  obtain ⟨n, rfl⟩ := Int.eq_ofNat_of_zero_le (le_of_lt hk)
  have hn : 1 ≤ n := by exact_mod_cast hk
  have hP : 0 < (2 : Nat) ^ 1074 := Nat.pow_pos (by norm_num)
  have h2 : 2 * (3 * 2 ^ 1073 * n) = 3 * (n * 2 ^ 1074) := by
    rw [show (1074 : Nat) = 1073 + 1 from rfl, pow_succ]
    ring
  have hL := dbl_round_mag_ge (3 * 2 ^ 1073 * n) (2 ^ 1074) hP (by
    rw [h2]
    exact Nat.mul_le_mul_left 3 (Nat.le_mul_of_pos_left _ hn))
  rw [h2] at hL
  have hv : n ≤ dbl_round_mag (3 * 2 ^ 1073 * n) (2 ^ 1074) :=
    Nat.le_of_mul_le_mul_right (Nat.le_of_mul_le_mul_left hL (by norm_num)) hP
  simp only [dbl_mul, Int.natAbs_ofNat, dbl_round]
  have hs1 : decide (((3 * 2 ^ 1073 : Nat) : Int) < 0) = false := by
    rw [decide_eq_false_iff_not]; exact not_lt.mpr (Int.ofNat_nonneg _)
  have hs2 : decide ((n : Int) < 0) = false := by
    rw [decide_eq_false_iff_not]; exact not_lt.mpr (Int.ofNat_nonneg _)
  rw [hs1, hs2]
  simp only [bne_self_eq_false, Bool.false_eq_true, if_false]
  split_ifs
  · simp only [dbl_le, Bool.not_false]
  · simp only [dbl_le, decide_eq_true_eq]
    exact_mod_cast hv

/-- The smaller of two `double`s is not NaN when the first is not. -/
theorem std_min_ne_nan (a b : double) (ha : a ≠ double.nan) :
    Dbl.std_min a b ≠ double.nan := by
  unfold Dbl.std_min
  split_ifs with h
  · intro hb
    rw [hb] at h
    cases a <;> simp [dbl_lt] at h
  · exact ha

set_option exponentiation.threshold 5000 in
/-- Half of a positive `double`, rounded, is at most that `double`. -/
theorem dbl_half_le_self (r : double) (hpos : dbl_lt (double.fin 0) r = true)
    (hfin : ∀ k, r = double.fin k → k.natAbs < 2 ^ 2098) :
    dbl_le (dbl_mul (dbl_of 5 10) r) r = true := by
  cases r with
  | fin k =>
    simp only [dbl_lt, decide_eq_true_eq] at hpos
    exact dbl_half_le k hpos (hfin k rfl)
  | inf n =>
    simp only [dbl_lt, Bool.not_eq_true'] at hpos
    subst hpos
    rw [dbl_half_and_three_halves.1]
    have hne : ((2 ^ 1073 : Nat) : Int) ≠ 0 :=
      Int.natCast_ne_zero.mpr (pow_ne_zero _ (by norm_num))
    have hs : decide (((2 ^ 1073 : Nat) : Int) < 0) = false := by
      rw [decide_eq_false_iff_not]; exact not_lt.mpr (Int.ofNat_nonneg _)
    simp only [dbl_mul, if_neg hne, hs, bne_self_eq_false, dbl_le, Bool.not_false,
      Bool.or_true]
  | nan => simp [dbl_lt] at hpos

set_option exponentiation.threshold 5000 in
/-- In double precision: whenever `remaining = total_time_ - current_time_ > 0`, the step
length that `provideTimeStepEstimate` sets for an estimate other than NaN is at most
`remaining`. -/
theorem step_le_remaining_double (t : Dbl.AdaptiveSimulatorTimer) (est : double)
    (hest : est ≠ double.nan)
    (hrem : dbl_lt (double.fin 0) (dbl_sub t.total_time_ t.current_time_) = true) :
    dbl_le (t.provideTimeStepEstimate est).dt_ (dbl_sub t.total_time_ t.current_time_)
      = true := by
  have hd := std_min_ne_nan est t.max_time_step_ hest
  have hhalf := dbl_half_le_self _ hrem (dbl_sub_fin t.total_time_ t.current_time_)
  unfold Dbl.AdaptiveSimulatorTimer.provideTimeStepEstimate
  simp only []
  rw [if_pos hrem]
  generalize dbl_sub t.total_time_ t.current_time_ = r at hrem hhalf ⊢
  generalize Dbl.std_min est t.max_time_step_ = d at hd ⊢
  have hself : dbl_le r r = true := by
    cases r with
    | fin k => simp [dbl_le]
    | inf n => cases n <;> simp [dbl_le]
    | nan => simp [dbl_lt] at hrem
  split_ifs with h1 h2 h3
  · exact hhalf
  · exact hself
  · exact hhalf
  · show dbl_le d r = true
    cases d with
    | nan => exact absurd rfl hd
    | inf n =>
      cases r with
      | fin k =>
        cases n with
        | true => simp [dbl_le]
        | false =>
          exfalso
          apply h3
          rw [dbl_half_and_three_halves.2]
          have hne : ((3 * 2 ^ 1073 : Nat) : Int) ≠ 0 :=
            Int.natCast_ne_zero.mpr
              (Nat.mul_ne_zero (by norm_num) (pow_ne_zero _ (by norm_num)))
          have hs : decide (((3 * 2 ^ 1073 : Nat) : Int) < 0) = false := by
            rw [decide_eq_false_iff_not]; exact not_lt.mpr (Int.ofNat_nonneg _)
          simp only [dbl_mul, if_neg hne, hs, bne_self_eq_false, dbl_lt, Bool.not_false]
      | inf m =>
        simp only [dbl_lt, Bool.not_eq_true'] at hrem
        subst hrem
        cases n <;> simp [dbl_le]
      | nan => simp [dbl_lt] at hrem
    | fin kd =>
      cases r with
      | inf m =>
        simp only [dbl_lt, Bool.not_eq_true'] at hrem
        subst hrem
        simp [dbl_le]
      | nan => simp [dbl_lt] at hrem
      | fin k =>
        simp only [dbl_lt, decide_eq_true_eq] at hrem
        simp only [dbl_le, decide_eq_true_eq]
        by_cases hk : kd ≤ 0
        · omega
        · have hX := dbl_three_halves_ge kd (by omega)
          generalize dbl_mul (dbl_of 15 10) (double.fin kd) = X at hX h3
          cases X with
          | fin v =>
            simp only [dbl_le, dbl_lt, decide_eq_true_eq] at hX h3
            omega
          | inf n =>
            cases n with
            | true => simp [dbl_le] at hX
            | false => simp [dbl_lt] at h3
          | nan => simp [dbl_le] at hX

/-- C37 (amended): whenever `remaining = total_time_ - current_time_ > 0`, the step length
that `provideTimeStepEstimate` sets is at most `remaining`, for every estimate and every
maximum step: in double precision (timer `td`, an estimate other than NaN) and in exact
arithmetic (timer `t` over the rationals); and in exact arithmetic it follows that after
the following `operator++`, `simulationTimeElapsed() ≤ totalTime()`. -/
theorem C37_never_past_horizon (td : Dbl.AdaptiveSimulatorTimer) (estd : double)
    (hestd : estd ≠ double.nan)
    (hremd : dbl_lt (double.fin 0) (dbl_sub td.total_time_ td.current_time_) = true)
    (t : AdaptiveSimulatorTimer) (est : ℚ) (hrem : t.total_time_ - t.current_time_ > 0) :
    dbl_le (td.provideTimeStepEstimate estd).dt_ (dbl_sub td.total_time_ td.current_time_)
      = true ∧
    (t.provideTimeStepEstimate est).dt_ ≤ t.total_time_ - t.current_time_ ∧
    (t.provideTimeStepEstimate est).increment.simulationTimeElapsed
      ≤ (t.provideTimeStepEstimate est).increment.totalTime := by
  have hdt : (t.provideTimeStepEstimate est).dt_ ≤ t.total_time_ - t.current_time_ := by
    rw [provide_dt, if_pos hrem]
    split_ifs with h1 h2 h3
    · linarith
    · exact le_rfl
    · linarith
    · have : 3 / 2 * min est t.max_time_step_ ≤ t.total_time_ - t.current_time_ :=
        not_lt.mp h3
      linarith
  refine ⟨step_le_remaining_double td estd hestd hremd, hdt, ?_⟩
  have h := remaining_after_step t est
  unfold AdaptiveSimulatorTimer.simulationTimeElapsed AdaptiveSimulatorTimer.totalTime
  linarith

set_option exponentiation.threshold 5000 in
set_option maxRecDepth 20000 in
/-- The statement of `C37_never_past_horizon` at a sample input: in double precision the
horizon `0.9` at time `0.3` with maximum step `1` and estimate `1`; in exact arithmetic
three time units remaining, the maximum step `4` and the estimate `100`. -/
theorem C37_never_past_horizon_witness :
    dbl_le
        ((Dbl.timer (dbl_of 9 10) (dbl_of 3 10) (dbl_of 1 1)).provideTimeStepEstimate
          (dbl_of 1 1)).dt_
        (dbl_sub (Dbl.timer (dbl_of 9 10) (dbl_of 3 10) (dbl_of 1 1)).total_time_
          (Dbl.timer (dbl_of 9 10) (dbl_of 3 10) (dbl_of 1 1)).current_time_) = true ∧
    (timer10_late.provideTimeStepEstimate 100).dt_
      ≤ timer10_late.total_time_ - timer10_late.current_time_ ∧
    (timer10_late.provideTimeStepEstimate 100).increment.simulationTimeElapsed
      ≤ (timer10_late.provideTimeStepEstimate 100).increment.totalTime :=
  C37_never_past_horizon (Dbl.timer (dbl_of 9 10) (dbl_of 3 10) (dbl_of 1 1)) (dbl_of 1 1)
    (by decide) (by decide) timer10_late 100 (by norm_num [timer10_late])

/-! ## Order and rounding in double precision

Rounding to nearest is monotone, so the products of the timer by its literals keep the
order of their operands; with the comparisons read as comparisons of positions
(`double.rank`), the step length of `provideTimeStepEstimate` is compared for two
estimates in double precision, test by test as the code takes them. -/

set_option exponentiation.threshold 5000 in
set_option maxRecDepth 20000 in
/-- The search `ilog2` returns `0` for `0`. -/
theorem ilog2_zero : ilog2 0 = 0 := by decide

/-- The search `ilog2` is monotone below `2 ^ 4096`. -/
theorem ilog2_mono (a b : Nat) (hab : a ≤ b) (hb : b < 2 ^ 4096) : ilog2 a ≤ ilog2 b := by
  rcases Nat.eq_zero_or_pos a with h0 | hpos
  · rw [h0, ilog2_zero]
    exact Nat.zero_le _
  · have h1 := two_pow_ilog2_le a hpos
    have h2 := lt_two_pow_ilog2 b hb
    have h3 : 2 ^ ilog2 a < 2 ^ (ilog2 b + 1) := lt_of_le_of_lt (le_trans h1 hab) h2
    have h4 := (Nat.pow_lt_pow_iff_right (by norm_num : 1 < 2)).mp h3
    omega

/-- Rounding with one spacing exponent `e` is monotone in the numerator. -/
theorem round_same_exponent (N1 N2 D2 : Nat) (hD : 0 < D2) (h : N1 ≤ N2) :
    (if 2 * (N1 % D2) > D2 ∨ (2 * (N1 % D2) = D2 ∧ N1 / D2 % 2 = 1) then N1 / D2 + 1
      else N1 / D2)
    ≤ (if 2 * (N2 % D2) > D2 ∨ (2 * (N2 % D2) = D2 ∧ N2 / D2 % 2 = 1) then N2 / D2 + 1
      else N2 / D2) := by
  have hq : N1 / D2 ≤ N2 / D2 := Nat.div_le_div_right h
  have h1 := Nat.div_add_mod N1 D2
  have h2 := Nat.div_add_mod N2 D2
  have hr1 := Nat.mod_lt N1 hD
  have hr2 := Nat.mod_lt N2 hD
  generalize N1 / D2 = q1 at hq h1 ⊢
  generalize N2 / D2 = q2 at hq h2 ⊢
  generalize N1 % D2 = r1 at h1 hr1 ⊢
  generalize N2 % D2 = r2 at h2 hr2 ⊢
  rcases Nat.lt_or_ge q1 q2 with hlt | hge
  · split_ifs <;> omega
  · have heq : q1 = q2 := le_antisymm hq hge
    subst heq
    split_ifs with c1 c2 c2
    · omega
    · exfalso
      apply c2
      rcases c1 with c | c
      · left; omega
      · rcases Nat.lt_or_ge r1 r2 with hl | hg
        · left; omega
        · right; exact ⟨by omega, c.2⟩
    · omega
    · omega

/-- The rounding `dbl_round_mag` is monotone in the numerator. -/
theorem dbl_round_mag_mono (N1 N2 D : Nat) (hD : 0 < D) (h : N1 ≤ N2)
    (ht : N2 / D < 2 ^ 4096) : dbl_round_mag N1 D ≤ dbl_round_mag N2 D := by
  have hdiv : N1 / D ≤ N2 / D := Nat.div_le_div_right h
  have he := ilog2_mono _ _ hdiv ht
  rcases Nat.lt_or_ge (ilog2 (N1 / D) - 52) (ilog2 (N2 / D) - 52) with hlt | hge
  · obtain ⟨m1, hm1, hb1, -⟩ :=
      dbl_round_mag_nearest_even N1 D hD (lt_of_le_of_lt hdiv ht)
    obtain ⟨m2, hm2, -, hb2, -⟩ := dbl_round_mag_nearest_even N2 D hD ht
    have h52 : 2 ^ 52 ≤ N2 / D := by
      have hl : 52 ≤ ilog2 (N2 / D) := by omega
      have hpos : 1 ≤ N2 / D := by
        by_contra hc
        have hz : N2 / D = 0 := Nat.lt_one_iff.mp (not_le.mp hc)
        rw [hz, ilog2_zero] at hl
        omega
      exact le_trans (Nat.pow_le_pow_right (by norm_num) hl) (two_pow_ilog2_le _ hpos)
    have hm2' := hb2 h52
    rw [hm1, hm2]
    calc m1 * 2 ^ (ilog2 (N1 / D) - 52)
        ≤ 2 ^ 53 * 2 ^ (ilog2 (N1 / D) - 52) := Nat.mul_le_mul_right _ hb1
      _ = 2 ^ 52 * 2 ^ (ilog2 (N1 / D) - 52 + 1) := by rw [pow_succ]; ring
      _ ≤ 2 ^ 52 * 2 ^ (ilog2 (N2 / D) - 52) :=
          Nat.mul_le_mul_left _ (Nat.pow_le_pow_right (by norm_num) hlt)
      _ ≤ m2 * 2 ^ (ilog2 (N2 / D) - 52) := Nat.mul_le_mul_right _ hm2'
  · have heq : ilog2 (N1 / D) - 52 = ilog2 (N2 / D) - 52 := by omega
    unfold dbl_round_mag
    simp only []
    rw [heq]
    exact Nat.mul_le_mul_right _
      (round_same_exponent N1 N2 _ (Nat.mul_pos hD (Nat.pow_pos (by norm_num))) h)

/-- A finite `double` is ordered when its magnitude is below `2 ^ 1024`. -/
theorem ordered_fin (k : Int) : (double.fin k).ordered ↔ k.natAbs < 2 ^ 2098 := by
  unfold double.ordered double.units
  exact ⟨fun h => h.2, fun h => ⟨by simp, h⟩⟩

set_option exponentiation.threshold 5000 in
/-- The infinities are ordered. -/
theorem ordered_inf (n : Bool) : (double.inf n).ordered := by
  unfold double.ordered double.units
  exact ⟨by simp, Nat.pow_pos (by norm_num)⟩

/-- NaN is not ordered. -/
theorem not_ordered_nan : ¬ double.nan.ordered := fun h => h.1 rfl

/-- The position of a finite `double`. -/
theorem rank_fin (k : Int) : (double.fin k).rank = k := rfl

/-- The position of the positive infinity. -/
theorem rank_pinf : (double.inf false).rank = ((2 ^ 2098 : Nat) : Int) := rfl

/-- The position of the negative infinity. -/
theorem rank_ninf : (double.inf true).rank = -((2 ^ 2098 : Nat) : Int) := rfl

/-- The position of an ordered `double` lies between those of the two infinities. -/
theorem rank_bounds (x : double) (hx : x.ordered) :
    -((2 ^ 2098 : Nat) : Int) ≤ x.rank ∧ x.rank ≤ ((2 ^ 2098 : Nat) : Int) := by
  cases x with
  | fin k =>
    rw [ordered_fin] at hx
    simp only [double.rank]
    omega
  | inf n => cases n <;> simp only [double.rank] <;> omega
  | nan => exact absurd hx not_ordered_nan

/-- On ordered `double`s the comparison `<=` is the comparison of positions. -/
theorem dbl_le_iff_rank (x y : double) (hx : x.ordered) (hy : y.ordered) :
    dbl_le x y = true ↔ x.rank ≤ y.rank := by
  cases x with
  | nan => exact absurd hx not_ordered_nan
  | fin a =>
    cases y with
    | nan => exact absurd hy not_ordered_nan
    | fin b => simp only [dbl_le, double.rank, decide_eq_true_eq]
    | inf m =>
      rw [ordered_fin] at hx
      cases m <;> simp only [dbl_le, double.rank, Bool.not_false, Bool.not_true,
        Bool.false_eq_true, true_iff, false_iff] <;> omega
  | inf n =>
    cases y with
    | nan => exact absurd hy not_ordered_nan
    | fin b =>
      rw [ordered_fin] at hy
      cases n <;> simp only [dbl_le, double.rank, Bool.false_eq_true, true_iff, false_iff]
        <;> omega
    | inf m =>
      cases n <;> cases m <;> simp only [dbl_le, double.rank, Bool.not_false, Bool.not_true,
        Bool.or_false, Bool.or_true, Bool.false_eq_true, true_iff, false_iff] <;> omega

/-- On ordered `double`s the comparison `<` is the strict comparison of positions. -/
theorem dbl_lt_iff_rank (x y : double) (hx : x.ordered) (hy : y.ordered) :
    dbl_lt x y = true ↔ x.rank < y.rank := by
  cases x with
  | nan => exact absurd hx not_ordered_nan
  | fin a =>
    cases y with
    | nan => exact absurd hy not_ordered_nan
    | fin b => simp only [dbl_lt, double.rank, decide_eq_true_eq]
    | inf m =>
      rw [ordered_fin] at hx
      cases m <;> simp only [dbl_lt, double.rank, Bool.not_false, Bool.not_true,
        Bool.false_eq_true, true_iff, false_iff] <;> omega
  | inf n =>
    cases y with
    | nan => exact absurd hy not_ordered_nan
    | fin b =>
      rw [ordered_fin] at hy
      cases n <;> simp only [dbl_lt, double.rank, Bool.false_eq_true, true_iff, false_iff]
        <;> omega
    | inf m =>
      cases n <;> cases m <;> simp only [dbl_lt, double.rank, Bool.not_false, Bool.not_true,
        Bool.and_false, Bool.and_true, Bool.false_eq_true, true_iff, false_iff] <;> omega

set_option exponentiation.threshold 5000 in
/-- A rounded result is ordered, and its position is the rounded magnitude, capped at the
position of the infinity, with the sign. -/
theorem dbl_round_rank (neg : Bool) (N D : Nat) :
    (dbl_round neg N D).ordered ∧
    ∃ v : Nat, v = min (dbl_round_mag N D) (2 ^ 2098) ∧
      (dbl_round neg N D).rank = if neg then -(v : Int) else (v : Int) := by
  unfold dbl_round
  simp only []
  generalize dbl_round_mag N D = v
  by_cases hv : v ≥ 2 ^ 2098
  · rw [if_pos hv, Nat.min_eq_right hv]
    refine ⟨ordered_inf _, 2 ^ 2098, rfl, ?_⟩
    cases neg <;> simp [double.rank]
  · rw [if_neg hv, Nat.min_eq_left (by omega)]
    cases neg
    · simp only [Bool.false_eq_true, if_false, ordered_fin, double.rank, Int.natAbs_ofNat]
      exact ⟨by omega, v, rfl, rfl⟩
    · simp only [if_true, ordered_fin, double.rank, Int.natAbs_neg, Int.natAbs_ofNat]
      exact ⟨by omega, v, rfl, rfl⟩

/-- The product of a positive finite constant and a finite `double`: it is ordered, and its
position is the rounded product of the magnitudes, capped, with the sign of the second
factor. -/
theorem mul_const_fin (kc k : Int) (hc : 0 < kc) :
    (dbl_mul (double.fin kc) (double.fin k)).ordered ∧
    ∃ v : Nat, v = min (dbl_round_mag (kc.natAbs * k.natAbs) (2 ^ 1074)) (2 ^ 2098) ∧
      (dbl_mul (double.fin kc) (double.fin k)).rank = if k < 0 then -(v : Int) else (v : Int) := by
  have hs : decide (kc < 0) = false := by
    rw [decide_eq_false_iff_not]; omega
  have e : dbl_mul (double.fin kc) (double.fin k)
      = dbl_round (decide (k < 0)) (kc.natAbs * k.natAbs) (2 ^ 1074) := by
    simp only [dbl_mul, hs, Bool.false_bne]
  rw [e]
  obtain ⟨h1, v, hv, hr⟩ := dbl_round_rank (decide (k < 0)) (kc.natAbs * k.natAbs) (2 ^ 1074)
  refine ⟨h1, v, hv, ?_⟩
  rw [hr]
  by_cases hk : k < 0
  · rw [if_pos hk, decide_eq_true hk, if_pos rfl]
  · rw [if_neg hk, decide_eq_false hk, if_neg Bool.false_ne_true]

/-- The product of a positive finite constant and an infinity is that infinity. -/
theorem mul_const_inf (kc : Int) (hc : 0 < kc) (n : Bool) :
    dbl_mul (double.fin kc) (double.inf n) = double.inf n := by
  have hs : decide (kc < 0) = false := by
    rw [decide_eq_false_iff_not]; omega
  simp only [dbl_mul, if_neg (ne_of_gt hc), hs, Bool.false_bne]

set_option exponentiation.threshold 5200 in
/-- The capped rounded product with a constant of the format is monotone in the magnitude
of the other factor. -/
theorem capped_product_mono (c j1 j2 : Nat) (hc : c < 2 ^ 2098) (h : j1 ≤ j2)
    (h2 : j2 < 2 ^ 2098) :
    min (dbl_round_mag (c * j1) (2 ^ 1074)) (2 ^ 2098)
      ≤ min (dbl_round_mag (c * j2) (2 ^ 1074)) (2 ^ 2098) := by
  have hP : 0 < (2 : Nat) ^ 1074 := Nat.pow_pos (by norm_num)
  have hprod : c * j2 < 2 ^ 1074 * 2 ^ 4096 := by
    calc c * j2 ≤ 2 ^ 2098 * j2 := Nat.mul_le_mul_right _ (le_of_lt hc)
      _ < 2 ^ 2098 * 2 ^ 2098 := Nat.mul_lt_mul_of_pos_left h2 (Nat.pow_pos (by norm_num))
      _ ≤ 2 ^ 1074 * 2 ^ 4096 := by
          rw [← pow_add, ← pow_add]
          exact Nat.pow_le_pow_right (by norm_num) (by norm_num)
  have hm := dbl_round_mag_mono (c * j1) (c * j2) (2 ^ 1074) hP (Nat.mul_le_mul_left _ h)
    (Nat.div_lt_of_lt_mul hprod)
  exact min_le_min hm le_rfl

/-- Multiplication by a positive finite constant keeps the order of ordered `double`s. -/
theorem dbl_mul_mono (kc : Int) (hc : 0 < kc) (hcB : kc.natAbs < 2 ^ 2098) (x y : double)
    (hx : x.ordered) (hy : y.ordered) (hxy : x.rank ≤ y.rank) :
    (dbl_mul (double.fin kc) x).ordered ∧ (dbl_mul (double.fin kc) y).ordered ∧
    (dbl_mul (double.fin kc) x).rank ≤ (dbl_mul (double.fin kc) y).rank := by
  have hord : ∀ z : double, z.ordered → (dbl_mul (double.fin kc) z).ordered := by
    intro z hz
    cases z with
    | fin k => exact (mul_const_fin kc k hc).1
    | inf n => rw [mul_const_inf kc hc]; exact ordered_inf n
    | nan => exact absurd hz not_ordered_nan
  refine ⟨hord x hx, hord y hy, ?_⟩
  cases x with
  | nan => exact absurd hx not_ordered_nan
  | inf n =>
    cases n with
    | true =>
      rw [mul_const_inf kc hc, rank_ninf]
      exact (rank_bounds _ (hord y hy)).1
    | false =>
      cases y with
      | nan => exact absurd hy not_ordered_nan
      | inf m =>
        rw [mul_const_inf kc hc, mul_const_inf kc hc]
        exact hxy
      | fin b =>
        rw [ordered_fin] at hy
        rw [rank_pinf, rank_fin] at hxy
        omega
  | fin a =>
    cases y with
    | nan => exact absurd hy not_ordered_nan
    | inf m =>
      cases m with
      | false =>
        rw [mul_const_inf kc hc, rank_pinf]
        exact (rank_bounds _ (hord _ hx)).2
      | true =>
        rw [ordered_fin] at hx
        rw [rank_fin, rank_ninf] at hxy
        omega
    | fin b =>
      rw [ordered_fin] at hx hy
      rw [rank_fin, rank_fin] at hxy
      have ha' := (mul_const_fin kc a hc).2
      have hb' := (mul_const_fin kc b hc).2
      generalize dbl_mul (double.fin kc) (double.fin a) = A at ha' ⊢
      generalize dbl_mul (double.fin kc) (double.fin b) = B at hb' ⊢
      clear hord
      obtain ⟨va, hva, hra⟩ := ha'
      obtain ⟨vb, hvb, hrb⟩ := hb'
      rw [hra, hrb]
      by_cases ha : a < 0
      · by_cases hb : b < 0
        · rw [if_pos ha, if_pos hb]
          have hm := capped_product_mono kc.natAbs b.natAbs a.natAbs hcB (by omega) hx
          rw [← hva, ← hvb] at hm
          omega
        · rw [if_pos ha, if_neg hb]
          omega
      · have hb : ¬ b < 0 := by omega
        rw [if_neg ha, if_neg hb]
        have hm := capped_product_mono kc.natAbs a.natAbs b.natAbs hcB (by omega) hy
        rw [← hva, ← hvb] at hm
        omega

set_option exponentiation.threshold 5000 in
set_option maxRecDepth 20000 in
/-- The literal `1.05` is the `double` `4728779608739021 * 2 ^ (-52)`. -/
theorem dbl_literal_105 :
    dbl_of 105 100 = double.fin ((4728779608739021 * 2 ^ 1022 : Nat) : Int) ∧
    (4728779608739021 * 2 ^ 1022 : Nat) < 2 ^ 2098 ∧
    (2 ^ 1073 : Nat) < 2 ^ 2098 ∧ (3 * 2 ^ 1073 : Nat) < 2 ^ 2098 := by
  decide

set_option exponentiation.threshold 5000 in
/-- Multiplication by one of the literals `1.05`, `1.5`, `0.5` keeps the order of ordered
`double`s. -/
theorem literal_mul_mono (x y : double) (hx : x.ordered) (hy : y.ordered)
    (hxy : x.rank ≤ y.rank) :
    ((dbl_mul (dbl_of 105 100) x).ordered ∧ (dbl_mul (dbl_of 105 100) y).ordered ∧
      (dbl_mul (dbl_of 105 100) x).rank ≤ (dbl_mul (dbl_of 105 100) y).rank) ∧
    ((dbl_mul (dbl_of 15 10) x).ordered ∧ (dbl_mul (dbl_of 15 10) y).ordered ∧
      (dbl_mul (dbl_of 15 10) x).rank ≤ (dbl_mul (dbl_of 15 10) y).rank) ∧
    ((dbl_mul (dbl_of 5 10) x).ordered ∧ (dbl_mul (dbl_of 5 10) y).ordered ∧
      (dbl_mul (dbl_of 5 10) x).rank ≤ (dbl_mul (dbl_of 5 10) y).rank) := by
  obtain ⟨e105, b105, b05, b15⟩ := dbl_literal_105
  rw [e105, dbl_half_and_three_halves.1, dbl_half_and_three_halves.2]
  refine ⟨dbl_mul_mono _ ?_ ?_ x y hx hy hxy, dbl_mul_mono _ ?_ ?_ x y hx hy hxy,
    dbl_mul_mono _ ?_ ?_ x y hx hy hxy⟩
  · exact Int.natCast_pos.mpr (Nat.mul_pos (by norm_num) (Nat.pow_pos (by norm_num)))
  · rw [Int.natAbs_ofNat]; exact b105
  · exact Int.natCast_pos.mpr (Nat.mul_pos (by norm_num) (Nat.pow_pos (by norm_num)))
  · rw [Int.natAbs_ofNat]; exact b15
  · exact Int.natCast_pos.mpr (Nat.pow_pos (by norm_num))
  · rw [Int.natAbs_ofNat]; exact b05

/-- The smaller of two ordered `double`s is ordered and has the smaller position. -/
theorem std_min_rank (a m : double) (ha : a.ordered) (hm : m.ordered) :
    (Dbl.std_min a m).ordered ∧ (Dbl.std_min a m).rank = min a.rank m.rank := by
  unfold Dbl.std_min
  by_cases h : dbl_lt m a = true
  · rw [if_pos h]
    have := (dbl_lt_iff_rank m a hm ha).mp h
    exact ⟨hm, by omega⟩
  · rw [if_neg h]
    have : ¬ m.rank < a.rank := fun hlt => h ((dbl_lt_iff_rank m a hm ha).mpr hlt)
    exact ⟨ha, by omega⟩

set_option exponentiation.threshold 5000 in
/-- A positive `double` that is a difference is ordered, with a positive position. -/
theorem pos_difference_rank (a b : double) (h : dbl_lt (double.fin 0) (dbl_sub a b) = true) :
    (dbl_sub a b).ordered ∧ 0 < (dbl_sub a b).rank := by
  have hfin := dbl_sub_fin a b
  generalize dbl_sub a b = r at h hfin
  have hr : r.ordered := by
    cases r with
    | fin k => exact (ordered_fin k).mpr (hfin k rfl)
    | inf n => exact ordered_inf n
    | nan => simp [dbl_lt] at h
  have h0 : (double.fin 0).ordered := (ordered_fin 0).mpr (Nat.pow_pos (by norm_num))
  have := (dbl_lt_iff_rank _ _ h0 hr).mp h
  rw [rank_fin] at this
  exact ⟨hr, this⟩

/-- The step length that `provideTimeStepEstimate` sets, in double precision, by the
outcomes of its tests. -/
theorem provide_dt_double (t : Dbl.AdaptiveSimulatorTimer) (est : double) :
    (t.provideTimeStepEstimate est).dt_
      = if dbl_lt (double.fin 0) (dbl_sub t.total_time_ t.current_time_) = true then
          if dbl_lt (dbl_sub t.total_time_ t.current_time_)
              (dbl_mul (dbl_of 105 100) (Dbl.std_min est t.max_time_step_)) = true then
            if dbl_lt t.max_time_step_ (dbl_sub t.total_time_ t.current_time_) = true then
              dbl_mul (dbl_of 5 10) (dbl_sub t.total_time_ t.current_time_)
            else dbl_sub t.total_time_ t.current_time_
          else if dbl_lt (dbl_sub t.total_time_ t.current_time_)
              (dbl_mul (dbl_of 15 10) (Dbl.std_min est t.max_time_step_)) = true then
            dbl_mul (dbl_of 5 10) (dbl_sub t.total_time_ t.current_time_)
          else Dbl.std_min est t.max_time_step_
        else Dbl.std_min est t.max_time_step_ := by
  unfold Dbl.AdaptiveSimulatorTimer.provideTimeStepEstimate
  simp only []
  generalize dbl_sub t.total_time_ t.current_time_ = r
  generalize Dbl.std_min est t.max_time_step_ = d
  generalize dbl_mul (dbl_of 5 10) r = h
  generalize dbl_mul (dbl_of 105 100) d = p
  generalize dbl_mul (dbl_of 15 10) d = q
  split_ifs <;> rfl

/-- In double precision, for a fixed timer state with an ordered maximum step and two
ordered estimates `est1 <= est2`, with `r = total_time_ - current_time_` and
`d1 = min(est1, max_time_step_)`, every product and test taken as the code evaluates it:
if `r > 0` fails, or `d1 <= 0.5 * r`, or `1.5 * d1 > r`, the step for `est2` is not
smaller than the step for `est1`; and whenever `r > 0`, the step for `est2` is at least
the step for `est1` or at least `0.5 * r`. -/
theorem monotone_outside_halving_double (t : Dbl.AdaptiveSimulatorTimer) (est1 est2 : double)
    (h1 : est1.ordered) (h2 : est2.ordered) (hm : t.max_time_step_.ordered)
    (hle : dbl_le est1 est2 = true) :
    ((dbl_lt (double.fin 0) (dbl_sub t.total_time_ t.current_time_) = false ∨
        dbl_le (Dbl.std_min est1 t.max_time_step_)
          (dbl_mul (dbl_of 5 10) (dbl_sub t.total_time_ t.current_time_)) = true ∨
        dbl_lt (dbl_sub t.total_time_ t.current_time_)
          (dbl_mul (dbl_of 15 10) (Dbl.std_min est1 t.max_time_step_)) = true) →
      dbl_le (t.provideTimeStepEstimate est1).dt_ (t.provideTimeStepEstimate est2).dt_
        = true) ∧
    (dbl_lt (double.fin 0) (dbl_sub t.total_time_ t.current_time_) = true →
      dbl_le (t.provideTimeStepEstimate est1).dt_ (t.provideTimeStepEstimate est2).dt_
          = true ∨
        dbl_le (dbl_mul (dbl_of 5 10) (dbl_sub t.total_time_ t.current_time_))
          (t.provideTimeStepEstimate est2).dt_ = true) := by
  rw [provide_dt_double, provide_dt_double]
  obtain ⟨hd1, rd1⟩ := std_min_rank est1 t.max_time_step_ h1 hm
  obtain ⟨hd2, rd2⟩ := std_min_rank est2 t.max_time_step_ h2 hm
  have hr12 : est1.rank ≤ est2.rank := (dbl_le_iff_rank _ _ h1 h2).mp hle
  have hd : (Dbl.std_min est1 t.max_time_step_).rank
      ≤ (Dbl.std_min est2 t.max_time_step_).rank := by
    rw [rd1, rd2]
    exact min_le_min hr12 le_rfl
  clear rd1 rd2 hr12 hle
  generalize Dbl.std_min est1 t.max_time_step_ = d1 at hd1 hd ⊢
  generalize Dbl.std_min est2 t.max_time_step_ = d2 at hd2 hd ⊢
  obtain ⟨⟨hp1, hp2, hp⟩, ⟨hq1, hq2, hq⟩, -⟩ := literal_mul_mono d1 d2 hd1 hd2 hd
  generalize dbl_mul (dbl_of 105 100) d1 = p1 at hp1 hp ⊢
  generalize dbl_mul (dbl_of 105 100) d2 = p2 at hp2 hp ⊢
  generalize dbl_mul (dbl_of 15 10) d1 = q1 at hq1 hq ⊢
  generalize dbl_mul (dbl_of 15 10) d2 = q2 at hq2 hq ⊢
  by_cases hpos : dbl_lt (double.fin 0) (dbl_sub t.total_time_ t.current_time_) = true
  · obtain ⟨hr, hr0⟩ := pos_difference_rank _ _ hpos
    have hhalf := dbl_half_le_self _ hpos (dbl_sub_fin t.total_time_ t.current_time_)
    obtain ⟨-, -, hh, -, -⟩ := literal_mul_mono _ _ hr hr le_rfl
    rw [if_pos hpos, if_pos hpos]
    generalize dbl_sub t.total_time_ t.current_time_ = r at hr hr0 hhalf hh hpos ⊢
    rw [dbl_le_iff_rank _ _ hh hr] at hhalf
    generalize dbl_mul (dbl_of 5 10) r = h at hh hhalf ⊢
    generalize t.max_time_step_ = m at hm ⊢
    simp only [dbl_lt_iff_rank r p1 hr hp1, dbl_lt_iff_rank r p2 hr hp2,
      dbl_lt_iff_rank r q1 hr hq1, dbl_lt_iff_rank r q2 hr hq2, dbl_lt_iff_rank m r hm hr,
      dbl_le_iff_rank d1 h hd1 hh]
    constructor
    · intro hyp
      have hyp' : d1.rank ≤ h.rank ∨ r.rank < q1.rank := by
        rcases hyp with e | e | e
        · rw [hpos] at e
          exact absurd e (by simp)
        · exact Or.inl e
        · exact Or.inr e
      clear hyp
      split_ifs <;> refine (dbl_le_iff_rank _ _ ?_ ?_).mpr ?_ <;>
        first | assumption | omega
    · intro _
      split_ifs <;> first
        | (left; refine (dbl_le_iff_rank _ _ ?_ ?_).mpr ?_ <;> first | assumption | omega)
        | (right; refine (dbl_le_iff_rank _ _ ?_ ?_).mpr ?_ <;> first | assumption | omega)
  · rw [if_neg hpos, if_neg hpos]
    exact ⟨fun _ => (dbl_le_iff_rank _ _ hd1 hd2).mpr hd, fun h => absurd h hpos⟩

/-- A comparison `a <= b` that holds excludes `b < a`. -/
theorem dbl_le_not_lt (a b : double) (h : dbl_le a b = true) : dbl_lt b a = false := by
  cases a with
  | fin x =>
    cases b with
    | fin y =>
      simp only [dbl_le, decide_eq_true_eq] at h
      simp only [dbl_lt, decide_eq_false_iff_not]
      omega
    | inf m => cases m <;> simp_all [dbl_le, dbl_lt]
    | nan => simp [dbl_le] at h
  | inf n =>
    cases b with
    | fin y => cases n <;> simp_all [dbl_le, dbl_lt]
    | inf m => cases n <;> cases m <;> simp_all [dbl_le, dbl_lt]
    | nan => simp [dbl_le] at h
  | nan => simp [dbl_le] at h

set_option exponentiation.threshold 5000 in
set_option maxRecDepth 20000 in
/-- The literal `1.05` is a smaller `double` than the literal `1.5`. -/
theorem literal_105_le_15 : (4728779608739021 * 2 ^ 1022 : Nat) ≤ 3 * 2 ^ 1073 := by
  decide

set_option exponentiation.threshold 5000 in
/-- The rounded product `1.05 * d` is at most the rounded product `1.5 * d`, or at most
zero. -/
theorem literal_products_order (d : double) (hd : d.ordered) :
    (dbl_mul (dbl_of 105 100) d).rank ≤ max (dbl_mul (dbl_of 15 10) d).rank 0 := by
  obtain ⟨e105, b105, -, b15⟩ := dbl_literal_105
  rw [e105, dbl_half_and_three_halves.2]
  have p105 : (0 : Int) < ((4728779608739021 * 2 ^ 1022 : Nat) : Int) :=
    Int.natCast_pos.mpr (Nat.mul_pos (by norm_num) (Nat.pow_pos (by norm_num)))
  have p15 : (0 : Int) < ((3 * 2 ^ 1073 : Nat) : Int) :=
    Int.natCast_pos.mpr (Nat.mul_pos (by norm_num) (Nat.pow_pos (by norm_num)))
  cases d with
  | fin k =>
    obtain ⟨-, v1, hv1, r1⟩ := mul_const_fin _ k p105
    obtain ⟨-, v2, hv2, r2⟩ := mul_const_fin _ k p15
    rw [r1, r2]
    rw [Int.natAbs_ofNat, Nat.mul_comm] at hv1 hv2
    have hk := (ordered_fin k).mp hd
    have hle := capped_product_mono k.natAbs _ _ hk literal_105_le_15 b15
    rw [← hv1, ← hv2] at hle
    clear hv1 hv2 r1 r2 hk
    generalize ((4728779608739021 * 2 ^ 1022 : Nat) : Int) = c1 at *
    generalize ((3 * 2 ^ 1073 : Nat) : Int) = c2 at *
    split_ifs <;> omega
  | inf n =>
    rw [mul_const_inf _ p105, mul_const_inf _ p15]
    exact le_max_left _ _
  | nan => exact absurd hd not_ordered_nan

/-- In double precision, when `remaining = total_time_ - current_time_ > 0` and the rounded
product `1.05 * d` of the capped estimate `d = min(estimate, max_time_step_)` exceeds
`remaining`: the step is set to `remaining` if `remaining <= max_time_step_`, and to the
rounded `0.5 * remaining` if `remaining > max_time_step_`. -/
theorem clamp_to_remainder_double (t : Dbl.AdaptiveSimulatorTimer) (est : double)
    (hrem : dbl_lt (double.fin 0) (dbl_sub t.total_time_ t.current_time_) = true)
    (hover : dbl_lt (dbl_sub t.total_time_ t.current_time_)
      (dbl_mul (dbl_of 105 100) (Dbl.std_min est t.max_time_step_)) = true) :
    (dbl_le (dbl_sub t.total_time_ t.current_time_) t.max_time_step_ = true →
      (t.provideTimeStepEstimate est).dt_ = dbl_sub t.total_time_ t.current_time_) ∧
    (dbl_lt t.max_time_step_ (dbl_sub t.total_time_ t.current_time_) = true →
      (t.provideTimeStepEstimate est).dt_
        = dbl_mul (dbl_of 5 10) (dbl_sub t.total_time_ t.current_time_)) := by
  rw [provide_dt_double, if_pos hrem, if_pos hover]
  constructor
  · intro hle
    have hn := dbl_le_not_lt _ _ hle
    rw [if_neg (by rw [hn]; exact Bool.false_ne_true)]
  · intro hlt
    rw [if_pos hlt]

/-- In double precision, for an estimate and a maximum step other than NaN, with
`remaining = total_time_ - current_time_` and `d = min(estimate, max_time_step_)`, the
products rounded as the code evaluates them: when `remaining > 0` and
`1.05 * d <= remaining < 1.5 * d` the step is set to the rounded `0.5 * remaining`; when
`1.5 * d <= remaining`, or `remaining <= 0`, the step is `d`. -/
theorem half_of_remainder_double (t : Dbl.AdaptiveSimulatorTimer) (est : double)
    (he : est.ordered) (hm : t.max_time_step_.ordered) :
    (dbl_lt (double.fin 0) (dbl_sub t.total_time_ t.current_time_) = true →
      dbl_le (dbl_mul (dbl_of 105 100) (Dbl.std_min est t.max_time_step_))
        (dbl_sub t.total_time_ t.current_time_) = true →
      dbl_lt (dbl_sub t.total_time_ t.current_time_)
        (dbl_mul (dbl_of 15 10) (Dbl.std_min est t.max_time_step_)) = true →
      (t.provideTimeStepEstimate est).dt_
        = dbl_mul (dbl_of 5 10) (dbl_sub t.total_time_ t.current_time_)) ∧
    (dbl_le (dbl_mul (dbl_of 15 10) (Dbl.std_min est t.max_time_step_))
        (dbl_sub t.total_time_ t.current_time_) = true →
      (t.provideTimeStepEstimate est).dt_ = Dbl.std_min est t.max_time_step_) ∧
    (dbl_le (dbl_sub t.total_time_ t.current_time_) (double.fin 0) = true →
      (t.provideTimeStepEstimate est).dt_ = Dbl.std_min est t.max_time_step_) := by
  rw [provide_dt_double]
  obtain ⟨hd, -⟩ := std_min_rank est t.max_time_step_ he hm
  have hord := literal_products_order _ hd
  obtain ⟨⟨hp, -, -⟩, ⟨hq, -, -⟩, -⟩ := literal_mul_mono _ _ hd hd le_rfl
  generalize Dbl.std_min est t.max_time_step_ = d at hd hord hp hq ⊢
  generalize dbl_mul (dbl_of 105 100) d = p at hord hp ⊢
  generalize dbl_mul (dbl_of 15 10) d = q at hord hq ⊢
  refine ⟨fun h1 h2 h3 => ?_, fun h1 => ?_, fun h1 => ?_⟩
  · have hn := dbl_le_not_lt _ _ h2
    rw [if_pos h1, if_neg (by rw [hn]; exact Bool.false_ne_true), if_pos h3]
  · have hn := dbl_le_not_lt _ _ h1
    by_cases hpos : dbl_lt (double.fin 0) (dbl_sub t.total_time_ t.current_time_) = true
    · obtain ⟨hr, hr0⟩ := pos_difference_rank _ _ hpos
      generalize dbl_sub t.total_time_ t.current_time_ = r at hr hr0 h1 hn hpos ⊢
      have hqr := (dbl_le_iff_rank q r hq hr).mp h1
      have hnp : ¬ dbl_lt r p = true := by
        rw [dbl_lt_iff_rank r p hr hp]
        omega
      rw [if_pos hpos, if_neg hnp, if_neg (by rw [hn]; exact Bool.false_ne_true)]
    · rw [if_neg hpos]
  · have hn := dbl_le_not_lt _ _ h1
    rw [if_neg (by rw [hn]; exact Bool.false_ne_true)]

/-- C20 (amended): when `remaining = total_time_ - current_time_ > 0` and the capped
estimate `d = min(estimate, max_time_step_)` has `1.05 * d > remaining`,
`provideTimeStepEstimate` sets the step to `remaining` if `remaining <= max_time_step_`
and to `0.5 * remaining` otherwise: in double precision (timer `td`, with the difference,
the products and the tests rounded as the code evaluates them) and in exact arithmetic
(timer `t` over the rationals, `1.05` being `105/100`); and in exact arithmetic the
`operator++` that follows the step `remaining` makes `done()` true. -/
theorem C20_clamp_to_remainder (td : Dbl.AdaptiveSimulatorTimer) (estd : double)
    (hremd : dbl_lt (double.fin 0) (dbl_sub td.total_time_ td.current_time_) = true)
    (hoverd : dbl_lt (dbl_sub td.total_time_ td.current_time_)
      (dbl_mul (dbl_of 105 100) (Dbl.std_min estd td.max_time_step_)) = true)
    (t : AdaptiveSimulatorTimer) (est : ℚ)
    (hrem : t.total_time_ - t.current_time_ > 0)
    (hover : 105 / 100 * min est t.max_time_step_ > t.total_time_ - t.current_time_) :
    ((dbl_le (dbl_sub td.total_time_ td.current_time_) td.max_time_step_ = true →
      (td.provideTimeStepEstimate estd).dt_ = dbl_sub td.total_time_ td.current_time_) ∧
    (dbl_lt td.max_time_step_ (dbl_sub td.total_time_ td.current_time_) = true →
      (td.provideTimeStepEstimate estd).dt_
        = dbl_mul (dbl_of 5 10) (dbl_sub td.total_time_ td.current_time_))) ∧
    ((t.total_time_ - t.current_time_ ≤ t.max_time_step_ →
      (t.provideTimeStepEstimate est).dt_ = t.total_time_ - t.current_time_ ∧
      (t.provideTimeStepEstimate est).increment.done = true ∧
      (t.provideTimeStepEstimate est).increment.current_time_ = t.total_time_) ∧
    (t.max_time_step_ < t.total_time_ - t.current_time_ →
      (t.provideTimeStepEstimate est).dt_ = 1 / 2 * (t.total_time_ - t.current_time_))) :=
  ⟨clamp_to_remainder_double td estd hremd hoverd, clamp_to_remainder_exact t est hrem hover⟩

set_option exponentiation.threshold 5000 in
set_option maxRecDepth 20000 in
/-- The statement of `C20_clamp_to_remainder` at a sample input: in double precision the
horizon `0.9` at time `0.2` with maximum step `1` and estimate `1`; in exact arithmetic
three time units remaining, the estimate `3.5`, the maximum step `4`. -/
theorem C20_clamp_to_remainder_witness :
    ((dbl_le
          (dbl_sub (Dbl.timer (dbl_of 9 10) (dbl_of 2 10) (dbl_of 1 1)).total_time_
            (Dbl.timer (dbl_of 9 10) (dbl_of 2 10) (dbl_of 1 1)).current_time_)
          (Dbl.timer (dbl_of 9 10) (dbl_of 2 10) (dbl_of 1 1)).max_time_step_ = true →
      ((Dbl.timer (dbl_of 9 10) (dbl_of 2 10) (dbl_of 1 1)).provideTimeStepEstimate
          (dbl_of 1 1)).dt_
        = dbl_sub (Dbl.timer (dbl_of 9 10) (dbl_of 2 10) (dbl_of 1 1)).total_time_
            (Dbl.timer (dbl_of 9 10) (dbl_of 2 10) (dbl_of 1 1)).current_time_) ∧
    (dbl_lt (Dbl.timer (dbl_of 9 10) (dbl_of 2 10) (dbl_of 1 1)).max_time_step_
          (dbl_sub (Dbl.timer (dbl_of 9 10) (dbl_of 2 10) (dbl_of 1 1)).total_time_
            (Dbl.timer (dbl_of 9 10) (dbl_of 2 10) (dbl_of 1 1)).current_time_) = true →
      ((Dbl.timer (dbl_of 9 10) (dbl_of 2 10) (dbl_of 1 1)).provideTimeStepEstimate
          (dbl_of 1 1)).dt_
        = dbl_mul (dbl_of 5 10)
            (dbl_sub (Dbl.timer (dbl_of 9 10) (dbl_of 2 10) (dbl_of 1 1)).total_time_
              (Dbl.timer (dbl_of 9 10) (dbl_of 2 10) (dbl_of 1 1)).current_time_))) ∧
    ((timer10_late.total_time_ - timer10_late.current_time_ ≤ timer10_late.max_time_step_ →
      (timer10_late.provideTimeStepEstimate (7 / 2)).dt_
        = timer10_late.total_time_ - timer10_late.current_time_ ∧
      (timer10_late.provideTimeStepEstimate (7 / 2)).increment.done = true ∧
      (timer10_late.provideTimeStepEstimate (7 / 2)).increment.current_time_
        = timer10_late.total_time_) ∧
    (timer10_late.max_time_step_ < timer10_late.total_time_ - timer10_late.current_time_ →
      (timer10_late.provideTimeStepEstimate (7 / 2)).dt_
        = 1 / 2 * (timer10_late.total_time_ - timer10_late.current_time_))) :=
  C20_clamp_to_remainder (Dbl.timer (dbl_of 9 10) (dbl_of 2 10) (dbl_of 1 1)) (dbl_of 1 1)
    (by decide) (by decide) timer10_late (7 / 2)
    (by norm_num [timer10_late]) (by norm_num [timer10_late])

/-- C21 (amended): with `remaining = total_time_ - current_time_` and the capped estimate
`d = min(estimate, max_time_step_)`: when `remaining > 0` and
`1.05 * d <= remaining < 1.5 * d`, `provideTimeStepEstimate` sets the step to
`0.5 * remaining`; when `1.5 * d <= remaining`, or `remaining <= 0`, it sets the step to
`d`: in double precision (timer `td`, estimate and maximum step other than NaN, with the
difference, the products and the comparisons rounded as the code evaluates them) and in
exact arithmetic (timer `t` over the rationals, `1.05` being `105/100`). -/
theorem C21_half_of_remainder (td : Dbl.AdaptiveSimulatorTimer) (estd : double)
    (he : estd.ordered) (hm : td.max_time_step_.ordered)
    (t : AdaptiveSimulatorTimer) (est : ℚ) :
    ((dbl_lt (double.fin 0) (dbl_sub td.total_time_ td.current_time_) = true →
      dbl_le (dbl_mul (dbl_of 105 100) (Dbl.std_min estd td.max_time_step_))
        (dbl_sub td.total_time_ td.current_time_) = true →
      dbl_lt (dbl_sub td.total_time_ td.current_time_)
        (dbl_mul (dbl_of 15 10) (Dbl.std_min estd td.max_time_step_)) = true →
      (td.provideTimeStepEstimate estd).dt_
        = dbl_mul (dbl_of 5 10) (dbl_sub td.total_time_ td.current_time_)) ∧
    (dbl_le (dbl_mul (dbl_of 15 10) (Dbl.std_min estd td.max_time_step_))
        (dbl_sub td.total_time_ td.current_time_) = true →
      (td.provideTimeStepEstimate estd).dt_ = Dbl.std_min estd td.max_time_step_) ∧
    (dbl_le (dbl_sub td.total_time_ td.current_time_) (double.fin 0) = true →
      (td.provideTimeStepEstimate estd).dt_ = Dbl.std_min estd td.max_time_step_)) ∧
    ((t.total_time_ - t.current_time_ > 0 →
      105 / 100 * min est t.max_time_step_ ≤ t.total_time_ - t.current_time_ →
      t.total_time_ - t.current_time_ < 3 / 2 * min est t.max_time_step_ →
      (t.provideTimeStepEstimate est).dt_ = 1 / 2 * (t.total_time_ - t.current_time_)) ∧
    (3 / 2 * min est t.max_time_step_ ≤ t.total_time_ - t.current_time_ →
      (t.provideTimeStepEstimate est).dt_ = min est t.max_time_step_) ∧
    (t.total_time_ - t.current_time_ ≤ 0 →
      (t.provideTimeStepEstimate est).dt_ = min est t.max_time_step_)) :=
  ⟨half_of_remainder_double td estd he hm, half_of_remainder_exact t est⟩

set_option exponentiation.threshold 5000 in
set_option maxRecDepth 20000 in
/-- The statement of `C21_half_of_remainder` at a sample input: in double precision the
remainder `5.1`, the maximum step `10` and the estimate `3.4000000000000004`; in exact
arithmetic three time units remaining, the maximum step `4`, the estimate `2.5`. -/
theorem C21_half_of_remainder_witness :
    ((dbl_lt (double.fin 0)
          (dbl_sub (Dbl.timer (dbl_of 51 10) (double.fin 0) (dbl_of 10 1)).total_time_
            (Dbl.timer (dbl_of 51 10) (double.fin 0) (dbl_of 10 1)).current_time_) = true →
      dbl_le
          (dbl_mul (dbl_of 105 100)
            (Dbl.std_min (dbl_of 34000000000000004 10000000000000000)
              (Dbl.timer (dbl_of 51 10) (double.fin 0) (dbl_of 10 1)).max_time_step_))
          (dbl_sub (Dbl.timer (dbl_of 51 10) (double.fin 0) (dbl_of 10 1)).total_time_
            (Dbl.timer (dbl_of 51 10) (double.fin 0) (dbl_of 10 1)).current_time_) = true →
      dbl_lt
          (dbl_sub (Dbl.timer (dbl_of 51 10) (double.fin 0) (dbl_of 10 1)).total_time_
            (Dbl.timer (dbl_of 51 10) (double.fin 0) (dbl_of 10 1)).current_time_)
          (dbl_mul (dbl_of 15 10)
            (Dbl.std_min (dbl_of 34000000000000004 10000000000000000)
              (Dbl.timer (dbl_of 51 10) (double.fin 0) (dbl_of 10 1)).max_time_step_)) = true →
      ((Dbl.timer (dbl_of 51 10) (double.fin 0) (dbl_of 10 1)).provideTimeStepEstimate
          (dbl_of 34000000000000004 10000000000000000)).dt_
        = dbl_mul (dbl_of 5 10)
            (dbl_sub (Dbl.timer (dbl_of 51 10) (double.fin 0) (dbl_of 10 1)).total_time_
              (Dbl.timer (dbl_of 51 10) (double.fin 0) (dbl_of 10 1)).current_time_)) ∧
    (dbl_le
          (dbl_mul (dbl_of 15 10)
            (Dbl.std_min (dbl_of 34000000000000004 10000000000000000)
              (Dbl.timer (dbl_of 51 10) (double.fin 0) (dbl_of 10 1)).max_time_step_))
          (dbl_sub (Dbl.timer (dbl_of 51 10) (double.fin 0) (dbl_of 10 1)).total_time_
            (Dbl.timer (dbl_of 51 10) (double.fin 0) (dbl_of 10 1)).current_time_) = true →
      ((Dbl.timer (dbl_of 51 10) (double.fin 0) (dbl_of 10 1)).provideTimeStepEstimate
          (dbl_of 34000000000000004 10000000000000000)).dt_
        = Dbl.std_min (dbl_of 34000000000000004 10000000000000000)
            (Dbl.timer (dbl_of 51 10) (double.fin 0) (dbl_of 10 1)).max_time_step_) ∧
    (dbl_le
          (dbl_sub (Dbl.timer (dbl_of 51 10) (double.fin 0) (dbl_of 10 1)).total_time_
            (Dbl.timer (dbl_of 51 10) (double.fin 0) (dbl_of 10 1)).current_time_)
          (double.fin 0) = true →
      ((Dbl.timer (dbl_of 51 10) (double.fin 0) (dbl_of 10 1)).provideTimeStepEstimate
          (dbl_of 34000000000000004 10000000000000000)).dt_
        = Dbl.std_min (dbl_of 34000000000000004 10000000000000000)
            (Dbl.timer (dbl_of 51 10) (double.fin 0) (dbl_of 10 1)).max_time_step_)) ∧
    ((timer10_late.total_time_ - timer10_late.current_time_ > 0 →
      105 / 100 * min (5 / 2) timer10_late.max_time_step_
        ≤ timer10_late.total_time_ - timer10_late.current_time_ →
      timer10_late.total_time_ - timer10_late.current_time_
        < 3 / 2 * min (5 / 2) timer10_late.max_time_step_ →
      (timer10_late.provideTimeStepEstimate (5 / 2)).dt_
        = 1 / 2 * (timer10_late.total_time_ - timer10_late.current_time_)) ∧
    (3 / 2 * min (5 / 2) timer10_late.max_time_step_
        ≤ timer10_late.total_time_ - timer10_late.current_time_ →
      (timer10_late.provideTimeStepEstimate (5 / 2)).dt_
        = min (5 / 2) timer10_late.max_time_step_) ∧
    (timer10_late.total_time_ - timer10_late.current_time_ ≤ 0 →
      (timer10_late.provideTimeStepEstimate (5 / 2)).dt_
        = min (5 / 2) timer10_late.max_time_step_)) :=
  C21_half_of_remainder (Dbl.timer (dbl_of 51 10) (double.fin 0) (dbl_of 10 1))
    (dbl_of 34000000000000004 10000000000000000) (by decide) (by decide) timer10_late (5 / 2)

/-- C28 (amended): for a fixed timer state and two estimates `est1 <= est2`, with
`r = total_time_ - current_time_` and `d1 = min(est1, max_time_step_)`: if `r > 0` fails,
or `d1 <= 0.5 * r`, or `1.5 * d1 > r`, the step length for `est2` is not smaller than the
step length for `est1`; and whenever `r > 0`, the step length for `est2` is at least the
step length for `est1` or at least `0.5 * r`. In double precision (timer `td`, estimates
and maximum step other than NaN) the difference, the products and the tests are the
rounded ones that the code evaluates; in exact arithmetic (timer `t` over the rationals)
they are the exact ones. -/
theorem C28_monotone_outside_halving (td : Dbl.AdaptiveSimulatorTimer) (e1 e2 : double)
    (h1 : e1.ordered) (h2 : e2.ordered) (hm : td.max_time_step_.ordered)
    (hled : dbl_le e1 e2 = true)
    (t : AdaptiveSimulatorTimer) (est1 est2 : ℚ) (hle : est1 ≤ est2) :
    (((dbl_lt (double.fin 0) (dbl_sub td.total_time_ td.current_time_) = false ∨
        dbl_le (Dbl.std_min e1 td.max_time_step_)
          (dbl_mul (dbl_of 5 10) (dbl_sub td.total_time_ td.current_time_)) = true ∨
        dbl_lt (dbl_sub td.total_time_ td.current_time_)
          (dbl_mul (dbl_of 15 10) (Dbl.std_min e1 td.max_time_step_)) = true) →
      dbl_le (td.provideTimeStepEstimate e1).dt_ (td.provideTimeStepEstimate e2).dt_
        = true) ∧
    (dbl_lt (double.fin 0) (dbl_sub td.total_time_ td.current_time_) = true →
      dbl_le (td.provideTimeStepEstimate e1).dt_ (td.provideTimeStepEstimate e2).dt_
          = true ∨
        dbl_le (dbl_mul (dbl_of 5 10) (dbl_sub td.total_time_ td.current_time_))
          (td.provideTimeStepEstimate e2).dt_ = true)) ∧
    (((t.total_time_ - t.current_time_ ≤ 0 ∨
        min est1 t.max_time_step_ ≤ 1 / 2 * (t.total_time_ - t.current_time_) ∨
        3 / 2 * min est1 t.max_time_step_ > t.total_time_ - t.current_time_) →
      (t.provideTimeStepEstimate est1).dt_ ≤ (t.provideTimeStepEstimate est2).dt_) ∧
    (t.total_time_ - t.current_time_ > 0 →
      min (t.provideTimeStepEstimate est1).dt_ (1 / 2 * (t.total_time_ - t.current_time_))
        ≤ (t.provideTimeStepEstimate est2).dt_)) :=
  ⟨monotone_outside_halving_double td e1 e2 h1 h2 hm hled,
    monotone_outside_halving_exact t est1 est2 hle⟩

set_option exponentiation.threshold 5000 in
set_option maxRecDepth 20000 in
/-- The statement of `C28_monotone_outside_halving` at a sample input: in double precision
the remainder `5.1`, the maximum step `10`, the estimates `3.4000000000000004` (for which
the rounded product `1.5 * d1` exceeds the remainder) and `3.5`; in exact arithmetic three
time units remaining, the maximum step `4`, the estimates `1` and `2.1`. -/
theorem C28_monotone_outside_halving_witness :
    (((dbl_lt (double.fin 0)
            (dbl_sub (Dbl.timer (dbl_of 51 10) (double.fin 0) (dbl_of 10 1)).total_time_
              (Dbl.timer (dbl_of 51 10) (double.fin 0) (dbl_of 10 1)).current_time_) = false ∨
        dbl_le
            (Dbl.std_min (dbl_of 34000000000000004 10000000000000000)
              (Dbl.timer (dbl_of 51 10) (double.fin 0) (dbl_of 10 1)).max_time_step_)
            (dbl_mul (dbl_of 5 10)
              (dbl_sub (Dbl.timer (dbl_of 51 10) (double.fin 0) (dbl_of 10 1)).total_time_
                (Dbl.timer (dbl_of 51 10) (double.fin 0) (dbl_of 10 1)).current_time_))
          = true ∨
        dbl_lt
            (dbl_sub (Dbl.timer (dbl_of 51 10) (double.fin 0) (dbl_of 10 1)).total_time_
              (Dbl.timer (dbl_of 51 10) (double.fin 0) (dbl_of 10 1)).current_time_)
            (dbl_mul (dbl_of 15 10)
              (Dbl.std_min (dbl_of 34000000000000004 10000000000000000)
                (Dbl.timer (dbl_of 51 10) (double.fin 0) (dbl_of 10 1)).max_time_step_))
          = true) →
      dbl_le
          ((Dbl.timer (dbl_of 51 10) (double.fin 0) (dbl_of 10 1)).provideTimeStepEstimate
            (dbl_of 34000000000000004 10000000000000000)).dt_
          ((Dbl.timer (dbl_of 51 10) (double.fin 0) (dbl_of 10 1)).provideTimeStepEstimate
            (dbl_of 35 10)).dt_ = true) ∧
    (dbl_lt (double.fin 0)
          (dbl_sub (Dbl.timer (dbl_of 51 10) (double.fin 0) (dbl_of 10 1)).total_time_
            (Dbl.timer (dbl_of 51 10) (double.fin 0) (dbl_of 10 1)).current_time_) = true →
      dbl_le
            ((Dbl.timer (dbl_of 51 10) (double.fin 0) (dbl_of 10 1)).provideTimeStepEstimate
              (dbl_of 34000000000000004 10000000000000000)).dt_
            ((Dbl.timer (dbl_of 51 10) (double.fin 0) (dbl_of 10 1)).provideTimeStepEstimate
              (dbl_of 35 10)).dt_ = true ∨
        dbl_le
            (dbl_mul (dbl_of 5 10)
              (dbl_sub (Dbl.timer (dbl_of 51 10) (double.fin 0) (dbl_of 10 1)).total_time_
                (Dbl.timer (dbl_of 51 10) (double.fin 0) (dbl_of 10 1)).current_time_))
            ((Dbl.timer (dbl_of 51 10) (double.fin 0) (dbl_of 10 1)).provideTimeStepEstimate
              (dbl_of 35 10)).dt_ = true)) ∧
    (((timer10_late.total_time_ - timer10_late.current_time_ ≤ 0 ∨
        min 1 timer10_late.max_time_step_
          ≤ 1 / 2 * (timer10_late.total_time_ - timer10_late.current_time_) ∨
        3 / 2 * min 1 timer10_late.max_time_step_
          > timer10_late.total_time_ - timer10_late.current_time_) →
      (timer10_late.provideTimeStepEstimate 1).dt_
        ≤ (timer10_late.provideTimeStepEstimate (21 / 10)).dt_) ∧
    (timer10_late.total_time_ - timer10_late.current_time_ > 0 →
      min (timer10_late.provideTimeStepEstimate 1).dt_
          (1 / 2 * (timer10_late.total_time_ - timer10_late.current_time_))
        ≤ (timer10_late.provideTimeStepEstimate (21 / 10)).dt_)) :=
  C28_monotone_outside_halving (Dbl.timer (dbl_of 51 10) (double.fin 0) (dbl_of 10 1))
    (dbl_of 34000000000000004 10000000000000000) (dbl_of 35 10)
    (by decide) (by decide) (by decide) (by decide) timer10_late 1 (21 / 10) (by norm_num)

end CfsTpfa
